import Mathlib

/-!
# F16FS: a shallow embedding of `f16fs.c`

The file system of `f16fs/src/f16fs.c` is embedded as pure functions on an explicit
state.  C integers are mathematical integers with an explicit conversion wherever the
source converts between integer types; memory reached through a pointer is a function
from byte offsets to bytes; a block is 512 bytes.

Conventions of the embedding:
* pointer arguments (`fs`, `path`, `src`, `dst`) are non-null, so the `== NULL` tests
  of the source (which return the failure value before any access) are not taken;
* a C string is the list of its bytes, without the terminating NUL;
* `while` loops run on a fuel that the calling function supplies in sufficient amount;
* an access outside an array of the source is undefined in C; the embedding reads and
  writes the underlying function there.  The statements that go through such an access
  are those on a directory with 7 entries, where `records[7]` starts at byte 504 of the
  directory object: the padding and the field `num_entries` (bytes 504..509) that a
  copy to `records[7]` overwrites are inside the object, and the embedding keeps what
  is written there; and the statement on descriptor 256, where `file_descriptors[256]`
  is the first 16 bytes of `inodes[0]` in `struct F16FS` (see `with_entry_256`);
* `none` as the result of `parse_path` stands for a call without a result: the `strcpy`
  of line 459 copies the path and its NUL into the 65 bytes of `temp`, and a path of more
  than 64 bytes does not fit.  `fs_create`, `fs_open`, `fs_remove`, `fs_move` and
  `fs_get_dir` call `parse_path` and have no result (`none`) when it has none;
* `none` as the result of `fs_remove` also stands for a call whose release loop does not
  end, or calls `get_block_ptr` with a negative block index.
-/

namespace F16FS

/-! ## Machine integers -/

/-- Conversion to the C type `int` (32 bits, two's complement). -/
def toInt32 (x : Int) : Int := (x + 2147483648) % 4294967296 - 2147483648

/-- Conversion to the C type `unsigned long` (64 bits). -/
def toUInt64 (x : Int) : Nat := (x % 18446744073709551616).toNat

/-! ## The block device -/

/-- Modelled from the spec: the block device (`block_store.h` and its implementation are
not under src/).  It has 65 536 block ids and 512-byte blocks; `used` is its free-block
bitmap and `data id` the contents of block `id`. -/
structure block_store_t where
  used : Nat → Bool
  data : Nat → Nat → Nat

/-- First id at or after `i`, among the next `fuel` ids, whose bitmap bit is clear. -/
def first_free (used : Nat → Bool) : Nat → Nat → Option Nat
  | 0, _ => none
  | fuel + 1, i => if used i then first_free used fuel (i + 1) else some i

/-- Modelled from the spec: `create(path)` of the block device.  A fresh store has its
bitmap region (ids 0..15) in use, every other id free, and all-zero blocks. -/
def block_store_create : block_store_t :=
  { used := fun i => decide (i < 16), data := fun _ _ => 0 }

/-- Modelled from the spec: `allocate() → id` (0 on exhaustion).  The lowest free id is
marked in use and returned. -/
def block_store_allocate (bs : block_store_t) : block_store_t × Nat :=
  match first_free bs.used 65536 0 with
  | some id => ({ bs with used := fun i => if i = id then true else bs.used i }, id)
  | none => (bs, 0)

/-- Modelled from the spec: `release(id)` clears the bitmap bit of `id`. -/
def block_store_release (bs : block_store_t) (id : Nat) : block_store_t :=
  { bs with used := fun i => if i = id then false else bs.used i }

/-- Modelled from the spec: `read(id, buf[512])` yields the 512 bytes of block `id`. -/
def block_store_read (bs : block_store_t) (id : Nat) : Nat → Nat := bs.data id

/-- Modelled from the spec: `write(id, buf[512])` stores the first 512 bytes found at
`buf` as block `id`. -/
def block_store_write (bs : block_store_t) (id : Nat) (buf : Nat → Nat) : block_store_t :=
  { bs with data := fun i => if i = id then (fun x => if x < 512 then buf x else 0) else bs.data i }

/-! ## Index blocks: `unsigned short[256]` in a 512-byte block -/

/-- Entry `j` of a block read as an array of 16-bit little-endian block ids. -/
def ptr_at (blk : Nat → Nat) (j : Nat) : Nat := blk (2 * j) + 256 * blk (2 * j + 1)

/-- The bytes of an array of 16-bit little-endian block ids. -/
def ptr_bytes (arr : Nat → Nat) : Nat → Nat :=
  fun x => if x % 2 = 0 then arr (x / 2) % 256 else arr (x / 2) / 256 % 256

/-! ## In-memory structures of `f16fs.c` -/

/-- The structure `inode_t` of the source (lines 7-16), without its padding. -/
structure inode_t where
  file_type : Nat
  use_flag : Nat
  file_size : Nat
  num_blocks_in_use : Int
  direct_block_ptr_array : Nat → Nat
  indirect_block_ptr : Nat
  double_indirect_block_ptr : Nat

/-- An inode whose 64 bytes are zero (`calloc`). -/
def inode_zero : inode_t :=
  { file_type := 0, use_flag := 0, file_size := 0, num_blocks_in_use := 0,
    direct_block_ptr_array := fun _ => 0, indirect_block_ptr := 0,
    double_indirect_block_ptr := 0 }

/-- The structure `file_descriptor_t` of the source (lines 18-21). -/
structure file_descriptor_t where
  inode_index : Int
  offset : Nat

/-- The structure `struct F16FS` of the source (lines 23-28). -/
structure F16FS_t where
  fs : block_store_t
  file_descriptors : Nat → file_descriptor_t
  inodes : Nat → inode_t
  total_files : Int

/-- The call `block_store_write(fs->fs, id, buf)`. -/
def fs_block_write (fs : F16FS_t) (id : Nat) (buf : Nat → Nat) : F16FS_t :=
  { fs with fs := block_store_write fs.fs id buf }

/-- The assignment `fs->inodes[i] = n`. -/
def set_inode (fs : F16FS_t) (i : Nat) (n : inode_t) : F16FS_t :=
  { fs with inodes := fun j => if j = i then n else fs.inodes j }

/-- The assignment `fs->file_descriptors[i] = d`. -/
def set_fd (fs : F16FS_t) (i : Nat) (d : file_descriptor_t) : F16FS_t :=
  { fs with file_descriptors := fun j => if j = i then d else fs.file_descriptors j }

/-- The test-and-assign `(block_ptr = block_store_allocate(fs->fs))`, where `block_ptr`
is an `unsigned short`. -/
def alloc_ptr (fs : F16FS_t) : F16FS_t × Nat :=
  ({ fs with fs := (block_store_allocate fs.fs).1 }, (block_store_allocate fs.fs).2 % 65536)

/-! ## `get_block_ptr` (lines 843-928) -/

/-- The branch `block_to_start_at < 6` (lines 913-923). -/
def get_block_ptr_direct (fs : F16FS_t) (inode_index block_to_start_at read_write_flag : Nat) :
    F16FS_t × Int :=
  if (fs.inodes inode_index).direct_block_ptr_array block_to_start_at = 0 ∧ read_write_flag = 0 then
    let a := alloc_ptr fs
    if a.2 = 0 then (a.1, -1)
    else
      let ino := a.1.inodes inode_index
      (set_inode a.1 inode_index
        { ino with direct_block_ptr_array :=
            fun j => if j = block_to_start_at then a.2 else ino.direct_block_ptr_array j }, (a.2 : Int))
  else (fs, ((fs.inodes inode_index).direct_block_ptr_array block_to_start_at : Int))

/-- The second half of the single-indirect branch (lines 901-911), entered with the
indirect index block present or in read mode. -/
def get_block_ptr_indirect_slot (fs : F16FS_t) (inode_index block_to_start_at read_write_flag : Nat) :
    F16FS_t × Int :=
  let iptr := (fs.inodes inode_index).indirect_block_ptr
  let block_ptr_array : Nat → Nat := fun j => ptr_at (block_store_read fs.fs iptr) j
  if block_ptr_array (block_to_start_at - 6) = 0 ∧ read_write_flag = 0 then
    let a := alloc_ptr fs
    if a.2 = 0 then (a.1, -1)
    else
      let arr1 : Nat → Nat := fun j => if j = block_to_start_at - 6 then a.2 else block_ptr_array j
      (fs_block_write a.1 ((a.1.inodes inode_index).indirect_block_ptr) (ptr_bytes arr1),
        (arr1 (block_to_start_at - 6) : Int))
  else (fs, (block_ptr_array (block_to_start_at - 6) : Int))

/-- The branch `6 ≤ block_to_start_at < 262` (lines 892-912). -/
def get_block_ptr_indirect (fs : F16FS_t) (inode_index block_to_start_at read_write_flag : Nat) :
    F16FS_t × Int :=
  if (fs.inodes inode_index).indirect_block_ptr = 0 ∧ read_write_flag = 0 then
    let a := alloc_ptr fs
    if a.2 = 0 then (a.1, -1)
    else
      let fs1 := fs_block_write a.1 a.2 (ptr_bytes (fun _ => 0))
      let ino := fs1.inodes inode_index
      get_block_ptr_indirect_slot (set_inode fs1 inode_index { ino with indirect_block_ptr := a.2 })
        inode_index block_to_start_at read_write_flag
  else get_block_ptr_indirect_slot fs inode_index block_to_start_at read_write_flag

/-- The last part of the double-indirect branch (lines 876-889): `darr` is the local
copy of the double-indirect index block, `i` is `double_IBP_index`. -/
def get_block_ptr_double_slot (fs : F16FS_t) (darr : Nat → Nat) (i : Nat)
    (block_to_start_at read_write_flag : Nat) : F16FS_t × Int :=
  let subarray_index := (block_to_start_at - 262 - 256 * i) % 65536
  let block_ptr_array : Nat → Nat := fun j => ptr_at (block_store_read fs.fs (darr i)) j
  if block_ptr_array subarray_index = 0 ∧ read_write_flag = 0 then
    let a := alloc_ptr fs
    if a.2 = 0 then (a.1, -1)
    else
      let arr1 : Nat → Nat := fun j => if j = subarray_index then a.2 else block_ptr_array j
      (fs_block_write a.1 (darr i) (ptr_bytes arr1), (arr1 subarray_index : Int))
  else (fs, (block_ptr_array subarray_index : Int))

/-- The middle part of the double-indirect branch (lines 862-875). -/
def get_block_ptr_double_sub (fs : F16FS_t) (inode_index block_to_start_at read_write_flag : Nat) :
    F16FS_t × Int :=
  let dptr := (fs.inodes inode_index).double_indirect_block_ptr
  let darr : Nat → Nat := fun j => ptr_at (block_store_read fs.fs dptr) j
  let double_IBP_index := (block_to_start_at - 262) / 256 % 65536
  if darr double_IBP_index = 0 ∧ read_write_flag = 0 then
    let a := alloc_ptr fs
    if a.2 = 0 then (a.1, -1)
    else
      let fs1 := fs_block_write a.1 a.2 (ptr_bytes (fun _ => 0))
      let darr1 : Nat → Nat := fun j => if j = double_IBP_index then a.2 else darr j
      let fs2 := fs_block_write fs1 ((fs1.inodes inode_index).double_indirect_block_ptr) (ptr_bytes darr1)
      get_block_ptr_double_slot fs2 darr1 double_IBP_index block_to_start_at read_write_flag
  else get_block_ptr_double_slot fs darr double_IBP_index block_to_start_at read_write_flag

/-- The branch `block_to_start_at >= 262` (lines 852-891). -/
def get_block_ptr_double (fs : F16FS_t) (inode_index block_to_start_at read_write_flag : Nat) :
    F16FS_t × Int :=
  if (fs.inodes inode_index).double_indirect_block_ptr = 0 ∧ read_write_flag = 0 then
    let a := alloc_ptr fs
    if a.2 = 0 then (a.1, -1)
    else
      let fs1 := fs_block_write a.1 a.2 (ptr_bytes (fun _ => 0))
      let ino := fs1.inodes inode_index
      get_block_ptr_double_sub (set_inode fs1 inode_index { ino with double_indirect_block_ptr := a.2 })
        inode_index block_to_start_at read_write_flag
  else get_block_ptr_double_sub fs inode_index block_to_start_at read_write_flag

/-- The function `get_block_ptr` (lines 843-928).  `block_to_start_at` is an `int` in the
source; its callers pass a non-negative value.  `read_write_flag` is 0 for a write and
1 for a read.  The result is the state and the returned `int`. -/
def get_block_ptr (fs : F16FS_t) (inode_index block_to_start_at read_write_flag : Nat) :
    F16FS_t × Int :=
  if block_to_start_at ≥ 262 then
    get_block_ptr_double fs inode_index block_to_start_at read_write_flag
  else if block_to_start_at ≥ 6 then
    get_block_ptr_indirect fs inode_index block_to_start_at read_write_flag
  else
    get_block_ptr_direct fs inode_index block_to_start_at read_write_flag

/-! ## `fs_seek` (lines 611-651) -/

/-- Modelled from the spec: the values of the enumeration `seek_t` (`f16fs.h` is not
under src/), whence ∈ {SET, CUR, END}. -/
def FS_SEEK_SET : Int := 0

/-- Modelled from the spec: see `FS_SEEK_SET`. -/
def FS_SEEK_CUR : Int := 1

/-- Modelled from the spec: see `FS_SEEK_SET`. -/
def FS_SEEK_END : Int := 2

/-- The function `fs_seek`.  `new_offset` is an `int`: every value assigned to it is
converted to 32 bits, as is `file_size` in the comparison of line 640. -/
def fs_seek (fs : F16FS_t) (fd : Int) (offset : Int) (whence : Int) : F16FS_t × Int :=
  if fd < 0 ∨ fd > 256 then (fs, -1)
  else if whence < 0 ∨ whence > 2 then (fs, -1)
  else
    let d := fs.file_descriptors fd.toNat
    let file_size := (fs.inodes d.inode_index.toNat).file_size
    if d.inode_index < 0 then (fs, -1)
    else
      let n0 : Int :=
        if whence = FS_SEEK_SET then toInt32 offset
        else if whence = FS_SEEK_END then toInt32 ((file_size : Int) + offset)
        else toInt32 ((d.offset : Int) + offset)
      let n1 : Int := if n0 > toInt32 file_size then toInt32 file_size else n0
      let n2 : Int := if n1 < 0 then 0 else n1
      (set_fd fs fd.toNat { d with offset := toUInt64 n2 }, n2)

/-! ## `fs_write` (lines 761-841) -/

/-- The assignment `fs->inodes[i].file_size += k` on an `unsigned long`. -/
def add_file_size (fs : F16FS_t) (i : Nat) (k : Int) : F16FS_t :=
  set_inode fs i { fs.inodes i with file_size := toUInt64 ((fs.inodes i).file_size + k) }

/-- Lines 833-839 of `fs_write`: the correction after the loop and the return. -/
def fs_write_finish (fs : F16FS_t) (inode_index : Nat) (bytes_written bytes_left_to_write : Int) :
    F16FS_t × Int :=
  if bytes_left_to_write < 0 then
    (add_file_size fs inode_index bytes_left_to_write, bytes_written + bytes_left_to_write)
  else (fs, bytes_written)

/-- The loop of `fs_write` (lines 799-831) followed by lines 833-839.  `file_size` is the
local variable read once at line 780, `src_ptr` the distance of the source pointer from
`src`. -/
def fs_write_loop (inode_index file_size nbyte : Nat) (src : Nat → Nat) :
    Nat → F16FS_t → Nat → Int → Int → Int → F16FS_t × Int
  | 0, fs, _, bytes_written, bytes_left_to_write, _ =>
    fs_write_finish fs inode_index bytes_written bytes_left_to_write
  | fuel + 1, fs, src_ptr, bytes_written, bytes_left_to_write, block_offset =>
    if bytes_left_to_write > 0 then
      let r := get_block_ptr fs inode_index
        (toInt32 ((fs.inodes inode_index).file_size / 512)).toNat 0
      if r.2 < 0 then (r.1, bytes_written)
      else if file_size < 512 ∧ nbyte < 512 then
        let fs1 := fs_block_write r.1 r.2.toNat (fun x => src (src_ptr + x))
        let left := toInt32 (bytes_left_to_write - nbyte)
        fs_write_loop inode_index file_size nbyte src fuel (add_file_size fs1 inode_index nbyte)
          (src_ptr + nbyte) (toInt32 (bytes_written + nbyte)) left (Int.tmod left 512)
      else if block_offset ≠ 0 then
        let temp_block := block_store_read r.1.fs r.2.toNat
        let temp1 : Nat → Nat := fun x =>
          if block_offset.toNat ≤ x ∧ x < block_offset.toNat + block_offset.toNat
          then src (src_ptr + (x - block_offset.toNat)) else temp_block x
        let fs1 := fs_block_write r.1 r.2.toNat temp1
        let left := bytes_left_to_write - block_offset
        fs_write_loop inode_index file_size nbyte src fuel (add_file_size fs1 inode_index block_offset)
          (src_ptr + block_offset.toNat) (bytes_written + block_offset) left (Int.tmod left 512)
      else
        let fs1 := fs_block_write r.1 r.2.toNat (fun x => src (src_ptr + x))
        fs_write_loop inode_index file_size nbyte src fuel (add_file_size fs1 inode_index 512)
          (src_ptr + 512) (bytes_written + 512) (bytes_left_to_write - 512) block_offset
    else fs_write_finish fs inode_index bytes_written bytes_left_to_write

/-- The function `fs_write`.  `src i` is the byte at address `src + i`; `nbyte` is a
`size_t`.  The result is the state and the returned count. -/
def fs_write (fs : F16FS_t) (fd : Int) (src : Nat → Nat) (nbyte : Nat) : F16FS_t × Int :=
  if fd < 0 ∨ fd > 256 ∨ toInt32 nbyte < 0 then (fs, -1)
  else if nbyte = 0 then (fs, 0)
  else if (fs.file_descriptors fd.toNat).inode_index < 0 then (fs, -1)
  else
    let inode_index := (fs.file_descriptors fd.toNat).inode_index.toNat
    let file_size := (fs.inodes inode_index).file_size
    let block_offset : Int :=
      if file_size = 0 ∧ nbyte % 512 = nbyte then toInt32 nbyte else toInt32 (file_size % 512)
    fs_write_loop inode_index file_size nbyte src ((toInt32 nbyte).toNat + 1) fs 0 0
      (toInt32 nbyte) block_offset

/-! ## `fs_read` (lines 663-747) -/

/-- What `fs_read` leaves behind: the state, the memory at `dst`, the returned count. -/
structure read_result where
  fs : F16FS_t
  dst : Nat → Nat
  ret : Int

/-- The call `block_store_read(fs->fs, id, dst + dst_ptr)`: 512 bytes are stored from
address `dst + dst_ptr` on. -/
def read_into (fs : F16FS_t) (id : Nat) (dst : Nat → Nat) (dst_ptr : Nat) : Nat → Nat :=
  fun x => if dst_ptr ≤ x ∧ x < dst_ptr + 512 then block_store_read fs.fs id (x - dst_ptr) else dst x

/-- The statement `fs->file_descriptors[fd].offset += k` on an `unsigned long`. -/
def add_offset (fs : F16FS_t) (fd : Nat) (k : Int) : F16FS_t :=
  set_fd fs fd { fs.file_descriptors fd with offset := toUInt64 ((fs.file_descriptors fd).offset + k) }

/-- Lines 736-744 of `fs_read`: the correction after the loop and the return. -/
def fs_read_finish (fs : F16FS_t) (fd : Nat) (dst : Nat → Nat) (bytes_read bytes_left_to_read : Int) :
    read_result :=
  if bytes_left_to_read < 0 then
    ⟨add_offset fs fd bytes_left_to_read, dst, bytes_read + bytes_left_to_read⟩
  else ⟨fs, dst, bytes_read⟩

/-- The loop of `fs_read` (lines 701-734) followed by lines 736-744.  `file_size` is the
local variable read once at line 683, `dst_ptr` the distance of the destination pointer
from `dst`. -/
def fs_read_loop (inode_index fd file_size nbyte : Nat) :
    Nat → F16FS_t → (Nat → Nat) → Nat → Int → Int → Int → read_result
  | 0, fs, dst, _, bytes_read, bytes_left_to_read, _ =>
    fs_read_finish fs fd dst bytes_read bytes_left_to_read
  | fuel + 1, fs, dst, dst_ptr, bytes_read, bytes_left_to_read, block_offset =>
    if bytes_left_to_read > 0 then
      let r := get_block_ptr fs inode_index
        (toInt32 ((fs.file_descriptors fd).offset / 512)).toNat 1
      if r.2 ≤ 0 then ⟨r.1, dst, bytes_read⟩
      else if file_size < 512 then
        let dst1 := read_into r.1 r.2.toNat dst dst_ptr
        let fs1 := add_offset r.1 fd nbyte
        fs_read_loop inode_index fd file_size nbyte fuel fs1 dst1 (dst_ptr + nbyte)
          (toInt32 (bytes_read + nbyte)) (toInt32 (bytes_left_to_read - nbyte))
          (toInt32 ((fs1.file_descriptors fd).offset % 512))
      else if block_offset ≠ 0 then
        let temp_block := block_store_read r.1.fs r.2.toNat
        let dst1 : Nat → Nat := fun x =>
          if dst_ptr ≤ x ∧ x < dst_ptr + (512 - block_offset).toNat
          then temp_block (block_offset.toNat + (x - dst_ptr)) else dst x
        fs_read_loop inode_index fd file_size nbyte fuel (add_offset r.1 fd (512 - block_offset)) dst1
          (dst_ptr + (512 - block_offset).toNat) (bytes_read + (512 - block_offset))
          (bytes_left_to_read - (512 - block_offset)) 0
      else
        let dst1 := read_into r.1 r.2.toNat dst dst_ptr
        fs_read_loop inode_index fd file_size nbyte fuel (add_offset r.1 fd 512) dst1
          (dst_ptr + 512) (bytes_read + 512) (bytes_left_to_read - 512) block_offset
    else fs_read_finish fs fd dst bytes_read bytes_left_to_read

/-- The function `fs_read`.  `dst i` is the byte at address `dst + i` before the call;
`nbyte` is a `size_t`. -/
def fs_read (fs : F16FS_t) (fd : Int) (dst : Nat → Nat) (nbyte : Nat) : read_result :=
  if fd < 0 ∨ fd > 256 ∨ toInt32 nbyte < 0 then ⟨fs, dst, -1⟩
  else if nbyte = 0 then ⟨fs, dst, 0⟩
  else if (fs.file_descriptors fd.toNat).inode_index < 0 then ⟨fs, dst, -1⟩
  else
    let inode_index := (fs.file_descriptors fd.toNat).inode_index.toNat
    let file_size := (fs.inodes inode_index).file_size
    let block_offset : Int :=
      if file_size = 0 ∧ nbyte % 512 = nbyte then toInt32 nbyte
      else toInt32 ((fs.file_descriptors fd.toNat).offset % 512)
    fs_read_loop inode_index fd.toNat file_size nbyte ((toInt32 nbyte).toNat + 1) fs dst 0 0
      (toInt32 nbyte) block_offset

/-! ## Directory blocks -/

/-- Field `num_entries` of a block read as a `directory_t` (lines 30-34): seven records
of 72 bytes, five bytes of padding, then the count at byte 509. -/
def dir_num_entries (d : Nat → Nat) : Nat := d 509

/-- Modelled from the spec: field `type` of record `k` of a directory block; in a
`file_record_t` (`f16fs.h` is not under src/) the name takes 64 bytes, the type one
byte, then five bytes of padding and the two bytes of the inode index. -/
def rec_type (d : Nat → Nat) (k : Nat) : Nat := d (72 * k + 64)

/-- Modelled from the spec: field `inode_index` of record `k` of a directory block, see
`rec_type`. -/
def rec_inode_index (d : Nat → Nat) (k : Nat) : Nat := d (72 * k + 70) + 256 * d (72 * k + 71)

/-- The test `strcmp(s, p) == 0` for a C string `s` and the bytes found at address `p`
of `mem`. -/
def strcmp_eq : List Nat → (Nat → Nat) → Nat → Bool
  | [], mem, p => mem p == 0
  | c :: cs, mem, p => mem p == c && strcmp_eq cs mem (p + 1)

/-- Modelled from the spec: the 72 bytes of a `file_record_t` obtained from `calloc`
followed by `strcpy(record->name, name)`, `record->type = type` and
`record->inode_index = inode_index`; layout as in `rec_type`. -/
def record_bytes (name : List Nat) (type inode_index : Nat) : Nat → Nat :=
  fun x =>
    if x < 64 then name.getD x 0
    else if x = 64 then type % 256
    else if x = 70 then inode_index % 256
    else if x = 71 then inode_index / 256 % 256
    else 0

/-! ## `parse_path` (lines 456-475) -/

/-- The tokens `strtok` finds with the delimiter `/` (byte 47); `cur` is the token being
read. -/
def strtok_tokens : List Nat → List Nat → List (List Nat)
  | [], cur => if cur = [] then [] else [cur]
  | c :: cs, cur =>
    if c = 47 then (if cur = [] then strtok_tokens cs [] else cur :: strtok_tokens cs [])
    else strtok_tokens cs (cur ++ [c])

/-- The size of the local array `char temp[65]` of `parse_path` (line 458). -/
def parse_path_temp_size : Nat := 65

/-- The call `strcpy(temp, path)` of `parse_path` (line 459) stays inside `temp`: it
writes the bytes of the path and the terminating NUL. -/
def parse_path_copy_fits (path : List Nat) : Prop := path.length + 1 ≤ parse_path_temp_size

/-- Whether the copy fits can be computed. -/
instance parse_path_copy_fits_decidable (path : List Nat) :
    Decidable (parse_path_copy_fits path) := by
  unfold parse_path_copy_fits; infer_instance

/-- The function `parse_path`.  `none` stands for no result: `strcpy(temp, path)` (line
459) writes past the end of `temp`.  Otherwise `strtok` splits the copy, which holds the
bytes of the path; `some none` is the NULL returned for a token longer than 63 bytes and
`some (some tokens)` the `dyn_array` of the tokens.  Modelled from the spec: the dynamic
array (`dyn_array.h` is not under src/) is the list of its elements, and
`dyn_array_push_back(tokens, token)` appends the string found at `token`. -/
def parse_path (path : List Nat) : Option (Option (List (List Nat))) :=
  if parse_path_copy_fits path then
    if (strtok_tokens path []).any (fun t => decide (t.length > 63)) then some none
    else some (some (strtok_tokens path []))
  else none

/-! ## `directory_traversal` (lines 190-277) -/

/-- How the scan of one directory for one path element ends: with a `return`, or by
falling out of the inner loop with the working directory in hand. -/
inductive scan_result where
  | done (r : Option inode_t)
  | next (working_directory : Nat → Nat)

/-- The inner loop of `directory_traversal` (lines 238-267), `n` iterations from index
`j` on; `tokens_empty` is `dyn_array_empty(tokens)` after the element was extracted. -/
def traversal_inner (fs : F16FS_t) (path_element : List Nat) (tokens_empty : Bool) :
    Nat → Nat → (Nat → Nat) → scan_result
  | 0, _, wd => scan_result.next wd
  | n + 1, j, wd =>
    if strcmp_eq path_element wd (72 * j) then
      if rec_type wd j = 0 ∧ tokens_empty = false then scan_result.done none
      else if rec_type wd j = 0 ∧ tokens_empty = true then
        scan_result.done (some (fs.inodes (rec_inode_index wd j)))
      else if rec_type wd j = 1 ∧ tokens_empty = true then
        scan_result.done (some (fs.inodes (rec_inode_index wd j)))
      else if rec_type wd j = 1 ∧ tokens_empty = false then
        traversal_inner fs path_element tokens_empty n (j + 1)
          (block_store_read fs.fs ((fs.inodes (rec_inode_index wd j)).direct_block_ptr_array 0))
      else traversal_inner fs path_element tokens_empty n (j + 1) wd
    else traversal_inner fs path_element tokens_empty n (j + 1) wd

/-- The outer loop of `directory_traversal` (lines 233-269) and the final `return NULL`. -/
def traversal_outer (fs : F16FS_t) : List (List Nat) → (Nat → Nat) → Option inode_t
  | [], _ => none
  | t :: ts, wd =>
    match traversal_inner fs t ts.isEmpty (dir_num_entries wd) 0 wd with
    | scan_result.done r => r
    | scan_result.next wd1 => traversal_outer fs ts wd1

/-- The function `directory_traversal`; `none` is NULL. -/
def directory_traversal (fs : F16FS_t) (tokens : List (List Nat)) : Option inode_t :=
  if tokens.length = 0 then some (fs.inodes 0)
  else traversal_outer fs tokens (block_store_read fs.fs ((fs.inodes 0).direct_block_ptr_array 0))

/-! ## `fs_create` (lines 303-453) -/

/-- The search for a free inode (lines 346-357): `none` is the `return -1` of line 350.
The loop of the source runs while `use_flag == 1` and records the index when it reads 0. -/
def find_free_inode (fs : F16FS_t) : Nat → Nat → Option Nat
  | 0, _ => none
  | n + 1, i =>
    if i > 255 then none
    else if (fs.inodes i).use_flag = 1 then find_free_inode fs n (i + 1)
    else some i

/-- The loops that look a name up in a directory block and stop at the first match
(lines 394-404): is there a record among the first `n` from index `i` with this name? -/
def name_exists (filename : List Nat) (d : Nat → Nat) : Nat → Nat → Bool
  | 0, _ => false
  | n + 1, i => strcmp_eq filename d (72 * i) || name_exists filename d n (i + 1)

/-- Lines 419-452 of `fs_create`: the record is appended to the parent directory and the
new inode is filled in. -/
def fs_create_commit (fs : F16FS_t) (filename : List Nat) (type : Nat)
    (parent_directory_block_pointer free_inode_index new_file_block_pointer : Nat)
    (parent_directory : Nat → Nat) : F16FS_t :=
  let num_entries := dir_num_entries parent_directory
  let record := record_bytes filename type free_inode_index
  let pd1 : Nat → Nat := fun x =>
    if 72 * num_entries ≤ x ∧ x < 72 * num_entries + 72 then record (x - 72 * num_entries)
    else parent_directory x
  let pd2 : Nat → Nat := fun x => if x = 509 then (pd1 509 + 1) % 256 else pd1 x
  let fs1 := fs_block_write fs parent_directory_block_pointer pd2
  let new_file_inode : inode_t :=
    { inode_zero with
      file_type := type, use_flag := 1, file_size := if type = 0 then 0 else 512,
      direct_block_ptr_array := fun j => if j = 0 then new_file_block_pointer % 65536 else 0 }
  let fs2 := set_inode fs1 free_inode_index new_file_inode
  if type = 1 then fs_block_write fs2 new_file_block_pointer (fun _ => 0) else fs2

/-- Lines 323-452 of `fs_create`, from the point where `parse_path` has returned the
tokens of the path.  The result is the state and the returned `int`. -/
def fs_create_tokens (fs : F16FS_t) (tokens : List (List Nat)) (type : Nat) : F16FS_t × Int :=
  let filename := tokens.getLast?.getD []
  match directory_traversal fs tokens.dropLast with
  | none => (fs, -1)
  | some parent_inode =>
    if parent_inode.file_type = 0 then (fs, -1)
    else
      match find_free_inode fs 257 0 with
      | none => (fs, -1)
      | some free_inode_index =>
        let parent_directory_block_pointer := parent_inode.direct_block_ptr_array 0
        let parent_directory := block_store_read fs.fs parent_directory_block_pointer
        let a := block_store_allocate fs.fs
        let fs1 : F16FS_t := { fs with fs := a.1 }
        let new_file_block_pointer := a.2
        let released : F16FS_t :=
          { fs1 with fs := block_store_release fs1.fs new_file_block_pointer }
        if new_file_block_pointer = 0 ∧ type = 1 then (released, -1)
        else if new_file_block_pointer = 0 ∧ type = 0 then (released, 0)
        else if name_exists filename parent_directory (dir_num_entries parent_directory) 0
        then (released, -1)
        else if dir_num_entries parent_directory = 7 then (released, -1)
        else
          (fs_create_commit fs1 filename type parent_directory_block_pointer
            free_inode_index new_file_block_pointer parent_directory, 0)

/-- The function `fs_create`; `type` is 0 for a regular file and 1 for a directory.  The
result is the state and the returned `int`; `none` stands for no result, which is the
case when `parse_path` has none. -/
def fs_create (fs : F16FS_t) (path : List Nat) (type : Nat) : Option (F16FS_t × Int) :=
  if path = [] ∨ path = [47] ∨ path.head? ≠ some 47 ∨ (type ≠ 0 ∧ type ≠ 1) then some (fs, -1)
  else if path.getLast? = some 47 ∨ path.length > 100 then some (fs, -1)
  else
    match parse_path path with
    | none => none
    | some none => some (fs, -1)
    | some (some tokens) => some (fs_create_tokens fs tokens type)

/-! ## `fs_open` (lines 484-577) and `fs_close` (lines 585-599) -/

/-- The lookup loop of `fs_open` (lines 525-529): the variable `inode_index_for_open`
after the records `i .. i + n - 1` were compared, every match overwriting it. -/
def lookup_last (filename : List Nat) (d : Nat → Nat) : Nat → Nat → Int → Int
  | 0, _, acc => acc
  | n + 1, i, acc =>
    lookup_last filename d n (i + 1)
      (if strcmp_eq filename d (72 * i) then (rec_inode_index d i : Int) else acc)

/-- The descriptor scan of `fs_open` (lines 535-541): the state and the value of `i`
when the loop ends, started at index `i` with `n` slots to go. -/
def open_scan (fs : F16FS_t) (inode_index_for_open : Int) : Nat → Nat → F16FS_t × Nat
  | 0, i => (fs, i)
  | n + 1, i =>
    if (fs.file_descriptors i).inode_index < 0 then
      (set_fd fs i { fs.file_descriptors i with inode_index := inode_index_for_open }, i + 1)
    else open_scan fs inode_index_for_open n (i + 1)

/-- Lines 505-576 of `fs_open`, from the point where `parse_path` has returned the tokens
of the path.  `indeterminate` is the value the uninitialised local `inode_index_for_open`
has when no record matches. -/
def fs_open_tokens (fs : F16FS_t) (tokens : List (List Nat)) (indeterminate : Int) :
    F16FS_t × Int :=
  let filename := tokens.getLast?.getD []
  match directory_traversal fs tokens.dropLast with
  | none => (fs, -1)
  | some parent_inode =>
    let parent_directory := block_store_read fs.fs (parent_inode.direct_block_ptr_array 0)
    let inode_index_for_open :=
      lookup_last filename parent_directory (dir_num_entries parent_directory) 0 indeterminate
    let s := open_scan fs inode_index_for_open 256 0
    if s.2 = 256 then (s.1, -1)
    else if (s.1.inodes inode_index_for_open.toNat).file_type = 1 then (s.1, -1)
    else (s.1, (s.2 : Int) - 1)

/-- The function `fs_open`; `none` stands for no result, which is the case when
`parse_path` has none.  `indeterminate` is the value the uninitialised local
`inode_index_for_open` has when no record matches. -/
def fs_open (fs : F16FS_t) (path : List Nat) (indeterminate : Int) : Option (F16FS_t × Int) :=
  if path = [] ∨ path = [47] ∨ path.head? ≠ some 47 then some (fs, -1)
  else if path.getLast? = some 47 then some (fs, -1)
  else
    match parse_path path with
    | none => none
    | some none => some (fs, -1)
    | some (some tokens) => some (fs_open_tokens fs tokens indeterminate)

/-- The function `fs_close`. -/
def fs_close (fs : F16FS_t) (fd : Int) : F16FS_t × Int :=
  if fd > 255 ∨ fd < 0 then (fs, -1)
  else if (fs.file_descriptors fd.toNat).inode_index ≥ 0 then
    (set_fd fs fd.toNat { fs.file_descriptors fd.toNat with inode_index := -1 }, 0)
  else (fs, -1)

/-! ## `fs_remove` (lines 938-1084) -/

/-- The loops that look a name up in a directory block and do not stop at a match (lines
995-1000 and 1341-1345): the index of the last record among `i .. i + n - 1` that has
this name, `acc` when there is none. -/
def last_match (filename : List Nat) (d : Nat → Nat) : Nat → Nat → Nat → Nat
  | 0, _, acc => acc
  | n + 1, i, acc =>
    last_match filename d n (i + 1) (if strcmp_eq filename d (72 * i) then i else acc)

/-- Lines 1019-1023 of `fs_remove` (and again 1064-1068), on the local copy of the parent
directory, whose `num_entries` is not 0 here: the last record is copied into slot
`records_index` unless that slot is the last one, 72 zero bytes are copied to
`records[num_entries]`, and `num_entries` (a `uint8_t`) is decremented.  The zero bytes
start at byte `72 * num_entries`: for 7 entries that is byte 504, so they cover the field
`num_entries` at byte 509. -/
def compact_directory (parent_directory : Nat → Nat) (records_index : Nat) : Nat → Nat :=
  let num_entries := dir_num_entries parent_directory
  let pd1 : Nat → Nat := fun x =>
    if num_entries - 1 ≠ records_index ∧ 72 * records_index ≤ x ∧ x < 72 * records_index + 72 then
      parent_directory (72 * (num_entries - 1) + (x - 72 * records_index))
    else parent_directory x
  let pd2 : Nat → Nat := fun x =>
    if 72 * num_entries ≤ x ∧ x < 72 * num_entries + 72 then 0 else pd1 x
  fun x => if x = 509 then (pd2 509 + 255) % 256 else pd2 x

/-- The loop of lines 1029-1043 that releases blocks, with the `unsigned long file_size`
as its counter and the block id held in a `uint8_t`.  `none` stands for no result: the
fuel ran out, or `get_block_ptr` was called with a block index that is negative as an
`int`, where it reads in front of `direct_block_ptr_array`. -/
def fs_remove_loop (inode_for_removal : inode_t) (inode_index_for_removal : Nat) :
    Nat → F16FS_t → Nat → Option F16FS_t
  | 0, _, _ => none
  | fuel + 1, fs, file_size =>
    if file_size > 0 then
      if file_size ≤ 512 then
        fs_remove_loop inode_for_removal inode_index_for_removal fuel
          { fs with fs := block_store_release fs.fs (inode_for_removal.direct_block_ptr_array 0) }
          (toUInt64 ((file_size : Int) - 512))
      else if toInt32 ((file_size / 512 + 1 : Nat) : Int) < 0 then none
      else
        let r := get_block_ptr fs inode_index_for_removal
          (toInt32 ((file_size / 512 + 1 : Nat) : Int)).toNat 1
        let read_block_ptr := (r.2 % 256).toNat
        fs_remove_loop inode_for_removal inode_index_for_removal fuel
          { r.1 with fs := block_store_release r.1.fs read_block_ptr }
          (toUInt64 ((file_size : Int) - 512))
    else some fs

/-- The function `fs_remove`; `none` stands for no result, which is the case when
`parse_path` has none, and for the release loop see `fs_remove_loop`, whose fuel is one
more than the number of blocks in `file_size`.  The lookup loop of lines 995-1000 assigns
`records_index` and `inode_index_for_removal` under the same test; it is written here as
`last_match` and `lookup_last`, both started at 999. -/
def fs_remove (fs : F16FS_t) (path : List Nat) : Option (F16FS_t × Int) :=
  if path = [] ∨ path = [47] ∨ path.head? ≠ some 47 then some (fs, -1)
  else if path.getLast? = some 47 then some (fs, -1)
  else
    match parse_path path with
    | none => none
    | some none => some (fs, -1)
    | some (some tokens) =>
      let filename := tokens.getLast?.getD []
      match directory_traversal fs tokens.dropLast with
      | none => some (fs, -1)
      | some parent_inode =>
        let parent_directory := block_store_read fs.fs (parent_inode.direct_block_ptr_array 0)
        if dir_num_entries parent_directory = 0 then some (fs, -1)
        else
          let records_index :=
            last_match filename parent_directory (dir_num_entries parent_directory) 0 999
          let inode_index_for_removal :=
            lookup_last filename parent_directory (dir_num_entries parent_directory) 0 999
          if inode_index_for_removal < 0 ∨ inode_index_for_removal > 256 then some (fs, 0)
          else
            let inode_for_removal := fs.inodes inode_index_for_removal.toNat
            if inode_for_removal.file_type = 0 then
              let fs1 := fs_block_write fs (parent_inode.direct_block_ptr_array 0)
                (compact_directory parent_directory records_index)
              let file_size := (fs1.inodes inode_index_for_removal.toNat).file_size
              match fs_remove_loop inode_for_removal inode_index_for_removal.toNat
                  (file_size / 512 + 1) fs1 file_size with
              | none => none
              | some fs2 => some (set_inode fs2 inode_index_for_removal.toNat inode_zero, 0)
            else
              let working_directory :=
                block_store_read fs.fs (inode_for_removal.direct_block_ptr_array 0)
              if dir_num_entries working_directory > 0 then some (fs, -1)
              else
                let fs1 : F16FS_t :=
                  { fs with fs :=
                      block_store_release fs.fs (inode_for_removal.direct_block_ptr_array 0) }
                let fs2 := set_inode fs1 inode_index_for_removal.toNat inode_zero
                let fs3 := fs_block_write fs2 (parent_inode.direct_block_ptr_array 0)
                  (compact_directory parent_directory records_index)
                some (set_inode fs3 inode_index_for_removal.toNat inode_zero, 0)

/-! ## `fs_move` (lines 1228-1371) -/

/-- Lines 1348-1350 of `fs_move`, on the local copy of the destination directory.  Line
1348 copies the 72 bytes of record `src_directory_record_index` of the source directory
to `records[num_entries]`; line 1349 reads `num_entries` again and `strcpy` puts the new
name and its NUL at the start of the record with that index; line 1350 increments
`num_entries` (a `uint8_t`).  There is no test for a full directory: for 7 entries the
copy of line 1348 starts at byte 504 and covers the field `num_entries` at byte 509, so
that line 1349 finds there byte 5 of the name of the copied record. -/
def move_append (dst_parent_directory src_parent_directory : Nat → Nat)
    (src_directory_record_index : Nat) (dst_filename : List Nat) : Nat → Nat :=
  let num_entries := dir_num_entries dst_parent_directory
  let dd1 : Nat → Nat := fun x =>
    if 72 * num_entries ≤ x ∧ x < 72 * num_entries + 72 then
      src_parent_directory (72 * src_directory_record_index + (x - 72 * num_entries))
    else dst_parent_directory x
  let num_entries1 := dir_num_entries dd1
  let dd2 : Nat → Nat := fun x =>
    if 72 * num_entries1 ≤ x ∧ x ≤ 72 * num_entries1 + dst_filename.length then
      dst_filename.getD (x - 72 * num_entries1) 0
    else dd1 x
  fun x => if x = 509 then (dd2 509 + 1) % 256 else dd2 x

/-- Lines 1353-1356 of `fs_move`, on the local copy of the source directory: the last
record is copied into slot `src_directory_record_index` unless that slot is the last
one, and `num_entries` is decremented. -/
def move_compact (src_parent_directory : Nat → Nat) (src_directory_record_index : Nat) :
    Nat → Nat :=
  let num_entries := dir_num_entries src_parent_directory
  let sd1 : Nat → Nat := fun x =>
    if num_entries ≠ src_directory_record_index + 1 ∧
        72 * src_directory_record_index ≤ x ∧ x < 72 * src_directory_record_index + 72 then
      src_parent_directory (72 * (num_entries - 1) + (x - 72 * src_directory_record_index))
    else src_parent_directory x
  fun x => if x = 509 then (sd1 509 + 255) % 256 else sd1 x

/-- Lines 1252-1370 of `fs_move`, from the point where `parse_path` has returned the
tokens of both paths.  The result is the state and the returned `int`. -/
def fs_move_tokens (fs : F16FS_t) (src_tokens dst_tokens : List (List Nat)) : F16FS_t × Int :=
  let dst_filename := dst_tokens.getLast?.getD []
  let dst_folder_filename :=
    if dst_tokens.length ≥ 2 then dst_tokens.getD (dst_tokens.length - 2) [] else []
  let src_filename := src_tokens.getLast?.getD []
  if src_filename = dst_folder_filename then (fs, -1)
  else
    match directory_traversal fs src_tokens.dropLast,
        directory_traversal fs dst_tokens.dropLast with
    | some src_parent_inode, some dst_parent_inode =>
      let src_parent_directory :=
        block_store_read fs.fs (src_parent_inode.direct_block_ptr_array 0)
      let dst_parent_directory :=
        block_store_read fs.fs (dst_parent_inode.direct_block_ptr_array 0)
      if name_exists dst_filename dst_parent_directory
          (dir_num_entries dst_parent_directory) 0 then (fs, -1)
      else if name_exists src_filename src_parent_directory
          (dir_num_entries src_parent_directory) 0 = false then (fs, -1)
      else if name_exists src_filename dst_parent_directory
          (dir_num_entries dst_parent_directory) 0 then (fs, -1)
      else
        let src_directory_record_index :=
          last_match src_filename src_parent_directory
            (dir_num_entries src_parent_directory) 0 0
        let fs1 := fs_block_write fs (src_parent_inode.direct_block_ptr_array 0)
          (move_compact src_parent_directory src_directory_record_index)
        let fs2 := fs_block_write fs1 (dst_parent_inode.direct_block_ptr_array 0)
          (move_append dst_parent_directory src_parent_directory
            src_directory_record_index dst_filename)
        (fs2, 0)
    | _, _ => (fs, -1)

/-- The function `fs_move`.  The result is the state and the returned `int`; `none`
stands for no result, which is the case when one of the two calls of `parse_path` (lines
1244 and 1245) has none. -/
def fs_move (fs : F16FS_t) (src dst : List Nat) : Option (F16FS_t × Int) :=
  if src = [] ∨ src = [47] ∨ src.head? ≠ some 47 ∨ dst = [] ∨ dst = [47] ∨ dst.head? ≠ some 47
  then some (fs, -1)
  else if src.getLast? = some 47 ∨ dst.getLast? = some 47 then some (fs, -1)
  else
    match parse_path src with
    | none => none
    | some src_parsed =>
      match parse_path dst with
      | none => none
      | some dst_parsed =>
        match src_parsed, dst_parsed with
        | some src_tokens, some dst_tokens => some (fs_move_tokens fs src_tokens dst_tokens)
        | _, _ => some (fs, -1)

/-! ## `fs_get_dir` (lines 1094-1214) -/

/-- The records `fs_get_dir` pushes to its result (lines 1153-1155 and 1201-1203): for
every `i` below `num_entries`, the 72 bytes of `records[i]`, in this order. -/
def dir_records (working_directory : Nat → Nat) : List (List Nat) :=
  (List.range (dir_num_entries working_directory)).map
    (fun i => (List.range 72).map (fun x => working_directory (72 * i + x)))

/-- Lines 1114-1213 of `fs_get_dir`, from the point where `parse_path` has returned the
tokens of the path; `none` is NULL, and the result is the list of the records in the
`dyn_array` it returns.  `indeterminate` is the value the uninitialised local
`inode_index_for_open` has when no record matches. -/
def fs_get_dir_tokens (fs : F16FS_t) (path : List Nat) (tokens : List (List Nat))
    (indeterminate : Int) : Option (List (List Nat)) :=
  let filename := tokens.getLast?.getD []
  match directory_traversal fs tokens.dropLast with
  | none => none
  | some parent_inode =>
    let parent_directory := block_store_read fs.fs (parent_inode.direct_block_ptr_array 0)
    if path = [47] then
      some (dir_records (block_store_read fs.fs (parent_inode.direct_block_ptr_array 0)))
    else
      let inode_index_for_open :=
        lookup_last filename parent_directory (dir_num_entries parent_directory) 0
          indeterminate
      let inode_for_open := fs.inodes inode_index_for_open.toNat
      if inode_for_open.file_type = 0 then none
      else some (dir_records (block_store_read fs.fs (inode_for_open.direct_block_ptr_array 0)))

/-- The function `fs_get_dir`.  `none` stands for no result, which is the case when
`parse_path` has none; `some none` is the NULL it returns, and `some (some l)` the list
`l` of the records in the `dyn_array` it returns.  `indeterminate` is as in
`fs_get_dir_tokens`. -/
def fs_get_dir (fs : F16FS_t) (path : List Nat) (indeterminate : Int) :
    Option (Option (List (List Nat))) :=
  if path = [] ∨ path.head? ≠ some 47 then some none
  else if (path.getLast? = some 47 ∧ path ≠ [47]) ∨ path.length > 100 then some none
  else
    match parse_path path with
    | none => none
    | some none => some none
    | some (some tokens) => some (fs_get_dir_tokens fs path tokens indeterminate)

/-! ## `fs_format` (lines 54-124) -/

/-- The 64 bytes of an `inode_t` in memory, for the structure of lines 7-16 laid out with
natural alignment and little-endian fields: `file_type` at byte 0, `use_flag` at 1,
`file_size` at 8..15, `num_blocks_in_use` at 16..19, `padding` at 20..40, the six direct
pointers at 42..53, the indirect pointer at 54 and the double-indirect pointer at 56. -/
def inode_bytes (n : inode_t) : Nat → Nat :=
  fun x =>
    if x = 0 then n.file_type % 256
    else if x = 1 then n.use_flag % 256
    else if 8 ≤ x ∧ x < 16 then n.file_size / 256 ^ (x - 8) % 256
    else if 16 ≤ x ∧ x < 20 then (n.num_blocks_in_use % 4294967296).toNat / 256 ^ (x - 16) % 256
    else if 42 ≤ x ∧ x < 54 then
      n.direct_block_ptr_array ((x - 42) / 2) / 256 ^ ((x - 42) % 2) % 256
    else if 54 ≤ x ∧ x < 56 then n.indirect_block_ptr / 256 ^ (x - 54) % 256
    else if 56 ≤ x ∧ x < 58 then n.double_indirect_block_ptr / 256 ^ (x - 56) % 256
    else 0

/-- The `inode_t` found at address `p` of `mem`, layout as in `inode_bytes`. -/
def inode_of_bytes (mem : Nat → Nat) (p : Nat) : inode_t :=
  { file_type := mem p
    use_flag := mem (p + 1)
    file_size := ((List.range 8).map (fun k => mem (p + 8 + k) * 256 ^ k)).sum
    num_blocks_in_use :=
      toInt32 (((List.range 4).map (fun k => mem (p + 16 + k) * 256 ^ k)).sum : Nat)
    direct_block_ptr_array := fun j => mem (p + 42 + 2 * j) + 256 * mem (p + 42 + 2 * j + 1)
    indirect_block_ptr := mem (p + 54) + 256 * mem (p + 55)
    double_indirect_block_ptr := mem (p + 56) + 256 * mem (p + 57) }

/-- The 512 bytes of the local array `inode_t inodes[8]` of `fs_format`. -/
def inode_block_bytes (inodes : Nat → inode_t) : Nat → Nat :=
  fun x => inode_bytes (inodes (x / 64)) (x % 64)

/-- Allocate-and-write of one inode block (lines 87-88 and 98-99), `n` times. -/
def format_inode_blocks (inodes : Nat → inode_t) : Nat → block_store_t → block_store_t
  | 0, bs => bs
  | n + 1, bs =>
    format_inode_blocks inodes n
      (block_store_write (block_store_allocate bs).1 (block_store_allocate bs).2
        (inode_block_bytes inodes))

/-- The body of `fs_format` after the parameter validation (lines 61-123); the store
is the one `block_store_create` yields. -/
def fs_format_state : F16FS_t :=
  let root : inode_t :=
    { inode_zero with
      file_type := 1, file_size := 512, use_flag := 1,
      direct_block_ptr_array := fun j => if j = 0 then 48 else 0 }
  let bs0 := block_store_create
  let bs1 := format_inode_blocks (fun k => if k = 0 then root else inode_zero) 1 bs0
  let bs2 := format_inode_blocks (fun _ => inode_zero) 31 bs1
  let bs3 := block_store_write (block_store_allocate bs2).1 (block_store_allocate bs2).2 (fun _ => 0)
  { fs := bs3
    file_descriptors := fun _ => { inode_index := -1, offset := 0 }
    inodes := fun j => inode_of_bytes (block_store_read bs3 (j / 8 + 16)) (64 * (j % 8))
    total_files := 0 }

/-- The function `fs_format`; `none` is the NULL returned for an empty path. -/
def fs_format (path : List Nat) : Option F16FS_t :=
  if path = [] then none else some fs_format_state

/-! ## `fs_mount` (lines 127-159) and `fs_unmount` (lines 161-187) -/

/-- The loop of `fs_unmount` (lines 172-177), `n` iterations from `i` on: the eight inodes
`fs->inodes[8 * i ..]` are copied to the local array and written to block `i + 16`. -/
def unmount_inode_blocks (inodes : Nat → inode_t) : Nat → Nat → block_store_t → block_store_t
  | 0, _, bs => bs
  | n + 1, i, bs =>
    unmount_inode_blocks inodes n (i + 1)
      (block_store_write bs (i + 16) (inode_block_bytes (fun k => inodes (8 * i + k))))

/-- The function `fs_unmount`: the block store as `block_store_close` leaves it on the
backing file (modelled from the spec: closing keeps every block and the bitmap), and the
returned `int`. -/
def fs_unmount (fs : F16FS_t) : block_store_t × Int :=
  (unmount_inode_blocks fs.inodes 32 0 fs.fs, 0)

/-- The body of `fs_mount` after `block_store_open` gave the store `bs` (lines 146-158). -/
def fs_mount_state (bs : block_store_t) : F16FS_t :=
  { fs := bs
    file_descriptors := fun _ => { inode_index := -1, offset := 0 }
    inodes := fun j => inode_of_bytes (block_store_read bs (j / 8 + 16)) (64 * (j % 8))
    total_files := 0 }

/-- The function `fs_mount`; `store` is what `block_store_open(path)` yields (modelled
from the spec: the store that was closed on this backing file, `none` when it cannot be
opened), and `none` as result is NULL. -/
def fs_mount (path : List Nat) (store : Option block_store_t) : Option F16FS_t :=
  if path = [] then none else store.map fs_mount_state

/-! ## Observations used in the statements -/

/-- The byte at position `pos` of the file of inode `inode_index`: the byte at
`pos mod 512` of the block that `get_block_ptr` resolves, in read mode, for the logical
block `pos / 512`. -/
def file_byte (fs : F16FS_t) (inode_index pos : Nat) : Nat :=
  fs.fs.data (get_block_ptr fs inode_index (pos / 512) 1).2.toNat (pos % 512)

/-- Every in-use descriptor has its offset within the file it refers to. -/
def offset_invariant (fs : F16FS_t) : Prop :=
  ∀ fd, fd < 256 → 0 ≤ (fs.file_descriptors fd).inode_index →
    (fs.file_descriptors fd).offset ≤ (fs.inodes (fs.file_descriptors fd).inode_index.toNat).file_size

/-- The position `whence` names: 0, the descriptor's offset, or the file size. -/
def seek_base (fs : F16FS_t) (fd : Nat) (whence : Int) : Int :=
  if whence = FS_SEEK_SET then 0
  else if whence = FS_SEEK_END then
    ((fs.inodes (fs.file_descriptors fd).inode_index.toNat).file_size : Int)
  else ((fs.file_descriptors fd).offset : Int)

/-- What `fs_create` leaves in the inode of a new regular file: size 0, one data block
in `direct_block_ptr_array[0]` that the store holds as allocated, no other pointer. -/
def fresh_file (fs : F16FS_t) (inode_index : Nat) : Prop :=
  (fs.inodes inode_index).file_size = 0 ∧
  (fs.inodes inode_index).direct_block_ptr_array 0 ≠ 0 ∧
  (fs.inodes inode_index).direct_block_ptr_array 0 < 65536 ∧
  fs.fs.used ((fs.inodes inode_index).direct_block_ptr_array 0) = true ∧
  (∀ j, 1 ≤ j → j < 6 → (fs.inodes inode_index).direct_block_ptr_array j = 0) ∧
  (fs.inodes inode_index).indirect_block_ptr = 0 ∧
  (fs.inodes inode_index).double_indirect_block_ptr = 0

/-- The block an operation on `path` reads as the parent directory: the block in
`direct_block_ptr_array[0]` of the inode that `directory_traversal` yields for the tokens
of `path` without the last one; `none` when `parse_path` has no result or returns NULL,
and when the traversal fails. -/
def parent_block (fs : F16FS_t) (path : List Nat) : Option Nat :=
  match parse_path path with
  | some (some tokens) =>
    (directory_traversal fs tokens.dropLast).map (fun p => p.direct_block_ptr_array 0)
  | _ => none

/-- The tests of `fs_move` before the move of the record (lines 1267 and 1293-1336), read
in the block `sd` of the source directory and the block `dd` of the destination
directory: the final name of `src` is not the token before the last of `dst` (the empty
string when `dst` has one token), a record of `sd` carries the final name of `src`, no
record of `dd` carries the final name of `dst`, and no record of `dd` carries the final
name of `src`. -/
def move_conditions (src_tokens dst_tokens : List (List Nat)) (sd dd : Nat → Nat) : Prop :=
  src_tokens.getLast?.getD [] ≠
    (if dst_tokens.length ≥ 2 then dst_tokens.getD (dst_tokens.length - 2) [] else []) ∧
  name_exists (src_tokens.getLast?.getD []) sd (dir_num_entries sd) 0 = true ∧
  name_exists (dst_tokens.getLast?.getD []) dd (dir_num_entries dd) 0 = false ∧
  name_exists (src_tokens.getLast?.getD []) dd (dir_num_entries dd) 0 = false

/-- Whether the tests of `fs_move` pass can be computed. -/
instance move_conditions_decidable (src_tokens dst_tokens : List (List Nat))
    (sd dd : Nat → Nat) : Decidable (move_conditions src_tokens dst_tokens sd dd) := by
  unfold move_conditions; infer_instance

/-- The name of record `k` of a directory block: the bytes of its 64-byte name field up
to the first NUL. -/
def rec_name (d : Nat → Nat) (k : Nat) : List Nat :=
  ((List.range 64).map (fun x => d (72 * k + x))).takeWhile (fun c => c ≠ 0)

/-- A directory block is in order: at most 7 entries, with pairwise distinct names. -/
def dir_ok (d : Nat → Nat) : Prop :=
  dir_num_entries d ≤ 7 ∧
  ∀ k, k < dir_num_entries d → ∀ j, j < k → rec_name d j ≠ rec_name d k

/-- Whether a directory block is in order can be computed. -/
instance dir_ok_decidable (d : Nat → Nat) : Decidable (dir_ok d) := by
  unfold dir_ok; infer_instance

/-- Every directory (an inode in use of type 1) has its block in order. -/
def dir_invariant (fs : F16FS_t) : Prop :=
  ∀ i, i < 256 → (fs.inodes i).use_flag = 1 → (fs.inodes i).file_type = 1 →
    dir_ok (fs.fs.data ((fs.inodes i).direct_block_ptr_array 0))

/-- Whether the directories of a state are in order can be computed. -/
instance dir_invariant_decidable (fs : F16FS_t) : Decidable (dir_invariant fs) := by
  unfold dir_invariant; infer_instance

/-- The fields of an inode hold values of their C types (lines 7-16). -/
def inode_wf (n : inode_t) : Prop :=
  n.file_type < 256 ∧ n.use_flag < 256 ∧ n.file_size < 18446744073709551616 ∧
  -2147483648 ≤ n.num_blocks_in_use ∧ n.num_blocks_in_use < 2147483648 ∧
  (∀ j, j < 6 → n.direct_block_ptr_array j < 65536) ∧
  n.indirect_block_ptr < 65536 ∧ n.double_indirect_block_ptr < 65536

/-- Two inodes agree on every field. -/
def inode_same (a b : inode_t) : Prop :=
  a.file_type = b.file_type ∧ a.use_flag = b.use_flag ∧ a.file_size = b.file_size ∧
  a.num_blocks_in_use = b.num_blocks_in_use ∧
  (∀ j, j < 6 → a.direct_block_ptr_array j = b.direct_block_ptr_array j) ∧
  a.indirect_block_ptr = b.indirect_block_ptr ∧
  a.double_indirect_block_ptr = b.double_indirect_block_ptr

/-- Whether the fields of an inode hold values of their C types can be computed. -/
instance inode_wf_decidable (n : inode_t) : Decidable (inode_wf n) := by
  unfold inode_wf; infer_instance

/-- Whether two inodes agree on every field can be computed. -/
instance inode_same_decidable (a b : inode_t) : Decidable (inode_same a b) := by
  unfold inode_same; infer_instance

/-- The state as the source sees it when it indexes the descriptor table with 256.  In
`struct F16FS` (lines 23-28) the array `inodes` follows `file_descriptors[256]`, so
`file_descriptors[256]` is the start of `inodes[0]`: its `inode_index` is the `int` in the
first four bytes (`file_type`, `use_flag` and two bytes of padding), its `offset` the
`unsigned long` at bytes 8..15, which is `file_size`. -/
def with_entry_256 (fs : F16FS_t) : F16FS_t :=
  { fs with
    file_descriptors := fun i =>
      if i = 256 then
        { inode_index := ((fs.inodes 0).file_type + 256 * (fs.inodes 0).use_flag : Nat)
          offset := (fs.inodes 0).file_size }
      else fs.file_descriptors i }

/-- Follows the spec's words, for comparison with `parse_path`: the maximal non-empty
runs of characters other than `/` of a path, in order.  The path is split at every `/`
and the empty pieces are dropped. -/
def path_runs (path : List Nat) : List (List Nat) :=
  (path.splitOn 47).filter (fun t => !t.isEmpty)

/-- The tests `fs_create` makes on its arguments before it calls `parse_path` (lines
305-314) let the call through. -/
def fs_create_accepts (path : List Nat) (type : Nat) : Prop :=
  ¬ (path = [] ∨ path = [47] ∨ path.head? ≠ some 47 ∨ (type ≠ 0 ∧ type ≠ 1)) ∧
  ¬ (path.getLast? = some 47 ∨ path.length > 100)

/-- Whether `fs_create` lets a call through can be computed. -/
instance fs_create_accepts_decidable (path : List Nat) (type : Nat) :
    Decidable (fs_create_accepts path type) := by
  unfold fs_create_accepts; infer_instance

/-- The tests `fs_get_dir` makes on its argument before it calls `parse_path` (lines
1095-1104) let the call through. -/
def fs_get_dir_accepts (path : List Nat) : Prop :=
  ¬ (path = [] ∨ path.head? ≠ some 47) ∧
  ¬ ((path.getLast? = some 47 ∧ path ≠ [47]) ∨ path.length > 100)

/-- Whether `fs_get_dir` lets a call through can be computed. -/
instance fs_get_dir_accepts_decidable (path : List Nat) :
    Decidable (fs_get_dir_accepts path) := by
  unfold fs_get_dir_accepts; infer_instance

/-! ## Concrete states -/

/-- The path `/a`. -/
def path_a : List Nat := [47, 97]

/-- The path `/d`. -/
def path_d : List Nat := [47, 100]

/-- A source buffer: the bytes of `hello`, then memory filled with 0xAA. -/
def hello : Nat → Nat := fun i => [104, 101, 108, 108, 111].getD i 170

/-- A source buffer: five bytes `B`, then memory filled with 0xBB. -/
def bees : Nat → Nat := fun i => if i < 5 then 66 else 187

/-- A source buffer of 4096 bytes with the pattern `i mod 251`. -/
def pattern : Nat → Nat := fun i => i % 251

/-- A destination buffer of zero bytes. -/
def zeros : Nat → Nat := fun _ => 0

/-- The state after `fs_format`, `fs_create("/a", regular)`. -/
def st_created : F16FS_t :=
  match fs_create fs_format_state path_a 0 with
  | some r => r.1
  | none => fs_format_state

/-- The state after `fs_format`, `fs_create("/a", regular)`, `fs_open("/a")`. -/
def st_opened : F16FS_t :=
  match fs_open st_created path_a 0 with
  | some r => r.1
  | none => st_created

/-- The state after `fs_format`, `fs_create("/a", regular)`, `fs_open("/a")` and
`fs_write(0, "hello", 5)`. -/
def st_written : F16FS_t := (fs_write st_opened 0 hello 5).1

/-- The same file system on a block store that has no free block left. -/
def exhausted (fs : F16FS_t) : F16FS_t :=
  { fs with fs := { fs.fs with used := fun _ => true } }

/-- The state `st_created` after 255 calls `fs_open("/a")`: the descriptors 0..254 refer
to inode 1 at offset 0, descriptor 255 is free. -/
def st_one_slot_left : F16FS_t :=
  { st_created with
    file_descriptors := fun i =>
      if i < 255 then { inode_index := 1, offset := 0 } else { inode_index := -1, offset := 0 } }

/-- The path `/b`. -/
def path_b : List Nat := [47, 98]

/-- The path `/h`. -/
def path_h : List Nat := [47, 104]

/-- The path `/d/x`. -/
def path_dx : List Nat := [47, 100, 47, 120]

/-- The path `/a/b`. -/
def path_ab : List Nat := [47, 97, 47, 98]

/-- The state after `fs_create(p, type)` for each path `p` of a list, in order; a call
without a result ends the sequence. -/
def create_all (type : Nat) : F16FS_t → List (List Nat) → F16FS_t
  | fs, [] => fs
  | fs, p :: ps =>
    match fs_create fs p type with
    | some r => create_all type r.1 ps
    | none => fs

/-- The state after `fs_format` and the creation of the seven regular files `/a`, `/b`,
`/c`, `/d`, `/e`, `/f`, `/g`: the root directory is full. -/
def st_seven : F16FS_t :=
  create_all 0 fs_format_state [[47, 97], [47, 98], [47, 99], [47, 100], [47, 101], [47, 102], [47, 103]]

/-- The state after `fs_format`, `fs_create("/d", directory)`. -/
def st_dir : F16FS_t :=
  match fs_create fs_format_state path_d 1 with
  | some r => r.1
  | none => fs_format_state

/-- The state after `fs_format`, `fs_create("/d", directory)`, `fs_create("/d/x", regular)`. -/
def st_dir_file : F16FS_t :=
  match fs_create st_dir path_dx 0 with
  | some r => r.1
  | none => st_dir

/-- The state `st_dir_file` after the creation of the regular files `/a`, `/b`, `/c`,
`/e`, `/f`, `/g`: the root directory is full, the directory `/d` holds the file `x`. -/
def st_full_root : F16FS_t :=
  create_all 0 st_dir_file [[47, 97], [47, 98], [47, 99], [47, 101], [47, 102], [47, 103]]

/-- The state after `fs_format`, `fs_create("/a", regular)`, `fs_open("/a")` and
`fs_write(0, pattern, 1024)`: the file `/a` has two blocks. -/
def st_two_blocks : F16FS_t := (fs_write st_opened 0 pattern 1024).1

/-- The state after `fs_format`, `fs_create("/a", regular)`, `fs_create("/b", regular)`. -/
def st_two_files : F16FS_t :=
  match fs_create st_created path_b 0 with
  | some r => r.1
  | none => st_created

/-- The state after `fs_remove("/a")` on the state `st_created` with a block store that
has no free block left. -/
def st_removed_full : F16FS_t :=
  match fs_remove (exhausted st_created) path_a with
  | some r => r.1
  | none => exhausted st_created

/-- The path `/b/a`. -/
def path_ba : List Nat := [47, 98, 47, 97]

/-- The state after `fs_format`, `fs_create("/a", regular)`, `fs_create("/b", directory)`. -/
def st_file_and_dir : F16FS_t :=
  match fs_create st_created path_b 1 with
  | some r => r.1
  | none => st_created

/-- The state after `fs_remove("/a")` on the state `st_two_files`. -/
def st_a_removed : F16FS_t :=
  match fs_remove st_two_files path_a with
  | some r => r.1
  | none => st_two_files

/-- The path `/hhhhhh`. -/
def path_h6 : List Nat := [47, 104, 104, 104, 104, 104, 104]

/-- The state after `fs_remove("/a")` on the state `st_seven`. -/
def st_seven_removed : F16FS_t :=
  match fs_remove st_seven path_a with
  | some r => r.1
  | none => st_seven

/-- The path `/e`. -/
def path_e : List Nat := [47, 101]

/-- The path `/d/d`. -/
def path_dd : List Nat := [47, 100, 47, 100]

/-- The state after `fs_format`, `fs_create("/d", directory)`, `fs_create("/e", regular)`,
`fs_create("/d/x", regular)`, `fs_create("/d/d", regular)`: the root directory holds `d`
and `e`, the directory `/d` holds `x` and `d`. -/
def st_nested : F16FS_t := create_all 0 st_dir [path_e, path_dx, path_dd]

/-- A buffer of 512 bytes that reads as a directory block with one record: name `z`,
type 0, inode index 5. -/
def crafted : Nat → Nat :=
  fun x => if x = 0 then 122 else if x = 70 then 5 else if x = 509 then 1 else 0

/-- The path `/q`. -/
def path_q : List Nat := [47, 113]

/-- The path `/a/z`. -/
def path_az : List Nat := [47, 97, 47, 122]

/-- The path `/y`. -/
def path_y : List Nat := [47, 121]

/-- The path `/y/q`. -/
def path_yq : List Nat := [47, 121, 47, 113]

/-- The state after `fs_format`, `fs_create("/a", regular)`, `fs_open("/a")`,
`fs_write(0, crafted, 512)`, `fs_create("/q", regular)`, `fs_move("/a/z", "/y")` and
`fs_move("/q", "/y/q")`. -/
def st_block_zero : F16FS_t :=
  match fs_create (fs_write st_opened 0 crafted 512).1 path_q 0 with
  | none => (fs_write st_opened 0 crafted 512).1
  | some r1 =>
    match fs_move r1.1 path_az path_y with
    | none => r1.1
    | some r2 =>
      match fs_move r2.1 path_q path_yq with
      | none => r2.1
      | some r3 => r3.1

/-- The path `/aaa...a/bbb...b` with 49 times `a` and 49 times `b`: 100 bytes. -/
def path_100 : List Nat := 47 :: (List.replicate 49 97 ++ 47 :: List.replicate 49 98)

/-- The path `/d/x/y`. -/
def path_dxy : List Nat := [47, 100, 47, 120, 47, 121]

/-- The path `/d/x/y/z`. -/
def path_dxyz : List Nat := [47, 100, 47, 120, 47, 121, 47, 122]

/-- The path `/d/d/x`. -/
def path_ddx : List Nat := [47, 100, 47, 100, 47, 120]

/-- The path `/d/d/x/y`. -/
def path_ddxy : List Nat := [47, 100, 47, 100, 47, 120, 47, 121]

/-- The state after `fs_create(p, type)` for each pair `(p, type)` of a list, in order,
and the values these calls returned; a call without a result ends the sequence. -/
def create_each : F16FS_t → List (List Nat × Nat) → F16FS_t × List Int
  | fs, [] => (fs, [])
  | fs, c :: cs =>
    match fs_create fs c.1 c.2 with
    | some r =>
      match create_each r.1 cs with
      | (s, l) => (s, r.2 :: l)
    | none => (fs, [])

/-- Eight calls of `fs_create`: the directories `/d`, `/d/x`, `/d/d` and `/d/x/y`, the
regular file `/d/x/y/z`, the directory `/d/d/x`, and the regular files `/d/d/x/y` and
`/e`. -/
def shadowed_calls : List (List Nat × Nat) :=
  [(path_d, 1), (path_dx, 1), (path_dd, 1), (path_dxy, 1), (path_dxyz, 0), (path_ddx, 1),
    (path_ddxy, 0), (path_e, 0)]

/-- The state after `fs_format` and the calls `shadowed_calls`. -/
def st_shadowed : F16FS_t := (create_each fs_format_state shadowed_calls).1

/-! ## Ownership of blocks by one file (used in the proofs) -/

/-- The state after the block store marked block `b` as allocated. -/
def mark (fs : F16FS_t) (b : Nat) : F16FS_t :=
  { fs with fs := { fs.fs with used := fun i => if i = b then true else fs.fs.used i } }

/-- What a block of a file is used for: the data block of a logical index, the indirect
index block, the double-indirect index block, or the index block in entry `i` of the
double-indirect block. -/
inductive Role where
  | data (j : Nat)
  | ind
  | dbl
  | sub (i : Nat)
  deriving DecidableEq

/-- The roles a file with `k` consecutive logical blocks has filled. -/
def live (k : Nat) : Role → Bool
  | Role.data j => decide (j < k)
  | Role.ind => decide (6 < k)
  | Role.dbl => decide (262 < k)
  | Role.sub i => decide (i < 256 ∧ 262 + 256 * i < k)

/-- The assignment `blk` with role `r` moved to block `b`. -/
def upd (blk : Role → Nat) (r : Role) (b : Nat) : Role → Nat :=
  fun r' => if r' = r then b else blk r'

/-- The set of roles `L` with `r` added. -/
def ext (L : Role → Bool) (r : Role) : Role → Bool :=
  fun r' => decide (r' = r) || L r'

/-- The inode `idx` and the index blocks of state `fs` hold exactly the blocks `blk r` of
the roles `r` in `L`; those blocks are allocated, distinct and non-zero; and the data
blocks of the logical indices below `kc` hold the bytes of `src`. -/
structure owns (fs : F16FS_t) (idx : Nat) (src : Nat → Nat) (blk : Role → Nat)
    (L : Role → Bool) (kc : Nat) : Prop where
  direct : ∀ j, j < 6 → (fs.inodes idx).direct_block_ptr_array j =
    if L (Role.data j) then blk (Role.data j) else 0
  indirect : (fs.inodes idx).indirect_block_ptr = if L Role.ind then blk Role.ind else 0
  double : (fs.inodes idx).double_indirect_block_ptr = if L Role.dbl then blk Role.dbl else 0
  ind_arr : L Role.ind = true → ∀ t, t < 256 → ptr_at (fs.fs.data (blk Role.ind)) t =
    if L (Role.data (t + 6)) then blk (Role.data (t + 6)) else 0
  dbl_arr : L Role.dbl = true → ∀ i, i < 256 → ptr_at (fs.fs.data (blk Role.dbl)) i =
    if L (Role.sub i) then blk (Role.sub i) else 0
  sub_arr : ∀ i, i < 256 → L (Role.sub i) = true → ∀ t, t < 256 →
    ptr_at (fs.fs.data (blk (Role.sub i))) t =
      if L (Role.data (262 + 256 * i + t)) then blk (Role.data (262 + 256 * i + t)) else 0
  content : ∀ j, j < kc → L (Role.data j) = true → ∀ x, x < 512 →
    fs.fs.data (blk (Role.data j)) x = src (512 * j + x)
  ok : ∀ r, L r = true → blk r ≠ 0 ∧ blk r < 65536 ∧ fs.fs.used (blk r) = true
  inj : ∀ r r', L r = true → L r' = true → blk r = blk r' → r = r'

/-! ## Where block ids are stored -/

/-- A place where the file system stores a block id: entry `j` of
`direct_block_ptr_array` of inode `i`, its `indirect_block_ptr`, its
`double_indirect_block_ptr`, entry `t` of its indirect index block, entry `s` of its
double-indirect index block, or entry `t` of the index block named by that entry `s`. -/
inductive Slot where
  | direct (i j : Nat)
  | ind (i : Nat)
  | dbl (i : Nat)
  | ind_entry (i t : Nat)
  | dbl_entry (i s : Nat)
  | sub_entry (i s t : Nat)
  deriving DecidableEq

/-- The places that exist: 6 direct pointers per inode, 256 entries per index block. -/
def slot_valid : Slot → Prop
  | Slot.direct _ j => j < 6
  | Slot.ind _ => True
  | Slot.dbl _ => True
  | Slot.ind_entry _ t => t < 256
  | Slot.dbl_entry _ s => s < 256
  | Slot.sub_entry _ s t => s < 256 ∧ t < 256

/-- The places that name an index block. -/
def slot_index : Slot → Prop
  | Slot.direct _ _ => False
  | Slot.ind _ => True
  | Slot.dbl _ => True
  | Slot.ind_entry _ _ => False
  | Slot.dbl_entry _ _ => True
  | Slot.sub_entry _ _ _ => False

/-- The block id stored at a place, 0 when an index block on the way to it is not
allocated. -/
def slot_block (fs : F16FS_t) : Slot → Nat
  | Slot.direct i j => (fs.inodes i).direct_block_ptr_array j
  | Slot.ind i => (fs.inodes i).indirect_block_ptr
  | Slot.dbl i => (fs.inodes i).double_indirect_block_ptr
  | Slot.ind_entry i t =>
    if (fs.inodes i).indirect_block_ptr = 0 then 0
    else ptr_at (fs.fs.data (fs.inodes i).indirect_block_ptr) t
  | Slot.dbl_entry i s =>
    if (fs.inodes i).double_indirect_block_ptr = 0 then 0
    else ptr_at (fs.fs.data (fs.inodes i).double_indirect_block_ptr) s
  | Slot.sub_entry i s t =>
    if (fs.inodes i).double_indirect_block_ptr = 0 then 0
    else if ptr_at (fs.fs.data (fs.inodes i).double_indirect_block_ptr) s = 0 then 0
    else ptr_at (fs.fs.data (ptr_at (fs.fs.data (fs.inodes i).double_indirect_block_ptr) s)) t

/-- The places whose block is read on the way to a place. -/
def slot_reads : Slot → List Slot
  | Slot.direct _ _ => []
  | Slot.ind _ => []
  | Slot.dbl _ => []
  | Slot.ind_entry i _ => [Slot.ind i]
  | Slot.dbl_entry i _ => [Slot.dbl i]
  | Slot.sub_entry i s _ => [Slot.dbl i, Slot.dbl_entry i s]

/-- The inode a place belongs to. -/
def slot_inode : Slot → Nat
  | Slot.direct i _ => i
  | Slot.ind i => i
  | Slot.dbl i => i
  | Slot.ind_entry i _ => i
  | Slot.dbl_entry i _ => i
  | Slot.sub_entry i _ _ => i

/-- Block `c` is named by a place that names an index block. -/
def index_block (fs : F16FS_t) (c : Nat) : Prop :=
  ∃ a, slot_valid a ∧ slot_index a ∧ slot_block fs a = c

/-- The place that holds the data block of logical index `L` of inode `i`. -/
def leaf_slot (i L : Nat) : Slot :=
  if L < 6 then Slot.direct i L
  else if L < 262 then Slot.ind_entry i (L - 6)
  else Slot.sub_entry i ((L - 262) / 256) ((L - 262) % 256)

/-- No block is shared: the non-zero block ids stored at the places of the file system
are pairwise distinct, at least 48, below 65 536 and allocated; the ids 1..48 are
allocated; bytes past the 512 of a block and the bytes of block 0 are zero; an inode
whose type is not 0 has its first direct block. -/
structure blocks_ok (fs : F16FS_t) : Prop where
  inj : ∀ a b, slot_valid a → slot_valid b → slot_block fs a ≠ 0 →
    slot_block fs a = slot_block fs b → a = b
  used : ∀ a, slot_valid a → slot_block fs a ≠ 0 →
    fs.fs.used (slot_block fs a) = true ∧ 48 ≤ slot_block fs a ∧ slot_block fs a < 65536
  low : ∀ b, 1 ≤ b → b < 49 → fs.fs.used b = true
  canon : ∀ b x, 512 ≤ x → fs.fs.data b x = 0
  zero : ∀ x, fs.fs.data 0 x = 0
  dirs : ∀ i, (fs.inodes i).file_type ≠ 0 → (fs.inodes i).direct_block_ptr_array 0 ≠ 0

/-- What write-mode block resolution leaves behind: no block is shared, and a block id
that is returned is non-zero and names no index block. -/
def write_result_ok (r : F16FS_t × Int) : Prop :=
  blocks_ok r.1 ∧ (0 ≤ r.2 → r.2 ≠ 0 ∧ ¬ index_block r.1 r.2.toNat)

/-- The states reached from the result of `fs_format` by calls of `fs_create`,
`fs_open`, `fs_write`, `fs_seek` and `fs_close`, with any arguments for which the call
has a result. -/
inductive reachable : F16FS_t → Prop where
  | format : reachable fs_format_state
  | create (fs : F16FS_t) (path : List Nat) (type : Nat) (r : F16FS_t × Int) :
      reachable fs → fs_create fs path type = some r → reachable r.1
  | opened (fs : F16FS_t) (path : List Nat) (indeterminate : Int) (r : F16FS_t × Int) :
      reachable fs → fs_open fs path indeterminate = some r → reachable r.1
  | write (fs : F16FS_t) (fd : Int) (src : Nat → Nat) (nbyte : Nat) :
      reachable fs → reachable (fs_write fs fd src nbyte).1
  | seek (fs : F16FS_t) (fd offset whence : Int) :
      reachable fs → reachable (fs_seek fs fd offset whence).1
  | close (fs : F16FS_t) (fd : Int) :
      reachable fs → reachable (fs_close fs fd).1

/-! # Theorems -/

set_option maxRecDepth 1000000

/-! ## The block device -/

theorem first_free_all_used (used : Nat → Bool) (h : ∀ i, used i = true) :
    ∀ n i, first_free used n i = none := by
  intro n
  induction n with
  | zero => intro i; rfl
  | succ n ih => intro i; simp [first_free, h, ih]

theorem block_store_allocate_exhausted (bs : block_store_t) (h : ∀ i, bs.used i = true) :
    block_store_allocate bs = (bs, 0) := by
  simp [block_store_allocate, first_free_all_used bs.used h]

/-! ## Block resolution and the write/read round trip -/

theorem first_free_spec (used : Nat → Bool) :
    ∀ n i id, first_free used n i = some id → used id = false ∧ i ≤ id ∧ id < i + n := by
  intro n
  induction n with
  | zero => intro i id h; simp [first_free] at h
  | succ n ih =>
    intro i id h
    unfold first_free at h
    by_cases hu : used i = true
    · simp only [hu, if_true] at h
      obtain ⟨a, b, c⟩ := ih (i + 1) id h
      exact ⟨a, by omega, by omega⟩
    · simp only [hu] at h
      simp at h
      subst h
      simp at hu
      exact ⟨hu, by omega, by omega⟩

theorem alloc_ptr_spec (fs : F16FS_t) (h : (alloc_ptr fs).2 ≠ 0) :
    ∃ b, b ≠ 0 ∧ b < 65536 ∧ fs.fs.used b = false ∧ alloc_ptr fs = (mark fs b, b) := by
  unfold alloc_ptr block_store_allocate at *
  cases hff : first_free fs.fs.used 65536 0 with
  | none => simp [hff] at h
  | some id =>
    have hs := first_free_spec fs.fs.used 65536 0 id hff
    simp only [hff] at h ⊢
    have hid : id % 65536 = id := Nat.mod_eq_of_lt (by omega)
    rw [hid] at h ⊢
    exact ⟨id, h, by omega, hs.1, rfl⟩

theorem ptr_at_ptr_bytes (arr : Nat → Nat) (j : Nat) (h : arr j < 65536) :
    ptr_at (ptr_bytes arr) j = arr j := by
  unfold ptr_at ptr_bytes
  have h1 : (2 * j) % 2 = 0 := by omega
  have h2 : (2 * j + 1) % 2 ≠ 0 := by omega
  have h3 : (2 * j) / 2 = j := by omega
  have h4 : (2 * j + 1) / 2 = j := by omega
  simp only [h1, h2, h3, h4, if_true, if_false]
  omega

theorem ptr_at_written (arr : Nat → Nat) (t : Nat) (ht : t < 256) (h : arr t < 65536) :
    ptr_at (fun x => if x < 512 then ptr_bytes arr x else 0) t = arr t := by
  have := ptr_at_ptr_bytes arr t h
  unfold ptr_at at *
  have h1 : 2 * t < 512 := by omega
  have h2 : 2 * t + 1 < 512 := by omega
  simp only [h1, h2, if_true]
  exact this

theorem ext_self (L : Role → Bool) (r : Role) : ext L r r = true := by
  simp [ext]

theorem ext_of_ne (L : Role → Bool) (r r' : Role) (h : r' ≠ r) : ext L r r' = L r' := by
  simp [ext, h]

theorem upd_self (blk : Role → Nat) (r : Role) (b : Nat) : upd blk r b r = b := by
  simp [upd]

theorem upd_of_ne (blk : Role → Nat) (r r' : Role) (b : Nat) (h : r' ≠ r) :
    upd blk r b r' = blk r' := by
  simp [upd, h]

/-- A block that is not allocated is none of the blocks the file owns. -/
theorem owns.fresh {fs : F16FS_t} {idx : Nat} {src : Nat → Nat} {blk : Role → Nat}
    {L : Role → Bool} {kc : Nat} (h : owns fs idx src blk L kc) {b : Nat}
    (hb : fs.fs.used b = false) (r : Role) (hr : L r = true) : blk r ≠ b := by
  intro e
  have := (h.ok r hr).2.2
  rw [e, hb] at this
  exact Bool.noConfusion this

theorem owns.ok_ext {fs fs1 : F16FS_t} {idx : Nat} {src : Nat → Nat} {blk : Role → Nat}
    {L : Role → Bool} {kc : Nat} (h : owns fs idx src blk L kc) {b : Nat} (r0 : Role)
    (hb0 : b ≠ 0) (hb1 : b < 65536) (hu : fs1.fs.used b = true)
    (hmono : ∀ c, fs.fs.used c = true → fs1.fs.used c = true) :
    ∀ r, ext L r0 r = true →
      upd blk r0 b r ≠ 0 ∧ upd blk r0 b r < 65536 ∧ fs1.fs.used (upd blk r0 b r) = true := by
  intro r hr
  by_cases e : r = r0
  · subst e; rw [upd_self]; exact ⟨hb0, hb1, hu⟩
  · rw [ext_of_ne _ _ _ e] at hr
    rw [upd_of_ne _ _ _ _ e]
    have := h.ok r hr
    exact ⟨this.1, this.2.1, hmono _ this.2.2⟩

theorem owns.inj_ext {fs : F16FS_t} {idx : Nat} {src : Nat → Nat} {blk : Role → Nat}
    {L : Role → Bool} {kc : Nat} (h : owns fs idx src blk L kc) {b : Nat} (r0 : Role)
    (hbu : fs.fs.used b = false) :
    ∀ r r', ext L r0 r = true → ext L r0 r' = true →
      upd blk r0 b r = upd blk r0 b r' → r = r' := by
  have hfr := h.fresh hbu
  intro r r' hr hr' hbb
  by_cases e : r = r0 <;> by_cases e' : r' = r0
  · rw [e, e']
  · rw [ext_of_ne _ _ _ e'] at hr'
    rw [e, upd_self, upd_of_ne _ _ _ _ e'] at hbb
    exact absurd hbb.symm (hfr r' hr')
  · rw [ext_of_ne _ _ _ e] at hr
    rw [e', upd_self, upd_of_ne _ _ _ _ e] at hbb
    exact absurd hbb (hfr r hr)
  · rw [ext_of_ne _ _ _ e] at hr
    rw [ext_of_ne _ _ _ e'] at hr'
    rw [upd_of_ne _ _ _ _ e, upd_of_ne _ _ _ _ e'] at hbb
    exact h.inj r r' hr hr' hbb

theorem gbp_direct_write {fs : F16FS_t} {idx : Nat} {src : Nat → Nat} {blk : Role → Nat}
    {L : Role → Bool} {kc : Nat} (h : owns fs idx src blk L kc) (j : Nat) (hj : j < 6)
    (hL : L (Role.data j) = false) (hkc : kc ≤ j) :
    (get_block_ptr_direct fs idx j 0).2 = -1 ∨
    ∃ b : Nat, (get_block_ptr_direct fs idx j 0).2 = (b : Int) ∧
      owns (get_block_ptr_direct fs idx j 0).1 idx src (upd blk (Role.data j) b)
        (ext L (Role.data j)) kc ∧
      (get_block_ptr_direct fs idx j 0).1.file_descriptors = fs.file_descriptors ∧
      ((get_block_ptr_direct fs idx j 0).1.inodes idx).file_size = (fs.inodes idx).file_size := by
  have hd := h.direct j hj
  rw [hL] at hd
  simp only [Bool.false_eq_true, if_false] at hd
  unfold get_block_ptr_direct
  simp only [hd, and_self, if_true]
  by_cases ha : (alloc_ptr fs).2 = 0
  · left; simp [ha]
  · right
    obtain ⟨b, hb0, hb1, hbu, hab⟩ := alloc_ptr_spec fs ha
    simp only [hab, hb0, if_false]
    refine ⟨b, rfl, ?_, rfl, ?_⟩
    · constructor
      · intro j' hj'
        by_cases e : j' = j
        · subst e; simp [set_inode, ext_self, upd_self]
        · have e' : Role.data j' ≠ Role.data j := by simpa using e
          simp [set_inode, mark, e, ext_of_ne _ _ _ e', upd_of_ne _ _ _ _ e', h.direct j' hj']
      · simp [set_inode, mark, ext, upd, h.indirect]
      · simp [set_inode, mark, ext, upd, h.double]
      · intro hl t ht
        have hl' : L Role.ind = true := by simpa [ext] using hl
        have e2 : t + 6 ≠ j := by omega
        simp [set_inode, mark, ext, upd, e2, h.ind_arr hl' t ht]
      · intro hl i hi
        have hl' : L Role.dbl = true := by simpa [ext] using hl
        simp [set_inode, mark, ext, upd, h.dbl_arr hl' i hi]
      · intro i hi hl t ht
        have hl' : L (Role.sub i) = true := by simpa [ext] using hl
        have e2 : 262 + 256 * i + t ≠ j := by omega
        simp [set_inode, mark, ext, upd, e2, h.sub_arr i hi hl' t ht]
      · intro j' hj' hl x hx
        have e' : Role.data j' ≠ Role.data j := by simp; omega
        rw [ext_of_ne _ _ _ e'] at hl
        simp [set_inode, mark, upd_of_ne _ _ _ _ e', h.content j' hj' hl x hx]
      · exact h.ok_ext _ hb0 hb1 (by simp [set_inode, mark])
          (fun c hc => by simp [set_inode, mark, hc])
      · exact h.inj_ext _ hbu
    · simp [set_inode, mark]

theorem gbp_indirect_slot_write {fs : F16FS_t} {idx : Nat} {src : Nat → Nat} {blk : Role → Nat}
    {L : Role → Bool} {kc : Nat} (h : owns fs idx src blk L kc) (j : Nat) (hj6 : 6 ≤ j)
    (hj : j < 262) (hI : L Role.ind = true) (hL : L (Role.data j) = false) (hkc : kc ≤ j) :
    (get_block_ptr_indirect_slot fs idx j 0).2 = -1 ∨
    ∃ b : Nat, (get_block_ptr_indirect_slot fs idx j 0).2 = (b : Int) ∧
      owns (get_block_ptr_indirect_slot fs idx j 0).1 idx src (upd blk (Role.data j) b)
        (ext L (Role.data j)) kc ∧
      (get_block_ptr_indirect_slot fs idx j 0).1.file_descriptors = fs.file_descriptors ∧
      ((get_block_ptr_indirect_slot fs idx j 0).1.inodes idx).file_size =
        (fs.inodes idx).file_size := by
  have hi := h.indirect
  rw [hI] at hi
  simp only [if_true] at hi
  have hslot := h.ind_arr hI (j - 6) (by omega)
  have hj' : j - 6 + 6 = j := by omega
  rw [hj', hL] at hslot
  simp only [Bool.false_eq_true, if_false] at hslot
  unfold get_block_ptr_indirect_slot
  simp only [block_store_read, hi, hslot, and_self, if_true]
  by_cases ha : (alloc_ptr fs).2 = 0
  · left; simp [ha]
  · right
    obtain ⟨b, hb0, hb1, hbu, hab⟩ := alloc_ptr_spec fs ha
    simp only [hab, hb0, if_false]
    have hmi : ((mark fs b).inodes idx).indirect_block_ptr = blk Role.ind := hi
    rw [hmi]
    have hne : ∀ r, L r = true → r ≠ Role.ind → blk r ≠ blk Role.ind :=
      fun r hr hn e => hn (h.inj r Role.ind hr hI e)
    have harr : ∀ t, t < 256 →
        ptr_at ((fs_block_write (mark fs b) (blk Role.ind)
          (ptr_bytes (fun j_1 => if j_1 = j - 6 then b
            else ptr_at (fs.fs.data (blk Role.ind)) j_1))).fs.data (blk Role.ind)) t =
        if t = j - 6 then b else ptr_at (fs.fs.data (blk Role.ind)) t := by
      intro t ht
      simp only [fs_block_write, block_store_write, if_true]
      rw [ptr_at_written _ t ht]
      by_cases e : t = j - 6
      · simp [e, hb1]
      · simp only [e, if_false]
        rw [h.ind_arr hI t ht]
        split
        · exact (h.ok _ (by assumption)).2.1
        · omega
    refine ⟨b, by simp, ?_, rfl, rfl⟩
    constructor
    · intro j' hj'
      have e2 : j' ≠ j := by omega
      simp [fs_block_write, mark, ext, upd, e2, h.direct j' hj']
    · simp [fs_block_write, mark, ext, upd, h.indirect]
    · simp [fs_block_write, mark, ext, upd, h.double]
    · intro hl t ht
      rw [upd_of_ne _ _ _ _ (by simp : Role.ind ≠ Role.data j), harr t ht, h.ind_arr hI t ht]
      by_cases e : t = j - 6
      · simp [e, hj', ext, upd]
      · have e2 : t + 6 ≠ j := by omega
        simp [e, e2, ext, upd]
    · intro hl i hi'
      have hl' : L Role.dbl = true := by simpa [ext] using hl
      have := hne Role.dbl hl' (by simp)
      simp [fs_block_write, block_store_write, mark, ext, upd, this, h.dbl_arr hl' i hi']
    · intro i hi' hl t ht
      have hl' : L (Role.sub i) = true := by simpa [ext] using hl
      have := hne (Role.sub i) hl' (by simp)
      have e2 : 262 + 256 * i + t ≠ j := by omega
      simp [fs_block_write, block_store_write, mark, ext, upd, this, e2, h.sub_arr i hi' hl' t ht]
    · intro j' hj' hl x hx
      have e' : Role.data j' ≠ Role.data j := by simp; omega
      rw [ext_of_ne _ _ _ e'] at hl
      have := hne (Role.data j') hl (by simp)
      simp [fs_block_write, block_store_write, mark, upd_of_ne _ _ _ _ e', this,
        h.content j' hj' hl x hx]
    · exact h.ok_ext _ hb0 hb1 (by simp [fs_block_write, block_store_write, mark])
        (fun c hc => by simp [fs_block_write, block_store_write, mark, hc])
    · exact h.inj_ext _ hbu

theorem ext_of_mem (L : Role → Bool) (r : Role) (h : L r = true) : ext L r = L := by
  funext r'
  by_cases e : r' = r
  · subst e; simp [ext, h]
  · simp [ext, e]

/-- Attaching a fresh, zero-filled indirect index block. -/
theorem owns.attach_ind {fs : F16FS_t} {idx : Nat} {src : Nat → Nat} {blk : Role → Nat}
    {L : Role → Bool} {kc : Nat} (h : owns fs idx src blk L kc) {b : Nat}
    (hb0 : b ≠ 0) (hb1 : b < 65536) (hbu : fs.fs.used b = false)
    (hnew : ∀ t, t < 256 → L (Role.data (t + 6)) = false) :
    owns (set_inode (fs_block_write (mark fs b) b (ptr_bytes (fun _ => 0))) idx
        { (fs_block_write (mark fs b) b (ptr_bytes (fun _ => 0))).inodes idx with
          indirect_block_ptr := b })
      idx src (upd blk Role.ind b) (ext L Role.ind) kc := by
  have hfr := h.fresh hbu
  constructor
  · intro j' hj'
    simp [set_inode, fs_block_write, mark, ext, upd, h.direct j' hj']
  · simp [set_inode, fs_block_write, mark, ext, upd]
  · simp [set_inode, fs_block_write, mark, ext, upd, h.double]
  · intro _ t ht
    have := ptr_at_written (fun _ => 0) t ht (by simp)
    simp [set_inode, fs_block_write, block_store_write, mark, ext, upd, hnew t ht, this]
  · intro hl i hi
    have hl' : L Role.dbl = true := by simpa [ext] using hl
    have := hfr Role.dbl hl'
    simp [set_inode, fs_block_write, block_store_write, mark, ext, upd, this, h.dbl_arr hl' i hi]
  · intro i hi hl t ht
    have hl' : L (Role.sub i) = true := by simpa [ext] using hl
    have := hfr (Role.sub i) hl'
    simp [set_inode, fs_block_write, block_store_write, mark, ext, upd, this,
      h.sub_arr i hi hl' t ht]
  · intro j' hj' hl x hx
    have hl' : L (Role.data j') = true := by simpa [ext] using hl
    have := hfr (Role.data j') hl'
    simp [set_inode, fs_block_write, block_store_write, mark, upd, this, h.content j' hj' hl' x hx]
  · exact h.ok_ext _ hb0 hb1 (by simp [set_inode, fs_block_write, block_store_write, mark])
      (fun c hc => by simp [set_inode, fs_block_write, block_store_write, mark, hc])
  · exact h.inj_ext _ hbu

theorem gbp_indirect_write {fs : F16FS_t} {idx : Nat} {src : Nat → Nat} {blk : Role → Nat}
    {L : Role → Bool} {kc : Nat} (h : owns fs idx src blk L kc) (j : Nat) (hj6 : 6 ≤ j)
    (hj : j < 262) (hL : L (Role.data j) = false) (hkc : kc ≤ j)
    (hnew : L Role.ind = false → ∀ t, t < 256 → L (Role.data (t + 6)) = false) :
    (get_block_ptr_indirect fs idx j 0).2 = -1 ∨
    ∃ (blk1 : Role → Nat) (b : Nat), (get_block_ptr_indirect fs idx j 0).2 = (b : Int) ∧
      blk1 (Role.data j) = b ∧
      owns (get_block_ptr_indirect fs idx j 0).1 idx src blk1
        (ext (ext L Role.ind) (Role.data j)) kc ∧
      (get_block_ptr_indirect fs idx j 0).1.file_descriptors = fs.file_descriptors ∧
      ((get_block_ptr_indirect fs idx j 0).1.inodes idx).file_size =
        (fs.inodes idx).file_size := by
  unfold get_block_ptr_indirect
  cases hI : L Role.ind with
  | true =>
    have hi := h.indirect
    rw [hI] at hi
    simp only [if_true] at hi
    have hn0 : (fs.inodes idx).indirect_block_ptr ≠ 0 := by rw [hi]; exact (h.ok _ hI).1
    simp only [hn0, false_and, if_false]
    rw [ext_of_mem L Role.ind hI]
    rcases gbp_indirect_slot_write h j hj6 hj hI hL hkc with hf | ⟨b, h1, h2, h3, h4⟩
    · exact Or.inl hf
    · exact Or.inr ⟨_, b, h1, upd_self _ _ _, h2, h3, h4⟩
  | false =>
    have hi := h.indirect
    rw [hI] at hi
    simp only [Bool.false_eq_true, if_false] at hi
    simp only [hi, and_self, if_true]
    by_cases ha : (alloc_ptr fs).2 = 0
    · left; simp [ha]
    · obtain ⟨b, hb0, hb1, hbu, hab⟩ := alloc_ptr_spec fs ha
      simp only [hab, hb0, if_false]
      have h1 := h.attach_ind hb0 hb1 hbu (hnew hI)
      have hL1 : ext L Role.ind (Role.data j) = false := by simp [ext, hL]
      rcases gbp_indirect_slot_write h1 j hj6 hj (ext_self _ _) hL1 hkc with
        hf | ⟨b2, e1, e2, e3, e4⟩
      · exact Or.inl hf
      · refine Or.inr ⟨_, b2, e1, upd_self _ _ _, e2, ?_, ?_⟩
        · rw [e3]; rfl
        · rw [e4]; simp [set_inode, fs_block_write, mark]

theorem gbp_double_slot_write {fs : F16FS_t} {idx : Nat} {src : Nat → Nat} {blk : Role → Nat}
    {L : Role → Bool} {kc : Nat} (h : owns fs idx src blk L kc) (darr : Nat → Nat)
    (i t : Nat) (hi : i < 256) (ht : t < 256) (hS : L (Role.sub i) = true)
    (hdarr : darr i = blk (Role.sub i)) (hL : L (Role.data (262 + 256 * i + t)) = false)
    (hkc : kc ≤ 262 + 256 * i + t) :
    (get_block_ptr_double_slot fs darr i (262 + 256 * i + t) 0).2 = -1 ∨
    ∃ b : Nat, (get_block_ptr_double_slot fs darr i (262 + 256 * i + t) 0).2 = (b : Int) ∧
      owns (get_block_ptr_double_slot fs darr i (262 + 256 * i + t) 0).1 idx src
        (upd blk (Role.data (262 + 256 * i + t)) b) (ext L (Role.data (262 + 256 * i + t))) kc ∧
      (get_block_ptr_double_slot fs darr i (262 + 256 * i + t) 0).1.file_descriptors =
        fs.file_descriptors ∧
      ((get_block_ptr_double_slot fs darr i (262 + 256 * i + t) 0).1.inodes idx).file_size =
        (fs.inodes idx).file_size := by
  have hsub : (262 + 256 * i + t - 262 - 256 * i) % 65536 = t := by omega
  have hslot := h.sub_arr i hi hS t ht
  rw [hL] at hslot
  simp only [Bool.false_eq_true, if_false] at hslot
  unfold get_block_ptr_double_slot
  simp only [block_store_read, hsub, hdarr, hslot, and_self, if_true]
  by_cases ha : (alloc_ptr fs).2 = 0
  · left; simp [ha]
  · right
    obtain ⟨b, hb0, hb1, hbu, hab⟩ := alloc_ptr_spec fs ha
    simp only [hab, hb0, if_false]
    have hne : ∀ r, L r = true → r ≠ Role.sub i → blk r ≠ blk (Role.sub i) :=
      fun r hr hn e => hn (h.inj r (Role.sub i) hr hS e)
    have harr : ∀ t', t' < 256 →
        ptr_at ((fs_block_write (mark fs b) (blk (Role.sub i))
          (ptr_bytes (fun j_1 => if j_1 = t then b
            else ptr_at (fs.fs.data (blk (Role.sub i))) j_1))).fs.data (blk (Role.sub i))) t' =
        if t' = t then b else ptr_at (fs.fs.data (blk (Role.sub i))) t' := by
      intro t' ht'
      simp only [fs_block_write, block_store_write, if_true]
      rw [ptr_at_written _ t' ht']
      by_cases e : t' = t
      · simp [e, hb1]
      · simp only [e, if_false]
        rw [h.sub_arr i hi hS t' ht']
        split
        · exact (h.ok _ (by assumption)).2.1
        · omega
    refine ⟨b, by simp, ?_, rfl, rfl⟩
    constructor
    · intro j' hj'
      have e2 : j' ≠ 262 + 256 * i + t := by omega
      simp [fs_block_write, mark, ext, upd, e2, h.direct j' hj']
    · simp [fs_block_write, mark, ext, upd, h.indirect]
    · simp [fs_block_write, mark, ext, upd, h.double]
    · intro hl t' ht'
      have hl' : L Role.ind = true := by simpa [ext] using hl
      have := hne Role.ind hl' (by simp)
      have e2 : t' + 6 ≠ 262 + 256 * i + t := by omega
      simp [fs_block_write, block_store_write, mark, ext, upd, this, e2, h.ind_arr hl' t' ht']
    · intro hl i' hi'
      have hl' : L Role.dbl = true := by simpa [ext] using hl
      have := hne Role.dbl hl' (by simp)
      simp [fs_block_write, block_store_write, mark, ext, upd, this, h.dbl_arr hl' i' hi']
    · intro i' hi' hl t' ht'
      have hl' : L (Role.sub i') = true := by simpa [ext] using hl
      rw [upd_of_ne _ _ _ _ (by simp : Role.sub i' ≠ Role.data (262 + 256 * i + t))]
      by_cases ei : i' = i
      · subst ei
        rw [harr t' ht', h.sub_arr i' hi' hS t' ht']
        by_cases e : t' = t
        · simp [e, ext, upd]
        · have e2 : 262 + 256 * i' + t' ≠ 262 + 256 * i' + t := by omega
          simp [e, e2, ext, upd]
      · have := hne (Role.sub i') hl' (by simpa using ei)
        have e2 : 262 + 256 * i' + t' ≠ 262 + 256 * i + t := by omega
        simp [fs_block_write, block_store_write, mark, ext, upd, this, e2,
          h.sub_arr i' hi' hl' t' ht']
    · intro j' hj' hl x hx
      have e' : Role.data j' ≠ Role.data (262 + 256 * i + t) := by simp; omega
      rw [ext_of_ne _ _ _ e'] at hl
      have := hne (Role.data j') hl (by simp)
      simp [fs_block_write, block_store_write, mark, upd_of_ne _ _ _ _ e', this,
        h.content j' hj' hl x hx]
    · exact h.ok_ext _ hb0 hb1 (by simp [fs_block_write, block_store_write, mark])
        (fun c hc => by simp [fs_block_write, block_store_write, mark, hc])
    · exact h.inj_ext _ hbu

/-- Attaching a fresh, zero-filled index block as entry `i` of the double-indirect block. -/
theorem owns.attach_sub {fs : F16FS_t} {idx : Nat} {src : Nat → Nat} {blk : Role → Nat}
    {L : Role → Bool} {kc : Nat} (h : owns fs idx src blk L kc) {b : Nat}
    (hb0 : b ≠ 0) (hb1 : b < 65536) (hbu : fs.fs.used b = false) (i : Nat) (hi : i < 256)
    (hD : L Role.dbl = true)
    (hnew : ∀ t, t < 256 → L (Role.data (262 + 256 * i + t)) = false) :
    owns (fs_block_write (fs_block_write (mark fs b) b (ptr_bytes (fun _ => 0))) (blk Role.dbl)
        (ptr_bytes (fun j => if j = i then b else ptr_at (fs.fs.data (blk Role.dbl)) j)))
      idx src (upd blk (Role.sub i) b) (ext L (Role.sub i)) kc := by
  have hfr := h.fresh hbu
  have hbd : blk Role.dbl ≠ b := hfr _ hD
  have hne : ∀ r, L r = true → r ≠ Role.dbl → blk r ≠ blk Role.dbl :=
    fun r hr hn e => hn (h.inj r Role.dbl hr hD e)
  constructor
  · intro j' hj'
    simp [fs_block_write, mark, ext, upd, h.direct j' hj']
  · simp [fs_block_write, mark, ext, upd, h.indirect]
  · simp [fs_block_write, mark, ext, upd, h.double]
  · intro hl t ht
    have hl' : L Role.ind = true := by simpa [ext] using hl
    have h1 := hfr Role.ind hl'
    have h2 := hne Role.ind hl' (by simp)
    simp [fs_block_write, block_store_write, mark, ext, upd, h1, h2, h.ind_arr hl' t ht]
  · intro _ i' hi'
    rw [upd_of_ne _ _ _ _ (by simp : Role.dbl ≠ Role.sub i)]
    simp only [fs_block_write, block_store_write, if_true]
    rw [ptr_at_written _ i' hi']
    · rw [h.dbl_arr hD i' hi']
      by_cases e : i' = i
      · simp [e, ext, upd]
      · simp [e, ext, upd]
    · by_cases e : i' = i
      · simp [e, hb1]
      · simp only [e, if_false]
        rw [h.dbl_arr hD i' hi']
        split
        · exact (h.ok _ (by assumption)).2.1
        · omega
  · intro i' hi' hl t ht
    by_cases e : i' = i
    · subst e
      have := ptr_at_written (fun _ => 0) t ht (by simp)
      simp [fs_block_write, block_store_write, mark, ext, upd, hnew t ht, this, hbd.symm]
    · have hl' : L (Role.sub i') = true := by simpa [ext, e] using hl
      have h1 := hfr (Role.sub i') hl'
      have h2 := hne (Role.sub i') hl' (by simp)
      simp [fs_block_write, block_store_write, mark, ext, upd, e, h1, h2, h.sub_arr i' hi' hl' t ht]
  · intro j' hj' hl x hx
    have hl' : L (Role.data j') = true := by simpa [ext] using hl
    have h1 := hfr (Role.data j') hl'
    have h2 := hne (Role.data j') hl' (by simp)
    simp [fs_block_write, block_store_write, mark, upd, h1, h2, h.content j' hj' hl' x hx]
  · exact h.ok_ext _ hb0 hb1 (by simp [fs_block_write, block_store_write, mark, hbd.symm])
      (fun c hc => by
        simp only [fs_block_write, block_store_write, mark]
        split
        · rfl
        · exact hc)
  · exact h.inj_ext _ hbu

theorem gbp_double_sub_write {fs : F16FS_t} {idx : Nat} {src : Nat → Nat} {blk : Role → Nat}
    {L : Role → Bool} {kc : Nat} (h : owns fs idx src blk L kc) (i t : Nat) (hi : i < 256)
    (ht : t < 256) (hD : L Role.dbl = true) (hL : L (Role.data (262 + 256 * i + t)) = false)
    (hkc : kc ≤ 262 + 256 * i + t)
    (hnew : L (Role.sub i) = false → ∀ t, t < 256 → L (Role.data (262 + 256 * i + t)) = false) :
    (get_block_ptr_double_sub fs idx (262 + 256 * i + t) 0).2 = -1 ∨
    ∃ (blk1 : Role → Nat) (b : Nat),
      (get_block_ptr_double_sub fs idx (262 + 256 * i + t) 0).2 = (b : Int) ∧
      blk1 (Role.data (262 + 256 * i + t)) = b ∧
      owns (get_block_ptr_double_sub fs idx (262 + 256 * i + t) 0).1 idx src blk1
        (ext (ext L (Role.sub i)) (Role.data (262 + 256 * i + t))) kc ∧
      (get_block_ptr_double_sub fs idx (262 + 256 * i + t) 0).1.file_descriptors =
        fs.file_descriptors ∧
      ((get_block_ptr_double_sub fs idx (262 + 256 * i + t) 0).1.inodes idx).file_size =
        (fs.inodes idx).file_size := by
  have hidx : (262 + 256 * i + t - 262) / 256 % 65536 = i := by omega
  have hd := h.double
  rw [hD] at hd
  simp only [if_true] at hd
  have hent := h.dbl_arr hD i hi
  unfold get_block_ptr_double_sub
  simp only [block_store_read, hidx, hd]
  cases hS : L (Role.sub i) with
  | true =>
    rw [hS] at hent
    simp only [if_true] at hent
    have hn0 : ptr_at (fs.fs.data (blk Role.dbl)) i ≠ 0 := by rw [hent]; exact (h.ok _ hS).1
    simp only [hn0, false_and, if_false]
    rw [ext_of_mem L (Role.sub i) hS]
    rcases gbp_double_slot_write h (fun j => ptr_at (fs.fs.data (blk Role.dbl)) j) i t hi ht hS
        hent hL hkc with hf | ⟨b, h1, h2, h3, h4⟩
    · exact Or.inl hf
    · exact Or.inr ⟨_, b, h1, upd_self _ _ _, h2, h3, h4⟩
  | false =>
    rw [hS] at hent
    simp only [Bool.false_eq_true, if_false] at hent
    simp only [hent, and_self, if_true]
    by_cases ha : (alloc_ptr fs).2 = 0
    · left; simp [ha]
    · obtain ⟨b, hb0, hb1, hbu, hab⟩ := alloc_ptr_spec fs ha
      simp only [hab, hb0, if_false]
      have hmd : ((fs_block_write (mark fs b) b (ptr_bytes fun _ => 0)).inodes
          idx).double_indirect_block_ptr = blk Role.dbl := hd
      rw [hmd]
      have h1 := h.attach_sub hb0 hb1 hbu i hi hD (hnew hS)
      have hL1 : ext L (Role.sub i) (Role.data (262 + 256 * i + t)) = false := by simp [ext, hL]
      rcases gbp_double_slot_write h1
          (fun j => if j = i then b else ptr_at (fs.fs.data (blk Role.dbl)) j) i t hi ht
          (ext_self _ _) (by simp [upd]) hL1 hkc with hf | ⟨b2, e1, e2, e3, e4⟩
      · exact Or.inl hf
      · refine Or.inr ⟨_, b2, e1, upd_self _ _ _, e2, ?_, ?_⟩
        · rw [e3]; rfl
        · rw [e4]; rfl

/-- Attaching a fresh, zero-filled double-indirect index block. -/
theorem owns.attach_dbl {fs : F16FS_t} {idx : Nat} {src : Nat → Nat} {blk : Role → Nat}
    {L : Role → Bool} {kc : Nat} (h : owns fs idx src blk L kc) {b : Nat}
    (hb0 : b ≠ 0) (hb1 : b < 65536) (hbu : fs.fs.used b = false)
    (hnew : ∀ i, i < 256 → L (Role.sub i) = false) :
    owns (set_inode (fs_block_write (mark fs b) b (ptr_bytes (fun _ => 0))) idx
        { (fs_block_write (mark fs b) b (ptr_bytes (fun _ => 0))).inodes idx with
          double_indirect_block_ptr := b })
      idx src (upd blk Role.dbl b) (ext L Role.dbl) kc := by
  have hfr := h.fresh hbu
  constructor
  · intro j' hj'
    simp [set_inode, fs_block_write, mark, ext, upd, h.direct j' hj']
  · simp [set_inode, fs_block_write, mark, ext, upd, h.indirect]
  · simp [set_inode, fs_block_write, mark, ext, upd]
  · intro hl t ht
    have hl' : L Role.ind = true := by simpa [ext] using hl
    have := hfr Role.ind hl'
    simp [set_inode, fs_block_write, block_store_write, mark, ext, upd, this, h.ind_arr hl' t ht]
  · intro _ i hi
    have := ptr_at_written (fun _ => 0) i hi (by simp)
    simp [set_inode, fs_block_write, block_store_write, mark, ext, upd, hnew i hi, this]
  · intro i hi hl t ht
    have hl' : L (Role.sub i) = true := by simpa [ext] using hl
    have := hfr (Role.sub i) hl'
    simp [set_inode, fs_block_write, block_store_write, mark, ext, upd, this,
      h.sub_arr i hi hl' t ht]
  · intro j' hj' hl x hx
    have hl' : L (Role.data j') = true := by simpa [ext] using hl
    have := hfr (Role.data j') hl'
    simp [set_inode, fs_block_write, block_store_write, mark, upd, this, h.content j' hj' hl' x hx]
  · exact h.ok_ext _ hb0 hb1 (by simp [set_inode, fs_block_write, block_store_write, mark])
      (fun c hc => by simp [set_inode, fs_block_write, block_store_write, mark, hc])
  · exact h.inj_ext _ hbu

theorem gbp_double_write {fs : F16FS_t} {idx : Nat} {src : Nat → Nat} {blk : Role → Nat}
    {L : Role → Bool} {kc : Nat} (h : owns fs idx src blk L kc) (i t : Nat) (hi : i < 256)
    (ht : t < 256) (hL : L (Role.data (262 + 256 * i + t)) = false)
    (hkc : kc ≤ 262 + 256 * i + t)
    (hnewD : L Role.dbl = false → ∀ i, i < 256 → L (Role.sub i) = false)
    (hnew : L (Role.sub i) = false → ∀ t, t < 256 → L (Role.data (262 + 256 * i + t)) = false) :
    (get_block_ptr_double fs idx (262 + 256 * i + t) 0).2 = -1 ∨
    ∃ (blk1 : Role → Nat) (b : Nat),
      (get_block_ptr_double fs idx (262 + 256 * i + t) 0).2 = (b : Int) ∧
      blk1 (Role.data (262 + 256 * i + t)) = b ∧
      owns (get_block_ptr_double fs idx (262 + 256 * i + t) 0).1 idx src blk1
        (ext (ext (ext L Role.dbl) (Role.sub i)) (Role.data (262 + 256 * i + t))) kc ∧
      (get_block_ptr_double fs idx (262 + 256 * i + t) 0).1.file_descriptors =
        fs.file_descriptors ∧
      ((get_block_ptr_double fs idx (262 + 256 * i + t) 0).1.inodes idx).file_size =
        (fs.inodes idx).file_size := by
  unfold get_block_ptr_double
  cases hD : L Role.dbl with
  | true =>
    have hd := h.double
    rw [hD] at hd
    simp only [if_true] at hd
    have hn0 : (fs.inodes idx).double_indirect_block_ptr ≠ 0 := by rw [hd]; exact (h.ok _ hD).1
    simp only [hn0, false_and, if_false]
    rw [ext_of_mem L Role.dbl hD]
    exact gbp_double_sub_write h i t hi ht hD hL hkc hnew
  | false =>
    have hd := h.double
    rw [hD] at hd
    simp only [Bool.false_eq_true, if_false] at hd
    simp only [hd, and_self, if_true]
    by_cases ha : (alloc_ptr fs).2 = 0
    · left; simp [ha]
    · obtain ⟨b, hb0, hb1, hbu, hab⟩ := alloc_ptr_spec fs ha
      simp only [hab, hb0, if_false]
      have h1 := h.attach_dbl hb0 hb1 hbu (hnewD hD)
      have hL1 : ext L Role.dbl (Role.data (262 + 256 * i + t)) = false := by simp [ext, hL]
      have hS1 : ext L Role.dbl (Role.sub i) = false := by simp [ext, hnewD hD i hi]
      have hnew1 : ext L Role.dbl (Role.sub i) = false →
          ∀ t, t < 256 → ext L Role.dbl (Role.data (262 + 256 * i + t)) = false := by
        intro _ t' ht'
        simp [ext, hnew (hnewD hD i hi) t' ht']
      rcases gbp_double_sub_write h1 i t hi ht (ext_self _ _) hL1 hkc hnew1 with
        hf | ⟨blk1, b2, e1, e0, e2, e3, e4⟩
      · exact Or.inl hf
      · refine Or.inr ⟨blk1, b2, e1, e0, e2, ?_, ?_⟩
        · rw [e3]; rfl
        · rw [e4]; simp [set_inode, fs_block_write, mark]

theorem live_succ_direct (k : Nat) (hk : k < 6) : ext (live k) (Role.data k) = live (k + 1) := by
  funext r
  rw [Bool.eq_iff_iff]
  cases r <;> simp [ext, live] <;> omega

theorem live_succ_indirect (k : Nat) (hk6 : 6 ≤ k) (hk : k < 262) :
    ext (ext (live k) Role.ind) (Role.data k) = live (k + 1) := by
  funext r
  rw [Bool.eq_iff_iff]
  cases r <;> simp [ext, live] <;> omega

theorem live_succ_double (i t : Nat) (hi : i < 256) (ht : t < 256) :
    ext (ext (ext (live (262 + 256 * i + t)) Role.dbl) (Role.sub i))
      (Role.data (262 + 256 * i + t)) = live (262 + 256 * i + t + 1) := by
  funext r
  rw [Bool.eq_iff_iff]
  cases r <;> simp [ext, live] <;> omega

/-- A file cannot own more data blocks than the store has block ids. -/
theorem owns.bound {fs : F16FS_t} {idx : Nat} {src : Nat → Nat} {blk : Role → Nat}
    {k kc : Nat} (h : owns fs idx src blk (live k) kc) : k ≤ 65536 := by
  have hl : ∀ j : Fin k, live k (Role.data j) = true := fun j => by simp [live]
  have hinj : Function.Injective
      (fun j : Fin k => (⟨blk (Role.data j), (h.ok _ (hl j)).2.1⟩ : Fin 65536)) := by
    intro a b e
    have e1 : blk (Role.data a) = blk (Role.data b) := by simpa using e
    have e2 := h.inj _ _ (hl a) (hl b) e1
    have e3 : (a : Nat) = b := by simpa using e2
    exact Fin.ext e3
  have := Fintype.card_le_of_injective _ hinj
  rw [Fintype.card_fin, Fintype.card_fin] at this
  exact this

theorem get_block_ptr_write_step {fs : F16FS_t} {idx : Nat} {src : Nat → Nat}
    {blk : Role → Nat} {k : Nat} (h : owns fs idx src blk (live k) k) (hk : 1 ≤ k) :
    (get_block_ptr fs idx k 0).2 = -1 ∨
    ∃ (blk1 : Role → Nat) (b : Nat), (get_block_ptr fs idx k 0).2 = (b : Int) ∧
      blk1 (Role.data k) = b ∧
      owns (get_block_ptr fs idx k 0).1 idx src blk1 (live (k + 1)) k ∧
      (get_block_ptr fs idx k 0).1.file_descriptors = fs.file_descriptors ∧
      ((get_block_ptr fs idx k 0).1.inodes idx).file_size = (fs.inodes idx).file_size := by
  have hb := h.bound
  have hL : live k (Role.data k) = false := by simp [live]
  unfold get_block_ptr
  by_cases h262 : k ≥ 262
  · simp only [h262, if_true]
    obtain ⟨i, t, hi, ht, rfl⟩ : ∃ i t, i < 256 ∧ t < 256 ∧ k = 262 + 256 * i + t :=
      ⟨(k - 262) / 256, (k - 262) % 256, by omega, by omega, by omega⟩
    have := gbp_double_write h i t hi ht hL le_rfl
      (by intro hd i' hi'; simp [live] at hd ⊢; omega)
      (by intro hs t' ht'; simp [live] at hs ⊢; omega)
    rw [live_succ_double i t hi ht] at this
    exact this
  · simp only [h262, if_false]
    by_cases h6 : k ≥ 6
    · simp only [h6, if_true]
      have := gbp_indirect_write h k h6 (by omega) hL le_rfl
        (by intro hd t' ht'; simp [live] at hd ⊢; omega)
      rw [live_succ_indirect k h6 (by omega)] at this
      exact this
    · simp only [h6, if_false]
      rcases gbp_direct_write h k (by omega) hL le_rfl with hf | ⟨b, h1, h2, h3, h4⟩
      · exact Or.inl hf
      · rw [live_succ_direct k (by omega)] at h2
        exact Or.inr ⟨_, b, h1, upd_self _ _ _, h2, h3, h4⟩

/-- In read mode `get_block_ptr` finds the data block of every logical index the file
has filled, and changes nothing. -/
theorem get_block_ptr_read {fs : F16FS_t} {idx : Nat} {src : Nat → Nat}
    {blk : Role → Nat} {k kc : Nat} (h : owns fs idx src blk (live k) kc) (j : Nat)
    (hj : j < k) : get_block_ptr fs idx j 1 = (fs, (blk (Role.data j) : Int)) := by
  have hb := h.bound
  have hlj : live k (Role.data j) = true := by simp [live, hj]
  unfold get_block_ptr
  by_cases h262 : j ≥ 262
  · simp only [h262, if_true]
    obtain ⟨i, t, hi, ht, rfl⟩ : ∃ i t, i < 256 ∧ t < 256 ∧ j = 262 + 256 * i + t :=
      ⟨(j - 262) / 256, (j - 262) % 256, by omega, by omega, by omega⟩
    have hD : live k Role.dbl = true := by simp [live]; omega
    have hS : live k (Role.sub i) = true := by simp [live]; omega
    have hidx : (262 + 256 * i + t - 262) / 256 % 65536 = i := by omega
    have hsub : (262 + 256 * i + t - 262 - 256 * i) % 65536 = t := by omega
    have hd := h.double
    rw [hD] at hd
    simp only [if_true] at hd
    have h1 := h.dbl_arr hD i hi
    rw [hS] at h1
    simp only [if_true] at h1
    have h2 := h.sub_arr i hi hS t ht
    rw [hlj] at h2
    simp only [if_true] at h2
    simp [get_block_ptr_double, get_block_ptr_double_sub, get_block_ptr_double_slot,
      block_store_read, hidx, hsub, hd, h1, h2]
  · simp only [h262, if_false]
    by_cases h6 : j ≥ 6
    · simp only [h6, if_true]
      have hI : live k Role.ind = true := by simp [live]; omega
      have hi := h.indirect
      rw [hI] at hi
      simp only [if_true] at hi
      have h1 := h.ind_arr hI (j - 6) (by omega)
      have hj' : j - 6 + 6 = j := by omega
      rw [hj', hlj] at h1
      simp only [if_true] at h1
      simp [get_block_ptr_indirect, get_block_ptr_indirect_slot, block_store_read, hi, h1]
    · simp only [h6, if_false]
      have h1 := h.direct j (by omega)
      rw [hlj] at h1
      simp only [if_true] at h1
      simp [get_block_ptr_direct, h1]

theorem toInt32_of_small (n : Nat) (h : n < 2147483648) : toInt32 (n : Int) = n := by
  unfold toInt32
  omega

theorem block_index_of_size (k : Nat) (hk : k ≤ 65536) :
    (toInt32 (((512 * k : Nat) : Int) / 512)).toNat = k := by
  have h1 : ((512 * k : Nat) : Int) / 512 = (k : Int) := by omega
  rw [h1, toInt32_of_small k (by omega)]
  simp

/-- `owns` only looks at the block pointers of the inode and at the block store. -/
theorem owns.of_same {fs fs1 : F16FS_t} {idx : Nat} {src : Nat → Nat} {blk : Role → Nat}
    {L : Role → Bool} {kc : Nat} (h : owns fs idx src blk L kc)
    (h1 : (fs1.inodes idx).direct_block_ptr_array = (fs.inodes idx).direct_block_ptr_array)
    (h2 : (fs1.inodes idx).indirect_block_ptr = (fs.inodes idx).indirect_block_ptr)
    (h3 : (fs1.inodes idx).double_indirect_block_ptr = (fs.inodes idx).double_indirect_block_ptr)
    (h4 : fs1.fs = fs.fs) : owns fs1 idx src blk L kc := by
  constructor
  · rw [h1]; exact h.direct
  · rw [h2]; exact h.indirect
  · rw [h3]; exact h.double
  · rw [h4]; exact h.ind_arr
  · rw [h4]; exact h.dbl_arr
  · rw [h4]; exact h.sub_arr
  · rw [h4]; exact h.content
  · rw [h4]; exact h.ok
  · exact h.inj

theorem owns.after_add_file_size {fs : F16FS_t} {idx : Nat} {src : Nat → Nat} {blk : Role → Nat}
    {L : Role → Bool} {kc : Nat} (h : owns fs idx src blk L kc) (n : Int) :
    owns (add_file_size fs idx n) idx src blk L kc := by
  apply h.of_same
  · simp [add_file_size, set_inode]
  · simp [add_file_size, set_inode]
  · simp [add_file_size, set_inode]
  · rfl

theorem owns.after_add_offset {fs : F16FS_t} {idx : Nat} {src : Nat → Nat} {blk : Role → Nat}
    {L : Role → Bool} {kc : Nat} (h : owns fs idx src blk L kc) (fd : Nat) (n : Int) :
    owns (add_offset fs fd n) idx src blk L kc :=
  h.of_same rfl rfl rfl rfl

/-- Writing the bytes of logical block `k` into its data block. -/
theorem owns.write_data {fs : F16FS_t} {idx : Nat} {src : Nat → Nat} {blk : Role → Nat}
    {k : Nat} (h : owns fs idx src blk (live (k + 1)) k) :
    owns (fs_block_write fs (blk (Role.data k)) (fun x => src (512 * k + x))) idx src blk
      (live (k + 1)) (k + 1) := by
  have hk : live (k + 1) (Role.data k) = true := by simp [live]
  have hne : ∀ r, live (k + 1) r = true → r ≠ Role.data k → blk r ≠ blk (Role.data k) :=
    fun r hr hn e => hn (h.inj r _ hr hk e)
  constructor
  · exact h.direct
  · exact h.indirect
  · exact h.double
  · intro hl t ht
    have := hne Role.ind hl (by simp)
    simp [fs_block_write, block_store_write, this, h.ind_arr hl t ht]
  · intro hl i hi
    have := hne Role.dbl hl (by simp)
    simp [fs_block_write, block_store_write, this, h.dbl_arr hl i hi]
  · intro i hi hl t ht
    have := hne (Role.sub i) hl (by simp)
    simp [fs_block_write, block_store_write, this, h.sub_arr i hi hl t ht]
  · intro j hj hl x hx
    by_cases e : j = k
    · subst e
      simp [fs_block_write, block_store_write, hx]
    · have := hne (Role.data j) hl (by simpa using e)
      simp [fs_block_write, block_store_write, this, h.content j (by omega) hl x hx]
  · intro r hr
    exact h.ok r hr
  · exact h.inj

/-- In write mode `get_block_ptr` returns the block `fs_create` put into
`direct_block_ptr_array[0]`, and changes nothing. -/
theorem get_block_ptr_first {fs : F16FS_t} {idx : Nat} {src : Nat → Nat}
    {blk : Role → Nat} {kc : Nat} (h : owns fs idx src blk (live 1) kc) :
    get_block_ptr fs idx 0 0 = (fs, (blk (Role.data 0) : Int)) := by
  have hl : live 1 (Role.data 0) = true := by simp [live]
  have h1 := h.direct 0 (by omega)
  rw [hl] at h1
  simp only [if_true] at h1
  have h0 := (h.ok _ hl).1
  simp [get_block_ptr, get_block_ptr_direct, h1, h0]

theorem fs_write_loop_normal (idx fsz N : Nat) (src : Nat → Nat)
    (hmode : ¬(fsz < 512 ∧ N < 512)) :
    ∀ (fuel k : Nat) (fs : F16FS_t) (blk : Role → Nat) (left : Int),
      owns fs idx src blk (live (max k 1)) k →
      (fs.inodes idx).file_size = 512 * k →
      left.toNat < fuel →
      0 ≤ 512 * (k : Int) + left →
      512 * (k : Int) - 512 < 512 * k + left →
      (fs_write_loop idx fsz N src fuel fs (512 * k) (512 * (k : Int)) left 0).2
          ≤ 512 * (k : Int) + left ∧
      ((fs_write_loop idx fsz N src fuel fs (512 * k) (512 * (k : Int)) left 0).2
          = 512 * (k : Int) + left →
        ∃ (blk1 : Role → Nat) (m : Nat),
          owns (fs_write_loop idx fsz N src fuel fs (512 * k) (512 * (k : Int)) left 0).1
            idx src blk1 (live (max m 1)) m ∧
          512 * (m : Int) - 512 < 512 * k + left ∧ 512 * (k : Int) + left ≤ 512 * m ∧
          (((fs_write_loop idx fsz N src fuel fs (512 * k) (512 * (k : Int)) left 0).1.inodes
            idx).file_size : Int) = 512 * k + left ∧
          (fs_write_loop idx fsz N src fuel fs (512 * k) (512 * (k : Int)) left 0).1.file_descriptors
            = fs.file_descriptors) := by
  intro fuel
  induction fuel with
  | zero => intro k fs blk left _ _ hf; omega
  | succ fuel ih =>
    intro k fs blk left hown hsize hfuel hnn hlow
    have hkb : k ≤ 65536 := by have := hown.bound; omega
    rw [fs_write_loop]
    by_cases hl : left > 0
    · simp only [hl, if_true, hsize, block_index_of_size k hkb]
      have key : (get_block_ptr fs idx k 0).2 = -1 ∨
          ∃ (blk1 : Role → Nat) (b : Nat), (get_block_ptr fs idx k 0).2 = (b : Int) ∧
            blk1 (Role.data k) = b ∧
            owns (get_block_ptr fs idx k 0).1 idx src blk1 (live (k + 1)) k ∧
            (get_block_ptr fs idx k 0).1.file_descriptors = fs.file_descriptors ∧
            ((get_block_ptr fs idx k 0).1.inodes idx).file_size = (fs.inodes idx).file_size := by
        by_cases hk0 : k = 0
        · subst hk0
          have hown1 : owns fs idx src blk (live 1) 0 := hown
          rw [get_block_ptr_first hown1]
          exact Or.inr ⟨blk, blk (Role.data 0), rfl, rfl, hown1, rfl, rfl⟩
        · have hmax : max k 1 = k := by omega
          rw [hmax] at hown
          exact get_block_ptr_write_step hown (by omega)
      rcases key with hf | ⟨blk1, b, hb, hblk, hown1, hfd, hfs⟩
      · have hneg1 : (get_block_ptr fs idx k 0).2 < 0 := by rw [hf]; omega
        rw [if_pos hneg1]
        exact ⟨by show 512 * (k : Int) ≤ _; omega, fun e => by
          have e' : 512 * (k : Int) = 512 * (k : Int) + left := e
          omega⟩
      · have hnonneg : ¬ ((get_block_ptr fs idx k 0).2 < 0) := by rw [hb]; omega
        have hz : ¬ ((0 : Int) ≠ 0) := by simp
        rw [if_neg hnonneg, if_neg hmode, if_neg hz, hb, Int.toNat_ofNat]
        have hown2 := (hblk ▸ hown1.write_data).after_add_file_size 512
        have hsize2 : ((add_file_size (fs_block_write (get_block_ptr fs idx k 0).1 b
            (fun x => src (512 * k + x))) idx 512).inodes idx).file_size = 512 * (k + 1) := by
          simp only [add_file_size, set_inode, fs_block_write, if_true, hfs, hsize, toUInt64]
          omega
        have hfd2 : (add_file_size (fs_block_write (get_block_ptr fs idx k 0).1 b
            (fun x => src (512 * k + x))) idx 512).file_descriptors = fs.file_descriptors := hfd
        have hmax : max (k + 1) 1 = k + 1 := by omega
        have e1 : 512 * k + 512 = 512 * (k + 1) := by omega
        have e2 : 512 * (k : Int) + 512 = 512 * ((k + 1 : Nat) : Int) := by omega
        rw [e1, e2]
        have := ih (k + 1) _ blk1 (left - 512) (hmax.symm ▸ hown2) hsize2 (by omega)
          (by omega) (by omega)
        revert this
        generalize fs_write_loop idx fsz N src fuel
          (add_file_size (fs_block_write (get_block_ptr fs idx k 0).1 b
            (fun x => src (512 * k + x))) idx 512)
          (512 * (k + 1)) (512 * ((k + 1 : Nat) : Int)) (left - 512) 0 = R
        rintro ⟨p1, p2⟩
        refine ⟨by omega, ?_⟩
        intro heq
        obtain ⟨blk2, m, q1, q2, q3, q4, q5⟩ := p2 (by omega)
        exact ⟨blk2, m, q1, by omega, by omega, by omega, by rw [q5, hfd2]⟩
    · simp only [hl, if_false]
      unfold fs_write_finish
      by_cases hneg : left < 0
      · rw [if_pos hneg]
        refine ⟨le_refl _, fun _ => ⟨blk, k, hown.after_add_file_size left, hlow, by omega, ?_, ?_⟩⟩
        · simp only [add_file_size, set_inode, if_true, hsize, toUInt64]
          omega
        · simp [add_file_size, set_inode]
      · rw [if_neg hneg]
        have h0 : left = 0 := by omega
        subst h0
        refine ⟨by omega, fun _ => ⟨blk, k, hown, hlow, by omega, ?_, rfl⟩⟩
        show (((fs.inodes idx).file_size : Nat) : Int) = 512 * (k : Int) + 0
        rw [hsize]
        push_cast
        omega

theorem fs_read_loop_normal (idx fd fsz N : Nat) (src : Nat → Nat) (blk : Role → Nat)
    (m : Nat) (hfsz : ¬ fsz < 512) :
    ∀ (fuel k : Nat) (fs : F16FS_t) (dst : Nat → Nat) (left : Int),
      owns fs idx src blk (live m) m →
      (fs.file_descriptors fd).offset = 512 * k →
      left.toNat < fuel →
      512 * (k : Int) + left = N →
      (N : Int) ≤ 512 * m →
      512 * (k : Int) - 512 < N →
      (∀ x, x < 512 * k → dst x = src x) →
      (fs_read_loop idx fd fsz N fuel fs dst (512 * k) (512 * (k : Int)) left 0).ret = N ∧
      ∀ x, x < N →
        (fs_read_loop idx fd fsz N fuel fs dst (512 * k) (512 * (k : Int)) left 0).dst x = src x := by
  intro fuel
  induction fuel with
  | zero => intro k fs dst left _ _ hf; omega
  | succ fuel ih =>
    intro k fs dst left hown hoff hfuel htot hm hlow hdst
    have hmb : m ≤ 65536 := hown.bound
    rw [fs_read_loop]
    by_cases hl : left > 0
    · have hkm : k < m := by omega
      have hok := hown.ok (Role.data k) (by simp [live, hkm])
      have hpos : ¬ ((blk (Role.data k) : Int) ≤ 0) := by have := hok.1; omega
      have hz : ¬ ((0 : Int) ≠ 0) := by simp
      simp only [hl, if_true, hoff, block_index_of_size k (by omega),
        get_block_ptr_read hown k hkm]
      rw [if_neg hpos, if_neg hfsz, if_neg hz, Int.toNat_ofNat]
      have hoff2 : ((add_offset fs fd 512).file_descriptors fd).offset = 512 * (k + 1) := by
        simp only [add_offset, set_fd, if_true, hoff, toUInt64]
        omega
      have e1 : 512 * k + 512 = 512 * (k + 1) := by omega
      have e2 : 512 * (k : Int) + 512 = 512 * ((k + 1 : Nat) : Int) := by omega
      rw [e1, e2]
      apply ih (k + 1) _ _ (left - 512) (hown.after_add_offset fd 512) hoff2 (by omega)
        (by omega) hm (by omega)
      intro x hx
      unfold read_into block_store_read
      by_cases hin : 512 * k ≤ x ∧ x < 512 * k + 512
      · rw [if_pos hin, hown.content k hkm (by simp [live, hkm]) (x - 512 * k) (by omega)]
        congr 1
        omega
      · rw [if_neg hin]
        exact hdst x (by omega)
    · rw [if_neg hl]
      unfold fs_read_finish
      by_cases hneg : left < 0
      · rw [if_pos hneg]
        exact ⟨htot, fun x hx => hdst x (by omega)⟩
      · rw [if_neg hneg]
        exact ⟨by show 512 * (k : Int) = N; omega, fun x hx => hdst x (by omega)⟩

theorem owns_of_fresh_file {fs : F16FS_t} {idx : Nat} (src : Nat → Nat)
    (h : fresh_file fs idx) :
    owns fs idx src (fun _ => (fs.inodes idx).direct_block_ptr_array 0) (live 1) 0 := by
  obtain ⟨_, h0, h1, hu, hd, hi, hdd⟩ := h
  constructor
  · intro j hj
    by_cases e : j = 0
    · subst e; simp [live]
    · have : ¬ j < 1 := by omega
      simp [live, this, hd j (by omega) hj]
  · simp [live, hi]
  · simp [live, hdd]
  · intro hl; simp [live] at hl
  · intro hl; simp [live] at hl
  · intro i _ hl; simp [live] at hl
  · intro j hj; omega
  · intro r _; exact ⟨h0, h1, hu⟩
  · intro r r' hr hr' _
    cases r <;> cases r' <;> simp [live] at hr hr'
    simp; omega

theorem fs_seek_set_zero (fs : F16FS_t) (fd : Int) (hfd0 : 0 ≤ fd) (hfd1 : fd ≤ 255)
    (hopen : 0 ≤ (fs.file_descriptors fd.toNat).inode_index)
    (hsz : (fs.inodes (fs.file_descriptors fd.toNat).inode_index.toNat).file_size < 2147483648) :
    fs_seek fs fd 0 FS_SEEK_SET =
      (set_fd fs fd.toNat { fs.file_descriptors fd.toNat with offset := 0 }, 0) := by
  unfold fs_seek
  have h1 : ¬ (fd < 0 ∨ fd > 256) := by omega
  have h2 : ¬ (FS_SEEK_SET < 0 ∨ FS_SEEK_SET > 2) := by unfold FS_SEEK_SET; omega
  have h3 : ¬ ((fs.file_descriptors fd.toNat).inode_index < 0) := by omega
  have h5 : toInt32 0 = 0 := by unfold toInt32; omega
  have h4 : ¬ (0 >
      toInt32 ((fs.inodes (fs.file_descriptors fd.toNat).inode_index.toNat).file_size)) := by
    rw [toInt32_of_small _ hsz]
    omega
  have h6 : toUInt64 0 = 0 := by unfold toUInt64; omega
  rw [if_neg h1, if_neg h2]
  simp only [h3, if_false, if_true, h4, h5, lt_self_iff_false, h6]

theorem fs_write_fresh_large (fs : F16FS_t) (fd : Int) (src : Nat → Nat) (N : Nat)
    (hfd0 : 0 ≤ fd) (hfd1 : fd ≤ 255)
    (hopen : 0 ≤ (fs.file_descriptors fd.toNat).inode_index)
    (hfresh : fresh_file fs (fs.file_descriptors fd.toNat).inode_index.toNat)
    (hN : 512 ≤ N) (hw : (fs_write fs fd src N).2 = N) :
    N < 2147483648 ∧ ∃ (blk : Role → Nat) (m : Nat),
      owns (fs_write fs fd src N).1 (fs.file_descriptors fd.toNat).inode_index.toNat src blk
        (live m) m ∧
      512 * (m : Int) - 512 < N ∧ (N : Int) ≤ 512 * m ∧
      (((fs_write fs fd src N).1.inodes
        (fs.file_descriptors fd.toNat).inode_index.toNat).file_size : Int) = N ∧
      (fs_write fs fd src N).1.file_descriptors = fs.file_descriptors := by
  have hown := owns_of_fresh_file src hfresh
  have hsz : (fs.inodes (fs.file_descriptors fd.toNat).inode_index.toNat).file_size = 0 :=
    hfresh.1
  by_cases h32 : toInt32 (N : Int) < 0
  · exfalso
    have : fs_write fs fd src N = (fs, -1) := by
      unfold fs_write
      rw [if_pos (Or.inr (Or.inr h32))]
    rw [this] at hw
    have : (-1 : Int) = N := hw
    omega
  · have h1 : ¬ (fd < 0 ∨ fd > 256 ∨ toInt32 (N : Int) < 0) := by omega
    have h2 : ¬ N = 0 := by omega
    have h3 : ¬ ((fs.file_descriptors fd.toNat).inode_index < 0) := by omega
    have h4 : ¬ (N % 512 = N) := by omega
    have h5 : toInt32 ((0 : Nat) % 512 : Int) = 0 := by unfold toInt32; omega
    have hmode : ¬ ((0 : Nat) < 512 ∧ N < 512) := by omega
    have hle : toInt32 (N : Int) ≤ N := by unfold toInt32; omega
    have key := fs_write_loop_normal (fs.file_descriptors fd.toNat).inode_index.toNat 0 N src
      hmode ((toInt32 (N : Int)).toNat + 1) 0 fs _ (toInt32 (N : Int)) hown
      (by rw [hsz]) (by omega) (by omega) (by omega)
    have z1 : 512 * 0 = 0 := rfl
    have z2 : 512 * (((0 : Nat) : Int)) = 0 := rfl
    rw [z1, z2] at key
    have e : fs_write fs fd src N =
        fs_write_loop (fs.file_descriptors fd.toNat).inode_index.toNat 0 N src
          ((toInt32 (N : Int)).toNat + 1) fs 0 0 (toInt32 (N : Int)) 0 := by
      unfold fs_write
      rw [if_neg h1, if_neg h2, if_neg h3]
      simp only [hsz, true_and, h4, if_false, h5]
    rw [e] at hw ⊢
    revert key hw
    generalize fs_write_loop (fs.file_descriptors fd.toNat).inode_index.toNat 0 N src
      ((toInt32 (N : Int)).toNat + 1) fs 0 0 (toInt32 (N : Int)) 0 = R
    rintro hw ⟨p1, p2⟩
    have hNeq : toInt32 (N : Int) = N := by omega
    have hlt : N < 2147483648 := by unfold toInt32 at hNeq; omega
    obtain ⟨blk1, m, q1, q2, q3, q4, q5⟩ := p2 (by omega)
    have hm1 : max m 1 = m := by omega
    rw [hm1] at q1
    exact ⟨hlt, blk1, m, q1, by omega, by omega, by omega, q5⟩

theorem block_index_zero : (toInt32 (((0 : Nat) : Int) / 512)).toNat = 0 := by
  have h : toInt32 (((0 : Nat) : Int) / 512) = 0 := by unfold toInt32; omega
  rw [h]
  rfl

theorem fs_write_fresh_small (fs : F16FS_t) (fd : Int) (src : Nat → Nat) (N : Nat)
    (hfd0 : 0 ≤ fd) (hfd1 : fd ≤ 255)
    (hopen : 0 ≤ (fs.file_descriptors fd.toNat).inode_index)
    (hfresh : fresh_file fs (fs.file_descriptors fd.toNat).inode_index.toNat)
    (hN1 : 1 ≤ N) (hN : N < 512) :
    ∃ (blk : Role → Nat),
      owns (fs_write fs fd src N).1 (fs.file_descriptors fd.toNat).inode_index.toNat src blk
        (live 1) 1 ∧
      (((fs_write fs fd src N).1.inodes
        (fs.file_descriptors fd.toNat).inode_index.toNat).file_size : Int) = N ∧
      (fs_write fs fd src N).1.file_descriptors = fs.file_descriptors := by
  have hown := owns_of_fresh_file src hfresh
  have hsz : (fs.inodes (fs.file_descriptors fd.toNat).inode_index.toNat).file_size = 0 :=
    hfresh.1
  have h32 : toInt32 (N : Int) = N := toInt32_of_small N (by omega)
  have h1 : ¬ (fd < 0 ∨ fd > 256 ∨ toInt32 (N : Int) < 0) := by omega
  have h2 : ¬ N = 0 := by omega
  have h3 : ¬ ((fs.file_descriptors fd.toNat).inode_index < 0) := by omega
  have hmode : (0 : Nat) < 512 ∧ N < 512 := by omega
  have hpos : (N : Int) > 0 := by omega
  have hleft : toInt32 ((N : Int) - (N : Int)) = 0 := by unfold toInt32; omega
  have hnp : ¬ ((0 : Int) > 0) := by omega
  have hb0 : ¬ (((fs.inodes (fs.file_descriptors fd.toNat).inode_index.toNat).direct_block_ptr_array 0
      : Nat) : Int) < 0 := by omega
  obtain ⟨n, rfl⟩ : ∃ n, N = n + 1 := ⟨N - 1, by omega⟩
  have hfuel : (toInt32 ((n + 1 : Nat) : Int)).toNat + 1 = n + 1 + 1 := by rw [h32]; rfl
  have e : (fs_write fs fd src (n + 1)).1 =
      add_file_size (fs_block_write fs
        ((fs.inodes (fs.file_descriptors fd.toNat).inode_index.toNat).direct_block_ptr_array 0)
        (fun x => src (512 * 0 + x)))
        (fs.file_descriptors fd.toNat).inode_index.toNat ((n + 1 : Nat) : Int) := by
    unfold fs_write
    rw [if_neg h1, if_neg h2, if_neg h3]
    rw [hfuel, h32, fs_write_loop]
    simp only [hpos, if_true, hsz, block_index_zero, get_block_ptr_first hown, hmode, and_self,
      Int.toNat_ofNat]
    rw [if_neg hb0]
    rw [fs_write_loop]
    simp only [hleft, hnp, if_false, fs_write_finish, lt_self_iff_false]
  rw [e]
  refine ⟨_, (hown.write_data).after_add_file_size _, ?_, rfl⟩
  simp only [add_file_size, set_inode, fs_block_write, if_true, hsz, toUInt64]
  omega

/-- Reading a file back from offset 0: the file owns `m` blocks holding the bytes of
`src`, its size `N` lies in the last of them. -/
theorem fs_read_back (st : F16FS_t) (fd : Int) (src dst : Nat → Nat) (N m : Nat)
    (blk : Role → Nat) (hfd0 : 0 ≤ fd) (hfd1 : fd ≤ 255)
    (hopen : 0 ≤ (st.file_descriptors fd.toNat).inode_index)
    (hown : owns st (st.file_descriptors fd.toNat).inode_index.toNat src blk (live m) m)
    (h1 : 512 * (m : Int) - 512 < N) (h2 : (N : Int) ≤ 512 * m)
    (hsz : (st.inodes (st.file_descriptors fd.toNat).inode_index.toNat).file_size = N)
    (hN : 1 ≤ N) (hlt : N < 2147483648)
    (hoff : (st.file_descriptors fd.toNat).offset = 0) :
    (fs_read st fd dst N).ret = N ∧ ∀ i, i < N → (fs_read st fd dst N).dst i = src i := by
  have h32 : toInt32 (N : Int) = N := toInt32_of_small N hlt
  have c1 : ¬ (fd < 0 ∨ fd > 256 ∨ toInt32 (N : Int) < 0) := by omega
  have c2 : ¬ N = 0 := by omega
  have c3 : ¬ ((st.file_descriptors fd.toNat).inode_index < 0) := by omega
  have c4 : ¬ (N = 0 ∧ N % 512 = N) := by omega
  have c5 : toInt32 (((0 : Nat) : Int) % 512) = 0 := by unfold toInt32; omega
  have hm : 1 ≤ m := by omega
  have e : fs_read st fd dst N =
      fs_read_loop (st.file_descriptors fd.toNat).inode_index.toNat fd.toNat N N (N + 1) st dst
        0 0 (N : Int) 0 := by
    unfold fs_read
    rw [if_neg c1, if_neg c2, if_neg c3]
    simp only [hsz, c4, if_false, hoff, c5, h32, Int.toNat_ofNat]
  rw [e]
  by_cases hbig : N < 512
  · have hm1 : m = 1 := by omega
    subst hm1
    have hok := hown.ok (Role.data 0) (by simp [live])
    have hpos : ¬ ((blk (Role.data 0) : Int) ≤ 0) := by have := hok.1; omega
    have hleft : toInt32 ((N : Int) - (N : Int)) = 0 := by unfold toInt32; omega
    have hnp : ¬ ((0 : Int) > 0) := by omega
    have hNpos : (N : Int) > 0 := by omega
    have hbr : toInt32 ((0 : Int) + (N : Int)) = N := by rw [zero_add]; exact h32
    obtain ⟨n, rfl⟩ : ∃ n, N = n + 1 := ⟨N - 1, by omega⟩
    have e2 : fs_read_loop (st.file_descriptors fd.toNat).inode_index.toNat fd.toNat (n + 1)
        (n + 1) (n + 1 + 1) st dst 0 0 ((n + 1 : Nat) : Int) 0 =
        ⟨add_offset st fd.toNat ((n + 1 : Nat) : Int),
          read_into st (blk (Role.data 0)) dst 0, ((n + 1 : Nat) : Int)⟩ := by
      rw [fs_read_loop]
      simp only [hNpos, if_true, hoff, block_index_zero, get_block_ptr_read hown 0 (by omega)]
      rw [if_neg hpos, if_pos hbig, fs_read_loop]
      simp only [hleft, hnp, if_false, fs_read_finish, lt_self_iff_false, hbr, Int.toNat_ofNat]
    rw [e2]
    refine ⟨rfl, ?_⟩
    intro i hi
    have hin : 0 ≤ i ∧ i < 0 + 512 := by omega
    show read_into st (blk (Role.data 0)) dst 0 i = src i
    unfold read_into block_store_read
    rw [if_pos hin]
    have := hown.content 0 (by omega) (by simp [live]) i (by omega)
    have hz : 512 * 0 + i = i := by omega
    rw [Nat.sub_zero, this, hz]
  · have hfsz : ¬ N < 512 := hbig
    have key := fs_read_loop_normal (st.file_descriptors fd.toNat).inode_index.toNat fd.toNat N N
      src blk m hfsz (N + 1) 0 st dst (N : Int) hown
      (by rw [hoff]) (by omega) (by omega) h2 (by omega) (by intro x hx; omega)
    have z1 : 512 * 0 = 0 := rfl
    have z2 : 512 * (((0 : Nat) : Int)) = 0 := rfl
    rw [z1, z2] at key
    exact key

/-- C1: write/read round trip.  For a freshly created regular file (size 0, one allocated
block in `direct_block_ptr_array[0]`, no other pointer) open as `fd`, and `N ≥ 1` bytes at
`src`: if `fs_write(fd, src, N)` returns `N`, then `fs_seek(fd, 0, FS_SEEK_SET)` returns 0
and the following `fs_read(fd, dst, N)` returns `N` and leaves the bytes of `src` in the
first `N` bytes of `dst`, whatever the number of direct, indirect and double-indirect
blocks the write used. -/
theorem C1_write_read_round_trip (fs : F16FS_t) (fd : Int) (src dst : Nat → Nat) (N : Nat)
    (hfd0 : 0 ≤ fd) (hfd1 : fd ≤ 255)
    (hopen : 0 ≤ (fs.file_descriptors fd.toNat).inode_index)
    (hfresh : fresh_file fs (fs.file_descriptors fd.toNat).inode_index.toNat)
    (hN : 1 ≤ N)
    (hw : (fs_write fs fd src N).2 = N) :
    (fs_seek (fs_write fs fd src N).1 fd 0 FS_SEEK_SET).2 = 0 ∧
    (fs_read (fs_seek (fs_write fs fd src N).1 fd 0 FS_SEEK_SET).1 fd dst N).ret = N ∧
    ∀ i, i < N →
      (fs_read (fs_seek (fs_write fs fd src N).1 fd 0 FS_SEEK_SET).1 fd dst N).dst i = src i := by
  have main : N < 2147483648 ∧ ∃ (blk : Role → Nat) (m : Nat),
      owns (fs_write fs fd src N).1 (fs.file_descriptors fd.toNat).inode_index.toNat src blk
        (live m) m ∧
      512 * (m : Int) - 512 < N ∧ (N : Int) ≤ 512 * m ∧
      (((fs_write fs fd src N).1.inodes
        (fs.file_descriptors fd.toNat).inode_index.toNat).file_size : Int) = N ∧
      (fs_write fs fd src N).1.file_descriptors = fs.file_descriptors := by
    by_cases hbig : 512 ≤ N
    · exact fs_write_fresh_large fs fd src N hfd0 hfd1 hopen hfresh hbig hw
    · obtain ⟨blk, h1, h2, h3⟩ :=
        fs_write_fresh_small fs fd src N hfd0 hfd1 hopen hfresh hN (by omega)
      exact ⟨by omega, blk, 1, h1, by omega, by omega, h2, h3⟩
  obtain ⟨hlt, blk, m, hown, hm1, hm2, hsz, hfds⟩ := main
  revert hown hsz hfds
  generalize (fs_write fs fd src N).1 = st1
  intro hown hsz hfds
  have hd : st1.file_descriptors fd.toNat = fs.file_descriptors fd.toNat := by rw [hfds]
  have hsz1 : (st1.inodes (st1.file_descriptors fd.toNat).inode_index.toNat).file_size = N := by
    rw [hd]; omega
  have hseek := fs_seek_set_zero st1 fd hfd0 hfd1 (by rw [hd]; exact hopen) (by omega)
  rw [hseek]
  obtain ⟨st2, hst2, hi2, ho2, hin2, hfs2⟩ : ∃ st2 : F16FS_t,
      set_fd st1 fd.toNat { st1.file_descriptors fd.toNat with offset := 0 } = st2 ∧
      (st2.file_descriptors fd.toNat).inode_index = (fs.file_descriptors fd.toNat).inode_index ∧
      (st2.file_descriptors fd.toNat).offset = 0 ∧
      st2.inodes = st1.inodes ∧ st2.fs = st1.fs :=
    ⟨_, rfl, by simp [set_fd, hd], by simp [set_fd], rfl, rfl⟩
  rw [hst2]
  refine ⟨rfl, ?_⟩
  apply fs_read_back st2 fd src dst N m blk hfd0 hfd1
  · rw [hi2]; exact hopen
  · rw [hi2]
    exact hown.of_same (by rw [hin2]) (by rw [hin2]) (by rw [hin2]) hfs2
  · exact hm1
  · exact hm2
  · rw [hi2, hin2]
    rw [hd] at hsz1
    exact hsz1
  · exact hN
  · exact hlt
  · exact ho2

/-- C1, at a concrete input: the file `/a` just created and opened as descriptor 0, and
4096 bytes of `pattern`, which fill six direct blocks and two blocks of the indirect
index block. -/
theorem C1_write_read_round_trip_witness :
    fresh_file st_opened (st_opened.file_descriptors (0 : Int).toNat).inode_index.toNat ∧
    (fs_write st_opened 0 pattern 4096).2 = 4096 ∧
    ((fs_write st_opened 0 pattern 4096).1.inodes 1).indirect_block_ptr ≠ 0 ∧
    (fs_read (fs_seek (fs_write st_opened 0 pattern 4096).1 0 0 FS_SEEK_SET).1 0 zeros 4096).ret
      = 4096 ∧
    (fs_read (fs_seek (fs_write st_opened 0 pattern 4096).1 0 0 FS_SEEK_SET).1 0 zeros 4096).dst
      4095 = pattern 4095 := by
  have hf : fresh_file st_opened (st_opened.file_descriptors (0 : Int).toNat).inode_index.toNat := by
    refine ⟨rfl, by decide, by decide, rfl, ?_, rfl, rfl⟩
    intro j h1 h6
    interval_cases j <;> rfl
  have hw : (fs_write st_opened 0 pattern 4096).2 = ((4096 : Nat) : Int) := by rfl
  have h := C1_write_read_round_trip st_opened 0 pattern zeros 4096 (by decide) (by decide)
    (by decide) hf (by decide) hw
  exact ⟨hf, hw, by decide, h.2.1, h.2.2 4095 (by decide)⟩

/-! ## The loops end within their fuel -/

theorem tmod_512_nonneg (x : Int) (hx : 0 < x) : 0 ≤ Int.tmod x 512 := by
  rw [Int.tmod_eq_emod (by omega) (by omega)]
  omega

/-- The loop of `fs_write` ends before its fuel does: with more than
`bytes_left_to_write` units of fuel the result does not depend on the fuel. -/
theorem fs_write_loop_fuel (idx fsz N : Nat) (src : Nat → Nat) (hN : 1 ≤ N) :
    ∀ (f1 f2 : Nat) (fs : F16FS_t) (sp : Nat) (bw left bo : Int),
      left.toNat < f1 → left.toNat < f2 → left < 2147483648 → (0 < left → 0 ≤ bo) →
      fs_write_loop idx fsz N src f1 fs sp bw left bo =
        fs_write_loop idx fsz N src f2 fs sp bw left bo := by
  intro f1
  induction f1 with
  | zero => intro f2 fs sp bw left bo h; omega
  | succ f1 ih =>
    intro f2 fs sp bw left bo h1 h2 hlt hbo
    cases f2 with
    | zero => omega
    | succ f2 =>
      rw [fs_write_loop, fs_write_loop]
      by_cases hl : left > 0
      · rw [if_pos hl, if_pos hl]
        have hbo0 := hbo hl
        dsimp only
        generalize get_block_ptr fs idx (toInt32 (↑(fs.inodes idx).file_size / 512)).toNat 0 = r
        by_cases hr : r.2 < 0
        · rw [if_pos hr, if_pos hr]
        · rw [if_neg hr, if_neg hr]
          by_cases hc : fsz < 512 ∧ N < 512
          · rw [if_pos hc, if_pos hc]
            have e : toInt32 (left - (N : Int)) = left - N := by unfold toInt32; omega
            rw [e]
            exact ih f2 _ _ _ _ _ (by omega) (by omega) (by omega) (tmod_512_nonneg _)
          · rw [if_neg hc, if_neg hc]
            by_cases hne : bo ≠ 0
            · rw [if_pos hne, if_pos hne]
              exact ih f2 _ _ _ _ _ (by omega) (by omega) (by omega) (tmod_512_nonneg _)
            · rw [if_neg hne, if_neg hne]
              exact ih f2 _ _ _ _ _ (by omega) (by omega) (by omega) (fun _ => hbo0)
      · rw [if_neg hl, if_neg hl]

/-- The loop of `fs_read` ends before its fuel does. -/
theorem fs_read_loop_fuel (idx fd fsz N : Nat) (hN : 1 ≤ N) (hN2 : N < 2147483648) :
    ∀ (f1 f2 : Nat) (fs : F16FS_t) (dst : Nat → Nat) (dp : Nat) (br left bo : Int),
      left.toNat < f1 → left.toNat < f2 → left < 2147483648 → 0 ≤ bo → bo < 512 →
      fs_read_loop idx fd fsz N f1 fs dst dp br left bo =
        fs_read_loop idx fd fsz N f2 fs dst dp br left bo := by
  intro f1
  induction f1 with
  | zero => intro f2 fs dst dp br left bo h; omega
  | succ f1 ih =>
    intro f2 fs dst dp br left bo h1 h2 hlt hbo hbo2
    cases f2 with
    | zero => omega
    | succ f2 =>
      rw [fs_read_loop, fs_read_loop]
      by_cases hl : left > 0
      · rw [if_pos hl, if_pos hl]
        dsimp only
        generalize get_block_ptr fs idx (toInt32 (↑(fs.file_descriptors fd).offset / 512)).toNat 1 = r
        by_cases hr : r.2 ≤ 0
        · rw [if_pos hr, if_pos hr]
        · rw [if_neg hr, if_neg hr]
          by_cases hc : fsz < 512
          · rw [if_pos hc, if_pos hc]
            have e : toInt32 (left - (N : Int)) = left - N := by unfold toInt32; omega
            rw [e]
            refine ih f2 _ _ _ _ _ _ (by omega) (by omega) (by omega) ?_ ?_
            · unfold toInt32; omega
            · unfold toInt32; omega
          · rw [if_neg hc, if_neg hc]
            by_cases hne : bo ≠ 0
            · rw [if_pos hne, if_pos hne]
              exact ih f2 _ _ _ _ _ _ (by omega) (by omega) (by omega) (by omega) (by omega)
            · rw [if_neg hne, if_neg hne]
              exact ih f2 _ _ _ _ _ _ (by omega) (by omega) (by omega) hbo hbo2
      · rw [if_neg hl, if_neg hl]

/-! ## What holds next to the claims the code breaks -/

/-- X1: within the range of an `int`, `fs_seek` clamps.  For an in-use descriptor, a
whence among SET, CUR and END, a file smaller than 2^31 bytes and a target
`base + offset` that fits an `int`, `fs_seek` returns the target clamped to
`[0, file_size]`, stores it as the descriptor's offset and keeps the descriptor's inode. -/
theorem X1_seek_clamps_within_int_range (fs : F16FS_t) (fd offset whence : Int)
    (hfd0 : 0 ≤ fd) (hfd1 : fd ≤ 255)
    (hopen : 0 ≤ (fs.file_descriptors fd.toNat).inode_index)
    (hwh : whence = FS_SEEK_SET ∨ whence = FS_SEEK_CUR ∨ whence = FS_SEEK_END)
    (hsz : (fs.inodes (fs.file_descriptors fd.toNat).inode_index.toNat).file_size < 2147483648)
    (hlo : -2147483648 ≤ seek_base fs fd.toNat whence + offset)
    (hhi : seek_base fs fd.toNat whence + offset < 2147483648) :
    (fs_seek fs fd offset whence).2 =
      min (max (seek_base fs fd.toNat whence + offset) 0)
        ((fs.inodes (fs.file_descriptors fd.toNat).inode_index.toNat).file_size : Int) ∧
    (((fs_seek fs fd offset whence).1.file_descriptors fd.toNat).offset : Int) =
      (fs_seek fs fd offset whence).2 ∧
    ((fs_seek fs fd offset whence).1.file_descriptors fd.toNat).inode_index =
      (fs.file_descriptors fd.toNat).inode_index := by
  have h1 : ¬ (fd < 0 ∨ fd > 256) := by omega
  have h2 : ¬ (whence < 0 ∨ whence > 2) := by
    unfold FS_SEEK_SET FS_SEEK_CUR FS_SEEK_END at hwh; omega
  have h3 : ¬ ((fs.file_descriptors fd.toNat).inode_index < 0) := by omega
  have hS := toInt32_of_small _ hsz
  unfold fs_seek
  rw [if_neg h1, if_neg h2]
  simp only [h3, if_false, hS]
  generalize hsize : (fs.inodes (fs.file_descriptors fd.toNat).inode_index.toNat).file_size = S at *
  generalize hoff : (fs.file_descriptors fd.toNat).offset = O at *
  have key : ∀ t : Int, -2147483648 ≤ t → t < 2147483648 →
      (if (if toInt32 t > (S : Int) then (S : Int) else toInt32 t) < 0 then 0
        else if toInt32 t > (S : Int) then (S : Int) else toInt32 t) = min (max t 0) (S : Int) ∧
      ((toUInt64 (if (if toInt32 t > (S : Int) then (S : Int) else toInt32 t) < 0 then 0
        else if toInt32 t > (S : Int) then (S : Int) else toInt32 t) : Nat) : Int) =
        min (max t 0) (S : Int) := by
    intro t ht1 ht2
    have e : toInt32 t = t := by unfold toInt32; omega
    rw [e]
    unfold toUInt64
    constructor
    · split <;> split <;> omega
    · split <;> split <;> omega
  unfold seek_base at hlo hhi ⊢
  rw [hsize, hoff] at hlo hhi ⊢
  rcases hwh with rfl | rfl | rfl
  · have k := key ((0 : Int) + offset)
      (by simpa [FS_SEEK_SET] using hlo) (by simpa [FS_SEEK_SET] using hhi)
    simp only [zero_add] at k
    simp only [FS_SEEK_SET, if_true, set_fd, zero_add]
    exact ⟨k.1, by rw [k.2, k.1], trivial⟩
  · have n1 : ¬ (FS_SEEK_CUR = FS_SEEK_SET) := by decide
    have n2 : ¬ (FS_SEEK_CUR = FS_SEEK_END) := by decide
    rw [if_neg n1, if_neg n2] at hlo hhi
    have k := key ((O : Int) + offset) hlo hhi
    simp only [n1, n2, if_false, set_fd, if_true]
    exact ⟨k.1, by rw [k.2, k.1], trivial⟩
  · have n1 : ¬ (FS_SEEK_END = FS_SEEK_SET) := by decide
    rw [if_neg n1, if_pos rfl] at hlo hhi
    have k := key ((S : Int) + offset) hlo hhi
    simp only [n1, if_false, set_fd, if_true]
    exact ⟨k.1, by rw [k.2, k.1], trivial⟩

theorem block_store_release_allocate (bs : block_store_t)
    (h : (block_store_allocate bs).2 ≠ 0) :
    block_store_release (block_store_allocate bs).1 (block_store_allocate bs).2 = bs := by
  unfold block_store_allocate at *
  cases hff : first_free bs.used 65536 0 with
  | none => simp [hff] at h
  | some id =>
    have hs := first_free_spec bs.used 65536 0 id hff
    simp only [block_store_release]
    cases bs with
    | mk used data =>
      simp only [block_store_t.mk.injEq, and_true]
      funext i
      by_cases e : i = id
      · subst e; simpa using hs.1.symm
      · simp [e]

/-! ## The calls of `parse_path` -/

theorem parse_path_some (path : List Nat) (tokens : List (List Nat))
    (hp : parse_path path = some (some tokens)) :
    parse_path_copy_fits path ∧ tokens = strtok_tokens path [] ∧
      (strtok_tokens path []).any (fun t => decide (t.length > 63)) = false := by
  unfold parse_path at hp
  by_cases hf : parse_path_copy_fits path
  · rw [if_pos hf] at hp
    by_cases hany : (strtok_tokens path []).any (fun t => decide (t.length > 63)) = true
    · rw [if_pos hany] at hp
      exact absurd hp (by simp)
    · rw [if_neg hany] at hp
      refine ⟨hf, ?_, by simpa using hany⟩
      simpa using hp.symm
  · rw [if_neg hf] at hp
    exact absurd hp (by simp)

theorem parse_path_none (path : List Nat) :
    parse_path path = none ↔ ¬ parse_path_copy_fits path := by
  unfold parse_path
  by_cases hf : parse_path_copy_fits path
  · rw [if_pos hf]
    constructor
    · intro h
      split at h <;> simp at h
    · intro h
      exact absurd hf h
  · rw [if_neg hf]
    simp [hf]

/-- A call of `fs_create` that has a result either failed before or at `parse_path`, or
went on with the tokens. -/
theorem fs_create_some (fs : F16FS_t) (path : List Nat) (type : Nat) (r : F16FS_t × Int)
    (h : fs_create fs path type = some r) :
    r = (fs, -1) ∨
      ∃ tokens, parse_path path = some (some tokens) ∧ r = fs_create_tokens fs tokens type := by
  unfold fs_create at h
  split at h
  · left; simpa using h.symm
  · split at h
    · left; simpa using h.symm
    · split at h
      · exact absurd h (by simp)
      · left; simpa using h.symm
      · rename_i tokens hp
        right
        exact ⟨tokens, hp, by simpa using h.symm⟩

theorem fs_create_of_tokens (fs : F16FS_t) (path : List Nat) (type : Nat)
    (tokens : List (List Nat))
    (hv1 : ¬ (path = [] ∨ path = [47] ∨ path.head? ≠ some 47 ∨ (type ≠ 0 ∧ type ≠ 1)))
    (hv2 : ¬ (path.getLast? = some 47 ∨ path.length > 100))
    (hp : parse_path path = some (some tokens)) :
    fs_create fs path type = some (fs_create_tokens fs tokens type) := by
  unfold fs_create
  rw [if_neg hv1, if_neg hv2]
  simp only [hp]

/-- A call of `fs_open` that has a result either failed before or at `parse_path`, or
went on with the tokens. -/
theorem fs_open_some (fs : F16FS_t) (path : List Nat) (indeterminate : Int) (r : F16FS_t × Int)
    (h : fs_open fs path indeterminate = some r) :
    r = (fs, -1) ∨
      ∃ tokens, parse_path path = some (some tokens) ∧
        r = fs_open_tokens fs tokens indeterminate := by
  unfold fs_open at h
  split at h
  · left; simpa using h.symm
  · split at h
    · left; simpa using h.symm
    · split at h
      · exact absurd h (by simp)
      · left; simpa using h.symm
      · rename_i tokens hp
        right
        exact ⟨tokens, hp, by simpa using h.symm⟩

theorem fs_open_of_tokens (fs : F16FS_t) (path : List Nat) (indeterminate : Int)
    (tokens : List (List Nat))
    (hv1 : ¬ (path = [] ∨ path = [47] ∨ path.head? ≠ some 47))
    (hv2 : ¬ (path.getLast? = some 47))
    (hp : parse_path path = some (some tokens)) :
    fs_open fs path indeterminate = some (fs_open_tokens fs tokens indeterminate) := by
  unfold fs_open
  rw [if_neg hv1, if_neg hv2]
  simp only [hp]

theorem fs_create_tokens_failure (fs : F16FS_t) (tokens : List (List Nat)) (type : Nat)
    (ha : (block_store_allocate fs.fs).2 ≠ 0)
    (hr : (fs_create_tokens fs tokens type).2 = -1) :
    (fs_create_tokens fs tokens type).1 = fs := by
  have hrel := block_store_release_allocate fs.fs ha
  unfold fs_create_tokens at hr ⊢
  split
  · rfl
  · split
    · rfl
    · split
      · rfl
      · rename_i _ par htr hty _ idx hfi
        simp only [htr, hfi, if_neg hty, ha, false_and, if_false] at hr ⊢
        by_cases hn : name_exists (tokens.getLast?.getD [])
            (block_store_read fs.fs (par.direct_block_ptr_array 0))
            (dir_num_entries (block_store_read fs.fs (par.direct_block_ptr_array 0))) 0 = true
        · rw [if_pos hn, hrel]
        · rw [if_neg hn] at hr ⊢
          by_cases h7 : dir_num_entries (block_store_read fs.fs (par.direct_block_ptr_array 0)) = 7
          · rw [if_pos h7, hrel]
          · rw [if_neg h7] at hr
            simp at hr

/-- X2: a failed `fs_create` leaves no trace when the store had a block to give.  If
`block_store_allocate` would return a non-zero id and `fs_create` returns -1, the state
after the call (inode table, descriptor table, block contents and allocation bitmap) is
the state before it. -/
theorem X2_create_failure_restores_state (fs : F16FS_t) (path : List Nat) (type : Nat)
    (r : F16FS_t × Int)
    (ha : (block_store_allocate fs.fs).2 ≠ 0)
    (hc : fs_create fs path type = some r)
    (hr : r.2 = -1) :
    r.1 = fs := by
  rcases fs_create_some fs path type r hc with e | ⟨tokens, _, e⟩
  · rw [e]
  · rw [e] at hr ⊢
    exact fs_create_tokens_failure fs tokens type ha hr

theorem open_scan_first_free (fs : F16FS_t) (v : Int) (k : Nat)
    (hfree : (fs.file_descriptors k).inode_index < 0) :
    ∀ (n i : Nat), i ≤ k → k < i + n →
      (∀ j, i ≤ j → j < k → 0 ≤ (fs.file_descriptors j).inode_index) →
      open_scan fs v n i =
        (set_fd fs k { fs.file_descriptors k with inode_index := v }, k + 1) := by
  intro n
  induction n with
  | zero => intro i h1 h2; omega
  | succ n ih =>
    intro i h1 h2 hmin
    rw [open_scan]
    by_cases e : i = k
    · subst e
      rw [if_pos hfree]
    · have := hmin i (le_refl i) (by omega)
      rw [if_neg (by omega)]
      exact ih (i + 1) (by omega) (by omega) (fun j hj1 hj2 => hmin j (by omega) hj2)

/-- X3: `fs_open` takes the first free descriptor when that is not the last one.  For a
path that passes the validation and resolves, with `k < 255` the smallest index of a
free descriptor and a target that is not a directory, `fs_open` returns `k`, stores the
inode index found in the parent directory in slot `k` and changes nothing else. -/
theorem X3_open_takes_first_free_slot (fs : F16FS_t) (path : List Nat) (indeterminate : Int)
    (tokens : List (List Nat)) (parent : inode_t) (k : Nat)
    (hv1 : ¬ (path = [] ∨ path = [47] ∨ path.head? ≠ some 47))
    (hv2 : ¬ (path.getLast? = some 47))
    (hp : parse_path path = some (some tokens))
    (ht : directory_traversal fs tokens.dropLast = some parent)
    (hk : k < 255)
    (hfree : (fs.file_descriptors k).inode_index < 0)
    (hmin : ∀ j, j < k → 0 ≤ (fs.file_descriptors j).inode_index)
    (hreg : (fs.inodes (lookup_last (tokens.getLast?.getD [])
      (block_store_read fs.fs (parent.direct_block_ptr_array 0))
      (dir_num_entries (block_store_read fs.fs (parent.direct_block_ptr_array 0))) 0
      indeterminate).toNat).file_type ≠ 1) :
    fs_open fs path indeterminate =
      some (set_fd fs k { fs.file_descriptors k with
        inode_index := lookup_last (tokens.getLast?.getD [])
          (block_store_read fs.fs (parent.direct_block_ptr_array 0))
          (dir_num_entries (block_store_read fs.fs (parent.direct_block_ptr_array 0))) 0
          indeterminate }, (k : Int)) := by
  rw [fs_open_of_tokens fs path indeterminate tokens hv1 hv2 hp]
  unfold fs_open_tokens
  simp only [ht]
  rw [open_scan_first_free fs _ k hfree 256 0 (by omega) (by omega) (fun j _ hj => hmin j hj)]
  have h256 : ¬ (k + 1 = 256) := by omega
  have hreg2 : ¬ (((set_fd fs k { fs.file_descriptors k with
        inode_index := lookup_last (tokens.getLast?.getD [])
          (block_store_read fs.fs (parent.direct_block_ptr_array 0))
          (dir_num_entries (block_store_read fs.fs (parent.direct_block_ptr_array 0))) 0
          indeterminate }).inodes (lookup_last (tokens.getLast?.getD [])
      (block_store_read fs.fs (parent.direct_block_ptr_array 0))
      (dir_num_entries (block_store_read fs.fs (parent.direct_block_ptr_array 0))) 0
      indeterminate).toNat).file_type = 1) := hreg
  simp only [h256, if_false, hreg2]
  refine congrArg some (Prod.ext rfl ?_)
  show ((k + 1 : Nat) : Int) - 1 = (k : Int)
  push_cast
  omega

theorem strcmp_eq_of_bytes (s : List Nat) :
    ∀ (mem : Nat → Nat) (p : Nat), (∀ x, x ≤ s.length → mem (p + x) = s.getD x 0) →
      strcmp_eq s mem p = true := by
  induction s with
  | nil =>
    intro mem p h
    have := h 0 (by simp)
    simpa [strcmp_eq] using this
  | cons c cs ih =>
    intro mem p h
    have h0 := h 0 (by simp)
    simp only [strcmp_eq, Bool.and_eq_true, beq_iff_eq]
    refine ⟨by simpa using h0, ih mem (p + 1) ?_⟩
    intro x hx
    have := h (x + 1) (by simp; omega)
    rw [Nat.add_assoc, Nat.add_comm 1 x]
    simpa using this

theorem find_free_inode_spec (fs : F16FS_t) :
    ∀ (n i k : Nat), find_free_inode fs n i = some k →
      i ≤ k ∧ k ≤ 255 ∧ (fs.inodes k).use_flag ≠ 1 ∧
      ∀ j, i ≤ j → j < k → (fs.inodes j).use_flag = 1 := by
  intro n
  induction n with
  | zero => intro i k h; simp [find_free_inode] at h
  | succ n ih =>
    intro i k h
    rw [find_free_inode] at h
    by_cases h1 : i > 255
    · rw [if_pos h1] at h; exact absurd h (by simp)
    · rw [if_neg h1] at h
      by_cases h2 : (fs.inodes i).use_flag = 1
      · rw [if_pos h2] at h
        obtain ⟨a, b, c, d⟩ := ih (i + 1) k h
        refine ⟨by omega, b, c, ?_⟩
        intro j hj1 hj2
        by_cases e : j = i
        · subst e; exact h2
        · exact d j (by omega) hj2
      · rw [if_neg h2] at h
        have e : i = k := by simpa using h
        subst e
        exact ⟨le_refl _, by omega, h2, fun j hj1 hj2 => by omega⟩

theorem tokens_short_of_parse (path : List Nat) (tokens : List (List Nat))
    (hp : parse_path path = some (some tokens)) : (tokens.getLast?.getD []).length ≤ 63 := by
  obtain ⟨_, e, hany⟩ := parse_path_some path tokens hp
  rw [← e] at hany
  cases hl : tokens.getLast? with
  | none => simp
  | some t =>
    have hm : t ∈ tokens := List.mem_of_getLast?_eq_some hl
    simp only [Option.getD_some]
    by_contra hc
    have : tokens.any (fun t => decide (t.length > 63)) = true := by
      rw [List.any_eq_true]
      exact ⟨t, hm, by simpa using hc⟩
    rw [hany] at this
    exact Bool.noConfusion this

/-- X4: what a successful `fs_create` leaves behind.  For a path that passes the
validation and whose parent resolves to a directory inode with an allocated block,
with a free inode, a store that can give a block, `n ≠ 7` entries in the parent and
none of them named like the new file: `fs_create` returns 0; the parent block then has
`n + 1` entries, its bytes before record `n` are unchanged, and record `n` carries the
new name, the type and the index `i` of the first inode that was not in use; inode `i`
is in use with the type, the size 0 (regular) or 512 (directory), the block the store
handed out (free before the call) in `direct_block_ptr_array[0]` and no other pointer;
for a directory that block is all zero, and for a regular file the inode is a
`fresh_file`. -/
theorem X4_create_postcondition (fs : F16FS_t) (path : List Nat) (type : Nat)
    (tokens : List (List Nat)) (parent : inode_t) (i : Nat)
    (hv1 : ¬ (path = [] ∨ path = [47] ∨ path.head? ≠ some 47 ∨ (type ≠ 0 ∧ type ≠ 1)))
    (hv2 : ¬ (path.getLast? = some 47 ∨ path.length > 100))
    (hp : parse_path path = some (some tokens))
    (ht : directory_traversal fs tokens.dropLast = some parent)
    (hdir : parent.file_type ≠ 0)
    (hpu : fs.fs.used (parent.direct_block_ptr_array 0) = true)
    (hfi : find_free_inode fs 257 0 = some i)
    (ha : (block_store_allocate fs.fs).2 ≠ 0)
    (hname : name_exists (tokens.getLast?.getD [])
      (block_store_read fs.fs (parent.direct_block_ptr_array 0))
      (dir_num_entries (block_store_read fs.fs (parent.direct_block_ptr_array 0))) 0 = false)
    (hn : dir_num_entries (block_store_read fs.fs (parent.direct_block_ptr_array 0)) < 7) :
    ∃ r, fs_create fs path type = some r ∧
    r.2 = 0 ∧
    dir_num_entries (r.1.fs.data (parent.direct_block_ptr_array 0)) =
      dir_num_entries (fs.fs.data (parent.direct_block_ptr_array 0)) + 1 ∧
    (∀ x, x < 72 * dir_num_entries (fs.fs.data (parent.direct_block_ptr_array 0)) →
      r.1.fs.data (parent.direct_block_ptr_array 0) x =
        fs.fs.data (parent.direct_block_ptr_array 0) x) ∧
    strcmp_eq (tokens.getLast?.getD [])
      (r.1.fs.data (parent.direct_block_ptr_array 0))
      (72 * dir_num_entries (fs.fs.data (parent.direct_block_ptr_array 0))) = true ∧
    rec_type (r.1.fs.data (parent.direct_block_ptr_array 0))
      (dir_num_entries (fs.fs.data (parent.direct_block_ptr_array 0))) = type ∧
    rec_inode_index (r.1.fs.data (parent.direct_block_ptr_array 0))
      (dir_num_entries (fs.fs.data (parent.direct_block_ptr_array 0))) = i ∧
    ((fs.inodes i).use_flag ≠ 1 ∧ ∀ j, j < i → (fs.inodes j).use_flag = 1) ∧
    (r.1.inodes i).use_flag = 1 ∧
    (r.1.inodes i).file_type = type ∧
    (r.1.inodes i).file_size = (if type = 0 then 0 else 512) ∧
    (r.1.inodes i).direct_block_ptr_array 0 =
      (block_store_allocate fs.fs).2 ∧
    fs.fs.used (block_store_allocate fs.fs).2 = false ∧
    r.1.fs.used (block_store_allocate fs.fs).2 = true ∧
    (∀ j, 1 ≤ j → (r.1.inodes i).direct_block_ptr_array j = 0) ∧
    (r.1.inodes i).indirect_block_ptr = 0 ∧
    (r.1.inodes i).double_indirect_block_ptr = 0 ∧
    (type = 1 → ∀ x, r.1.fs.data (block_store_allocate fs.fs).2 x = 0) ∧
    (type = 0 → fresh_file r.1 i) := by
  obtain ⟨b, hb0, hb1, hbu, hab⟩ := alloc_ptr_spec fs (by
    unfold alloc_ptr
    unfold block_store_allocate at ha ⊢
    cases hff : first_free fs.fs.used 65536 0 with
    | none => simp [hff] at ha
    | some id =>
      have hs := first_free_spec fs.fs.used 65536 0 id hff
      simp only [hff] at ha ⊢
      rw [Nat.mod_eq_of_lt (by omega)]
      exact ha)
  have hb2 : (block_store_allocate fs.fs).2 = b := by
    have := congrArg Prod.snd hab
    have hlt : (block_store_allocate fs.fs).2 < 65536 := by
      unfold block_store_allocate
      cases hff : first_free fs.fs.used 65536 0 with
      | none => simp
      | some id =>
        have hs := first_free_spec fs.fs.used 65536 0 id hff
        simp only
        omega
    simp only [alloc_ptr] at this
    rw [Nat.mod_eq_of_lt hlt] at this
    exact this
  have hb3 : (block_store_allocate fs.fs).1 = (mark fs b).fs := by
    have := congrArg (fun p => p.1.fs) hab
    simpa [alloc_ptr] using this
  have hty : type = 0 ∨ type = 1 := by omega
  have hPb : parent.direct_block_ptr_array 0 ≠ b := by
    intro e; rw [e, hbu] at hpu; exact Bool.noConfusion hpu
  obtain ⟨_, hi255, hiu, hij⟩ := find_free_inode_spec fs 257 0 i hfi
  have hlen := tokens_short_of_parse path tokens hp
  have hn7 : ¬ (dir_num_entries (block_store_read fs.fs (parent.direct_block_ptr_array 0)) = 7) := by
    omega
  have hb0' : ¬ (b = 0) := hb0
  refine ⟨fs_create_tokens fs tokens type, fs_create_of_tokens fs path type tokens hv1 hv2 hp, ?_⟩
  have e : fs_create_tokens fs tokens type =
      (fs_create_commit { fs with fs := (mark fs b).fs } (tokens.getLast?.getD []) type
        (parent.direct_block_ptr_array 0) i b
        (block_store_read fs.fs (parent.direct_block_ptr_array 0)), 0) := by
    unfold fs_create_tokens
    simp only [ht, hfi, if_neg hdir, hb2, hb3, hb0', false_and, if_false, hname,
      Bool.false_eq_true, hn7]
  rw [e, hb2]
  generalize hnn : dir_num_entries (block_store_read fs.fs (parent.direct_block_ptr_array 0)) = n
    at *
  have hnn' : dir_num_entries (fs.fs.data (parent.direct_block_ptr_array 0)) = n := hnn
  rw [hnn']
  have hdata : ∀ x, (fs_create_commit { fs with fs := (mark fs b).fs } (tokens.getLast?.getD [])
      type (parent.direct_block_ptr_array 0) i b
      (block_store_read fs.fs (parent.direct_block_ptr_array 0))).fs.data
        (parent.direct_block_ptr_array 0) x =
      if x < 512 then
        (if x = 509 then (n + 1) % 256
         else if 72 * n ≤ x ∧ x < 72 * n + 72 then
           record_bytes (tokens.getLast?.getD []) type i (x - 72 * n)
         else fs.fs.data (parent.direct_block_ptr_array 0) x)
      else 0 := by
    intro x
    have h509 : ¬ (72 * n ≤ 509 ∧ 509 < 72 * n + 72) := by omega
    unfold dir_num_entries at hnn'
    rcases hty with rfl | rfl
    · simp [fs_create_commit, fs_block_write, block_store_write, set_inode, mark,
        block_store_read, dir_num_entries, hnn', h509]
    · simp [fs_create_commit, fs_block_write, block_store_write, set_inode, mark,
        block_store_read, dir_num_entries, hnn', h509, hPb]
  refine ⟨rfl, ?_, ?_, ?_, ?_, ?_, ⟨hiu, fun j hj => hij j (by omega) hj⟩, ?_, ?_, ?_, ?_, hbu,
    ?_, ?_, ?_, ?_, ?_, ?_⟩
  · unfold dir_num_entries
    rw [hdata 509]
    simp
    omega
  · intro x hx
    rw [hdata x]
    have h1 : x < 512 := by omega
    have h2 : ¬ x = 509 := by omega
    have h3 : ¬ (72 * n ≤ x ∧ x < 72 * n + 72) := by omega
    rw [if_pos h1, if_neg h2, if_neg h3]
  · apply strcmp_eq_of_bytes
    intro x hx
    rw [hdata (72 * n + x)]
    have h1 : 72 * n + x < 512 := by omega
    have h2 : ¬ 72 * n + x = 509 := by omega
    have h3 : 72 * n ≤ 72 * n + x ∧ 72 * n + x < 72 * n + 72 := by omega
    have h4 : 72 * n + x - 72 * n = x := by omega
    have h5 : x < 64 := by omega
    rw [if_pos h1, if_neg h2, if_pos h3, h4]
    simp [record_bytes, h5]
  · unfold rec_type
    rw [hdata (72 * n + 64)]
    have h1 : 72 * n + 64 < 512 := by omega
    have h2 : ¬ 72 * n + 64 = 509 := by omega
    have h3 : 72 * n ≤ 72 * n + 64 ∧ 72 * n + 64 < 72 * n + 72 := by omega
    have h4 : 72 * n + 64 - 72 * n = 64 := by omega
    rw [if_pos h1, if_neg h2, if_pos h3, h4]
    rcases hty with rfl | rfl <;> simp [record_bytes]
  · unfold rec_inode_index
    rw [hdata (72 * n + 70), hdata (72 * n + 71)]
    have h1 : 72 * n + 70 < 512 := by omega
    have h2 : ¬ 72 * n + 70 = 509 := by omega
    have h3 : 72 * n ≤ 72 * n + 70 ∧ 72 * n + 70 < 72 * n + 72 := by omega
    have h4 : 72 * n + 70 - 72 * n = 70 := by omega
    have g1 : 72 * n + 71 < 512 := by omega
    have g2 : ¬ 72 * n + 71 = 509 := by omega
    have g3 : 72 * n ≤ 72 * n + 71 ∧ 72 * n + 71 < 72 * n + 72 := by omega
    have g4 : 72 * n + 71 - 72 * n = 71 := by omega
    rw [if_pos h1, if_neg h2, if_pos h3, h4, if_pos g1, if_neg g2, if_pos g3, g4]
    simp [record_bytes]
    omega
  · rcases hty with rfl | rfl <;>
      simp [fs_create_commit, fs_block_write, set_inode, inode_zero]
  · rcases hty with rfl | rfl <;>
      simp [fs_create_commit, fs_block_write, set_inode, inode_zero]
  · rcases hty with rfl | rfl <;>
      simp [fs_create_commit, fs_block_write, set_inode, inode_zero]
  · rcases hty with rfl | rfl <;>
      simp [fs_create_commit, fs_block_write, set_inode, inode_zero, Nat.mod_eq_of_lt hb1]
  · rcases hty with rfl | rfl <;>
      simp [fs_create_commit, fs_block_write, block_store_write, set_inode, mark]
  · intro j hj
    have hj0 : ¬ j = 0 := by omega
    rcases hty with rfl | rfl <;>
      simp [fs_create_commit, fs_block_write, set_inode, inode_zero, hj0]
  · rcases hty with rfl | rfl <;>
      simp [fs_create_commit, fs_block_write, set_inode, inode_zero]
  · rcases hty with rfl | rfl <;>
      simp [fs_create_commit, fs_block_write, set_inode, inode_zero]
  · intro h1 x
    subst h1
    simp [fs_create_commit, fs_block_write, block_store_write, set_inode]
  · intro h1
    subst h1
    refine ⟨?_, ?_, ?_, ?_, ?_, ?_, ?_⟩
    · simp [fs_create_commit, fs_block_write, set_inode, inode_zero]
    · simp [fs_create_commit, fs_block_write, set_inode, inode_zero, Nat.mod_eq_of_lt hb1, hb0]
    · simp [fs_create_commit, fs_block_write, set_inode, inode_zero, Nat.mod_eq_of_lt hb1, hb1]
    · simp [fs_create_commit, fs_block_write, block_store_write, set_inode, inode_zero, mark,
        Nat.mod_eq_of_lt hb1]
    · intro j hj _
      have hj0 : ¬ j = 0 := by omega
      simp [fs_create_commit, fs_block_write, set_inode, inode_zero, hj0]
    · simp [fs_create_commit, fs_block_write, set_inode, inode_zero]
    · simp [fs_create_commit, fs_block_write, set_inode, inode_zero]

/-! ## Behaviour at concrete inputs -/

/-- C2: a second `fs_write` does not append.  On the 5-byte file holding `hello`, writing
the 5 bytes `BBBBB` returns 5 and makes the size 10, but byte 0 of the file, which was
`h`, is now `B`, and byte 5 is the 0xBB that followed the source bytes in memory. -/
theorem C2_second_write_overwrites :
    (fs_write st_opened 0 hello 5).2 = 5 ∧
    (st_written.inodes 1).file_size = 5 ∧
    (fs_write st_written 0 bees 5).2 = 5 ∧
    ((fs_write st_written 0 bees 5).1.inodes 1).file_size = 10 ∧
    file_byte st_written 1 0 = 104 ∧
    file_byte (fs_write st_written 0 bees 5).1 1 0 = 66 ∧
    file_byte (fs_write st_written 0 bees 5).1 1 5 = 187 := by
  refine ⟨?_, ?_, ?_, ?_, ?_, ?_, ?_⟩ <;> rfl

/-- C3: `fs_read` does not stop at the end of the file.  On the 5-byte file, with the
descriptor at offset 0, a read of 100 bytes returns 100. -/
theorem C3_read_not_truncated :
    (st_written.file_descriptors 0).inode_index = 1 ∧
    (st_written.file_descriptors 0).offset = 0 ∧
    (st_written.inodes 1).file_size = 5 ∧
    (fs_read st_written 0 zeros 100).ret = 100 := by
  refine ⟨?_, ?_, ?_, ?_⟩ <;> rfl

/-- C4: `fs_seek` computes the target in an `int`.  On the 5-byte file,
`fs_seek(0, 2^32 + 3, FS_SEEK_SET)` returns 3 and stores 3, where the clamp to the file
size gives 5. -/
theorem C4_seek_wraps_modulo_two_pow_32 :
    (st_written.inodes 1).file_size = 5 ∧
    (fs_seek st_written 0 4294967299 FS_SEEK_SET).2 = 3 ∧
    ((fs_seek st_written 0 4294967299 FS_SEEK_SET).1.file_descriptors 0).offset = 3 ∧
    min (max (0 + 4294967299 : Int) 0) 5 = 5 := by
  refine ⟨?_, ?_, ?_, ?_⟩ <;> rfl

/-- C5: `fs_read` breaks the offset invariant.  The state reached by format, create,
open and a write of 5 bytes satisfies the invariant (descriptor 0 is at offset 0 of a
5-byte file); after a read of 100 bytes the offset of descriptor 0 is 100, beyond the
file size 5. -/
theorem C5_read_breaks_offset_invariant :
    offset_invariant st_written ∧
    ((fs_read st_written 0 zeros 100).fs.file_descriptors 0).offset = 100 ∧
    ((fs_read st_written 0 zeros 100).fs.inodes 1).file_size = 5 ∧
    ¬ offset_invariant (fs_read st_written 0 zeros 100).fs := by
  refine ⟨by unfold offset_invariant; decide, rfl, rfl, ?_⟩
  intro h
  have h0 := h 0 (by decide) (by decide)
  revert h0
  decide

/-- C6: `fs_create` returns 0 without creating anything.  On a store without a free
block, `fs_create("/a", regular)` in the empty root directory returns 0; the root
directory still has 0 entries and inode 1 is still free. -/
theorem C6_create_returns_zero_without_entry :
    dir_num_entries ((exhausted fs_format_state).fs.data 48) = 0 ∧
    (fs_create (exhausted fs_format_state) path_a 0).map (fun r => r.2) = some 0 ∧
    (fs_create (exhausted fs_format_state) path_a 0).map
      (fun r => dir_num_entries (r.1.fs.data 48)) = some 0 ∧
    (fs_create (exhausted fs_format_state) path_a 0).map
      (fun r => (r.1.inodes 1).use_flag) = some 0 := by
  have h := block_store_allocate_exhausted (exhausted fs_format_state).fs (fun _ => rfl)
  rw [fs_create_of_tokens (exhausted fs_format_state) path_a 0 [[97]] (by decide) (by decide)
    (by rfl)]
  unfold fs_create_tokens
  rw [h]
  exact ⟨rfl, rfl, rfl, rfl⟩

/-- C7: a name conflict is not always reported.  The root directory of `st_created`
holds a record named `a`; on a store without a free block, `fs_create("/a", regular)`
returns 0. -/
theorem C7_name_conflict_returns_zero :
    name_exists [97] ((exhausted st_created).fs.data 48)
      (dir_num_entries ((exhausted st_created).fs.data 48)) 0 = true ∧
    (fs_create (exhausted st_created) path_a 0).map (fun r => r.2) = some 0 := by
  have h := block_store_allocate_exhausted (exhausted st_created).fs (fun _ => rfl)
  rw [fs_create_of_tokens (exhausted st_created) path_a 0 [[97]] (by decide) (by decide)
    (by rfl)]
  unfold fs_create_tokens
  rw [h]
  exact ⟨rfl, rfl⟩

/-- C8: exhaustion of the block store does not fail the creation of a regular file.
With no free block (`block_store_allocate` returns 0), `fs_create("/d", regular)` returns
0 and the root directory has no record named `d` afterwards. -/
theorem C8_create_regular_on_full_store_returns_zero :
    (block_store_allocate (exhausted st_created).fs).2 = 0 ∧
    (fs_create (exhausted st_created) path_d 0).map (fun r => r.2) = some 0 ∧
    (fs_create (exhausted st_created) path_d 0).map
      (fun r => name_exists [100] (r.1.fs.data 48) (dir_num_entries (r.1.fs.data 48)) 0) =
        some false := by
  have h := block_store_allocate_exhausted (exhausted st_created).fs (fun _ => rfl)
  rw [fs_create_of_tokens (exhausted st_created) path_d 0 [[100]] (by decide) (by decide)
    (by rfl)]
  unfold fs_create_tokens
  rw [h]
  exact ⟨rfl, rfl, rfl⟩

/-- C9: a failed `fs_create` releases block id 0.  With no free block,
`fs_create("/d", directory)` returns -1 and block id 0, allocated before the call, is
free after it. -/
theorem C9_failed_create_releases_block_zero :
    (exhausted st_created).fs.used 0 = true ∧
    (fs_create (exhausted st_created) path_d 1).map (fun r => r.2) = some (-1) ∧
    (fs_create (exhausted st_created) path_d 1).map (fun r => r.1.fs.used 0) = some false := by
  have h := block_store_allocate_exhausted (exhausted st_created).fs (fun _ => rfl)
  rw [fs_create_of_tokens (exhausted st_created) path_d 1 [[100]] (by decide) (by decide)
    (by rfl)]
  unfold fs_create_tokens
  rw [h]
  exact ⟨rfl, rfl, rfl⟩

/-- C10: `fs_open` fails when the only free descriptor is the last one.  With the
descriptors 0..254 in use and descriptor 255 free, `fs_open("/a")` on the existing
regular file `/a` returns -1 and leaves descriptor 255 in use, referring to inode 1. -/
theorem C10_open_fails_on_last_free_slot :
    (st_one_slot_left.file_descriptors 255).inode_index = -1 ∧
    (fs_open st_one_slot_left path_a 0).map (fun r => r.2) = some (-1) ∧
    (fs_open st_one_slot_left path_a 0).map
      (fun r => (r.1.file_descriptors 255).inode_index) = some 1 := by
  refine ⟨?_, ?_, ?_⟩ <;> rfl

/-! ## The statements above at concrete inputs -/

/-- X1, at a concrete input: on the 5-byte file, `fs_seek(0, 100, FS_SEEK_SET)` gives 5. -/
theorem X1_seek_clamps_within_int_range_witness :
    (fs_seek st_written 0 100 FS_SEEK_SET).2 = 5 ∧
    (((fs_seek st_written 0 100 FS_SEEK_SET).1.file_descriptors (0 : Int).toNat).offset : Int)
      = (fs_seek st_written 0 100 FS_SEEK_SET).2 := by
  have h := X1_seek_clamps_within_int_range st_written 0 100 FS_SEEK_SET (by decide) (by decide)
    (by decide) (Or.inl rfl) (by decide) (by decide) (by decide)
  exact ⟨h.1.trans (by decide), h.2.1⟩

/-- X2, at a concrete input: creating `/a` a second time fails and changes nothing. -/
theorem X2_create_failure_restores_state_witness :
    (block_store_allocate st_created.fs).2 ≠ 0 ∧
    fs_create st_created path_a 0 = some (fs_create_tokens st_created [[97]] 0) ∧
    (fs_create_tokens st_created [[97]] 0).2 = -1 ∧
    (fs_create_tokens st_created [[97]] 0).1 = st_created :=
  ⟨by decide, by rfl, by rfl,
    X2_create_failure_restores_state st_created path_a 0 (fs_create_tokens st_created [[97]] 0)
      (by decide) (by rfl) (by rfl)⟩

/-- X3, at a concrete input: the first `fs_open("/a")` returns descriptor 0. -/
theorem X3_open_takes_first_free_slot_witness :
    (fs_open st_created path_a 0).map (fun r => r.2) = some 0 ∧
    (fs_open st_created path_a 0).map (fun r => (r.1.file_descriptors 0).inode_index) =
      some 1 := by
  have h := X3_open_takes_first_free_slot st_created path_a 0 [[97]] (st_created.inodes 0) 0
    (by decide) (by decide) (by rfl) (by rfl) (by decide) (by decide)
    (fun j hj => absurd hj (Nat.not_lt_zero j)) (by decide)
  rw [h]
  exact ⟨rfl, by rfl⟩

/-- X4, at a concrete input: `fs_create("/a", regular)` on the formatted file system. -/
theorem X4_create_postcondition_witness :
    ∃ r, fs_create fs_format_state path_a 0 = some r ∧
      r.2 = 0 ∧
      dir_num_entries (r.1.fs.data 48) = 1 ∧
      rec_inode_index (r.1.fs.data 48) 0 = 1 ∧
      fresh_file r.1 1 := by
  obtain ⟨r, hr, h⟩ :=
    X4_create_postcondition fs_format_state path_a 0 [[97]] (fs_format_state.inodes 0) 1
      (by decide) (by decide) (by rfl) (by rfl) (by decide) (by decide) (by rfl) (by decide)
      (by rfl) (by decide)
  exact ⟨r, hr, h.1, h.2.1, h.2.2.2.2.2.1, h.2.2.2.2.2.2.2.2.2.2.2.2.2.2.2.2.2 rfl⟩

/-! ## Removing and moving directory entries -/

theorem lookup_last_absent (f : List Nat) (d : Nat → Nat) :
    ∀ (n i : Nat) (acc : Int), name_exists f d n i = false → lookup_last f d n i acc = acc := by
  intro n
  induction n with
  | zero => intro i acc _; rfl
  | succ n ih =>
    intro i acc h
    rw [name_exists, Bool.or_eq_false_iff] at h
    rw [lookup_last, h.1]
    exact ih (i + 1) acc h.2

theorem last_match_absent (f : List Nat) (d : Nat → Nat) :
    ∀ (n i acc : Nat), name_exists f d n i = false → last_match f d n i acc = acc := by
  intro n
  induction n with
  | zero => intro i acc _; rfl
  | succ n ih =>
    intro i acc h
    rw [name_exists, Bool.or_eq_false_iff] at h
    rw [last_match, h.1]
    exact ih (i + 1) acc h.2

theorem strcmp_eq_congr (s : List Nat) :
    ∀ (m1 m2 : Nat → Nat) (p q : Nat), (∀ x, x ≤ s.length → m1 (p + x) = m2 (q + x)) →
      strcmp_eq s m1 p = strcmp_eq s m2 q := by
  induction s with
  | nil =>
    intro m1 m2 p q h
    have := h 0 (by simp)
    simp only [Nat.add_zero] at this
    simp [strcmp_eq, this]
  | cons c cs ih =>
    intro m1 m2 p q h
    have h0 := h 0 (by simp)
    simp only [Nat.add_zero] at h0
    rw [strcmp_eq, strcmp_eq, h0]
    congr 1
    apply ih
    intro x hx
    have := h (x + 1) (by simp; omega)
    rw [show p + (x + 1) = p + 1 + x by omega, show q + (x + 1) = q + 1 + x by omega] at this
    exact this

theorem name_exists_eq_false (f : List Nat) (d : Nat → Nat) :
    ∀ (n i : Nat), name_exists f d n i = false ↔
      ∀ j, i ≤ j → j < i + n → strcmp_eq f d (72 * j) = false := by
  intro n
  induction n with
  | zero => intro i; simp [name_exists]; intro j h1 h2; omega
  | succ n ih =>
    intro i
    rw [name_exists, Bool.or_eq_false_iff, ih (i + 1)]
    constructor
    · rintro ⟨h1, h2⟩ j hj1 hj2
      by_cases e : j = i
      · subst e; exact h1
      · exact h2 j (by omega) (by omega)
    · intro h
      exact ⟨h i (le_refl _) (by omega), fun j hj1 hj2 => h j (by omega) (by omega)⟩

theorem name_exists_of_match (f : List Nat) (d : Nat → Nat) (n i j : Nat)
    (h1 : i ≤ j) (h2 : j < i + n) (h : strcmp_eq f d (72 * j) = true) :
    name_exists f d n i = true := by
  by_contra hc
  rw [Bool.not_eq_true, name_exists_eq_false] at hc
  rw [hc j h1 h2] at h
  exact absurd h (by simp)

theorem lookup_last_unique (f : List Nat) (d : Nat → Nat) (r : Nat)
    (hr : strcmp_eq f d (72 * r) = true) :
    ∀ (n i : Nat) (acc : Int), i ≤ r → r < i + n →
      (∀ j, r < j → j < i + n → strcmp_eq f d (72 * j) = false) →
      lookup_last f d n i acc = (rec_inode_index d r : Int) := by
  intro n
  induction n with
  | zero => intro i acc h1 h2; omega
  | succ n ih =>
    intro i acc h1 h2 hu
    rw [lookup_last]
    by_cases e : i = r
    · subst e
      rw [if_pos hr]
      apply lookup_last_absent
      rw [name_exists_eq_false]
      intro j hj1 hj2
      exact hu j (by omega) (by omega)
    · exact ih (i + 1) _ (by omega) (by omega) (fun j hj1 hj2 => hu j hj1 (by omega))

theorem last_match_unique (f : List Nat) (d : Nat → Nat) (r : Nat)
    (hr : strcmp_eq f d (72 * r) = true) :
    ∀ (n i acc : Nat), i ≤ r → r < i + n →
      (∀ j, r < j → j < i + n → strcmp_eq f d (72 * j) = false) →
      last_match f d n i acc = r := by
  intro n
  induction n with
  | zero => intro i acc h1 h2; omega
  | succ n ih =>
    intro i acc h1 h2 hu
    rw [last_match]
    by_cases e : i = r
    · subst e
      rw [if_pos hr]
      apply last_match_absent
      rw [name_exists_eq_false]
      intro j hj1 hj2
      exact hu j (by omega) (by omega)
    · exact ih (i + 1) _ (by omega) (by omega) (fun j hj1 hj2 => hu j hj1 (by omega))

/-- In read mode `get_block_ptr` leaves the state as it is. -/
theorem get_block_ptr_read_state (fs : F16FS_t) (idx b : Nat) : (get_block_ptr fs idx b 1).1 = fs := by
  unfold get_block_ptr get_block_ptr_double get_block_ptr_double_sub get_block_ptr_double_slot
    get_block_ptr_indirect get_block_ptr_indirect_slot get_block_ptr_direct
  have h10 : ¬ ((1 : Nat) = 0) := by decide
  simp only [h10, and_false, if_false]
  split
  · rfl
  · split <;> rfl

/-- The loop of `fs_remove` has no result when the size is not a multiple of 512: the
counter `file_size` is unsigned, goes down by 512 modulo 2^64 and never is 0. -/
theorem fs_remove_loop_ragged (ino : inode_t) (idx : Nat) :
    ∀ (fuel : Nat) (fs : F16FS_t) (sz : Nat), sz < 18446744073709551616 → sz % 512 ≠ 0 →
      fs_remove_loop ino idx fuel fs sz = none := by
  intro fuel
  induction fuel with
  | zero => intro fs sz _ _; rfl
  | succ fuel ih =>
    intro fs sz h64 hr
    rw [fs_remove_loop]
    have h0 : sz > 0 := by omega
    rw [if_pos h0]
    by_cases h512 : sz ≤ 512
    · rw [if_pos h512]
      apply ih
      · unfold toUInt64; omega
      · unfold toUInt64; omega
    · rw [if_neg h512]
      split
      · rfl
      · apply ih
        · unfold toUInt64; omega
        · unfold toUInt64; omega

/-- The loop of `fs_remove` ends within the fuel `fs_remove` gives it: a result reached
with any fuel is reached with `file_size / 512 + 1`. -/
theorem fs_remove_loop_fuel (ino : inode_t) (idx : Nat) :
    ∀ (fuel : Nat) (fs : F16FS_t) (sz : Nat) (r : F16FS_t), sz < 18446744073709551616 →
      fs_remove_loop ino idx fuel fs sz = some r →
      fs_remove_loop ino idx (sz / 512 + 1) fs sz = some r := by
  intro fuel
  induction fuel with
  | zero => intro fs sz r _ h; rw [fs_remove_loop] at h; exact absurd h (by simp)
  | succ fuel ih =>
    intro fs sz r h64 h
    have hm : sz % 512 = 0 := by
      by_contra hc
      rw [fs_remove_loop_ragged ino idx _ fs sz h64 hc] at h
      exact absurd h (by simp)
    rw [fs_remove_loop] at h
    by_cases h0 : sz > 0
    · rw [if_pos h0] at h
      have e : sz / 512 + 1 = ((sz - 512) / 512 + 1) + 1 := by omega
      rw [e, fs_remove_loop, if_pos h0]
      have hs : toUInt64 ((sz : Int) - 512) = sz - 512 := by unfold toUInt64; omega
      rw [hs] at h ⊢
      by_cases h512 : sz ≤ 512
      · rw [if_pos h512] at h ⊢
        exact ih _ (sz - 512) r (by omega) h
      · rw [if_neg h512] at h ⊢
        split at h
        · exact absurd h (by simp)
        · rename_i hneg
          rw [if_neg hneg]
          exact ih _ (sz - 512) r (by omega) h
    · rw [if_neg h0] at h
      rw [fs_remove_loop, if_neg h0]
      exact h

/-- The loop of `fs_remove` changes the allocation bitmap only. -/
theorem fs_remove_loop_frame (ino : inode_t) (idx : Nat) :
    ∀ (fuel : Nat) (fs r : F16FS_t) (sz : Nat), fs_remove_loop ino idx fuel fs sz = some r →
      r.fs.data = fs.fs.data ∧ r.inodes = fs.inodes ∧ r.file_descriptors = fs.file_descriptors ∧
      r.total_files = fs.total_files := by
  intro fuel
  induction fuel with
  | zero => intro fs r sz h; rw [fs_remove_loop] at h; exact absurd h (by simp)
  | succ fuel ih =>
    intro fs r sz h
    rw [fs_remove_loop] at h
    split at h
    · split at h
      · have := ih _ _ _ h
        exact this
      · split at h
        · exact absurd h (by simp)
        · have := ih _ _ _ h
          rw [get_block_ptr_read_state] at this
          exact this
    · have e : fs = r := by simpa using h
      subst e
      exact ⟨rfl, rfl, rfl, rfl⟩

theorem compact_directory_spec (pd : Nat → Nat) (r : Nat)
    (hn1 : 1 ≤ dir_num_entries pd) (hn6 : dir_num_entries pd ≤ 6) (hr : r < dir_num_entries pd) :
    compact_directory pd r 509 = dir_num_entries pd - 1 ∧
    (r < dir_num_entries pd - 1 → ∀ x, x < 72 →
      compact_directory pd r (72 * r + x) = pd (72 * (dir_num_entries pd - 1) + x)) ∧
    (∀ j, j < dir_num_entries pd - 1 → j ≠ r → ∀ x, x < 72 →
      compact_directory pd r (72 * j + x) = pd (72 * j + x)) := by
  generalize hn : dir_num_entries pd = n at *
  refine ⟨?_, ?_, ?_⟩
  · unfold compact_directory
    simp only [hn, if_true]
    have a1 : ¬ (72 * n ≤ 509 ∧ 509 < 72 * n + 72) := by omega
    have a2 : ¬ (n - 1 ≠ r ∧ 72 * r ≤ 509 ∧ 509 < 72 * r + 72) := by omega
    rw [if_neg a1, if_neg a2]
    have : pd 509 = n := hn
    rw [this]
    omega
  · intro hlt x hx
    unfold compact_directory
    simp only [hn]
    have a0 : ¬ (72 * r + x = 509) := by omega
    have a1 : ¬ (72 * n ≤ 72 * r + x ∧ 72 * r + x < 72 * n + 72) := by omega
    have a2 : n - 1 ≠ r ∧ 72 * r ≤ 72 * r + x ∧ 72 * r + x < 72 * r + 72 := by omega
    rw [if_neg a0, if_neg a1, if_pos a2]
    congr 1
    omega
  · intro j hj hjr x hx
    unfold compact_directory
    simp only [hn]
    have a0 : ¬ (72 * j + x = 509) := by omega
    have a1 : ¬ (72 * n ≤ 72 * j + x ∧ 72 * j + x < 72 * n + 72) := by omega
    have a2 : ¬ (n - 1 ≠ r ∧ 72 * r ≤ 72 * j + x ∧ 72 * j + x < 72 * r + 72) := by omega
    rw [if_neg a0, if_neg a1, if_neg a2]

theorem move_compact_spec (sd : Nat → Nat) (k : Nat)
    (hn7 : dir_num_entries sd ≤ 7) (hk : k < dir_num_entries sd) :
    move_compact sd k 509 = dir_num_entries sd - 1 ∧
    (k < dir_num_entries sd - 1 → ∀ x, x < 72 →
      move_compact sd k (72 * k + x) = sd (72 * (dir_num_entries sd - 1) + x)) ∧
    (∀ j, j < dir_num_entries sd - 1 → j ≠ k → ∀ x, x < 72 →
      move_compact sd k (72 * j + x) = sd (72 * j + x)) := by
  generalize hn : dir_num_entries sd = n at *
  refine ⟨?_, ?_, ?_⟩
  · unfold move_compact
    simp only [hn, if_true]
    have a2 : ¬ (n ≠ k + 1 ∧ 72 * k ≤ 509 ∧ 509 < 72 * k + 72) := by omega
    rw [if_neg a2]
    have : sd 509 = n := hn
    rw [this]
    omega
  · intro hlt x hx
    unfold move_compact
    simp only [hn]
    have a0 : ¬ (72 * k + x = 509) := by omega
    have a2 : n ≠ k + 1 ∧ 72 * k ≤ 72 * k + x ∧ 72 * k + x < 72 * k + 72 := by omega
    rw [if_neg a0, if_pos a2]
    congr 1
    omega
  · intro j hj hjr x hx
    unfold move_compact
    simp only [hn]
    have a0 : ¬ (72 * j + x = 509) := by omega
    have a2 : ¬ (n ≠ k + 1 ∧ 72 * k ≤ 72 * j + x ∧ 72 * j + x < 72 * k + 72) := by omega
    rw [if_neg a0, if_neg a2]

theorem move_append_spec (dd sd : Nat → Nat) (k : Nat) (name : List Nat)
    (hm : dir_num_entries dd < 7) (hlen : name.length ≤ 63) :
    move_append dd sd k name 509 = dir_num_entries dd + 1 ∧
    (∀ x, x < 72 * dir_num_entries dd → move_append dd sd k name x = dd x) ∧
    (∀ x, x ≤ name.length →
      move_append dd sd k name (72 * dir_num_entries dd + x) = name.getD x 0) ∧
    (∀ x, name.length < x → x < 72 →
      move_append dd sd k name (72 * dir_num_entries dd + x) = sd (72 * k + x)) := by
  generalize hn : dir_num_entries dd = m at *
  have hre : dir_num_entries (fun x =>
      if 72 * m ≤ x ∧ x < 72 * m + 72 then sd (72 * k + (x - 72 * m)) else dd x) = m := by
    unfold dir_num_entries
    have a : ¬ (72 * m ≤ 509 ∧ 509 < 72 * m + 72) := by omega
    simp only [a, if_false]
    exact hn
  refine ⟨?_, ?_, ?_, ?_⟩
  · unfold move_append
    simp only [hn, hre, if_true]
    have a1 : ¬ (72 * m ≤ 509 ∧ 509 ≤ 72 * m + name.length) := by omega
    have a2 : ¬ (72 * m ≤ 509 ∧ 509 < 72 * m + 72) := by omega
    rw [if_neg a1, if_neg a2]
    have : dd 509 = m := hn
    rw [this]
    omega
  · intro x hx
    unfold move_append
    simp only [hn, hre]
    have a0 : ¬ (x = 509) := by omega
    have a1 : ¬ (72 * m ≤ x ∧ x ≤ 72 * m + name.length) := by omega
    have a2 : ¬ (72 * m ≤ x ∧ x < 72 * m + 72) := by omega
    rw [if_neg a0, if_neg a1, if_neg a2]
  · intro x hx
    unfold move_append
    simp only [hn, hre]
    have a0 : ¬ (72 * m + x = 509) := by omega
    have a1 : 72 * m ≤ 72 * m + x ∧ 72 * m + x ≤ 72 * m + name.length := by omega
    rw [if_neg a0, if_pos a1]
    congr 1
    omega
  · intro x hx1 hx2
    unfold move_append
    simp only [hn, hre]
    have a0 : ¬ (72 * m + x = 509) := by omega
    have a1 : ¬ (72 * m ≤ 72 * m + x ∧ 72 * m + x ≤ 72 * m + name.length) := by omega
    have a2 : 72 * m ≤ 72 * m + x ∧ 72 * m + x < 72 * m + 72 := by omega
    rw [if_neg a0, if_neg a1, if_pos a2]
    congr 1
    omega

/-- C14: `fs_remove` of an absent name changes nothing, and returns -1 only when the
parent directory is empty.  For a path that passes the validation, whose parent resolves
and holds no record with the final name, `fs_remove` leaves the state as it is and
returns -1 if the parent has no entry, 0 (line 1011) if it has any. -/
theorem C14_remove_absent_name_returns_zero (fs : F16FS_t) (path : List Nat)
    (tokens : List (List Nat)) (parent : inode_t)
    (hv1 : ¬ (path = [] ∨ path = [47] ∨ path.head? ≠ some 47))
    (hv2 : ¬ (path.getLast? = some 47))
    (hp : parse_path path = some (some tokens))
    (ht : directory_traversal fs tokens.dropLast = some parent)
    (habs : name_exists (tokens.getLast?.getD [])
      (block_store_read fs.fs (parent.direct_block_ptr_array 0))
      (dir_num_entries (block_store_read fs.fs (parent.direct_block_ptr_array 0))) 0 = false) :
    fs_remove fs path =
      some (fs, if dir_num_entries (block_store_read fs.fs (parent.direct_block_ptr_array 0)) = 0
        then -1 else 0) := by
  unfold fs_remove
  rw [if_neg hv1, if_neg hv2]
  simp only [hp, ht]
  by_cases h0 : dir_num_entries (block_store_read fs.fs (parent.direct_block_ptr_array 0)) = 0
  · rw [if_pos h0, if_pos h0]
  · rw [if_neg h0, if_neg h0, lookup_last_absent _ _ _ _ _ habs]
    rw [if_pos (by omega)]

/-- X18: `fs_remove` of a directory that has entries, found in the directory that the
traversal reaches.  When `parse_path` returns the tokens of `path`, `directory_traversal`
returns an inode for the tokens without the last one, the last record that carries the
final name in the block of that inode refers to inode `idx` of the table, that inode is a
directory and its block has `num_entries > 0`, then `fs_remove` returns -1 and the state
after the call is the state before it (inode table, block contents, allocation bitmap,
descriptor table). -/
theorem X18_remove_nonempty_directory_reached (fs : F16FS_t) (path : List Nat)
    (tokens : List (List Nat)) (parent : inode_t) (idx : Nat)
    (hp : parse_path path = some (some tokens))
    (ht : directory_traversal fs tokens.dropLast = some parent)
    (hidx : lookup_last (tokens.getLast?.getD [])
      (block_store_read fs.fs (parent.direct_block_ptr_array 0))
      (dir_num_entries (block_store_read fs.fs (parent.direct_block_ptr_array 0))) 0 999 =
        (idx : Int))
    (hlt : idx < 256)
    (hdir : (fs.inodes idx).file_type = 1)
    (hne : 0 < dir_num_entries
      (block_store_read fs.fs ((fs.inodes idx).direct_block_ptr_array 0))) :
    fs_remove fs path = some (fs, -1) := by
  unfold fs_remove
  by_cases hv1 : path = [] ∨ path = [47] ∨ path.head? ≠ some 47
  · rw [if_pos hv1]
  · rw [if_neg hv1]
    by_cases hv2 : path.getLast? = some 47
    · rw [if_pos hv2]
    · rw [if_neg hv2]
      simp only [hp, ht]
      by_cases hn : dir_num_entries (block_store_read fs.fs (parent.direct_block_ptr_array 0)) = 0
      · rw [if_pos hn]
      · rw [if_neg hn, hidx]
        rw [if_neg (by omega)]
        simp only [Int.toNat_ofNat]
        rw [if_neg (by omega), if_pos hne]

/-- X5: the postcondition of `fs_remove` in a directory that is not full.  The parent has
at most 6 entries and record `r` is the only one with the final name of `path`; its
inode index is in the table.  If `fs_remove` returns 0 then the inode is all zero, the
parent has one entry less, slot `r` holds the record that was last when `r` was not the
last slot, the other records below the new count are unchanged and none of the
remaining records carries the removed name. -/
theorem X5_remove_postcondition (fs s : F16FS_t) (path : List Nat)
    (tokens : List (List Nat)) (parent : inode_t) (r : Nat)
    (hv1 : ¬ (path = [] ∨ path = [47] ∨ path.head? ≠ some 47))
    (hv2 : ¬ (path.getLast? = some 47))
    (hp : parse_path path = some (some tokens))
    (ht : directory_traversal fs tokens.dropLast = some parent)
    (hn6 : dir_num_entries (fs.fs.data (parent.direct_block_ptr_array 0)) ≤ 6)
    (hr : r < dir_num_entries (fs.fs.data (parent.direct_block_ptr_array 0)))
    (hname : strcmp_eq (tokens.getLast?.getD [])
      (fs.fs.data (parent.direct_block_ptr_array 0)) (72 * r) = true)
    (huniq : ∀ j, j < dir_num_entries (fs.fs.data (parent.direct_block_ptr_array 0)) → j ≠ r →
      strcmp_eq (tokens.getLast?.getD [])
        (fs.fs.data (parent.direct_block_ptr_array 0)) (72 * j) = false)
    (hidx : rec_inode_index (fs.fs.data (parent.direct_block_ptr_array 0)) r < 256)
    (hres : fs_remove fs path = some (s, 0)) :
    s.inodes (rec_inode_index (fs.fs.data (parent.direct_block_ptr_array 0)) r) = inode_zero ∧
    dir_num_entries (s.fs.data (parent.direct_block_ptr_array 0)) =
      dir_num_entries (fs.fs.data (parent.direct_block_ptr_array 0)) - 1 ∧
    (r < dir_num_entries (fs.fs.data (parent.direct_block_ptr_array 0)) - 1 → ∀ x, x < 72 →
      s.fs.data (parent.direct_block_ptr_array 0) (72 * r + x) =
        fs.fs.data (parent.direct_block_ptr_array 0)
          (72 * (dir_num_entries (fs.fs.data (parent.direct_block_ptr_array 0)) - 1) + x)) ∧
    (∀ j, j < dir_num_entries (fs.fs.data (parent.direct_block_ptr_array 0)) - 1 → j ≠ r →
      ∀ x, x < 72 →
      s.fs.data (parent.direct_block_ptr_array 0) (72 * j + x) =
        fs.fs.data (parent.direct_block_ptr_array 0) (72 * j + x)) ∧
    name_exists (tokens.getLast?.getD []) (s.fs.data (parent.direct_block_ptr_array 0))
      (dir_num_entries (s.fs.data (parent.direct_block_ptr_array 0))) 0 = false := by
  have hlen := tokens_short_of_parse path tokens hp
  generalize hpb : parent.direct_block_ptr_array 0 = pb at *
  generalize hf : tokens.getLast?.getD [] = f at *
  generalize hpd : fs.fs.data pb = pd at *
  generalize hnn : dir_num_entries pd = n at *
  have hn1 : 1 ≤ n := by omega
  have hn0 : ¬ (n = 0) := by omega
  have hl := lookup_last_unique f pd r hname n 0 999 (by omega) (by omega)
    (fun j hj1 hj2 => huniq j (by omega) (by omega))
  have hm := last_match_unique f pd r hname n 0 999 (by omega) (by omega)
    (fun j hj1 hj2 => huniq j (by omega) (by omega))
  obtain ⟨c1, c2, c3⟩ := compact_directory_spec pd r (by omega) (by omega) (by omega)
  rw [hnn] at c1 c2 c3
  -- the data of the parent block after the call
  have key : s.inodes (rec_inode_index pd r) = inode_zero ∧
      s.fs.data pb = fun x => if x < 512 then compact_directory pd r x else 0 := by
    unfold fs_remove at hres
    rw [if_neg hv1, if_neg hv2] at hres
    simp only [hp, ht, hpb, hf, block_store_read, hpd, hnn, if_neg hn0, hl, hm] at hres
    rw [if_neg (by omega)] at hres
    simp only [Int.toNat_ofNat] at hres
    split at hres
    · split at hres
      · exact absurd hres (by simp)
      · rename_i fs2 hloop
        have hfr := fs_remove_loop_frame _ _ _ _ _ _ hloop
        simp only [Option.some.injEq, Prod.mk.injEq, and_true] at hres
        subst hres
        refine ⟨by simp [set_inode], ?_⟩
        show fs2.fs.data pb = _
        rw [hfr.1]
        simp [fs_block_write, block_store_write]
    · split at hres
      · simp at hres
      · simp only [Option.some.injEq, Prod.mk.injEq, and_true] at hres
        subst hres
        refine ⟨by simp [set_inode], ?_⟩
        simp [set_inode, fs_block_write, block_store_write]
  obtain ⟨k1, k2⟩ := key
  have d1 : dir_num_entries (s.fs.data pb) = n - 1 := by
    unfold dir_num_entries
    rw [k2]
    simp only [show (509 : Nat) < 512 by decide, if_true]
    exact c1
  have d2 : ∀ j, j < n - 1 → ∀ x, x < 72 → s.fs.data pb (72 * j + x) =
      compact_directory pd r (72 * j + x) := by
    intro j hj x hx
    rw [k2]
    have : 72 * j + x < 512 := by omega
    simp only [this, if_true]
  refine ⟨k1, d1, ?_, ?_, ?_⟩
  · intro hlt x hx
    rw [d2 r hlt x hx]
    exact c2 hlt x hx
  · intro j hj hjr x hx
    rw [d2 j hj x hx]
    exact c3 j hj hjr x hx
  · rw [d1, name_exists_eq_false]
    intro j _ hj
    by_cases e : j = r
    · subst e
      have hlt : j < n - 1 := by omega
      rw [strcmp_eq_congr f (s.fs.data pb) pd (72 * j) (72 * (n - 1))]
      · exact huniq (n - 1) (by omega) (by omega)
      · intro x hx
        rw [d2 j hlt x (by omega)]
        exact c2 hlt x (by omega)
    · have hlt : j < n - 1 := by omega
      rw [strcmp_eq_congr f (s.fs.data pb) pd (72 * j) (72 * j)]
      · exact huniq j (by omega) e
      · intro x hx
        rw [d2 j hlt x (by omega)]
        exact c3 j hlt e x (by omega)

/-- X6: `fs_remove` of a regular file whose size is not a multiple of 512 has no
result.  The loop of lines 1029-1043 counts `file_size` down by 512 in an
`unsigned long`; from a size that is not a multiple of 512 it never reaches 0, whatever
the fuel and the state. -/
theorem X6_remove_ragged_file_has_no_result (fs : F16FS_t) (path : List Nat)
    (tokens : List (List Nat)) (parent : inode_t) (idx : Nat)
    (hv1 : ¬ (path = [] ∨ path = [47] ∨ path.head? ≠ some 47))
    (hv2 : ¬ (path.getLast? = some 47))
    (hp : parse_path path = some (some tokens))
    (ht : directory_traversal fs tokens.dropLast = some parent)
    (hn : dir_num_entries (block_store_read fs.fs (parent.direct_block_ptr_array 0)) ≠ 0)
    (hidx : lookup_last (tokens.getLast?.getD [])
      (block_store_read fs.fs (parent.direct_block_ptr_array 0))
      (dir_num_entries (block_store_read fs.fs (parent.direct_block_ptr_array 0))) 0 999 =
        (idx : Int))
    (hlt : idx < 256)
    (hreg : (fs.inodes idx).file_type = 0)
    (h64 : (fs.inodes idx).file_size < 18446744073709551616)
    (hrag : (fs.inodes idx).file_size % 512 ≠ 0) :
    (∀ (fuel : Nat) (st : F16FS_t),
      fs_remove_loop (fs.inodes idx) idx fuel st (fs.inodes idx).file_size = none) ∧
    fs_remove fs path = none := by
  refine ⟨fun fuel st => fs_remove_loop_ragged _ _ fuel st _ h64 hrag, ?_⟩
  unfold fs_remove
  rw [if_neg hv1, if_neg hv2]
  simp only [hp, ht]
  rw [if_neg hn, hidx]
  rw [if_neg (by omega)]
  simp only [Int.toNat_ofNat]
  rw [if_pos hreg]
  have e : ((fs_block_write fs (parent.direct_block_ptr_array 0)
      (compact_directory (block_store_read fs.fs (parent.direct_block_ptr_array 0))
        (last_match (tokens.getLast?.getD [])
          (block_store_read fs.fs (parent.direct_block_ptr_array 0))
          (dir_num_entries (block_store_read fs.fs (parent.direct_block_ptr_array 0))) 0
          999))).inodes idx).file_size = (fs.inodes idx).file_size := rfl
  rw [e, fs_remove_loop_ragged _ _ _ _ _ h64 hrag]

/-- A call of `fs_move` that has a result either failed before or at `parse_path`, or
went on with the tokens of both paths. -/
theorem fs_move_some (fs : F16FS_t) (src dst : List Nat) (r : F16FS_t × Int)
    (h : fs_move fs src dst = some r) :
    r = (fs, -1) ∨
      ∃ src_tokens dst_tokens, parse_path src = some (some src_tokens) ∧
        parse_path dst = some (some dst_tokens) ∧
        r = fs_move_tokens fs src_tokens dst_tokens := by
  unfold fs_move at h
  split at h
  · left; simpa using h.symm
  · split at h
    · left; simpa using h.symm
    · split at h
      · exact absurd h (by simp)
      · rename_i sp hs
        split at h
        · exact absurd h (by simp)
        · rename_i dp hd
          split at h
          · rename_i st dt
            right
            exact ⟨st, dt, hs, hd, by simpa using h.symm⟩
          · left; simpa using h.symm

theorem fs_move_of_tokens (fs : F16FS_t) (src dst : List Nat)
    (src_tokens dst_tokens : List (List Nat))
    (hv1 : ¬ (src = [] ∨ src = [47] ∨ src.head? ≠ some 47 ∨
      dst = [] ∨ dst = [47] ∨ dst.head? ≠ some 47))
    (hv2 : ¬ (src.getLast? = some 47 ∨ dst.getLast? = some 47))
    (hs : parse_path src = some (some src_tokens))
    (hd : parse_path dst = some (some dst_tokens)) :
    fs_move fs src dst = some (fs_move_tokens fs src_tokens dst_tokens) := by
  unfold fs_move
  rw [if_neg hv1, if_neg hv2]
  simp only [hs, hd]

/-- The last record that carries a name is either none, and the start value stays, or one of
the records compared. -/
theorem last_match_cases (f : List Nat) (d : Nat → Nat) :
    ∀ (n i acc : Nat), last_match f d n i acc = acc ∨
      (i ≤ last_match f d n i acc ∧ last_match f d n i acc < i + n) := by
  intro n
  induction n with
  | zero => intro i acc; left; rfl
  | succ n ih =>
    intro i acc
    rw [last_match]
    by_cases e : strcmp_eq f d (72 * i) = true
    · rw [if_pos e]
      rcases ih (i + 1) i with h | h
      · right; rw [h]; omega
      · right; omega
    · rw [if_neg e]
      rcases ih (i + 1) acc with h | h
      · left; exact h
      · right; omega

/-- When some record carries the name, the lookup ends on one of the records compared. -/
theorem last_match_lt (f : List Nat) (d : Nat → Nat) :
    ∀ (n i acc : Nat), name_exists f d n i = true →
      i ≤ last_match f d n i acc ∧ last_match f d n i acc < i + n := by
  intro n
  induction n with
  | zero => intro i acc h; simp [name_exists] at h
  | succ n ih =>
    intro i acc h
    rw [last_match]
    by_cases e : strcmp_eq f d (72 * i) = true
    · rw [if_pos e]
      rcases last_match_cases f d n (i + 1) i with h1 | h1
      · rw [h1]; omega
      · omega
    · rw [if_neg e]
      rw [name_exists] at h
      simp only [e, Bool.false_or] at h
      have := ih (i + 1) acc h
      omega

/-- C19: when `fs_move` returns 0.  The two paths pass the validation and `parse_path`
returns their tokens, so that each has at most 64 bytes; `directory_traversal` returns an
inode for the tokens of `src` without the last one and an inode for the tokens of `dst`
without the last one.  The source directory is the block in `direct_block_ptr_array[0]`
of the first inode and has at most 7 entries, the destination directory is that block of
the second inode and has fewer than 7.  These are the blocks the traversal reaches: they
are not always the parent directories that the paths name, and `fs_move` does not test
that the inodes are directories.  If the conditions `move_conditions` hold in these two
blocks, `fs_move` returns 0, the destination directory has one entry more and the source
directory one entry less; if they do not hold, it returns -1 and the state is
unchanged. -/
theorem C19_move_return_value (fs : F16FS_t) (src dst : List Nat)
    (src_tokens dst_tokens : List (List Nat)) (src_parent dst_parent : inode_t)
    (hv1 : ¬ (src = [] ∨ src = [47] ∨ src.head? ≠ some 47 ∨
      dst = [] ∨ dst = [47] ∨ dst.head? ≠ some 47))
    (hv2 : ¬ (src.getLast? = some 47 ∨ dst.getLast? = some 47))
    (hs : parse_path src = some (some src_tokens))
    (hd : parse_path dst = some (some dst_tokens))
    (hsp : directory_traversal fs src_tokens.dropLast = some src_parent)
    (hdp : directory_traversal fs dst_tokens.dropLast = some dst_parent)
    (hn7 : dir_num_entries (fs.fs.data (src_parent.direct_block_ptr_array 0)) ≤ 7)
    (hm7 : dir_num_entries (fs.fs.data (dst_parent.direct_block_ptr_array 0)) < 7) :
    (move_conditions src_tokens dst_tokens (fs.fs.data (src_parent.direct_block_ptr_array 0))
        (fs.fs.data (dst_parent.direct_block_ptr_array 0)) →
      ∃ s, fs_move fs src dst = some (s, 0) ∧
        dir_num_entries (s.fs.data (dst_parent.direct_block_ptr_array 0)) =
          dir_num_entries (fs.fs.data (dst_parent.direct_block_ptr_array 0)) + 1 ∧
        dir_num_entries (s.fs.data (src_parent.direct_block_ptr_array 0)) =
          dir_num_entries (fs.fs.data (src_parent.direct_block_ptr_array 0)) - 1) ∧
    (¬ move_conditions src_tokens dst_tokens (fs.fs.data (src_parent.direct_block_ptr_array 0))
        (fs.fs.data (dst_parent.direct_block_ptr_array 0)) →
      fs_move fs src dst = some (fs, -1)) := by
  have hdlen := tokens_short_of_parse dst dst_tokens hd
  rw [fs_move_of_tokens fs src dst src_tokens dst_tokens hv1 hv2 hs hd]
  unfold move_conditions
  generalize hsb : src_parent.direct_block_ptr_array 0 = sb at *
  generalize hdb : dst_parent.direct_block_ptr_array 0 = db at *
  generalize hsf : src_tokens.getLast?.getD [] = sname at *
  generalize hdf : dst_tokens.getLast?.getD [] = dname at *
  generalize hsd : fs.fs.data sb = sd at *
  generalize hdd : fs.fs.data db = dd at *
  generalize hnn : dir_num_entries sd = n at *
  generalize hmm : dir_num_entries dd = m at *
  generalize hfo : (if dst_tokens.length ≥ 2 then dst_tokens.getD (dst_tokens.length - 2) []
    else []) = dst_folder_filename
  constructor
  · rintro ⟨c1, c2, c3, c4⟩
    have e : fs_move_tokens fs src_tokens dst_tokens =
        (fs_block_write (fs_block_write fs sb (move_compact sd (last_match sname sd n 0 0))) db
          (move_append dd sd (last_match sname sd n 0 0) dname), 0) := by
      unfold fs_move_tokens
      simp only [hsp, hdp, hsb, hdb, hsf, hdf, block_store_read, hsd, hdd, hnn, hmm, hfo,
        if_neg c1, c2, c3, c4, Bool.false_eq_true, Bool.true_eq_false, if_false]
    have hne : sb ≠ db := by
      intro e1
      rw [e1, hdd] at hsd
      subst hsd
      rw [hmm] at hnn
      subst hnn
      rw [c2] at c4
      exact Bool.noConfusion c4
    have hk := (last_match_lt sname sd n 0 0 c2).2
    obtain ⟨k1, _, _⟩ := move_compact_spec sd (last_match sname sd n 0 0) (by omega) (by omega)
    obtain ⟨a1, _, _, _⟩ := move_append_spec dd sd (last_match sname sd n 0 0) dname (by omega)
      hdlen
    rw [hnn] at k1
    rw [hmm] at a1
    refine ⟨_, by rw [e], ?_, ?_⟩
    · unfold dir_num_entries
      simp only [fs_block_write, block_store_write, if_true, show (509 : Nat) < 512 by decide]
      exact a1
    · unfold dir_num_entries
      simp only [fs_block_write, block_store_write, if_neg hne, if_true,
        show (509 : Nat) < 512 by decide]
      exact k1
  · intro hc
    have e : fs_move_tokens fs src_tokens dst_tokens = (fs, -1) := by
      unfold fs_move_tokens
      simp only [hsp, hdp, hsb, hdb, hsf, hdf, block_store_read, hsd, hdd, hnn, hmm, hfo]
      split_ifs with a1 a2 a3 a4
      all_goals first
        | rfl
        | (exfalso
           apply hc
           exact ⟨a1, by simpa using a3, by simpa using a2, by simpa using a4⟩)
    rw [e]

/-- X7: the postcondition of `fs_move` into a directory that is not full.  The source
directory has at most 7 entries and record `k` is the only one with the final name of
`src`; the destination directory has fewer than 7 entries.  If `fs_move` returns 0 then
the source directory has one entry less, slot `k` holds the record that was last when
`k` was not the last slot, its other records below the new count are unchanged and
none carries the name of `src`; the destination directory has one entry more, its old
records are unchanged and none of them carries the final name of `dst`, and the new
record carries that name with the type and the inode index of the moved record. -/
theorem X7_move_postcondition (fs : F16FS_t) (src dst : List Nat)
    (src_tokens dst_tokens : List (List Nat)) (src_parent dst_parent : inode_t) (k sb db : Nat)
    (r : F16FS_t × Int)
    (hs : parse_path src = some (some src_tokens))
    (hd : parse_path dst = some (some dst_tokens))
    (hsp : directory_traversal fs src_tokens.dropLast = some src_parent)
    (hdp : directory_traversal fs dst_tokens.dropLast = some dst_parent)
    (hsb : src_parent.direct_block_ptr_array 0 = sb)
    (hdb : dst_parent.direct_block_ptr_array 0 = db)
    (hn7 : dir_num_entries (fs.fs.data sb) ≤ 7)
    (hm7 : dir_num_entries (fs.fs.data db) < 7)
    (hk : k < dir_num_entries (fs.fs.data sb))
    (hname : strcmp_eq (src_tokens.getLast?.getD []) (fs.fs.data sb) (72 * k) = true)
    (huniq : ∀ j, j < dir_num_entries (fs.fs.data sb) → j ≠ k →
      strcmp_eq (src_tokens.getLast?.getD []) (fs.fs.data sb) (72 * j) = false)
    (hc : fs_move fs src dst = some r)
    (hres : r.2 = 0) :
    dir_num_entries (r.1.fs.data sb) = dir_num_entries (fs.fs.data sb) - 1 ∧
    (k < dir_num_entries (fs.fs.data sb) - 1 → ∀ x, x < 72 →
      r.1.fs.data sb (72 * k + x) =
        fs.fs.data sb (72 * (dir_num_entries (fs.fs.data sb) - 1) + x)) ∧
    (∀ j, j < dir_num_entries (fs.fs.data sb) - 1 → j ≠ k → ∀ x, x < 72 →
      r.1.fs.data sb (72 * j + x) = fs.fs.data sb (72 * j + x)) ∧
    name_exists (src_tokens.getLast?.getD []) (r.1.fs.data sb)
      (dir_num_entries (r.1.fs.data sb)) 0 = false ∧
    dir_num_entries (r.1.fs.data db) = dir_num_entries (fs.fs.data db) + 1 ∧
    (∀ x, x < 72 * dir_num_entries (fs.fs.data db) →
      r.1.fs.data db x = fs.fs.data db x) ∧
    name_exists (dst_tokens.getLast?.getD []) (r.1.fs.data db)
      (dir_num_entries (fs.fs.data db)) 0 = false ∧
    strcmp_eq (dst_tokens.getLast?.getD []) (r.1.fs.data db)
      (72 * dir_num_entries (fs.fs.data db)) = true ∧
    rec_type (r.1.fs.data db) (dir_num_entries (fs.fs.data db)) =
      rec_type (fs.fs.data sb) k ∧
    rec_inode_index (r.1.fs.data db) (dir_num_entries (fs.fs.data db)) =
      rec_inode_index (fs.fs.data sb) k := by
  have hr : r = fs_move_tokens fs src_tokens dst_tokens := by
    rcases fs_move_some fs src dst r hc with e | ⟨st, dt, h1, h2, e⟩
    · rw [e] at hres
      exact absurd hres (by simp)
    · rw [hs] at h1
      rw [hd] at h2
      simp only [Option.some.injEq] at h1 h2
      rw [e, ← h1, ← h2]
  subst hr
  clear hc
  have hslen := tokens_short_of_parse src src_tokens hs
  have hdlen := tokens_short_of_parse dst dst_tokens hd
  generalize hsf : src_tokens.getLast?.getD [] = sname at *
  generalize hdf : dst_tokens.getLast?.getD [] = dname at *
  generalize hsd : fs.fs.data sb = sd at *
  generalize hdd : fs.fs.data db = dd at *
  generalize hnn : dir_num_entries sd = n at *
  generalize hmm : dir_num_entries dd = m at *
  have hex : name_exists sname sd n 0 = true :=
    name_exists_of_match sname sd n 0 k (by omega) (by omega) hname
  have hlm := last_match_unique sname sd k hname n 0 0 (by omega) (by omega)
    (fun j hj1 hj2 => huniq j (by omega) (by omega))
  -- what the call did
  have key : (fs_move_tokens fs src_tokens dst_tokens).1 =
        fs_block_write (fs_block_write fs sb (move_compact sd k)) db (move_append dd sd k dname) ∧
      name_exists dname dd m 0 = false ∧ name_exists sname dd m 0 = false := by
    unfold fs_move_tokens at hres ⊢
    simp only [hsp, hdp, hsb, hdb, hsf, hdf, block_store_read, hsd, hdd, hnn, hmm, hlm]
      at hres ⊢
    generalize (if dst_tokens.length ≥ 2 then dst_tokens.getD (dst_tokens.length - 2) [] else [])
      = dst_folder_filename at hres ⊢
    split_ifs at hres ⊢ with a1 a2 a3 a4
    all_goals first
      | (simp at hres; done)
      | exact ⟨rfl, by simpa using a2, by simpa using a4⟩
  obtain ⟨k1, k2, k3⟩ := key
  have hne : sb ≠ db := by
    intro e
    rw [e, hdd] at hsd
    subst hsd
    rw [hmm] at hnn
    subst hnn
    rw [hex] at k3
    exact absurd k3 (by simp)
  obtain ⟨c1, c2, c3⟩ := move_compact_spec sd k (by omega) (by omega)
  obtain ⟨a1, a2, a3, a4⟩ := move_append_spec dd sd k dname (by omega) hdlen
  rw [hnn] at c1 c2 c3
  rw [hmm] at a1 a2 a3 a4
  have ds : ∀ x, (fs_move_tokens fs src_tokens dst_tokens).1.fs.data sb x =
      if x < 512 then move_compact sd k x else 0 := by
    intro x
    rw [k1]
    simp [fs_block_write, block_store_write, hne]
  have dd2 : ∀ x, (fs_move_tokens fs src_tokens dst_tokens).1.fs.data db x =
      if x < 512 then move_append dd sd k dname x else 0 := by
    intro x
    rw [k1]
    simp [fs_block_write, block_store_write]
  generalize (fs_move_tokens fs src_tokens dst_tokens).1.fs.data sb = S at ds ⊢
  generalize (fs_move_tokens fs src_tokens dst_tokens).1.fs.data db = D at dd2 ⊢
  have e509 : (509 : Nat) < 512 := by decide
  have d1 : dir_num_entries S = n - 1 := by
    unfold dir_num_entries
    rw [ds, if_pos e509]
    exact c1
  have d2 : ∀ j, j < n - 1 → ∀ x, x < 72 → S (72 * j + x) = move_compact sd k (72 * j + x) := by
    intro j hj x hx
    rw [ds, if_pos (by omega)]
  have d3 : ∀ x, x < 72 → D (72 * m + x) = move_append dd sd k dname (72 * m + x) := by
    intro x hx
    rw [dd2, if_pos (by omega)]
  refine ⟨d1, ?_, ?_, ?_, ?_, ?_, ?_, ?_, ?_, ?_⟩
  · intro hlt x hx
    rw [d2 k hlt x hx]
    exact c2 hlt x hx
  · intro j hj hjk x hx
    rw [d2 j hj x hx]
    exact c3 j hj hjk x hx
  · rw [d1, name_exists_eq_false]
    intro j _ hj
    have hlt : j < n - 1 := by omega
    by_cases e : j = k
    · subst e
      rw [strcmp_eq_congr sname _ sd (72 * j) (72 * (n - 1))]
      · exact huniq (n - 1) (by omega) (by omega)
      · intro x hx
        rw [d2 j hlt x (by omega)]
        exact c2 hlt x (by omega)
    · rw [strcmp_eq_congr sname _ sd (72 * j) (72 * j)]
      · exact huniq j (by omega) e
      · intro x hx
        rw [d2 j hlt x (by omega)]
        exact c3 j hlt e x (by omega)
  · unfold dir_num_entries
    rw [dd2, if_pos e509]
    exact a1
  · intro x hx
    rw [dd2, if_pos (by omega)]
    exact a2 x hx
  · rw [name_exists_eq_false]
    intro j _ hj
    rw [strcmp_eq_congr dname _ dd (72 * j) (72 * j)]
    · exact (name_exists_eq_false dname dd m 0).1 k2 j (by omega) (by omega)
    · intro x hx
      rw [dd2, if_pos (by omega)]
      exact a2 _ (by omega)
  · apply strcmp_eq_of_bytes
    intro x hx
    rw [d3 x (by omega)]
    exact a3 x hx
  · unfold rec_type
    rw [d3 64 (by omega)]
    exact a4 64 (by omega) (by omega)
  · unfold rec_inode_index
    rw [d3 70 (by omega), d3 71 (by omega)]
    rw [a4 70 (by omega) (by omega), a4 71 (by omega) (by omega)]

/-- X8: a move within one directory always fails.  When the parents of `src` and `dst`
resolve to inodes with the same directory block, `fs_move` returns -1 and leaves the
state as it is: past the tests that `dst` does not exist and `src` exists, the test of
lines 1325-1336 finds the name of `src` in the destination directory, which is the
directory of `src`. -/
theorem X8_move_within_a_directory_fails (fs : F16FS_t) (src dst : List Nat)
    (src_tokens dst_tokens : List (List Nat)) (src_parent dst_parent : inode_t)
    (hs : parse_path src = some (some src_tokens))
    (hd : parse_path dst = some (some dst_tokens))
    (hsp : directory_traversal fs src_tokens.dropLast = some src_parent)
    (hdp : directory_traversal fs dst_tokens.dropLast = some dst_parent)
    (hsame : src_parent.direct_block_ptr_array 0 = dst_parent.direct_block_ptr_array 0) :
    fs_move fs src dst = some (fs, -1) := by
  have e : fs_move_tokens fs src_tokens dst_tokens = (fs, -1) := by
    unfold fs_move_tokens
    simp only [hsp, hdp, hsame]
    generalize (if dst_tokens.length ≥ 2 then dst_tokens.getD (dst_tokens.length - 2) [] else [])
      = dst_folder_filename
    split_ifs with a3 a4 a5 a6
    all_goals first
      | rfl
      | (rw [Bool.not_eq_false] at a5; exact absurd a5 a6)
  unfold fs_move
  split
  · rfl
  · split
    · rfl
    · simp only [hs, hd, e]

/-- X17: `fs_move` writes the blocks the two traversals reach and nothing else.  For every
state and every pair of paths for which `fs_move` has a result and the block that the
traversal reaches for `dst` has fewer than 7 entries, whatever `fs_move` returns, the
inode table, the descriptor table, the allocation bitmap of the block store and
`total_files` are the same after the call, every block either has the contents it had or
is the block in `direct_block_ptr_array[0]` of the inode that `directory_traversal`
returns for `src` or for `dst` (`parent_block`), be that inode a directory or a regular
file, and the block reached for `dst` has at most 7 entries after the call. -/
theorem X17_move_writes_reached_blocks_only (fs : F16FS_t) (src dst : List Nat)
    (r : F16FS_t × Int)
    (hm7 : ∀ b, parent_block fs dst = some b → dir_num_entries (fs.fs.data b) < 7)
    (hc : fs_move fs src dst = some r) :
    r.1.inodes = fs.inodes ∧
    r.1.file_descriptors = fs.file_descriptors ∧
    r.1.fs.used = fs.fs.used ∧
    r.1.total_files = fs.total_files ∧
    (∀ b, r.1.fs.data b = fs.fs.data b ∨
      parent_block fs src = some b ∨ parent_block fs dst = some b) ∧
    ∀ b, parent_block fs dst = some b → dir_num_entries (r.1.fs.data b) ≤ 7 := by
  have hsame : ∀ b, parent_block fs dst = some b → dir_num_entries (fs.fs.data b) ≤ 7 :=
    fun b hb => Nat.le_of_lt (hm7 b hb)
  rcases fs_move_some fs src dst r hc with e | ⟨stoks, dtoks, hs, hd, e⟩
  · rw [e]
    exact ⟨rfl, rfl, rfl, rfl, fun b => Or.inl rfl, hsame⟩
  · rw [e]
    have hlen := tokens_short_of_parse dst dtoks hd
    unfold fs_move_tokens
    dsimp only
    generalize (if dtoks.length ≥ 2 then dtoks.getD (dtoks.length - 2) [] else [])
      = dst_folder_filename
    split
    · exact ⟨rfl, rfl, rfl, rfl, fun b => Or.inl rfl, hsame⟩
    · split
      · rename_i sp dp hsp hdp
        have hpd : parent_block fs dst = some (dp.direct_block_ptr_array 0) := by
          unfold parent_block
          rw [hd]
          simp only [hdp, Option.map_some']
        split
        · exact ⟨rfl, rfl, rfl, rfl, fun b => Or.inl rfl, hsame⟩
        · split
          · exact ⟨rfl, rfl, rfl, rfl, fun b => Or.inl rfl, hsame⟩
          · split
            · exact ⟨rfl, rfl, rfl, rfl, fun b => Or.inl rfl, hsame⟩
            · refine ⟨rfl, rfl, rfl, rfl, fun b => ?_, fun b hb => ?_⟩
              · by_cases e1 : b = dp.direct_block_ptr_array 0
                · right; right
                  rw [hpd, e1]
                · by_cases e2 : b = sp.direct_block_ptr_array 0
                  · right; left
                    unfold parent_block
                    rw [hs]
                    simp only [hsp, Option.map_some', e2]
                  · left
                    simp only [fs_block_write, block_store_write, if_neg e1, if_neg e2]
              · rw [hpd] at hb
                have eb : dp.direct_block_ptr_array 0 = b := Option.some.inj hb
                subst eb
                have hm := hm7 _ hpd
                have h1 := (move_append_spec
                  (block_store_read fs.fs (dp.direct_block_ptr_array 0))
                  (block_store_read fs.fs (sp.direct_block_ptr_array 0))
                  (last_match (stoks.getLast?.getD [])
                    (block_store_read fs.fs (sp.direct_block_ptr_array 0))
                    (dir_num_entries (block_store_read fs.fs (sp.direct_block_ptr_array 0))) 0 0)
                  (dtoks.getLast?.getD []) hm hlen).1
                unfold dir_num_entries at h1 ⊢
                simp only [fs_block_write, block_store_write, if_true,
                  show (509 : Nat) < 512 by decide]
                rw [h1]
                unfold dir_num_entries at hm
                unfold block_store_read
                omega
      · exact ⟨rfl, rfl, rfl, rfl, fun b => Or.inl rfl, hsame⟩

/-! ## Opening, removing and moving at concrete inputs -/

/-- C11: `fs_open` does not reset the offset of the descriptor it hands out.  Descriptor
0, on the 5-byte file `/a`, is moved to offset 3 and closed; the next `fs_open("/a")`
returns descriptor 0 again, on inode 1, and its offset is 3. -/
theorem C11_open_keeps_stale_offset :
    (fs_seek st_written 0 3 FS_SEEK_SET).2 = 3 ∧
    (fs_close (fs_seek st_written 0 3 FS_SEEK_SET).1 0).2 = 0 ∧
    ((fs_close (fs_seek st_written 0 3 FS_SEEK_SET).1 0).1.file_descriptors 0).inode_index = -1 ∧
    (fs_open (fs_close (fs_seek st_written 0 3 FS_SEEK_SET).1 0).1 path_a 0).map
      (fun r => r.2) = some 0 ∧
    (fs_open (fs_close (fs_seek st_written 0 3 FS_SEEK_SET).1 0).1 path_a 0).map
      (fun r => (r.1.file_descriptors 0).inode_index) = some 1 ∧
    (fs_open (fs_close (fs_seek st_written 0 3 FS_SEEK_SET).1 0).1 path_a 0).map
      (fun r => (r.1.file_descriptors 0).offset) = some 3 := by
  refine ⟨?_, ?_, ?_, ?_, ?_, ?_⟩ <;> rfl

/-- C12: a rejected `fs_open` keeps the descriptor it took.  In the state with the one
directory `/d` (inode 1) and all descriptors free, `fs_open("/d")` returns -1 and leaves
descriptor 0 in use, referring to inode 1.  For the absent name `/a` the variable
`inode_index_for_open` is never assigned: if it holds 0, `fs_open` returns -1 and leaves
descriptor 0 in use; if it holds 5, `fs_open` returns 0. -/
theorem C12_open_directory_takes_descriptor :
    (st_dir.inodes 1).file_type = 1 ∧
    strcmp_eq [100] (st_dir.fs.data 48) 0 = true ∧
    rec_inode_index (st_dir.fs.data 48) 0 = 1 ∧
    (st_dir.file_descriptors 0).inode_index = -1 ∧
    (fs_open st_dir path_d 0).map (fun r => r.2) = some (-1) ∧
    (fs_open st_dir path_d 0).map (fun r => (r.1.file_descriptors 0).inode_index) = some 1 ∧
    name_exists [97] (st_dir.fs.data 48) (dir_num_entries (st_dir.fs.data 48)) 0 = false ∧
    (fs_open st_dir path_a 0).map (fun r => r.2) = some (-1) ∧
    (fs_open st_dir path_a 0).map (fun r => (r.1.file_descriptors 0).inode_index) = some 0 ∧
    (fs_open st_dir path_a 5).map (fun r => r.2) = some 0 := by
  refine ⟨?_, ?_, ?_, ?_, ?_, ?_, ?_, ?_, ?_, ?_⟩ <;> rfl

/-- C13: removing an entry of a full directory does not leave 6 entries.  The root
directory holds the seven regular files `/a` .. `/g`; `fs_remove("/a")` returns 0 and the
root directory block then has `num_entries = 255`: the 72 zero bytes of line 1022 start
at byte 504 and clear the count at byte 509 before it is decremented. -/
theorem C13_remove_from_full_directory :
    dir_num_entries (st_seven.fs.data 48) = 7 ∧
    strcmp_eq [97] (st_seven.fs.data 48) 0 = true ∧
    (st_seven.inodes (rec_inode_index (st_seven.fs.data 48) 0)).file_type = 0 ∧
    (fs_remove st_seven path_a).map (fun r => r.2) = some 0 ∧
    (fs_remove st_seven path_a).map (fun r => dir_num_entries (r.1.fs.data 48)) = some 255 := by
  refine ⟨?_, ?_, ?_, ?_, ?_⟩ <;> rfl

/-- C16: `fs_remove` does not release the blocks of the file.  The empty file `/a` owns
block 49; after `fs_remove("/a")` returned 0, block 49 is still allocated.  With 1024
bytes written, `/a` owns the blocks 49 and 50; `fs_remove("/a")` returns 0, block 50 is
still allocated, and block 0, which never belonged to the file, was released. -/
theorem C16_remove_leaves_blocks_allocated :
    (st_created.inodes 1).file_size = 0 ∧
    (st_created.inodes 1).direct_block_ptr_array 0 = 49 ∧
    st_created.fs.used 49 = true ∧
    (fs_remove st_created path_a).map (fun r => r.2) = some 0 ∧
    (fs_remove st_created path_a).map (fun r => r.1.fs.used 49) = some true ∧
    (fs_write st_opened 0 pattern 1024).2 = 1024 ∧
    (st_two_blocks.inodes 1).file_size = 1024 ∧
    (st_two_blocks.inodes 1).direct_block_ptr_array 0 = 49 ∧
    (st_two_blocks.inodes 1).direct_block_ptr_array 1 = 50 ∧
    st_two_blocks.fs.used 0 = true ∧
    (fs_remove st_two_blocks path_a).map (fun r => r.2) = some 0 ∧
    (fs_remove st_two_blocks path_a).map (fun r => r.1.fs.used 49) = some false ∧
    (fs_remove st_two_blocks path_a).map (fun r => r.1.fs.used 50) = some true ∧
    (fs_remove st_two_blocks path_a).map (fun r => r.1.fs.used 0) = some false := by
  refine ⟨?_, ?_, ?_, ?_, ?_, ?_, ?_, ?_, ?_, ?_, ?_, ?_, ?_, ?_⟩ <;> rfl

/-- C17: create after remove does not bring the entry back on a full store.  With no
free block, `fs_remove("/a")` of the empty regular file `/a` returns 0 and
`fs_create("/a", regular)` returns 0, but the root directory has no entry afterwards and
inode 1 is not in use. -/
theorem C17_create_after_remove_on_full_store :
    name_exists [97] ((exhausted st_created).fs.data 48)
      (dir_num_entries ((exhausted st_created).fs.data 48)) 0 = true ∧
    fs_remove (exhausted st_created) path_a = some (st_removed_full, 0) ∧
    (fs_create st_removed_full path_a 0).map (fun r => r.2) = some 0 ∧
    (fs_create st_removed_full path_a 0).map
      (fun r => dir_num_entries (r.1.fs.data 48)) = some 0 ∧
    (fs_create st_removed_full path_a 0).map (fun r => (r.1.inodes 1).use_flag) = some 0 := by
  have h := block_store_allocate_exhausted st_removed_full.fs (fun _ => rfl)
  rw [fs_create_of_tokens st_removed_full path_a 0 [[97]] (by decide) (by decide) (by rfl)]
  unfold fs_create_tokens
  rw [h]
  exact ⟨rfl, rfl, rfl, rfl, rfl⟩

/-- C18: a move into a full directory returns 0 and breaks both parts of the
postcondition.  The root directory holds seven entries, none named `h`: record 0 is the
directory `d` (inode 1, block 49) and record 1 the regular file `a` (inode 3).  The
directory `/d` holds the regular file `x` (inode 2).  `fs_move("/d/x", "/h")` returns 0
and `/d` then has no entry.  The copy of line 1348 to `records[7]` has put byte 5 of the
record of `x`, a zero, on `num_entries`; line 1349 wrote the name `h` to `records[0]` and
line 1350 made the count 1.  The only valid record of the root directory is now record 0:
it is named `h` and still has type 1 and inode index 1, those of `d` and not those of the
moved record, and `a`, which nothing removed, is no longer among the valid records. -/
theorem C18_move_into_full_directory :
    dir_num_entries (st_full_root.fs.data 48) = 7 ∧
    name_exists [104] (st_full_root.fs.data 48) 7 0 = false ∧
    rec_name (st_full_root.fs.data 48) 0 = [100] ∧
    rec_type (st_full_root.fs.data 48) 0 = 1 ∧
    rec_inode_index (st_full_root.fs.data 48) 0 = 1 ∧
    name_exists [97] (st_full_root.fs.data 48) 7 0 = true ∧
    (st_full_root.inodes 1).file_type = 1 ∧
    (st_full_root.inodes 1).direct_block_ptr_array 0 = 49 ∧
    dir_num_entries (st_full_root.fs.data 49) = 1 ∧
    rec_name (st_full_root.fs.data 49) 0 = [120] ∧
    rec_type (st_full_root.fs.data 49) 0 = 0 ∧
    rec_inode_index (st_full_root.fs.data 49) 0 = 2 ∧
    (fs_move st_full_root path_dx path_h).map (fun r => r.2) = some 0 ∧
    (fs_move st_full_root path_dx path_h).map
      (fun r => dir_num_entries (r.1.fs.data 49)) = some 0 ∧
    (fs_move st_full_root path_dx path_h).map
      (fun r => dir_num_entries (r.1.fs.data 48)) = some 1 ∧
    (fs_move st_full_root path_dx path_h).map (fun r => rec_name (r.1.fs.data 48) 0) =
      some [104] ∧
    (fs_move st_full_root path_dx path_h).map (fun r => rec_type (r.1.fs.data 48) 0) =
      some 1 ∧
    (fs_move st_full_root path_dx path_h).map (fun r => rec_inode_index (r.1.fs.data 48) 0) =
      some 1 ∧
    (fs_move st_full_root path_dx path_h).map
      (fun r => name_exists [97] (r.1.fs.data 48) (dir_num_entries (r.1.fs.data 48)) 0) =
      some false := by
  refine ⟨?_, ?_, ?_, ?_, ?_, ?_, ?_, ?_, ?_, ?_, ?_, ?_, ?_, ?_, ?_, ?_, ?_, ?_, ?_⟩ <;> rfl

/-- C19, the claim at a concrete input: `/a` exists in the root directory, `/b` does not,
and `dst` has no parent name that `a` could equal; `fs_move("/a", "/b")` returns -1 and
changes nothing. -/
theorem C19_rename_within_directory_fails :
    name_exists [97] (st_created.fs.data 48) (dir_num_entries (st_created.fs.data 48)) 0 = true ∧
    name_exists [98] (st_created.fs.data 48) (dir_num_entries (st_created.fs.data 48)) 0 = false ∧
    parse_path path_a = some (some [[97]]) ∧
    parse_path path_b = some (some [[98]]) ∧
    fs_move st_created path_a path_b = some (st_created, -1) := by
  refine ⟨?_, ?_, ?_, ?_, ?_⟩ <;> rfl

/-- C20: `fs_move` changes a block that is not a directory block.  `/a` is a regular
file (inode 1) whose data block is block 49, all zero, and `/b` a regular file (inode 2)
of the root directory (block 48).  `fs_move("/b", "/a/b")` does not test the type of the
inode that `directory_traversal` returns for `/a`: it returns 0, writes a record named
`b` with inode index 2 at the start of block 49 and sets byte 509 of that block to 1, and
takes `b` out of the root directory.  The data of the file `/a` has changed. -/
theorem C20_move_overwrites_file_block :
    (st_two_files.inodes 1).use_flag = 1 ∧
    (st_two_files.inodes 1).file_type = 0 ∧
    (st_two_files.inodes 1).direct_block_ptr_array 0 = 49 ∧
    (st_two_files.inodes 0).direct_block_ptr_array 0 = 48 ∧
    rec_name (st_two_files.fs.data 48) 0 = [97] ∧
    rec_inode_index (st_two_files.fs.data 48) 0 = 1 ∧
    rec_name (st_two_files.fs.data 48) 1 = [98] ∧
    rec_inode_index (st_two_files.fs.data 48) 1 = 2 ∧
    st_two_files.fs.data 49 0 = 0 ∧
    st_two_files.fs.data 49 70 = 0 ∧
    st_two_files.fs.data 49 509 = 0 ∧
    (fs_move st_two_files path_b path_ab).map (fun r => r.2) = some 0 ∧
    (fs_move st_two_files path_b path_ab).map (fun r => r.1.fs.data 49 0) = some 98 ∧
    (fs_move st_two_files path_b path_ab).map (fun r => r.1.fs.data 49 70) = some 2 ∧
    (fs_move st_two_files path_b path_ab).map (fun r => r.1.fs.data 49 509) = some 1 ∧
    (fs_move st_two_files path_b path_ab).map
      (fun r => name_exists [98] (r.1.fs.data 48) (dir_num_entries (r.1.fs.data 48)) 0) =
      some false := by
  refine ⟨?_, ?_, ?_, ?_, ?_, ?_, ?_, ?_, ?_, ?_, ?_, ?_, ?_, ?_, ?_, ?_⟩ <;> rfl

/-- The root path: `fs_remove("/")` returns -1 and changes nothing. -/
theorem fs_remove_root (fs : F16FS_t) : fs_remove fs [47] = some (fs, -1) := by
  unfold fs_remove
  rw [if_pos (Or.inr (Or.inl rfl))]

/-- C14, at a concrete input: the root directory holds `/a` only; `fs_remove("/d")`
returns 0. -/
theorem C14_remove_absent_name_returns_zero_witness :
    dir_num_entries (st_created.fs.data 48) = 1 ∧
    name_exists [100] (st_created.fs.data 48) 1 0 = false ∧
    fs_remove st_created path_d = some (st_created, 0) :=
  ⟨by rfl, by rfl,
    C14_remove_absent_name_returns_zero st_created path_d [[100]] (st_created.inodes 0)
      (by decide) (by decide) (by rfl) (by rfl) (by rfl)⟩

/-- X18, at a concrete input: the directory `/d` holds the file `x`; `fs_remove("/d")`
returns -1 and changes nothing. -/
theorem X18_remove_nonempty_directory_reached_witness :
    (st_dir_file.inodes 1).file_type = 1 ∧
    dir_num_entries (st_dir_file.fs.data ((st_dir_file.inodes 1).direct_block_ptr_array 0)) = 1 ∧
    fs_remove st_dir_file path_d = some (st_dir_file, -1) :=
  ⟨by rfl, by rfl,
    X18_remove_nonempty_directory_reached st_dir_file path_d [[100]] (st_dir_file.inodes 0) 1
      (by rfl) (by rfl) (by rfl) (by decide) (by rfl) (by decide)⟩

/-- C19, at a concrete input: with the regular file `/a` in the root directory (block
48) and the empty directory `/b` (block 50), the conditions hold and `fs_move("/a",
"/b/a")` returns 0; `/b` then has one entry and the root directory one. -/
theorem C19_move_return_value_witness :
    move_conditions [[97]] [[98], [97]] (st_file_and_dir.fs.data 48)
      (st_file_and_dir.fs.data 50) ∧
    ∃ s, fs_move st_file_and_dir path_a path_ba = some (s, 0) ∧
      dir_num_entries (s.fs.data 50) = dir_num_entries (st_file_and_dir.fs.data 50) + 1 ∧
      dir_num_entries (s.fs.data 48) = dir_num_entries (st_file_and_dir.fs.data 48) - 1 :=
  ⟨by decide,
    (C19_move_return_value st_file_and_dir path_a path_ba [[97]] [[98], [97]]
      (st_file_and_dir.inodes 0) (st_file_and_dir.inodes 2)
      (by decide) (by decide) (by rfl) (by rfl) (by rfl) (by rfl) (by decide)
      (by decide)).1 (by decide)⟩

/-- X5, at a concrete input: the root directory holds `/a` and `/b`; after
`fs_remove("/a")` it holds one entry, and no record named `a`. -/
theorem X5_remove_postcondition_witness :
    fs_remove st_two_files path_a = some (st_a_removed, 0) ∧
    st_a_removed.inodes 1 = inode_zero ∧
    dir_num_entries (st_a_removed.fs.data 48) = 1 ∧
    name_exists [97] (st_a_removed.fs.data 48) 1 0 = false := by
  have h := X5_remove_postcondition st_two_files st_a_removed path_a [[97]]
    (st_two_files.inodes 0) 0 (by decide) (by decide) (by rfl) (by rfl) (by decide) (by decide)
    (by rfl) (by decide) (by decide) (by rfl)
  exact ⟨by rfl, h.1, h.2.1, h.2.2.2.2⟩

/-- X6, at a concrete input: the 5-byte file `/a` cannot be removed. -/
theorem X6_remove_ragged_file_has_no_result_witness :
    (st_written.inodes 1).file_type = 0 ∧
    (st_written.inodes 1).file_size = 5 ∧
    fs_remove st_written path_a = none :=
  ⟨by rfl, by rfl,
    (X6_remove_ragged_file_has_no_result st_written path_a [[97]] (st_written.inodes 0) 1
      (by decide) (by decide) (by rfl) (by rfl) (by decide) (by rfl) (by decide) (by rfl)
      (by decide) (by decide)).2⟩

/-- X7, at a concrete input: with the regular file `/a` (inode 1) and the empty directory
`/b` (block 50), `fs_move("/a", "/b/a")` leaves the root directory with one entry and
the directory `/b` with one record, named `a`, of inode 1. -/
theorem X7_move_postcondition_witness :
    fs_move st_file_and_dir path_a path_ba =
      some (fs_move_tokens st_file_and_dir [[97]] [[98], [97]]) ∧
    (fs_move_tokens st_file_and_dir [[97]] [[98], [97]]).2 = 0 ∧
    dir_num_entries ((fs_move_tokens st_file_and_dir [[97]] [[98], [97]]).1.fs.data 48) = 1 ∧
    dir_num_entries ((fs_move_tokens st_file_and_dir [[97]] [[98], [97]]).1.fs.data 50) = 1 ∧
    strcmp_eq [97] ((fs_move_tokens st_file_and_dir [[97]] [[98], [97]]).1.fs.data 50) 0 = true ∧
    rec_inode_index ((fs_move_tokens st_file_and_dir [[97]] [[98], [97]]).1.fs.data 50) 0 = 1 := by
  have h := X7_move_postcondition st_file_and_dir path_a path_ba [[97]] [[98], [97]]
    (st_file_and_dir.inodes 0) (st_file_and_dir.inodes 2) 0 48 50
    (fs_move_tokens st_file_and_dir [[97]] [[98], [97]])
    (by rfl) (by rfl) (by rfl) (by rfl) (by rfl) (by rfl) (by decide) (by decide) (by decide)
    (by rfl) (by decide) (by rfl) (by rfl)
  exact ⟨by rfl, by rfl, h.1, h.2.2.2.2.1, h.2.2.2.2.2.2.2.1, h.2.2.2.2.2.2.2.2.2⟩

/-- X17, at a concrete input: `fs_move("/a", "/b/a")` with the regular file `/a` and the
empty directory `/b` (block 50) leaves the inode table, the descriptor table and the
allocation bitmap as they were, and changes neither block 49 nor block 51. -/
theorem X17_move_writes_reached_blocks_only_witness :
    fs_move st_file_and_dir path_a path_ba =
      some (fs_move_tokens st_file_and_dir [[97]] [[98], [97]]) ∧
    (fs_move_tokens st_file_and_dir [[97]] [[98], [97]]).1.inodes = st_file_and_dir.inodes ∧
    (fs_move_tokens st_file_and_dir [[97]] [[98], [97]]).1.file_descriptors =
      st_file_and_dir.file_descriptors ∧
    (fs_move_tokens st_file_and_dir [[97]] [[98], [97]]).1.fs.used = st_file_and_dir.fs.used ∧
    parent_block st_file_and_dir path_a = some 48 ∧
    parent_block st_file_and_dir path_ba = some 50 ∧
    (fs_move_tokens st_file_and_dir [[97]] [[98], [97]]).1.fs.data 49 =
      st_file_and_dir.fs.data 49 ∧
    (fs_move_tokens st_file_and_dir [[97]] [[98], [97]]).1.fs.data 51 =
      st_file_and_dir.fs.data 51 := by
  have hs : parent_block st_file_and_dir path_a = some 48 := by rfl
  have hd : parent_block st_file_and_dir path_ba = some 50 := by rfl
  have h := X17_move_writes_reached_blocks_only st_file_and_dir path_a path_ba
    (fs_move_tokens st_file_and_dir [[97]] [[98], [97]])
    (fun b hb => by
      rw [hd] at hb
      cases hb
      decide)
    (by rfl)
  refine ⟨by rfl, h.1, h.2.1, h.2.2.1, hs, hd, ?_, ?_⟩
  · rcases h.2.2.2.2.1 49 with e | e | e
    · exact e
    · rw [hs] at e
      exact absurd e (by decide)
    · rw [hd] at e
      exact absurd e (by decide)
  · rcases h.2.2.2.2.1 51 with e | e | e
    · exact e
    · rw [hs] at e
      exact absurd e (by decide)
    · rw [hd] at e
      exact absurd e (by decide)

/-- X8, at a concrete input: `/b` exists and `/h` does not; `fs_move("/b", "/h")`
returns -1. -/
theorem X8_move_within_a_directory_fails_witness :
    fs_move st_two_files path_b path_h = some (st_two_files, -1) :=
  X8_move_within_a_directory_fails st_two_files path_b path_h [[98]] [[104]]
    (st_two_files.inodes 0) (st_two_files.inodes 0) (by rfl) (by rfl) (by rfl) (by rfl) rfl

/-! ## Listing a directory, formatting, unmounting and mounting -/

/-- A name that some record carries is found whatever `inode_index` held before
the lookup loop. -/
theorem lookup_last_found (f : List Nat) (d : Nat → Nat) :
    ∀ (n i : Nat) (acc : Int), name_exists f d n i = true →
      ∀ acc2, lookup_last f d n i acc = lookup_last f d n i acc2 := by
  intro n
  induction n with
  | zero => intro i acc h; simp [name_exists] at h
  | succ n ih =>
    intro i acc h acc2
    rw [lookup_last, lookup_last]
    by_cases e : strcmp_eq f d (72 * i) = true
    · rw [if_pos e, if_pos e]
    · rw [if_neg e, if_neg e]
      rw [name_exists] at h
      simp only [e, Bool.false_or] at h
      exact ih (i + 1) acc h acc2

/-- The listing of a directory block has `num_entries` elements. -/
theorem dir_records_length (wd : Nat → Nat) : (dir_records wd).length = dir_num_entries wd := by
  simp [dir_records]

/-- Element `k` of the listing is record `k` of the directory block, byte for byte. -/
theorem dir_records_get (wd : Nat → Nat) (k x : Nat) (hk : k < dir_num_entries wd) (hx : x < 72) :
    ((dir_records wd).getD k []).getD x 0 = wd (72 * k + x) := by
  simp [dir_records, List.getD_eq_getElem?_getD, List.getElem?_map, List.getElem?_range, hk, hx]

/-- X19: `fs_get_dir` returns the records of the directory that the lookup reaches.  For
`/` the result is the listing of the root directory block.  For any other path that
passes the validation of the source (absolute, no trailing `/`), for which `parse_path`
returns the tokens (so that it has at most 64 bytes), whose parent tokens
`directory_traversal` resolves to an inode and whose last component is the name of a
record, with inode index `idx`, of the block of that inode: if inode `idx` is a regular
file the result is NULL, otherwise it is the listing of the directory block of inode
`idx`.  The listing of a block has `num_entries` elements and its element `k` is record
`k` of the block, in slot order. -/
theorem X19_get_dir_lists_reached_directory (fs : F16FS_t) (path : List Nat)
    (tokens : List (List Nat)) (parent : inode_t) (idx : Nat) (indeterminate : Int)
    (hv1 : ¬ (path = [] ∨ path.head? ≠ some 47))
    (hv2 : ¬ ((path.getLast? = some 47 ∧ path ≠ [47]) ∨ path.length > 100))
    (hroot : path ≠ [47])
    (hp : parse_path path = some (some tokens))
    (ht : directory_traversal fs tokens.dropLast = some parent)
    (hex : name_exists (tokens.getLast?.getD [])
      (block_store_read fs.fs (parent.direct_block_ptr_array 0))
      (dir_num_entries (block_store_read fs.fs (parent.direct_block_ptr_array 0))) 0 = true)
    (hidx : lookup_last (tokens.getLast?.getD [])
      (block_store_read fs.fs (parent.direct_block_ptr_array 0))
      (dir_num_entries (block_store_read fs.fs (parent.direct_block_ptr_array 0))) 0 0 =
        (idx : Int)) :
    fs_get_dir fs [47] indeterminate =
      some (some (dir_records (fs.fs.data ((fs.inodes 0).direct_block_ptr_array 0)))) ∧
    ((fs.inodes idx).file_type = 0 → fs_get_dir fs path indeterminate = some none) ∧
    ((fs.inodes idx).file_type ≠ 0 →
      fs_get_dir fs path indeterminate =
        some (some (dir_records (fs.fs.data ((fs.inodes idx).direct_block_ptr_array 0))))) ∧
    ∀ d : Nat → Nat, (dir_records d).length = dir_num_entries d ∧
      ∀ k x, k < dir_num_entries d → x < 72 →
        ((dir_records d).getD k []).getD x 0 = d (72 * k + x) := by
  have hl : lookup_last (tokens.getLast?.getD [])
      (block_store_read fs.fs (parent.direct_block_ptr_array 0))
      (dir_num_entries (block_store_read fs.fs (parent.direct_block_ptr_array 0))) 0
      indeterminate = (idx : Int) := by
    rw [lookup_last_found _ _ _ _ indeterminate hex 0]
    exact hidx
  refine ⟨?_, ?_, ?_, fun d => ⟨dir_records_length d, fun k x hk hx => dir_records_get d k x hk hx⟩⟩
  · unfold fs_get_dir
    have e1 : parse_path [47] = some (some []) := by rfl
    have e2 : directory_traversal fs ([] : List (List Nat)).dropLast = some (fs.inodes 0) := by rfl
    rw [if_neg (by decide), if_neg (by decide)]
    simp only [e1]
    unfold fs_get_dir_tokens
    simp only [e2, if_true, block_store_read]
  · intro h0
    unfold fs_get_dir
    rw [if_neg hv1, if_neg hv2]
    simp only [hp]
    unfold fs_get_dir_tokens
    simp only [ht]
    rw [if_neg hroot, hl]
    simp only [Int.toNat_ofNat]
    rw [if_pos h0]
  · intro h0
    unfold fs_get_dir
    rw [if_neg hv1, if_neg hv2]
    simp only [hp]
    unfold fs_get_dir_tokens
    simp only [ht]
    rw [if_neg hroot, hl]
    simp only [Int.toNat_ofNat]
    rw [if_neg h0]
    rfl

/-- C23: the postcondition of `fs_format`.  For the empty path the result is NULL.  For
every non-empty path the result is a file system whose inode 0 is a directory in use
with `file_size = 512` and `direct[0] = 48`, whose inodes 1..255 have every field zero,
whose block 48 is all zeros (a root directory with 0 entries), whose descriptors are
all free, and whose block store has ids 0..48 in use. -/
theorem C23_format_postcondition (path : List Nat) (h : path ≠ []) :
    fs_format [] = none ∧
    ∃ fs, fs_format path = some fs ∧
      (fs.inodes 0).file_type = 1 ∧ (fs.inodes 0).use_flag = 1 ∧
      (fs.inodes 0).file_size = 512 ∧ (fs.inodes 0).direct_block_ptr_array 0 = 48 ∧
      (∀ i, i < 256 → 1 ≤ i → inode_same (fs.inodes i) inode_zero) ∧
      (∀ x, fs.fs.data 48 x = 0) ∧
      dir_num_entries (fs.fs.data 48) = 0 ∧
      (∀ fd, (fs.file_descriptors fd).inode_index < 0) ∧
      (∀ b, b < 49 → fs.fs.used b = true) := by
  refine ⟨rfl, fs_format_state, ?_, rfl, rfl, rfl, rfl, ?_, ?_, rfl, ?_, ?_⟩
  · unfold fs_format
    rw [if_neg h]
  · decide
  · intro x
    show (if x < 512 then 0 else 0) = 0
    split <;> rfl
  · intro fd
    show (-1 : Int) < 0
    decide
  · decide

/-- The loop of `fs_unmount` writes blocks `i+16 .. i+16+n-1` and nothing else. -/
theorem unmount_inode_blocks_spec (inodes : Nat → inode_t) :
    ∀ (n i : Nat) (bs : block_store_t),
      (unmount_inode_blocks inodes n i bs).used = bs.used ∧
      ∀ b, (unmount_inode_blocks inodes n i bs).data b =
        if i + 16 ≤ b ∧ b < i + 16 + n then
          (fun x => if x < 512 then inode_block_bytes (fun k => inodes (8 * (b - 16) + k)) x else 0)
        else bs.data b := by
  intro n
  induction n with
  | zero =>
    intro i bs
    refine ⟨rfl, fun b => ?_⟩
    rw [unmount_inode_blocks, if_neg (by omega)]
  | succ n ih =>
    intro i bs
    rw [unmount_inode_blocks]
    obtain ⟨h1, h2⟩ := ih (i + 1) (block_store_write bs (i + 16)
      (inode_block_bytes (fun k => inodes (8 * i + k))))
    refine ⟨h1, fun b => ?_⟩
    rw [h2 b]
    by_cases e : b = i + 16
    · subst e
      rw [if_neg (by omega), if_pos (by omega)]
      simp only [block_store_write, if_true, Nat.add_sub_cancel]
    · by_cases c : i + 1 + 16 ≤ b ∧ b < i + 1 + 16 + n
      · rw [if_pos c, if_pos (by omega)]
      · rw [if_neg c, if_neg (by omega)]
        simp only [block_store_write, if_neg e]

/-- Reading slot `s` of a block of eight serialised inodes gives the inode back, field by
field, when its fields hold values of their C types. -/
theorem inode_bytes_round_trip (f : Nat → inode_t) (s : Nat) (hs : s < 8) (hwf : inode_wf (f s)) :
    inode_same
      (inode_of_bytes (fun x => if x < 512 then inode_block_bytes f x else 0) (64 * s)) (f s) := by
  obtain ⟨w1, w2, w3, w4, w5, w6, w7, w8⟩ := hwf
  have hb : ∀ c, c < 64 →
      (fun x => if x < 512 then inode_block_bytes f x else 0) (64 * s + c) =
        inode_bytes (f s) c := by
    intro c hc
    have h1 : 64 * s + c < 512 := by omega
    have h2 : (64 * s + c) / 64 = s := by omega
    have h3 : (64 * s + c) % 64 = c := by omega
    simp only [h1, if_true, inode_block_bytes, h2, h3]
  generalize (fun x => if x < 512 then inode_block_bytes f x else 0) = mem at hb
  generalize f s = n at *
  unfold inode_same inode_of_bytes
  refine ⟨?_, ?_, ?_, ?_, ?_, ?_, ?_⟩
  · have := hb 0 (by omega)
    simp only [Nat.add_zero] at this
    simp only [this, inode_bytes, if_true]
    omega
  · simp only [hb 1 (by omega), inode_bytes]
    simp
    omega
  · simp only [List.range, List.range.loop, List.map, List.sum_cons, List.sum_nil]
    rw [show 64 * s + 8 + 0 = 64 * s + 8 from rfl, show 64 * s + 8 + 1 = 64 * s + 9 from rfl,
      show 64 * s + 8 + 2 = 64 * s + 10 from rfl, show 64 * s + 8 + 3 = 64 * s + 11 from rfl,
      show 64 * s + 8 + 4 = 64 * s + 12 from rfl, show 64 * s + 8 + 5 = 64 * s + 13 from rfl,
      show 64 * s + 8 + 6 = 64 * s + 14 from rfl, show 64 * s + 8 + 7 = 64 * s + 15 from rfl]
    rw [hb 8 (by omega), hb 9 (by omega), hb 10 (by omega), hb 11 (by omega), hb 12 (by omega),
      hb 13 (by omega), hb 14 (by omega), hb 15 (by omega)]
    simp [inode_bytes]
    omega
  · simp only [List.range, List.range.loop, List.map, List.sum_cons, List.sum_nil]
    rw [show 64 * s + 16 + 0 = 64 * s + 16 from rfl, show 64 * s + 16 + 1 = 64 * s + 17 from rfl,
      show 64 * s + 16 + 2 = 64 * s + 18 from rfl, show 64 * s + 16 + 3 = 64 * s + 19 from rfl]
    rw [hb 16 (by omega), hb 17 (by omega), hb 18 (by omega), hb 19 (by omega)]
    simp [inode_bytes]
    unfold toInt32
    omega
  · intro j hj
    have e1 : 64 * s + 42 + 2 * j = 64 * s + (42 + 2 * j) := by omega
    have e2 : 64 * s + 42 + 2 * j + 1 = 64 * s + (43 + 2 * j) := by omega
    show mem (64 * s + 42 + 2 * j) + 256 * mem (64 * s + 42 + 2 * j + 1) = _
    rw [e2, e1, hb _ (by omega), hb _ (by omega)]
    have := w6 j hj
    unfold inode_bytes
    have c0 : ¬ (42 + 2 * j = 0) := by omega
    have c1 : ¬ (42 + 2 * j = 1) := by omega
    have c2 : ¬ (8 ≤ 42 + 2 * j ∧ 42 + 2 * j < 16) := by omega
    have c3 : ¬ (16 ≤ 42 + 2 * j ∧ 42 + 2 * j < 20) := by omega
    have c4 : 42 ≤ 42 + 2 * j ∧ 42 + 2 * j < 54 := by omega
    have d0 : ¬ (43 + 2 * j = 0) := by omega
    have d1 : ¬ (43 + 2 * j = 1) := by omega
    have d2 : ¬ (8 ≤ 43 + 2 * j ∧ 43 + 2 * j < 16) := by omega
    have d3 : ¬ (16 ≤ 43 + 2 * j ∧ 43 + 2 * j < 20) := by omega
    have d4 : 42 ≤ 43 + 2 * j ∧ 43 + 2 * j < 54 := by omega
    rw [if_neg c0, if_neg c1, if_neg c2, if_neg c3, if_pos c4,
      if_neg d0, if_neg d1, if_neg d2, if_neg d3, if_pos d4]
    have f1 : (42 + 2 * j - 42) / 2 = j := by omega
    have f2 : (42 + 2 * j - 42) % 2 = 0 := by omega
    have f3 : (43 + 2 * j - 42) / 2 = j := by omega
    have f4 : (43 + 2 * j - 42) % 2 = 1 := by omega
    rw [f1, f2, f3, f4]
    simp only [pow_zero, pow_one, Nat.div_one]
    omega
  · rw [hb 54 (by omega), show 64 * s + 55 = 64 * s + 55 from rfl, hb 55 (by omega)]
    simp [inode_bytes]
    omega
  · rw [hb 56 (by omega), hb 57 (by omega)]
    simp [inode_bytes]
    omega

/-- C24: the round trip of `fs_unmount` and `fs_mount`.  For every file system whose inode
fields hold values of their C types, `fs_unmount` returns 0 and leaves the bytes of
inode `i` in block `16 + i/8` at slot `i % 8`; mounting the resulting store gives a file
system whose 256 inodes agree with the old ones on every field, whose blocks outside
16..47 and whose allocation bitmap are unchanged, and whose descriptors are all free. -/
theorem C24_unmount_mount_round_trip (fs : F16FS_t)
    (hwf : ∀ i, i < 256 → inode_wf (fs.inodes i)) :
    (fs_unmount fs).2 = 0 ∧
    (∀ i, i < 256 → ∀ x, x < 64 →
      (fs_unmount fs).1.data (16 + i / 8) (64 * (i % 8) + x) = inode_bytes (fs.inodes i) x) ∧
    (∀ i, i < 256 → inode_same ((fs_mount_state (fs_unmount fs).1).inodes i) (fs.inodes i)) ∧
    (∀ b, b < 16 ∨ 48 ≤ b → (fs_mount_state (fs_unmount fs).1).fs.data b = fs.fs.data b) ∧
    (fs_mount_state (fs_unmount fs).1).fs.used = fs.fs.used ∧
    (∀ fd, ((fs_mount_state (fs_unmount fs).1).file_descriptors fd).inode_index < 0) ∧
    (∀ path, path ≠ [] → fs_mount path (some (fs_unmount fs).1) =
      some (fs_mount_state (fs_unmount fs).1)) := by
  obtain ⟨hu, hd⟩ := unmount_inode_blocks_spec fs.inodes 32 0 fs.fs
  have hblk : ∀ i, i < 256 → (fs_unmount fs).1.data (i / 8 + 16) =
      fun x => if x < 512 then inode_block_bytes (fun k => fs.inodes (8 * (i / 8) + k)) x else 0 := by
    intro i hi
    show (unmount_inode_blocks fs.inodes 32 0 fs.fs).data (i / 8 + 16) = _
    rw [hd, if_pos (by omega), Nat.add_sub_cancel]
  refine ⟨rfl, ?_, ?_, ?_, hu, ?_, ?_⟩
  · intro i hi x hx
    rw [Nat.add_comm 16 (i / 8), hblk i hi]
    have h1 : 64 * (i % 8) + x < 512 := by omega
    have h2 : (64 * (i % 8) + x) / 64 = i % 8 := by omega
    have h3 : (64 * (i % 8) + x) % 64 = x := by omega
    simp only [h1, if_true, inode_block_bytes, h2, h3]
    congr 2
    omega
  · intro i hi
    show inode_same (inode_of_bytes (block_store_read (fs_unmount fs).1 (i / 8 + 16))
      (64 * (i % 8))) (fs.inodes i)
    unfold block_store_read
    rw [hblk i hi]
    have e : fs.inodes i = (fun k => fs.inodes (8 * (i / 8) + k)) (i % 8) := by
      show fs.inodes i = fs.inodes (8 * (i / 8) + i % 8)
      congr 1
      omega
    rw [e]
    apply inode_bytes_round_trip _ _ (by omega)
    have e3 : 8 * (i / 8) + i % 8 = i := by omega
    show inode_wf (fs.inodes (8 * (i / 8) + i % 8))
    rw [e3]
    exact hwf i hi
  · intro b hb
    show (unmount_inode_blocks fs.inodes 32 0 fs.fs).data b = _
    rw [hd, if_neg (by omega)]
  · intro fd
    show (-1 : Int) < 0
    decide
  · intro path hp
    unfold fs_mount
    rw [if_neg hp]
    rfl

/-! ## Descriptors out of range, block resolution and write accounting -/

/-- C25 fails for `fd = 256`: the test of `fs_seek` is `fd > 256` (line 613), so
descriptor 256 passes it and the descriptor table is indexed with 256.  Whenever the
`inode_index` found there is not negative, `fs_seek(fs, 256, 0, FS_SEEK_SET)` returns 0,
not -1, and stores offset 0 at index 256. -/
theorem C25_seek_accepts_descriptor_256 (fs : F16FS_t)
    (h : 0 ≤ (fs.file_descriptors 256).inode_index) :
    (fs_seek fs 256 0 FS_SEEK_SET).2 = 0 ∧
    (fs_seek fs 256 0 FS_SEEK_SET).1 =
      set_fd fs 256 { fs.file_descriptors 256 with offset := 0 } := by
  unfold fs_seek
  have h1 : ¬ ((256 : Int) < 0 ∨ (256 : Int) > 256) := by decide
  have h2 : ¬ (FS_SEEK_SET < 0 ∨ FS_SEEK_SET > 2) := by decide
  have h3 : ¬ ((fs.file_descriptors (256 : Int).toNat).inode_index < 0) := by
    have : (256 : Int).toNat = 256 := rfl
    rw [this]; omega
  rw [if_neg h1, if_neg h2]
  simp only [h3, if_false, if_true]
  have e0 : toInt32 0 = 0 := by unfold toInt32; omega
  rw [e0]
  have hc : ∀ s : Int, (if (if (0 : Int) > s then s else 0) < 0 then (0 : Int)
      else if (0 : Int) > s then s else 0) = 0 := by
    intro s
    by_cases hs : (0 : Int) > s
    · simp only [hs, if_true]
    · simp only [hs, if_false]
      simp
  rw [hc]
  have e1 : toUInt64 0 = 0 := by unfold toUInt64; omega
  rw [e1]
  exact ⟨rfl, rfl⟩

/-- X11: what holds of C25.  For `fd < 0` or `fd > 256` each of `fs_seek`, `fs_read` and
`fs_write` returns -1 and changes neither the state nor the destination buffer. -/
theorem X11_descriptor_out_of_range_rejected (fs : F16FS_t) (fd offset whence : Int)
    (src dst : Nat → Nat) (nbyte : Nat) (h : fd < 0 ∨ fd > 256) :
    fs_seek fs fd offset whence = (fs, -1) ∧
    (fs_read fs fd dst nbyte).ret = -1 ∧ (fs_read fs fd dst nbyte).fs = fs ∧
    (fs_read fs fd dst nbyte).dst = dst ∧
    fs_write fs fd src nbyte = (fs, -1) := by
  have h2 : fd < 0 ∨ fd > 256 ∨ toInt32 nbyte < 0 := by
    rcases h with h | h
    · exact Or.inl h
    · exact Or.inr (Or.inl h)
  unfold fs_seek fs_read fs_write
  rw [if_pos h, if_pos h2, if_pos h2]
  exact ⟨rfl, rfl, rfl, rfl, rfl⟩

/-- X10: what holds of C26.  For every inode and logical index `L < 262 + 256*256`,
`get_block_ptr` in read mode leaves the state unchanged and returns `direct[L]`, entry
`L - 6` of the block named by `indirect_block_ptr`, or entry `(L - 262) mod 256` of the
block named by entry `(L - 262) / 256` of the block named by
`double_indirect_block_ptr`; a pointer that is 0 names block 0. -/
theorem X10_read_mode_mapping (fs : F16FS_t) (idx L : Nat) (hL : L < 262 + 256 * 256) :
    (get_block_ptr fs idx L 1).1 = fs ∧
    (L < 6 → (get_block_ptr fs idx L 1).2 = ((fs.inodes idx).direct_block_ptr_array L : Nat)) ∧
    (6 ≤ L → L < 262 → (get_block_ptr fs idx L 1).2 =
      (ptr_at (fs.fs.data (fs.inodes idx).indirect_block_ptr) (L - 6) : Nat)) ∧
    (262 ≤ L → (get_block_ptr fs idx L 1).2 =
      (ptr_at (fs.fs.data (ptr_at (fs.fs.data (fs.inodes idx).double_indirect_block_ptr)
        ((L - 262) / 256))) ((L - 262) % 256) : Nat)) := by
  refine ⟨get_block_ptr_read_state fs idx L, ?_, ?_, ?_⟩
  · intro h
    unfold get_block_ptr get_block_ptr_direct
    have h10 : ¬ ((1 : Nat) = 0) := by decide
    rw [if_neg (by omega), if_neg (by omega)]
    simp only [h10, and_false, if_false]
  · intro h1 h2
    unfold get_block_ptr get_block_ptr_indirect get_block_ptr_indirect_slot
    have h10 : ¬ ((1 : Nat) = 0) := by decide
    rw [if_neg (by omega), if_pos (by omega)]
    simp only [h10, and_false, if_false, block_store_read]
  · intro h1
    unfold get_block_ptr get_block_ptr_double get_block_ptr_double_sub get_block_ptr_double_slot
    have h10 : ¬ ((1 : Nat) = 0) := by decide
    rw [if_pos (by omega)]
    simp only [h10, and_false, if_false, block_store_read]
    have e1 : (L - 262) / 256 % 65536 = (L - 262) / 256 := by omega
    rw [e1]
    have e2 : (L - 262 - 256 * ((L - 262) / 256)) % 65536 = (L - 262) % 256 := by omega
    rw [e2]

/-- Read-mode resolution depends only on the block contents and on the three pointers of
the inode that the index uses. -/
theorem get_block_ptr_read_congr (fs fs1 : F16FS_t) (idx L : Nat)
    (hd : fs1.fs.data = fs.fs.data)
    (h1 : (fs1.inodes idx).direct_block_ptr_array L = (fs.inodes idx).direct_block_ptr_array L)
    (h2 : (fs1.inodes idx).indirect_block_ptr = (fs.inodes idx).indirect_block_ptr)
    (h3 : (fs1.inodes idx).double_indirect_block_ptr = (fs.inodes idx).double_indirect_block_ptr) :
    (get_block_ptr fs1 idx L 1).2 = (get_block_ptr fs idx L 1).2 := by
  unfold get_block_ptr get_block_ptr_double get_block_ptr_double_sub get_block_ptr_double_slot
    get_block_ptr_indirect get_block_ptr_indirect_slot get_block_ptr_direct
  have h10 : ¬ ((1 : Nat) = 0) := by decide
  simp only [h10, and_false, if_false, block_store_read, hd, h1, h2, h3]
  split
  · rfl
  · split <;> rfl

/-- X12: what holds of C27, in the direct range.  For every state, inode and `L < 6`:
a non-zero `direct[L]` is returned with the state unchanged; with `direct[L] = 0` and
the store exhausted the result is -1; with `direct[L] = 0` and a free block, the result
is a non-zero id `b` that was free before and is in use after, read-mode resolution of
`L` then gives `b`, read-mode resolution of every other index gives what it gave
before, no other inode changes and no block content changes. -/
theorem X12_write_mode_direct_block (fs : F16FS_t) (idx L : Nat) (hL : L < 6) :
    ((fs.inodes idx).direct_block_ptr_array L ≠ 0 →
      get_block_ptr fs idx L 0 = (fs, (((fs.inodes idx).direct_block_ptr_array L : Nat) : Int))) ∧
    ((fs.inodes idx).direct_block_ptr_array L = 0 → (alloc_ptr fs).2 = 0 →
      (get_block_ptr fs idx L 0).2 = -1) ∧
    ((fs.inodes idx).direct_block_ptr_array L = 0 → (alloc_ptr fs).2 ≠ 0 →
      ∃ b : Nat, (get_block_ptr fs idx L 0).2 = (b : Int) ∧ b ≠ 0 ∧ fs.fs.used b = false ∧
        (get_block_ptr fs idx L 0).1.fs.used b = true ∧
        (get_block_ptr (get_block_ptr fs idx L 0).1 idx L 1).2 = (b : Int) ∧
        (∀ L', L' ≠ L → (get_block_ptr (get_block_ptr fs idx L 0).1 idx L' 1).2 =
          (get_block_ptr fs idx L' 1).2) ∧
        (∀ i, i ≠ idx → (get_block_ptr fs idx L 0).1.inodes i = fs.inodes i) ∧
        (get_block_ptr fs idx L 0).1.fs.data = fs.fs.data) := by
  have e : get_block_ptr fs idx L 0 = get_block_ptr_direct fs idx L 0 := by
    unfold get_block_ptr
    rw [if_neg (by omega), if_neg (by omega)]
  rw [e]
  refine ⟨?_, ?_, ?_⟩
  · intro h
    unfold get_block_ptr_direct
    rw [if_neg (fun c => h c.1)]
  · intro h ha
    unfold get_block_ptr_direct
    rw [if_pos ⟨h, rfl⟩]
    simp only [ha, if_true]
  · intro h ha
    obtain ⟨b, hb0, hb1, hbu, hal⟩ := alloc_ptr_spec fs ha
    have hr : get_block_ptr_direct fs idx L 0 =
        (set_inode (mark fs b) idx
          { (mark fs b).inodes idx with direct_block_ptr_array :=
              fun j => if j = L then b else ((mark fs b).inodes idx).direct_block_ptr_array j },
          (b : Int)) := by
      unfold get_block_ptr_direct
      rw [if_pos ⟨h, rfl⟩]
      simp only [hal, hb0, if_false]
    rw [hr]
    refine ⟨b, rfl, hb0, hbu, ?_, ?_, ?_, ?_, ?_⟩
    · simp [set_inode, mark]
    · unfold get_block_ptr get_block_ptr_direct
      have h10 : ¬ ((1 : Nat) = 0) := by decide
      rw [if_neg (by omega), if_neg (by omega)]
      simp [h10, set_inode]
    · intro L' hne
      apply get_block_ptr_read_congr
      · rfl
      · simp [set_inode, mark, hne]
      · simp [set_inode, mark]
      · simp [set_inode, mark]
    · intro i hi
      simp [set_inode, mark, hi]
    · rfl

/-- With every block in use, write-mode resolution of an unallocated direct index returns
-1 and leaves the state as it was. -/
theorem get_block_ptr_direct_exhausted (fs : F16FS_t) (idx L : Nat) (hL : L < 6)
    (h0 : (fs.inodes idx).direct_block_ptr_array L = 0) (hu : ∀ i, fs.fs.used i = true) :
    get_block_ptr fs idx L 0 = (fs, -1) := by
  unfold get_block_ptr get_block_ptr_direct alloc_ptr
  rw [if_neg (by omega), if_neg (by omega), if_pos ⟨h0, rfl⟩]
  simp only [block_store_allocate_exhausted fs.fs hu]
  rfl

/-- The direct branch of `get_block_ptr` leaves `file_size` of the inode as it was. -/
theorem get_block_ptr_direct_file_size (fs : F16FS_t) (idx L f : Nat) :
    ((get_block_ptr_direct fs idx L f).1.inodes idx).file_size = (fs.inodes idx).file_size := by
  unfold get_block_ptr_direct
  by_cases h : (fs.inodes idx).direct_block_ptr_array L = 0 ∧ f = 0
  · rw [if_pos h]
    dsimp only
    by_cases ha : (alloc_ptr fs).2 = 0
    · rw [if_pos ha]; rfl
    · rw [if_neg ha]; simp [set_inode, alloc_ptr]
  · rw [if_neg h]

/-- The slot part of the single-indirect branch leaves the inode table as it was. -/
theorem get_block_ptr_indirect_slot_inodes (fs : F16FS_t) (idx L f : Nat) :
    (get_block_ptr_indirect_slot fs idx L f).1.inodes = fs.inodes := by
  unfold get_block_ptr_indirect_slot
  dsimp only
  split
  · split <;> rfl
  · rfl

/-- The single-indirect branch leaves `file_size` of the inode as it was. -/
theorem get_block_ptr_indirect_file_size (fs : F16FS_t) (idx L f : Nat) :
    ((get_block_ptr_indirect fs idx L f).1.inodes idx).file_size = (fs.inodes idx).file_size := by
  unfold get_block_ptr_indirect
  by_cases h : (fs.inodes idx).indirect_block_ptr = 0 ∧ f = 0
  · rw [if_pos h]
    dsimp only
    by_cases ha : (alloc_ptr fs).2 = 0
    · rw [if_pos ha]; rfl
    · rw [if_neg ha, get_block_ptr_indirect_slot_inodes]
      simp [set_inode, alloc_ptr, fs_block_write]
  · rw [if_neg h, get_block_ptr_indirect_slot_inodes]

/-- The last part of the double-indirect branch leaves the inode table as it was. -/
theorem get_block_ptr_double_slot_inodes (fs : F16FS_t) (darr : Nat → Nat) (i L f : Nat) :
    (get_block_ptr_double_slot fs darr i L f).1.inodes = fs.inodes := by
  unfold get_block_ptr_double_slot
  dsimp only
  split
  · split <;> rfl
  · rfl

/-- The middle part of the double-indirect branch leaves the inode table as it was. -/
theorem get_block_ptr_double_sub_inodes (fs : F16FS_t) (idx L f : Nat) :
    (get_block_ptr_double_sub fs idx L f).1.inodes = fs.inodes := by
  unfold get_block_ptr_double_sub
  dsimp only
  split
  · split
    · rfl
    · rw [get_block_ptr_double_slot_inodes]; rfl
  · rw [get_block_ptr_double_slot_inodes]

/-- The double-indirect branch leaves `file_size` of the inode as it was. -/
theorem get_block_ptr_double_file_size (fs : F16FS_t) (idx L f : Nat) :
    ((get_block_ptr_double fs idx L f).1.inodes idx).file_size = (fs.inodes idx).file_size := by
  unfold get_block_ptr_double
  by_cases h : (fs.inodes idx).double_indirect_block_ptr = 0 ∧ f = 0
  · rw [if_pos h]
    dsimp only
    by_cases ha : (alloc_ptr fs).2 = 0
    · rw [if_pos ha]; rfl
    · rw [if_neg ha, get_block_ptr_double_sub_inodes]
      simp [set_inode, alloc_ptr, fs_block_write]
  · rw [if_neg h, get_block_ptr_double_sub_inodes]

/-- In either mode `get_block_ptr` leaves `file_size` of the inode as it was. -/
theorem get_block_ptr_file_size (fs : F16FS_t) (idx L f : Nat) :
    ((get_block_ptr fs idx L f).1.inodes idx).file_size = (fs.inodes idx).file_size := by
  unfold get_block_ptr
  split
  · exact get_block_ptr_double_file_size fs idx L f
  · split
    · exact get_block_ptr_indirect_file_size fs idx L f
    · exact get_block_ptr_direct_file_size fs idx L f

/-- The field `file_size` after `fs->inodes[i].file_size += k`. -/
theorem add_file_size_at (fs : F16FS_t) (idx : Nat) (k : Int) :
    ((add_file_size fs idx k).inodes idx).file_size = toUInt64 ((fs.inodes idx).file_size + k) := by
  simp [add_file_size, set_inode]

/-- Writing a block leaves the inode table as it was. -/
theorem fs_block_write_inodes (fs : F16FS_t) (id : Nat) (buf : Nat → Nat) :
    (fs_block_write fs id buf).inodes = fs.inodes := rfl

/-- The remainder `x % 512` of a positive `int` is at most 511. -/
theorem tmod_512_lt (x : Int) (hx : 0 < x) : Int.tmod x 512 ≤ 511 := by
  rw [Int.tmod_eq_emod (by omega) (by omega)]
  omega

/-- A value within the range of `unsigned long` is converted to itself. -/
theorem toUInt64_of_range (x : Int) (h0 : 0 ≤ x) (h1 : x < 18446744073709551616) :
    ((toUInt64 x : Nat) : Int) = x := by
  unfold toUInt64
  rw [Int.emod_eq_of_lt h0 h1]
  exact Int.toNat_of_nonneg h0

/-- Lines 833-839 of `fs_write` keep the accounting: the returned count is within
`[0, nbyte]` and `file_size` is its initial value `S0` plus the returned count. -/
theorem fs_write_finish_accounting (idx N S0 : Nat) (hS : S0 + N + 511 < 18446744073709551616)
    (fs : F16FS_t) (bw left : Int) (h1 : bw + left = N) (h2 : 0 ≤ bw)
    (h3 : ((fs.inodes idx).file_size : Int) = S0 + bw) :
    ∀ res, fs_write_finish fs idx bw left = res →
      0 ≤ res.2 ∧ res.2 ≤ N ∧ (((res.1.inodes idx).file_size : Nat) : Int) = S0 + res.2 := by
  intro res hres
  unfold fs_write_finish at hres
  by_cases hl : left < 0
  · rw [if_pos hl] at hres
    subst hres
    refine ⟨by show 0 ≤ bw + left; omega, by show bw + left ≤ N; omega, ?_⟩
    show ((((add_file_size fs idx left).inodes idx).file_size : Nat) : Int) = S0 + (bw + left)
    rw [add_file_size_at, toUInt64_of_range _ (by omega) (by omega)]
    omega
  · rw [if_neg hl] at hres
    subst hres
    exact ⟨h2, by show bw ≤ N; omega, h3⟩

/-- The accounting at the early return of the loop of `fs_write` (lines 802-807). -/
theorem fs_write_accounting_early (r : F16FS_t × Int) (idx S0 N : Nat) (bw : Int) (fs : F16FS_t)
    (hsz : (r.1.inodes idx).file_size = (fs.inodes idx).file_size)
    (h4 : ((fs.inodes idx).file_size : Int) = S0 + bw) (h2 : 0 ≤ bw) (h5 : bw ≤ N) :
    0 ≤ (r.1, bw).2 ∧ (r.1, bw).2 ≤ ↑N ∧
      ((((r.1, bw).1.inodes idx).file_size : Nat) : Int) = ↑S0 + (r.1, bw).2 :=
  ⟨h2, h5, (congrArg (fun n : Nat => (n : Int)) hsz).trans h4⟩

/-- The field `file_size` after one pass of the loop of `fs_write` that adds `k` bytes. -/
theorem fs_write_accounting_step (r : F16FS_t × Int) (idx S0 id : Nat) (buf : Nat → Nat)
    (bw k : Int) (fs : F16FS_t)
    (hsz : (r.1.inodes idx).file_size = (fs.inodes idx).file_size)
    (h4 : ((fs.inodes idx).file_size : Int) = S0 + bw) (h0 : 0 ≤ bw + k)
    (hk : S0 + bw + k < 18446744073709551616) :
    ((((add_file_size (fs_block_write r.1 id buf) idx k).inodes idx).file_size : Nat) : Int) =
      S0 + (bw + k) := by
  rw [add_file_size_at, fs_block_write_inodes, hsz, toUInt64_of_range _ (by omega) (by omega)]
  omega

/-- The loop of `fs_write` keeps the accounting, whatever its fuel: if
`bytes_written + bytes_left_to_write = nbyte` and `file_size = S0 + bytes_written` on
entry, the result has a count within `[0, nbyte]` and `file_size = S0 + count`. -/
theorem fs_write_loop_accounting (idx fsz N S0 : Nat) (src : Nat → Nat)
    (hN2 : N < 2147483136) (hS : S0 + N + 511 < 18446744073709551616) :
    ∀ (fuel : Nat) (fs : F16FS_t) (sp : Nat) (bw left bo : Int),
      bw + left = N → 0 ≤ bw → (0 < left → 0 ≤ bo ∧ bo ≤ 511) →
      ((fs.inodes idx).file_size : Int) = S0 + bw →
      ∀ res, fs_write_loop idx fsz N src fuel fs sp bw left bo = res →
        0 ≤ res.2 ∧ res.2 ≤ N ∧ (((res.1.inodes idx).file_size : Nat) : Int) = S0 + res.2 := by
  intro fuel
  induction fuel with
  | zero =>
    intro fs sp bw left bo h1 h2 _ h4 res hres
    exact fs_write_finish_accounting idx N S0 hS fs bw left h1 h2 h4 res hres
  | succ fuel ih =>
    intro fs sp bw left bo h1 h2 h3 h4 res hres
    rw [fs_write_loop] at hres
    by_cases hl : left > 0
    · rw [if_pos hl] at hres
      obtain ⟨hb0, hb1⟩ := h3 hl
      dsimp only at hres
      have hsz := get_block_ptr_file_size fs idx
        (toInt32 (↑(fs.inodes idx).file_size / 512)).toNat 0
      generalize get_block_ptr fs idx (toInt32 (↑(fs.inodes idx).file_size / 512)).toNat 0 = r
        at hsz hres
      by_cases hr : r.2 < 0
      · rw [if_pos hr] at hres
        subst hres
        exact fs_write_accounting_early r idx S0 N bw fs hsz h4 h2 (by omega)
      · rw [if_neg hr] at hres
        by_cases hc : fsz < 512 ∧ N < 512
        · rw [if_pos hc] at hres
          have e : toInt32 (left - (N : Int)) = left - N := by unfold toInt32; omega
          have e2 : toInt32 (bw + (N : Int)) = bw + N := by unfold toInt32; omega
          rw [e, e2] at hres
          exact ih _ _ _ _ _ (by omega) (by omega) (fun h => by omega)
            (fs_write_accounting_step r idx S0 _ _ bw N fs hsz h4 (by omega) (by omega)) res hres
        · rw [if_neg hc] at hres
          by_cases hne : bo ≠ 0
          · rw [if_pos hne] at hres
            exact ih _ _ _ _ _ (by omega) (by omega)
              (fun h => ⟨tmod_512_nonneg _ h, tmod_512_lt _ h⟩)
              (fs_write_accounting_step r idx S0 _ _ bw bo fs hsz h4 (by omega) (by omega))
              res hres
          · rw [if_neg hne] at hres
            exact ih _ _ _ _ _ (by omega) (by omega) (fun _ => ⟨hb0, hb1⟩)
              (fs_write_accounting_step r idx S0 _ _ bw 512 fs hsz h4 (by omega) (by omega))
              res hres
    · rw [if_neg hl] at hres
      exact fs_write_finish_accounting idx N S0 hS fs bw left h1 h2 h4 res hres

/-- The initial `block_offset` of `fs_write` (lines 782-789) is within `[0, 511]`. -/
theorem fs_write_initial_offset (file_size nbyte : Nat) (hN : nbyte < 2147483136) :
    0 ≤ (if file_size = 0 ∧ nbyte % 512 = nbyte then toInt32 nbyte else toInt32 (file_size % 512)
      : Int) ∧
    (if file_size = 0 ∧ nbyte % 512 = nbyte then toInt32 nbyte else toInt32 (file_size % 512)
      : Int) ≤ 511 := by
  have hT : toInt32 (nbyte : Int) = nbyte := toInt32_of_small nbyte (by omega)
  split
  · rename_i hc
    rw [hT]
    have := Nat.mod_lt nbyte (show 0 < 512 by decide)
    omega
  · unfold toInt32; omega

/-- The accounting of `fs_write`, stated for the pair that the call returns. -/
theorem fs_write_accounting (fs : F16FS_t) (fd : Int) (src : Nat → Nat) (nbyte : Nat)
    (hfd0 : 0 ≤ fd) (hfd1 : fd ≤ 255)
    (hopen : 0 ≤ (fs.file_descriptors fd.toNat).inode_index)
    (hN : nbyte < 2147483136)
    (hsz : (fs.inodes (fs.file_descriptors fd.toNat).inode_index.toNat).file_size + nbyte + 511
      < 18446744073709551616) :
    ∀ res, fs_write fs fd src nbyte = res →
      0 ≤ res.2 ∧ res.2 ≤ nbyte ∧
      (((res.1.inodes (fs.file_descriptors fd.toNat).inode_index.toNat).file_size : Nat) : Int) =
        ((fs.inodes (fs.file_descriptors fd.toNat).inode_index.toNat).file_size : Nat) + res.2 := by
  intro res hres
  have hT : toInt32 (nbyte : Int) = nbyte := toInt32_of_small nbyte (by omega)
  unfold fs_write at hres
  rw [if_neg (by rw [hT]; omega)] at hres
  by_cases h0 : nbyte = 0
  · rw [if_pos h0] at hres
    subst hres
    exact ⟨le_refl _, Int.ofNat_nonneg _, (Int.add_zero _).symm⟩
  · rw [if_neg h0, if_neg (by omega)] at hres
    exact fs_write_loop_accounting _ _ nbyte _ src hN hsz _ fs 0 0 _ _ (by rw [hT]; omega)
      (le_refl _) (fun _ => fs_write_initial_offset _ nbyte hN) (by omega) res hres

/-- X13: what holds of C28.  For every `fs_write` on an in-use descriptor 0..255 with
`nbyte < 2^31 - 512` and a file size that stays within `unsigned long`, the returned
count `k` satisfies `0 ≤ k ≤ nbyte` and `file_size` afterwards is its previous value plus
`k`. -/
theorem X13_write_accounting (fs : F16FS_t) (fd : Int) (src : Nat → Nat) (nbyte : Nat)
    (hfd0 : 0 ≤ fd) (hfd1 : fd ≤ 255)
    (hopen : 0 ≤ (fs.file_descriptors fd.toNat).inode_index)
    (hN : nbyte < 2147483136)
    (hsz : (fs.inodes (fs.file_descriptors fd.toNat).inode_index.toNat).file_size + nbyte + 511
      < 18446744073709551616) :
    0 ≤ (fs_write fs fd src nbyte).2 ∧ (fs_write fs fd src nbyte).2 ≤ nbyte ∧
    ((((fs_write fs fd src nbyte).1.inodes
        (fs.file_descriptors fd.toNat).inode_index.toNat).file_size : Nat) : Int) =
      ((fs.inodes (fs.file_descriptors fd.toNat).inode_index.toNat).file_size : Nat) +
        (fs_write fs fd src nbyte).2 :=
  fs_write_accounting fs fd src nbyte hfd0 hfd1 hopen hN hsz _ rfl

/-! ## Path walking -/

/-- The scan of one directory for the last token: when record `r` is the first whose name
matches and it is a file or a directory, the scan ends with the inode of record `r`. -/
theorem traversal_inner_last (fs : F16FS_t) (t : List Nat) (wd : Nat → Nat) (r : Nat)
    (hr : strcmp_eq t wd (72 * r) = true)
    (hty : rec_type wd r = 0 ∨ rec_type wd r = 1) :
    ∀ (n j : Nat), j ≤ r → r < j + n →
      (∀ i, j ≤ i → i < r → strcmp_eq t wd (72 * i) = false) →
      traversal_inner fs t true n j wd =
        scan_result.done (some (fs.inodes (rec_inode_index wd r))) := by
  intro n
  induction n with
  | zero => intro j h1 h2; omega
  | succ n ih =>
    intro j h1 h2 hb
    rw [traversal_inner]
    by_cases e : j = r
    · subst e
      rw [if_pos hr]
      rcases hty with h0 | h1'
      · simp [h0]
      · simp [h1']
    · rw [hb j (le_refl _) (by omega)]
      simp only [Bool.false_eq_true, if_false]
      exact ih (j + 1) (by omega) (by omega) (fun i hi1 hi2 => hb i (by omega) hi2)

/-- The scan of one directory for a token that no record carries ends without a result
and without changing the working directory. -/
theorem traversal_inner_absent (fs : F16FS_t) (t : List Nat) (e : Bool) (wd : Nat → Nat) :
    ∀ (n j : Nat), (∀ i, j ≤ i → i < j + n → strcmp_eq t wd (72 * i) = false) →
      traversal_inner fs t e n j wd = scan_result.next wd := by
  intro n
  induction n with
  | zero => intro j _; rfl
  | succ n ih =>
    intro j hb
    rw [traversal_inner, hb j (le_refl _) (by omega)]
    simp only [Bool.false_eq_true, if_false]
    exact ih (j + 1) (fun i hi1 hi2 => hb i (by omega) (by omega))

/-- X14: what holds of C29 and C30, for at most one token.  The empty sequence gives inode
0.  A single token whose first matching record in the root directory is record `r` (a
file or a directory) gives the inode whose index record `r` stores; a single token that
no record of the root directory carries gives NULL. -/
theorem X14_traversal_of_one_token (fs : F16FS_t) (t : List Nat) :
    directory_traversal fs [] = some (fs.inodes 0) ∧
    (∀ r, r < dir_num_entries (fs.fs.data ((fs.inodes 0).direct_block_ptr_array 0)) →
      strcmp_eq t (fs.fs.data ((fs.inodes 0).direct_block_ptr_array 0)) (72 * r) = true →
      (∀ i, i < r →
        strcmp_eq t (fs.fs.data ((fs.inodes 0).direct_block_ptr_array 0)) (72 * i) = false) →
      (rec_type (fs.fs.data ((fs.inodes 0).direct_block_ptr_array 0)) r = 0 ∨
        rec_type (fs.fs.data ((fs.inodes 0).direct_block_ptr_array 0)) r = 1) →
      directory_traversal fs [t] = some (fs.inodes
        (rec_inode_index (fs.fs.data ((fs.inodes 0).direct_block_ptr_array 0)) r))) ∧
    (name_exists t (fs.fs.data ((fs.inodes 0).direct_block_ptr_array 0))
        (dir_num_entries (fs.fs.data ((fs.inodes 0).direct_block_ptr_array 0))) 0 = false →
      directory_traversal fs [t] = none) := by
  refine ⟨rfl, ?_, ?_⟩
  · intro r hr hm hb hty
    unfold directory_traversal
    rw [if_neg (by simp)]
    unfold traversal_outer block_store_read
    have := traversal_inner_last fs t _ r hm hty
      (dir_num_entries (fs.fs.data ((fs.inodes 0).direct_block_ptr_array 0))) 0 (by omega)
      (by omega) (fun i _ hi => hb i hi)
    simp only [List.isEmpty_nil, this]
  · intro h
    rw [name_exists_eq_false] at h
    unfold directory_traversal
    rw [if_neg (by simp)]
    unfold traversal_outer block_store_read
    have := traversal_inner_absent fs t true _
      (dir_num_entries (fs.fs.data ((fs.inodes 0).direct_block_ptr_array 0))) 0 h
    simp only [List.isEmpty_nil, this]
    rfl

/-! ## Directories, block resolution and path walking at concrete inputs -/

/-- C21 fails for `fs_remove`.  In `st_seven` the root directory holds the seven regular
files `/a` .. `/g` and the directory invariant holds.  `fs_remove("/a")` returns 0 and
leaves the root directory block with `num_entries = 255`: the 72 zero bytes that line
1022 copies to `records[7]` cover the count at byte 509 before line 1023 decrements it.
The invariant does not hold in the state after the call. -/
theorem C21_directory_invariant_broken :
    dir_invariant st_seven ∧
    dir_num_entries (st_seven.fs.data 48) = 7 ∧
    fs_remove st_seven path_a = some (st_seven_removed, 0) ∧
    dir_num_entries (st_seven_removed.fs.data 48) = 255 ∧
    ¬ dir_invariant st_seven_removed := by
  refine ⟨?_, rfl, rfl, rfl, ?_⟩
  · decide
  · intro h
    have h0 := (h 0 (by decide) (by rfl) (by rfl)).1
    revert h0
    decide

/-- C15 fails where the traversal goes astray.  The eight calls `shadowed_calls` of
`fs_create` all return 0 and the directory invariant holds in the state they reach.
There the root directory (block 48) has two entries, `d` (inode 1) and `e`; `/d` (block
49) holds the directories `x` (inode 2, block 50) and `d` (inode 3, block 51); `/d/x`
holds the directory `y` (inode 4, block 52), which has one entry, `z`; `/d/d` holds the
directory `x` (inode 6, block 54), which holds the regular file `y` (inode 7).  For the
tokens `d`, `x` the traversal descends from `/d` into `/d/d` (there is no `break` after
the descent of lines 259-261) and returns inode 6.  `fs_remove("/d/x/y")`, on the directory with one entry,
returns 0: it takes the record `y` out of block 54 and clears inode 7, the file
`/d/d/x/y`. -/
theorem C15_remove_nonempty_directory_returns_zero :
    (create_each fs_format_state shadowed_calls).2 = [0, 0, 0, 0, 0, 0, 0, 0] ∧
    dir_invariant st_shadowed ∧
    (st_shadowed.inodes 0).direct_block_ptr_array 0 = 48 ∧
    dir_num_entries (st_shadowed.fs.data 48) = 2 ∧
    rec_name (st_shadowed.fs.data 48) 0 = [100] ∧
    rec_inode_index (st_shadowed.fs.data 48) 0 = 1 ∧
    rec_name (st_shadowed.fs.data 48) 1 = [101] ∧
    (st_shadowed.inodes 1).file_type = 1 ∧
    (st_shadowed.inodes 1).direct_block_ptr_array 0 = 49 ∧
    dir_num_entries (st_shadowed.fs.data 49) = 2 ∧
    rec_name (st_shadowed.fs.data 49) 0 = [120] ∧
    rec_inode_index (st_shadowed.fs.data 49) 0 = 2 ∧
    rec_name (st_shadowed.fs.data 49) 1 = [100] ∧
    rec_inode_index (st_shadowed.fs.data 49) 1 = 3 ∧
    (st_shadowed.inodes 2).file_type = 1 ∧
    (st_shadowed.inodes 2).direct_block_ptr_array 0 = 50 ∧
    dir_num_entries (st_shadowed.fs.data 50) = 1 ∧
    rec_name (st_shadowed.fs.data 50) 0 = [121] ∧
    rec_inode_index (st_shadowed.fs.data 50) 0 = 4 ∧
    (st_shadowed.inodes 4).use_flag = 1 ∧
    (st_shadowed.inodes 4).file_type = 1 ∧
    (st_shadowed.inodes 4).direct_block_ptr_array 0 = 52 ∧
    dir_num_entries (st_shadowed.fs.data 52) = 1 ∧
    rec_name (st_shadowed.fs.data 52) 0 = [122] ∧
    (st_shadowed.inodes 3).file_type = 1 ∧
    (st_shadowed.inodes 3).direct_block_ptr_array 0 = 51 ∧
    rec_name (st_shadowed.fs.data 51) 0 = [120] ∧
    rec_inode_index (st_shadowed.fs.data 51) 0 = 6 ∧
    (st_shadowed.inodes 6).direct_block_ptr_array 0 = 54 ∧
    dir_num_entries (st_shadowed.fs.data 54) = 1 ∧
    rec_name (st_shadowed.fs.data 54) 0 = [121] ∧
    rec_inode_index (st_shadowed.fs.data 54) 0 = 7 ∧
    (st_shadowed.inodes 7).use_flag = 1 ∧
    (st_shadowed.inodes 7).file_type = 0 ∧
    (directory_traversal st_shadowed [[100], [120]]).map
      (fun n => n.direct_block_ptr_array 0) = some 54 ∧
    (fs_remove st_shadowed path_dxy).map (fun r => r.2) = some 0 ∧
    (fs_remove st_shadowed path_dxy).map (fun r => (r.1.inodes 7).use_flag) = some 0 ∧
    (fs_remove st_shadowed path_dxy).map (fun r => dir_num_entries (r.1.fs.data 54)) =
      some 0 ∧
    (fs_remove st_shadowed path_dxy).map (fun r => dir_num_entries (r.1.fs.data 50)) =
      some 1 ∧
    (fs_remove st_shadowed path_dxy).map (fun r => (r.1.inodes 4).use_flag) = some 1 := by
  refine ⟨?_, ?_, ?_, ?_, ?_, ?_, ?_, ?_, ?_, ?_, ?_, ?_, ?_, ?_, ?_, ?_, ?_, ?_, ?_, ?_, ?_, ?_,
    ?_, ?_, ?_, ?_, ?_, ?_, ?_, ?_, ?_, ?_, ?_, ?_, ?_, ?_, ?_, ?_, ?_, ?_⟩
  all_goals first
    | rfl
    | decide

/-- C22 fails where the traversal goes astray.  In the state `st_shadowed` (see C15) the
path `/d/x/y` names a directory: the root directory (block 48) holds `d` (inode 1, block
49), `/d` holds `x` (inode 2, block 50), `/d/x` holds `y` (inode 4), inode 4 is a
directory in use and its block 52 has one entry, `z`.  Whatever the uninitialised local
holds, `fs_get_dir("/d/x/y")` returns NULL, not a sequence of one record: the traversal
returns the inode of `/d/d/x`, whose record `y` refers to the regular file of inode 7. -/
theorem C22_get_dir_of_directory_returns_null :
    (create_each fs_format_state shadowed_calls).2 = [0, 0, 0, 0, 0, 0, 0, 0] ∧
    (st_shadowed.inodes 0).direct_block_ptr_array 0 = 48 ∧
    rec_name (st_shadowed.fs.data 48) 0 = [100] ∧
    rec_type (st_shadowed.fs.data 48) 0 = 1 ∧
    rec_inode_index (st_shadowed.fs.data 48) 0 = 1 ∧
    (st_shadowed.inodes 1).direct_block_ptr_array 0 = 49 ∧
    rec_name (st_shadowed.fs.data 49) 0 = [120] ∧
    rec_type (st_shadowed.fs.data 49) 0 = 1 ∧
    rec_inode_index (st_shadowed.fs.data 49) 0 = 2 ∧
    (st_shadowed.inodes 2).direct_block_ptr_array 0 = 50 ∧
    dir_num_entries (st_shadowed.fs.data 50) = 1 ∧
    rec_name (st_shadowed.fs.data 50) 0 = [121] ∧
    rec_type (st_shadowed.fs.data 50) 0 = 1 ∧
    rec_inode_index (st_shadowed.fs.data 50) 0 = 4 ∧
    (st_shadowed.inodes 4).use_flag = 1 ∧
    (st_shadowed.inodes 4).file_type = 1 ∧
    (st_shadowed.inodes 4).direct_block_ptr_array 0 = 52 ∧
    dir_num_entries (st_shadowed.fs.data 52) = 1 ∧
    rec_name (st_shadowed.fs.data 52) 0 = [122] ∧
    (dir_records (st_shadowed.fs.data 52)).length = 1 ∧
    (∀ indeterminate, fs_get_dir st_shadowed path_dxy indeterminate = some none) := by
  refine ⟨?_, ?_, ?_, ?_, ?_, ?_, ?_, ?_, ?_, ?_, ?_, ?_, ?_, ?_, ?_, ?_, ?_, ?_, ?_, ?_, ?_⟩
  all_goals first
    | rfl
    | decide
    | (intro indeterminate; rfl)

/-- C26 fails when an index pointer is 0.  In `st_block_zero` inode 1 is a regular file in
use with `indirect_block_ptr = 0` and `double_indirect_block_ptr = 0`, yet read-mode
resolution of logical indices 6 and 41 returns 113 and 2: the entries of block 0, which
the source reads through the zero pointer (line 901). -/
theorem C26_read_mode_unallocated_index_block :
    (st_block_zero.inodes 1).use_flag = 1 ∧
    (st_block_zero.inodes 1).file_type = 0 ∧
    (st_block_zero.inodes 1).indirect_block_ptr = 0 ∧
    (st_block_zero.inodes 1).double_indirect_block_ptr = 0 ∧
    get_block_ptr st_block_zero 1 6 1 = (st_block_zero, 113) ∧
    get_block_ptr st_block_zero 1 41 1 = (st_block_zero, 2) := by
  refine ⟨?_, ?_, ?_, ?_, ?_, ?_⟩ <;> rfl

/-- C27 fails when the indirect index block is unallocated.  In `st_block_zero` read-mode
resolution of indices 6 and 41 of inode 1 gives 113 and 2.  Write-mode resolution of
index 6 returns 52, a block that was free, not 113; afterwards read-mode resolution of
index 6 gives 52 and that of index 41 gives 0 instead of 2. -/
theorem C27_write_mode_changes_other_indices :
    (st_block_zero.inodes 1).indirect_block_ptr = 0 ∧
    (get_block_ptr st_block_zero 1 6 1).2 = 113 ∧
    (get_block_ptr st_block_zero 1 41 1).2 = 2 ∧
    st_block_zero.fs.used 51 = false ∧
    st_block_zero.fs.used 52 = false ∧
    (get_block_ptr st_block_zero 1 6 0).2 = 52 ∧
    (get_block_ptr (get_block_ptr st_block_zero 1 6 0).1 1 6 1).2 = 52 ∧
    (get_block_ptr (get_block_ptr st_block_zero 1 6 0).1 1 41 1).2 = 0 := by
  refine ⟨?_, ?_, ?_, ?_, ?_, ?_, ?_, ?_⟩ <;> rfl

/-- C28 fails on what a partial write stores.  In `exhausted st_written` descriptor 0 is
open on inode 1, a file of 5 bytes with one block, and no block is free.  Writing 1029
bytes of `pattern` returns 517 and `file_size` becomes 522 = 5 + 517; but byte 5 of the
file, the first byte counted, is 10 and not `pattern 0 = 0`, and logical block 1, which
holds bytes 512..521 of the file, is not attached to the inode. -/
theorem C28_partial_write_loses_bytes :
    ((exhausted st_written).file_descriptors 0).inode_index = 1 ∧
    ((exhausted st_written).inodes 1).file_size = 5 ∧
    pattern 0 = 0 ∧
    (fs_write (exhausted st_written) 0 pattern 1029).2 = 517 ∧
    ((fs_write (exhausted st_written) 0 pattern 1029).1.inodes 1).file_size = 522 ∧
    file_byte (fs_write (exhausted st_written) 0 pattern 1029).1 1 5 = 10 ∧
    (get_block_ptr (fs_write (exhausted st_written) 0 pattern 1029).1 1 1 1).2 = 0 := by
  refine ⟨rfl, rfl, rfl, ?_⟩
  unfold fs_write
  rewrite [if_neg (by decide), if_neg (by decide), if_neg (by decide)]
  dsimp only
  rewrite [show (toInt32 ((1029 : Nat) : Int)).toNat = 1027 + 1 + 1 from by decide]
  rewrite [fs_write_loop, if_pos (by decide)]
  dsimp only
  rewrite [if_neg, if_neg, if_pos]
  rotate_left
  · decide
  · decide
  · decide
  rewrite [fs_write_loop, if_pos]
  rotate_left
  · decide
  dsimp only
  rewrite [if_neg, if_neg, if_neg]
  rotate_left
  · decide
  · decide
  · decide
  rewrite [fs_write_loop, if_pos]
  rotate_left
  · decide
  dsimp only
  rewrite [get_block_ptr_direct_exhausted]
  rotate_left
  · decide
  · rfl
  · exact fun _ => rfl
  rewrite [if_pos]
  rotate_left
  · decide
  exact ⟨rfl, rfl, rfl, rfl⟩

/-- C29 fails for the tokens `[x, a]`.  In `st_created` the root directory has the entry `a`
(inode 1) and no entry `x`; `directory_traversal` on the tokens `x`, `a` returns the
inode of `a`, not NULL. -/
theorem C29_traversal_skips_missing_token :
    name_exists [120] (st_created.fs.data 48) (dir_num_entries (st_created.fs.data 48)) 0 = false ∧
    strcmp_eq [97] (st_created.fs.data 48) 0 = true ∧
    rec_inode_index (st_created.fs.data 48) 0 = 1 ∧
    directory_traversal st_created [[120], [97]] = some (st_created.inodes 1) := by
  refine ⟨?_, ?_, ?_, ?_⟩ <;> rfl

/-- C30 fails when a directory holds an entry with its own name.  In `st_nested` the root
directory holds the directory `d` (record 0), whose block 49 holds the file `x` (record 0,
inode 3) and the file `d` (record 1); every directory has distinct names.  The tokens
`d`, `x` satisfy the premise of C30, yet `directory_traversal` returns NULL: after
descending into `d` the scan goes on with the same token and meets the file `d`. -/
theorem C30_traversal_rescans_after_descent :
    dir_num_entries (st_nested.fs.data 48) = 2 ∧
    strcmp_eq [100] (st_nested.fs.data 48) 0 = true ∧
    rec_type (st_nested.fs.data 48) 0 = 1 ∧
    (st_nested.inodes (rec_inode_index (st_nested.fs.data 48) 0)).direct_block_ptr_array 0 = 49 ∧
    dir_num_entries (st_nested.fs.data 49) = 2 ∧
    strcmp_eq [120] (st_nested.fs.data 49) 0 = true ∧
    rec_inode_index (st_nested.fs.data 49) 0 = 3 ∧
    strcmp_eq [100] (st_nested.fs.data 49) 72 = true ∧
    rec_type (st_nested.fs.data 49) 1 = 0 ∧
    (st_nested.inodes 3).use_flag = 1 ∧
    directory_traversal st_nested [[100], [120]] = none ∧
    dir_invariant st_nested := by
  refine ⟨?_, ?_, ?_, ?_, ?_, ?_, ?_, ?_, ?_, ?_, ?_, ?_⟩
  all_goals first
    | rfl
    | decide

/-- X19, at a concrete input: in `st_dir_file` the path `/d` names a directory with one
entry and `fs_get_dir` returns the listing of its block 49; `/d/x` names a regular file
and `fs_get_dir` returns NULL. -/
theorem X19_get_dir_lists_reached_directory_witness :
    (st_dir_file.inodes 1).file_type = 1 ∧
    (st_dir_file.inodes 1).direct_block_ptr_array 0 = 49 ∧
    dir_num_entries (st_dir_file.fs.data 49) = 1 ∧
    fs_get_dir st_dir_file path_d 0 = some (some (dir_records (st_dir_file.fs.data 49))) ∧
    (st_dir_file.inodes 2).file_type = 0 ∧
    fs_get_dir st_dir_file path_dx 0 = some none := by
  have h := X19_get_dir_lists_reached_directory st_dir_file path_d [[100]]
    (st_dir_file.inodes 0) 1 0
    (by decide) (by decide) (by decide) (by rfl) (by rfl) (by rfl) (by rfl)
  exact ⟨by rfl, by rfl, by rfl, h.2.2.1 (by decide), by rfl, by rfl⟩

/-- C23, at a concrete input: the path `f`. -/
theorem C23_format_postcondition_witness :
    fs_format [] = none ∧
    ∃ fs, fs_format [102] = some fs ∧
      (fs.inodes 0).file_type = 1 ∧ (fs.inodes 0).use_flag = 1 ∧
      (fs.inodes 0).file_size = 512 ∧ (fs.inodes 0).direct_block_ptr_array 0 = 48 ∧
      (∀ i, i < 256 → 1 ≤ i → inode_same (fs.inodes i) inode_zero) ∧
      (∀ x, fs.fs.data 48 x = 0) ∧
      dir_num_entries (fs.fs.data 48) = 0 ∧
      (∀ fd, (fs.file_descriptors fd).inode_index < 0) ∧
      (∀ b, b < 49 → fs.fs.used b = true) :=
  C23_format_postcondition [102] (by decide)

/-- C24, at a concrete input: `st_written`, where inode 1 is a file of 5 bytes in block 49. -/
theorem C24_unmount_mount_round_trip_witness :
    (fs_unmount st_written).2 = 0 ∧
    (st_written.inodes 1).file_size = 5 ∧
    inode_same ((fs_mount_state (fs_unmount st_written).1).inodes 1) (st_written.inodes 1) ∧
    (fs_mount_state (fs_unmount st_written).1).fs.data 49 = st_written.fs.data 49 := by
  have h := C24_unmount_mount_round_trip st_written (by decide)
  exact ⟨h.1, by rfl, h.2.2.1 1 (by decide), h.2.2.2.1 49 (by decide)⟩

/-- C25, at a concrete input: right after `fs_format`, inode 0 is the root directory
(`file_type = 1`, `use_flag = 1`), so the `int` at `file_descriptors[256]` is 257 and
`fs_seek(fs, 256, 0, FS_SEEK_SET)` returns 0. -/
theorem C25_seek_accepts_descriptor_256_witness :
    (fs_format_state.inodes 0).file_type = 1 ∧
    (fs_format_state.inodes 0).use_flag = 1 ∧
    ((with_entry_256 fs_format_state).file_descriptors 256).inode_index = 257 ∧
    (fs_seek (with_entry_256 fs_format_state) 256 0 FS_SEEK_SET).2 = 0 :=
  ⟨by rfl, by rfl, by rfl,
    (C25_seek_accepts_descriptor_256 (with_entry_256 fs_format_state) (by decide)).1⟩

/-- X12, at a concrete input: in `st_created` index 1 of inode 1 is unallocated; write-mode
resolution returns block 50 and read-mode resolution then gives 50. -/
theorem X12_write_mode_direct_block_witness :
    (st_created.inodes 1).direct_block_ptr_array 1 = 0 ∧
    (get_block_ptr st_created 1 1 0).2 = 50 ∧
    (get_block_ptr (get_block_ptr st_created 1 1 0).1 1 1 1).2 = 50 := by
  have h := (X12_write_mode_direct_block st_created 1 1 (by decide)).2.2 (by rfl) (by decide)
  obtain ⟨b, h1, _, _, _, h5, _⟩ := h
  have hb : (b : Int) = 50 := h1.symm.trans (by rfl)
  exact ⟨by rfl, by rfl, h5.trans hb⟩

/-- X13, at a concrete input: 700 bytes written to the empty file of `st_opened`. -/
theorem X13_write_accounting_witness :
    (0 : Int) ≤ (fs_write st_opened 0 pattern 700).2 ∧
    (fs_write st_opened 0 pattern 700).2 ≤ ((700 : Nat) : Int) ∧
    ((((fs_write st_opened 0 pattern 700).1.inodes
        (st_opened.file_descriptors (0 : Int).toNat).inode_index.toNat).file_size : Nat) : Int) =
      ((st_opened.inodes (st_opened.file_descriptors (0 : Int).toNat).inode_index.toNat).file_size
        : Nat) + (fs_write st_opened 0 pattern 700).2 :=
  X13_write_accounting st_opened 0 pattern 700 (by decide) (by decide) (by decide) (by decide)
    (by decide)

/-- X10, at a concrete input: index 0 of inode 1 in `st_written`. -/
theorem X10_read_mode_mapping_witness :
    (get_block_ptr st_written 1 0 1).1 = st_written ∧
    (get_block_ptr st_written 1 0 1).2 =
      (((st_written.inodes 1).direct_block_ptr_array 0 : Nat) : Int) :=
  ⟨(X10_read_mode_mapping st_written 1 0 (by decide)).1,
    (X10_read_mode_mapping st_written 1 0 (by decide)).2.1 (by decide)⟩

/-- X11, at a concrete input: descriptor 257 right after `fs_format`. -/
theorem X11_descriptor_out_of_range_rejected_witness :
    fs_seek fs_format_state 257 0 FS_SEEK_SET = (fs_format_state, -1) ∧
    fs_write fs_format_state 257 pattern 1 = (fs_format_state, -1) :=
  ⟨(X11_descriptor_out_of_range_rejected fs_format_state 257 0 FS_SEEK_SET pattern zeros 1
      (by decide)).1,
    (X11_descriptor_out_of_range_rejected fs_format_state 257 0 FS_SEEK_SET pattern zeros 1
      (by decide)).2.2.2.2⟩

/-! ## Path tokenising and the path buffer of `parse_path` -/

/-- The tokens `strtok` finds are the non-empty pieces of the split at `/`, for any token
being read. -/
theorem strtok_tokens_runs :
    ∀ (cs acc : List Nat), strtok_tokens cs acc.reverse =
      (List.splitOnP.go (fun x => x == 47) cs acc).filter (fun t => !t.isEmpty) := by
  intro cs
  induction cs with
  | nil =>
    intro acc
    rw [strtok_tokens, List.splitOnP.go]
    by_cases h : acc.reverse = []
    · simp [h]
    · simp [h]
  | cons c cs ih =>
    intro acc
    rw [strtok_tokens, List.splitOnP.go]
    by_cases hc : c = 47
    · subst hc
      have ih0 := ih []
      rw [List.reverse_nil] at ih0
      by_cases h : acc.reverse = []
      · simp [h, ih0]
      · simp [h, ih0]
    · have hb : (c == 47) = false := by simpa using hc
      rw [if_neg hc]
      simp only [hb, Bool.false_eq_true, if_false]
      rw [← ih (c :: acc), List.reverse_cons]

/-- The tokens `strtok` finds in a path are its runs. -/
theorem strtok_tokens_eq_path_runs (path : List Nat) : strtok_tokens path [] = path_runs path := by
  have h := strtok_tokens_runs path []
  rw [List.reverse_nil] at h
  rw [h]
  rfl

/-- Every token `strtok` finds is non-empty and holds no `/`. -/
theorem strtok_tokens_mem :
    ∀ (cs cur : List Nat), 47 ∉ cur → ∀ t, t ∈ strtok_tokens cs cur → t ≠ [] ∧ 47 ∉ t := by
  intro cs
  induction cs with
  | nil =>
    intro cur hcur t ht
    rw [strtok_tokens] at ht
    by_cases h : cur = []
    · simp [h] at ht
    · simp [h] at ht
      subst ht
      exact ⟨h, hcur⟩
  | cons c cs ih =>
    intro cur hcur t ht
    rw [strtok_tokens] at ht
    by_cases hc : c = 47
    · rw [if_pos hc] at ht
      by_cases h : cur = []
      · rw [if_pos h] at ht
        exact ih [] (by simp) t ht
      · rw [if_neg h] at ht
        rcases List.mem_cons.1 ht with e | e
        · subst e; exact ⟨h, hcur⟩
        · exact ih [] (by simp) t e
    · rw [if_neg hc] at ht
      refine ih (cur ++ [c]) ?_ t ht
      simp only [List.mem_append, List.mem_singleton, not_or]
      exact ⟨hcur, fun e => hc e.symm⟩

/-- A token `strtok` finds is no longer than what is left of the path and the token being
read. -/
theorem strtok_tokens_length :
    ∀ (cs cur : List Nat) (t : List Nat), t ∈ strtok_tokens cs cur →
      t.length ≤ cs.length + cur.length := by
  intro cs
  induction cs with
  | nil =>
    intro cur t ht
    rw [strtok_tokens] at ht
    by_cases h : cur = []
    · simp [h] at ht
    · simp [h] at ht
      subst ht
      simp
  | cons c cs ih =>
    intro cur t ht
    rw [strtok_tokens] at ht
    by_cases hc : c = 47
    · rw [if_pos hc] at ht
      by_cases h : cur = []
      · rw [if_pos h] at ht
        have := ih [] t ht
        simp only [List.length_cons, List.length_nil] at this ⊢
        omega
      · rw [if_neg h] at ht
        rcases List.mem_cons.1 ht with e | e
        · subst e
          simp only [List.length_cons]
          omega
        · have := ih [] t e
          simp only [List.length_cons, List.length_nil] at this ⊢
          omega
    · rw [if_neg hc] at ht
      have := ih (cur ++ [c]) t ht
      simp only [List.length_cons, List.length_append, List.length_nil] at this ⊢
      omega

/-- C31 fails for paths of more than 64 bytes.  `parse_path` copies the path and its NUL
into the 65 bytes of `temp` (line 459) before it splits it.  For a path of at most 64
bytes it returns NULL when some run of characters other than `/` is longer than 63
bytes and the runs of the path, in order, otherwise; a path that starts with `/` has no
such run, so for it the result is the runs.  A run is non-empty and holds no `/`; the
path `/` gives the empty sequence, and repeated slashes give no empty token.  For a
path of more than 64 bytes the copy does not fit and the call has no result: so it is
for the 100 bytes of `path_100`, whose two runs have 49 bytes each, and for `/` followed
by 64 times `a`, whose run has 64 bytes. -/
theorem C31_parse_path_overruns_temp (path rest : List Nat) :
    parse_path path =
      (if path.length ≤ 64 then
        (if (path_runs path).any (fun t => decide (t.length > 63)) then some none
         else some (some (path_runs path)))
       else none) ∧
    parse_path (47 :: rest) =
      (if rest.length ≤ 63 then some (some (path_runs (47 :: rest))) else none) ∧
    (∀ t, t ∈ path_runs path → t ≠ [] ∧ 47 ∉ t) ∧
    parse_path [47] = some (some []) ∧
    parse_path [47, 47, 97, 98, 47, 47, 47, 99, 47] = some (some [[97, 98], [99]]) ∧
    path_100.length = 100 ∧
    path_runs path_100 = [List.replicate 49 97, List.replicate 49 98] ∧
    parse_path path_100 = none ∧
    path_runs (47 :: List.replicate 64 97) = [List.replicate 64 97] ∧
    parse_path (47 :: List.replicate 64 97) = none := by
  have hgen : ∀ p : List Nat, parse_path p =
      (if p.length ≤ 64 then
        (if (path_runs p).any (fun t => decide (t.length > 63)) then some none
         else some (some (path_runs p)))
       else none) := by
    intro p
    unfold parse_path
    rw [strtok_tokens_eq_path_runs]
    by_cases hf : parse_path_copy_fits p
    · have hl : p.length ≤ 64 := by
        unfold parse_path_copy_fits parse_path_temp_size at hf
        omega
      rw [if_pos hf, if_pos hl]
    · have hl : ¬ p.length ≤ 64 := by
        unfold parse_path_copy_fits parse_path_temp_size at hf
        omega
      rw [if_neg hf, if_neg hl]
  refine ⟨hgen path, ?_, ?_, by rfl, by rfl, by rfl, by decide, by rfl, by decide, by rfl⟩
  · rw [hgen]
    have hlen : (47 :: rest).length = rest.length + 1 := List.length_cons 47 rest
    by_cases hr : rest.length ≤ 63
    · rw [if_pos (by omega), if_pos hr]
      have hno : (path_runs (47 :: rest)).any (fun t => decide (t.length > 63)) = false := by
        rw [List.any_eq_false]
        intro t ht
        rw [← strtok_tokens_eq_path_runs] at ht
        have e : strtok_tokens (47 :: rest) [] = strtok_tokens rest [] := by
          rw [strtok_tokens]
          simp
        rw [e] at ht
        have := strtok_tokens_length rest [] t ht
        simp only [List.length_nil] at this
        simp only [gt_iff_lt, decide_eq_true_eq, not_lt]
        omega
      rw [hno]
      simp
    · rw [if_neg (by omega), if_neg hr]
  · intro t ht
    rw [← strtok_tokens_eq_path_runs] at ht
    exact strtok_tokens_mem path [] (by simp) t ht

/-- C33 fails for paths of 65 to 100 bytes.  The path `path_100` of 100 bytes passes the
tests of `fs_create` (for either type) and of `fs_get_dir`, and `strtok` would find two
tokens of 49 bytes in it, which pass the length test of `parse_path`; the copy that
`strcpy(temp, path)` makes takes 101 bytes and the array `temp` has 65, so that
`parse_path`, and with it `fs_create` and `fs_get_dir`, has no result. -/
theorem C33_accepted_path_exceeds_buffer :
    path_100.length = 100 ∧
    fs_create_accepts path_100 0 ∧
    fs_create_accepts path_100 1 ∧
    fs_get_dir_accepts path_100 ∧
    strtok_tokens path_100 [] = [List.replicate 49 97, List.replicate 49 98] ∧
    parse_path_temp_size = 65 ∧
    ¬ parse_path_copy_fits path_100 ∧
    parse_path path_100 = none ∧
    fs_create fs_format_state path_100 0 = none ∧
    fs_create fs_format_state path_100 1 = none ∧
    fs_get_dir fs_format_state path_100 0 = none := by
  refine ⟨by rfl, by decide, by decide, by decide, by rfl, by rfl, by decide, by rfl, by rfl,
    by rfl, by rfl⟩

/-- X16: what the validation does bound.  A path that the tests of `fs_create` or of
`fs_get_dir` turn down never reaches `parse_path`; a path they let through has at most
100 bytes; the copy fits `temp` exactly when the path has at most 64 bytes; and for a
path they let through whose copy does not fit, the call has no result. -/
theorem X16_rejected_before_parse_path (fs : F16FS_t) (path : List Nat) (type : Nat)
    (indeterminate : Int) :
    (¬ fs_create_accepts path type → fs_create fs path type = some (fs, -1)) ∧
    (¬ fs_get_dir_accepts path → fs_get_dir fs path indeterminate = some none) ∧
    (fs_create_accepts path type → path.length ≤ 100) ∧
    (fs_get_dir_accepts path → path.length ≤ 100) ∧
    (parse_path_copy_fits path ↔ path.length ≤ 64) ∧
    (fs_create_accepts path type → ¬ parse_path_copy_fits path →
      fs_create fs path type = none) ∧
    (fs_get_dir_accepts path → ¬ parse_path_copy_fits path →
      fs_get_dir fs path indeterminate = none) := by
  refine ⟨?_, ?_, ?_, ?_, ?_, ?_, ?_⟩
  · intro h
    unfold fs_create_accepts at h
    unfold fs_create
    by_cases h1 : path = [] ∨ path = [47] ∨ path.head? ≠ some 47 ∨ (type ≠ 0 ∧ type ≠ 1)
    · rw [if_pos h1]
    · rw [if_neg h1]
      have h2 : path.getLast? = some 47 ∨ path.length > 100 := by
        by_contra h2
        exact h ⟨h1, h2⟩
      rw [if_pos h2]
  · intro h
    unfold fs_get_dir_accepts at h
    unfold fs_get_dir
    by_cases h1 : path = [] ∨ path.head? ≠ some 47
    · rw [if_pos h1]
    · rw [if_neg h1]
      have h2 : (path.getLast? = some 47 ∧ path ≠ [47]) ∨ path.length > 100 := by
        by_contra h2
        exact h ⟨h1, h2⟩
      rw [if_pos h2]
  · intro h
    have := h.2
    omega
  · intro h
    have := h.2
    omega
  · unfold parse_path_copy_fits parse_path_temp_size
    omega
  · intro h hf
    unfold fs_create
    rw [if_neg h.1, if_neg h.2, (parse_path_none path).2 hf]
  · intro h hf
    unfold fs_get_dir
    rw [if_neg h.1, if_neg h.2, (parse_path_none path).2 hf]

/-! ## The release loop of `fs_remove` -/

/-- C32 fails for every size that is not a multiple of 512.  The counter `file_size` of the
release loop is an `unsigned long` that goes down by 512 in every pass: from a value
of at most 512 that is not 512 the subtraction wraps to `2^64 - 512 + file_size`, and
from a size that is not a multiple of 512 the loop has no result, whatever the fuel. -/
theorem C32_release_loop_wraps (ino : inode_t) (idx file_size : Nat)
    (h64 : file_size < 18446744073709551616) (hrag : file_size % 512 ≠ 0) :
    toUInt64 (((file_size % 512 : Nat) : Int) - 512) =
      18446744073709551616 - 512 + file_size % 512 ∧
    (file_size ≤ 512 → ∀ (fuel : Nat) (fs : F16FS_t),
      fs_remove_loop ino idx (fuel + 1) fs file_size =
        fs_remove_loop ino idx fuel
          { fs with fs := block_store_release fs.fs (ino.direct_block_ptr_array 0) }
          (18446744073709551616 - 512 + file_size)) ∧
    ∀ (fuel : Nat) (fs : F16FS_t), fs_remove_loop ino idx fuel fs file_size = none := by
  refine ⟨?_, ?_, fun fuel fs => fs_remove_loop_ragged ino idx fuel fs file_size h64 hrag⟩
  · unfold toUInt64; omega
  · intro h512 fuel fs
    rw [fs_remove_loop]
    rw [if_pos (by omega), if_pos h512]
    have e : toUInt64 ((file_size : Int) - 512) = 18446744073709551616 - 512 + file_size := by
      unfold toUInt64; omega
    rw [e]

/-- C32, at a concrete input: the 5-byte file `/a` of `st_written`.  The counter wraps from
5 to `2^64 - 507` and the loop has no result. -/
theorem C32_release_loop_wraps_witness :
    (st_written.inodes 1).file_type = 0 ∧
    (st_written.inodes 1).file_size = 5 ∧
    toUInt64 (((5 % 512 : Nat) : Int) - 512) = 18446744073709551616 - 512 + 5 % 512 ∧
    ∀ (fuel : Nat) (fs : F16FS_t),
      fs_remove_loop (st_written.inodes 1) 1 fuel fs 5 = none :=
  ⟨by rfl, by rfl,
    (C32_release_loop_wraps (st_written.inodes 1) 1 5 (by decide) (by decide)).1,
    (C32_release_loop_wraps (st_written.inodes 1) 1 5 (by decide) (by decide)).2.2⟩

/-- X15: what holds of C32.  For a size of `n` full blocks the release loop ends after `n`
passes; it changes neither the inode table nor the descriptors nor any block content. -/
theorem X15_release_loop_ends_on_full_blocks (ino : inode_t) (idx : Nat) :
    ∀ (n : Nat) (fs : F16FS_t), n + 1 < 2147483648 →
      ∃ r, fs_remove_loop ino idx (n + 1) fs (512 * n) = some r ∧
        r.inodes = fs.inodes ∧ r.fs.data = fs.fs.data ∧
        r.file_descriptors = fs.file_descriptors := by
  intro n
  induction n with
  | zero =>
    intro fs _
    exact ⟨fs, by rw [fs_remove_loop, if_neg (by omega)], rfl, rfl, rfl⟩
  | succ n ih =>
    intro fs hn
    rw [fs_remove_loop, if_pos (by omega)]
    have e : toUInt64 (((512 * (n + 1) : Nat) : Int) - 512) = 512 * n := by
      unfold toUInt64; omega
    by_cases h512 : 512 * (n + 1) ≤ 512
    · rw [if_pos h512, e]
      obtain ⟨r, h1, h2, h3, h4⟩ := ih
        { fs with fs := block_store_release fs.fs (ino.direct_block_ptr_array 0) } (by omega)
      exact ⟨r, h1, h2, h3, h4⟩
    · rw [if_neg h512]
      have hd : 512 * (n + 1) / 512 + 1 = n + 2 := by omega
      have e2 : toInt32 ((512 * (n + 1) / 512 + 1 : Nat) : Int) = ((n + 2 : Nat) : Int) := by
        rw [hd]; exact toInt32_of_small _ (by omega)
      rw [if_neg (by rw [e2]; omega)]
      dsimp only
      rw [e, e2, Int.toNat_ofNat, get_block_ptr_read_state]
      obtain ⟨r, h1, h2, h3, h4⟩ := ih
        (F16FS_t.mk (block_store_release fs.fs ((get_block_ptr fs idx (n + 2) 1).2 % 256).toNat)
          fs.file_descriptors fs.inodes fs.total_files) (by omega)
      exact ⟨r, h1, h2, h3, h4⟩

/-- X15, at a concrete input: a size of two blocks. -/
theorem X15_release_loop_ends_on_full_blocks_witness :
    ∃ r, fs_remove_loop (st_written.inodes 1) 1 (2 + 1) st_written (512 * 2) = some r ∧
      r.inodes = st_written.inodes ∧ r.fs.data = st_written.fs.data ∧
      r.file_descriptors = st_written.file_descriptors :=
  X15_release_loop_ends_on_full_blocks (st_written.inodes 1) 1 2 st_written (by decide)

/-! ## No block is shared -/

/-- The block ids stored at the places depend on the inode table and on the contents of
the index blocks only. -/
theorem slot_block_congr (fs fs1 : F16FS_t) (hi : fs1.inodes = fs.inodes)
    (hd : ∀ a, slot_valid a → slot_index a → slot_block fs a ≠ 0 →
      fs1.fs.data (slot_block fs a) = fs.fs.data (slot_block fs a)) :
    ∀ a, slot_valid a → slot_block fs1 a = slot_block fs a := by
  intro a ha
  cases a with
  | direct i j => simp only [slot_block, hi]
  | ind i => simp only [slot_block, hi]
  | dbl i => simp only [slot_block, hi]
  | ind_entry i t =>
    simp only [slot_block, hi]
    by_cases h0 : (fs.inodes i).indirect_block_ptr = 0
    · rw [if_pos h0, if_pos h0]
    · rw [if_neg h0, if_neg h0]
      have := hd (Slot.ind i) trivial trivial h0
      simp only [slot_block] at this
      rw [this]
  | dbl_entry i s =>
    simp only [slot_block, hi]
    by_cases h0 : (fs.inodes i).double_indirect_block_ptr = 0
    · rw [if_pos h0, if_pos h0]
    · rw [if_neg h0, if_neg h0]
      have := hd (Slot.dbl i) trivial trivial h0
      simp only [slot_block] at this
      rw [this]
  | sub_entry i s t =>
    simp only [slot_block, hi]
    by_cases h0 : (fs.inodes i).double_indirect_block_ptr = 0
    · rw [if_pos h0, if_pos h0]
    · rw [if_neg h0, if_neg h0]
      have h1 := hd (Slot.dbl i) trivial trivial h0
      simp only [slot_block] at h1
      rw [h1]
      by_cases h2 : ptr_at (fs.fs.data (fs.inodes i).double_indirect_block_ptr) s = 0
      · rw [if_pos h2, if_pos h2]
      · rw [if_neg h2, if_neg h2]
        have h3 := hd (Slot.dbl_entry i s) ha.1 trivial (by simp only [slot_block, if_neg h0]; exact h2)
        simp only [slot_block, if_neg h0] at h3
        rw [h3]

/-- The invariant carries over to a state that stores the same block ids and keeps them
allocated. -/
theorem blocks_ok_of_same (fs fs1 : F16FS_t) (h : blocks_ok fs)
    (hv : ∀ a, slot_valid a → slot_block fs1 a = slot_block fs a)
    (hu : ∀ a, slot_valid a → slot_block fs a ≠ 0 → fs1.fs.used (slot_block fs a) = true)
    (hl : ∀ b, 1 ≤ b → b < 49 → fs1.fs.used b = true)
    (hc : ∀ b x, 512 ≤ x → fs1.fs.data b x = 0)
    (hz : ∀ x, fs1.fs.data 0 x = 0)
    (hd : ∀ i, (fs1.inodes i).file_type ≠ 0 → (fs1.inodes i).direct_block_ptr_array 0 ≠ 0) :
    blocks_ok fs1 := by
  refine ⟨?_, ?_, hl, hc, hz, hd⟩
  · intro a b ha hb h0 he
    rw [hv a ha] at h0 he
    rw [hv b hb] at he
    exact h.inj a b ha hb h0 he
  · intro a ha h0
    rw [hv a ha] at h0 ⊢
    exact ⟨hu a ha h0, (h.used a ha h0).2⟩

/-- The invariant carries over when a block that was free is stored at one place and every
other place keeps its block id or is cleared. -/
theorem blocks_ok_attach (fs fs1 : F16FS_t) (h : blocks_ok fs) (a0 : Slot) (b : Nat)
    (hb0 : b ≠ 0) (hb1 : b < 65536) (hfree : fs.fs.used b = false)
    (hv0 : slot_block fs1 a0 = b)
    (hv : ∀ a, slot_valid a → a ≠ a0 → slot_block fs1 a = slot_block fs a ∨ slot_block fs1 a = 0)
    (hub : fs1.fs.used b = true)
    (hu : ∀ c, fs.fs.used c = true → fs1.fs.used c = true)
    (hc : ∀ b x, 512 ≤ x → fs1.fs.data b x = 0)
    (hz : ∀ x, fs1.fs.data 0 x = 0)
    (hd : ∀ i, (fs1.inodes i).file_type ≠ 0 → (fs1.inodes i).direct_block_ptr_array 0 ≠ 0) :
    blocks_ok fs1 := by
  have hb49 : 48 ≤ b := by
    by_contra hlt
    have := h.low b (by omega) (by omega)
    rw [hfree] at this
    exact absurd this (by simp)
  have hold : ∀ a, slot_valid a → a ≠ a0 → slot_block fs1 a ≠ 0 →
      slot_block fs1 a = slot_block fs a ∧ slot_block fs a ≠ b := by
    intro a ha hne h0
    rcases hv a ha hne with e | e
    · refine ⟨e, ?_⟩
      intro hb
      have := (h.used a ha (by rw [← e]; exact h0)).1
      rw [hb, hfree] at this
      exact absurd this (by simp)
    · exact absurd e h0
  refine ⟨?_, ?_, fun c h1 h2 => hu c (h.low c h1 h2), hc, hz, hd⟩
  · intro a c ha hcv h0 he
    by_cases e1 : a = a0
    · by_cases e2 : c = a0
      · rw [e1, e2]
      · exfalso
        rw [e1, hv0] at he
        have := hold c hcv e2 (by rw [← he]; exact hb0)
        exact this.2 (by rw [← this.1, ← he])
    · have h1 := hold a ha e1 h0
      by_cases e2 : c = a0
      · exfalso
        rw [e2, hv0] at he
        exact h1.2 (by rw [← h1.1, he])
      · have h2 := hold c hcv e2 (by rw [← he]; exact h0)
        exact h.inj a c ha hcv (by rw [← h1.1]; exact h0) (by rw [← h1.1, ← h2.1]; exact he)
  · intro a ha h0
    by_cases e1 : a = a0
    · rw [e1, hv0]
      exact ⟨hub, hb49, hb1⟩
    · have h1 := hold a ha e1 h0
      rw [h1.1]
      have := h.used a ha (by rw [← h1.1]; exact h0)
      exact ⟨hu _ this.1, this.2⟩

/-- A block stored at a place for data is not an index block. -/
theorem leaf_not_index (fs : F16FS_t) (h : blocks_ok fs) (a : Slot) (ha : slot_valid a)
    (hl : ¬ slot_index a) (c : Nat) (hc : slot_block fs a = c) (h0 : c ≠ 0) :
    ¬ index_block fs c := by
  rintro ⟨a1, h1, h2, h3⟩
  have := h.inj a a1 ha h1 (by rw [hc]; exact h0) (by rw [hc, h3])
  rw [this] at hl
  exact hl h2

/-- A free block is not an index block. -/
theorem free_not_index (fs : F16FS_t) (h : blocks_ok fs) (c : Nat) (h0 : c ≠ 0)
    (hf : fs.fs.used c = false) : ¬ index_block fs c := by
  rintro ⟨a1, h1, _, h3⟩
  have := (h.used a1 h1 (by rw [h3]; exact h0)).1
  rw [h3, hf] at this
  exact absurd this (by simp)

/-- Writing a block that is not an index block, and not block 0, keeps the invariant. -/
theorem blocks_ok_block_write (fs : F16FS_t) (h : blocks_ok fs) (c : Nat) (buf : Nat → Nat)
    (h0 : c ≠ 0) (hn : ¬ index_block fs c) : blocks_ok (fs_block_write fs c buf) := by
  have hdata : ∀ q, q ≠ c → (fs_block_write fs c buf).fs.data q = fs.fs.data q := by
    intro q hq
    simp [fs_block_write, block_store_write, hq]
  refine blocks_ok_of_same fs _ h ?_ ?_ h.low ?_ ?_ h.dirs
  · apply slot_block_congr fs (fs_block_write fs c buf) rfl
    intro a ha hi hne
    apply hdata
    intro e
    exact hn ⟨a, ha, hi, e⟩
  · intro a ha hne
    exact (h.used a ha hne).1
  · intro b x hx
    show (if b = c then (fun x => if x < 512 then buf x else 0) else fs.fs.data b) x = 0
    by_cases e : b = c
    · rw [if_pos e]
      show (if x < 512 then buf x else 0) = 0
      rw [if_neg (by omega)]
    · rw [if_neg e]
      exact h.canon b x hx
  · intro x
    rw [hdata 0 (fun e => h0 e.symm)]
    exact h.zero x

/-- The invariant depends on the inode table and the block store only. -/
theorem blocks_ok_congr (fs fs1 : F16FS_t) (h : blocks_ok fs) (hi : fs1.inodes = fs.inodes)
    (hs : fs1.fs = fs.fs) : blocks_ok fs1 := by
  have hv : ∀ a, slot_block fs1 a = slot_block fs a := by
    intro a
    cases a <;> simp only [slot_block, hi, hs]
  refine blocks_ok_of_same fs _ h (fun a _ => hv a) ?_ ?_ ?_ ?_ ?_
  · intro a ha hne; rw [hs]; exact (h.used a ha hne).1
  · rw [hs]; exact h.low
  · rw [hs]; exact h.canon
  · rw [hs]; exact h.zero
  · rw [hi]; exact h.dirs

/-- Marking a block as allocated keeps the invariant. -/
theorem blocks_ok_mark (fs : F16FS_t) (h : blocks_ok fs) (b : Nat) : blocks_ok (mark fs b) := by
  have hv : ∀ a, slot_block (mark fs b) a = slot_block fs a := by
    intro a
    cases a <;> rfl
  refine blocks_ok_of_same fs _ h (fun a _ => hv a) ?_ ?_ h.canon h.zero h.dirs
  · intro a ha hne
    show (if slot_block fs a = b then true else fs.fs.used (slot_block fs a)) = true
    split
    · rfl
    · exact (h.used a ha hne).1
  · intro c h1 h2
    show (if c = b then true else fs.fs.used c) = true
    split
    · rfl
    · exact h.low c h1 h2

/-- When the test-and-assign of an allocation yields 0, the store is unchanged or id 0 got
marked. -/
theorem alloc_ptr_fail (fs : F16FS_t) (h : (alloc_ptr fs).2 = 0) :
    (alloc_ptr fs).1 = fs ∨ (alloc_ptr fs).1 = mark fs 0 := by
  unfold alloc_ptr block_store_allocate at *
  cases hff : first_free fs.fs.used 65536 0 with
  | none => left; rfl
  | some id =>
    have hs := first_free_spec fs.fs.used 65536 0 id hff
    simp only [hff] at h ⊢
    have hid : id = 0 := by omega
    subst hid
    right; rfl

/-- A failed allocation keeps the invariant. -/
theorem blocks_ok_alloc_fail (fs : F16FS_t) (h : blocks_ok fs) (ha : (alloc_ptr fs).2 = 0) :
    blocks_ok (alloc_ptr fs).1 := by
  rcases alloc_ptr_fail fs ha with e | e
  · rw [e]; exact h
  · rw [e]; exact blocks_ok_mark fs h 0

/-- The result -1 of write-mode resolution. -/
theorem write_result_fail (fs : F16FS_t) (h : blocks_ok fs) : write_result_ok (fs, -1) :=
  ⟨h, fun h0 => absurd (show (0 : Int) ≤ -1 from h0) (by decide)⟩

/-- The result of write-mode resolution that is the block stored at a place for data. -/
theorem write_result_leaf (fs : F16FS_t) (h : blocks_ok fs) (a : Slot) (ha : slot_valid a)
    (hl : ¬ slot_index a) (c : Nat) (hc : slot_block fs a = c) (h0 : c ≠ 0) :
    write_result_ok (fs, (c : Int)) := by
  refine ⟨h, fun _ => ⟨?_, ?_⟩⟩
  · show (c : Int) ≠ 0
    exact_mod_cast h0
  · show ¬ index_block fs ((c : Int)).toNat
    rw [Int.toNat_ofNat]
    exact leaf_not_index fs h a ha hl c hc h0

/-- Write-mode resolution in the direct range keeps the invariant. -/
theorem get_block_ptr_direct_write_ok (fs : F16FS_t) (idx L : Nat) (hL : L < 6) (h : blocks_ok fs) :
    write_result_ok (get_block_ptr_direct fs idx L 0) := by
  unfold get_block_ptr_direct
  by_cases h0 : (fs.inodes idx).direct_block_ptr_array L = 0
  · rw [if_pos ⟨h0, rfl⟩]
    dsimp only
    by_cases ha : (alloc_ptr fs).2 = 0
    · rw [if_pos ha]
      exact write_result_fail _ (blocks_ok_alloc_fail fs h ha)
    · rw [if_neg ha]
      obtain ⟨b, hb0, hb1, hbu, hal⟩ := alloc_ptr_spec fs ha
      rw [hal]
      dsimp only
      apply write_result_leaf _ _ (Slot.direct idx L) hL (fun e => e) b _ hb0
      · apply blocks_ok_attach fs _ h (Slot.direct idx L) b hb0 hb1 hbu
        · simp [slot_block, set_inode]
        · intro a ha hne
          left
          cases a with
          | direct i j =>
            by_cases e : i = idx
            · subst e
              have hj : j ≠ L := fun e => hne (by rw [e])
              simp [slot_block, set_inode, mark, hj]
            · simp [slot_block, set_inode, mark, e]
          | ind i => by_cases e : i = idx <;> simp [slot_block, set_inode, mark, e]
          | dbl i => by_cases e : i = idx <;> simp [slot_block, set_inode, mark, e]
          | ind_entry i t => by_cases e : i = idx <;> simp [slot_block, set_inode, mark, e]
          | dbl_entry i s => by_cases e : i = idx <;> simp [slot_block, set_inode, mark, e]
          | sub_entry i s t => by_cases e : i = idx <;> simp [slot_block, set_inode, mark, e]
        · simp [set_inode, mark]
        · intro c hc
          simp [set_inode, mark, hc]
        · exact h.canon
        · exact h.zero
        · intro i
          by_cases e : i = idx
          · subst e
            by_cases e0 : L = 0
            · subst e0
              intro _
              simp [set_inode, mark, hb0]
            · have : (0 : Nat) ≠ L := fun e => e0 e.symm
              simp only [set_inode, mark, if_true, this, if_false]
              exact h.dirs i
          · simp only [set_inode, mark, e, if_false]
            exact h.dirs i
      · simp [slot_block, set_inode]
  · rw [if_neg (fun c => h0 c.1)]
    exact write_result_leaf fs h (Slot.direct idx L) hL (fun e => e) _ rfl h0

/-- The places read on the way to a place exist and name index blocks. -/
theorem slot_reads_valid (a r : Slot) (ha : slot_valid a) (hr : r ∈ slot_reads a) :
    slot_valid r ∧ slot_index r := by
  cases a with
  | direct i j => simp [slot_reads] at hr
  | ind i => simp [slot_reads] at hr
  | dbl i => simp [slot_reads] at hr
  | ind_entry i t =>
    simp only [slot_reads, List.mem_singleton] at hr
    subst hr
    exact ⟨trivial, trivial⟩
  | dbl_entry i s =>
    simp only [slot_reads, List.mem_singleton] at hr
    subst hr
    exact ⟨trivial, trivial⟩
  | sub_entry i s t =>
    simp only [slot_reads, List.mem_cons, List.mem_singleton, List.mem_nil_iff, or_false] at hr
    rcases hr with e | e
    · subst e; exact ⟨trivial, trivial⟩
    · subst e; exact ⟨ha.1, trivial⟩

/-- The block id stored at a place is unchanged when the blocks read on the way to it
are. -/
theorem slot_block_frame (fs fs1 : F16FS_t) (hi : fs1.inodes = fs.inodes) (a : Slot)
    (hr : ∀ r, r ∈ slot_reads a → slot_block fs r ≠ 0 →
      fs1.fs.data (slot_block fs r) = fs.fs.data (slot_block fs r)) :
    slot_block fs1 a = slot_block fs a := by
  cases a with
  | direct i j => simp only [slot_block, hi]
  | ind i => simp only [slot_block, hi]
  | dbl i => simp only [slot_block, hi]
  | ind_entry i t =>
    simp only [slot_block, hi]
    by_cases h0 : (fs.inodes i).indirect_block_ptr = 0
    · rw [if_pos h0, if_pos h0]
    · rw [if_neg h0, if_neg h0]
      have := hr (Slot.ind i) (by simp [slot_reads]) h0
      simp only [slot_block] at this
      rw [this]
  | dbl_entry i s =>
    simp only [slot_block, hi]
    by_cases h0 : (fs.inodes i).double_indirect_block_ptr = 0
    · rw [if_pos h0, if_pos h0]
    · rw [if_neg h0, if_neg h0]
      have := hr (Slot.dbl i) (by simp [slot_reads]) h0
      simp only [slot_block] at this
      rw [this]
  | sub_entry i s t =>
    simp only [slot_block, hi]
    by_cases h0 : (fs.inodes i).double_indirect_block_ptr = 0
    · rw [if_pos h0, if_pos h0]
    · rw [if_neg h0, if_neg h0]
      have h1 := hr (Slot.dbl i) (by simp [slot_reads]) h0
      simp only [slot_block] at h1
      rw [h1]
      by_cases h2 : ptr_at (fs.fs.data (fs.inodes i).double_indirect_block_ptr) s = 0
      · rw [if_pos h2, if_pos h2]
      · rw [if_neg h2, if_neg h2]
        have h3 := hr (Slot.dbl_entry i s) (by simp [slot_reads])
          (by simp only [slot_block, if_neg h0]; exact h2)
        simp only [slot_block, if_neg h0] at h3
        rw [h3]

/-- Assigning one inode leaves the places of the other inodes as they were. -/
theorem slot_block_other_inode (fs : F16FS_t) (idx : Nat) (n : inode_t) (a : Slot)
    (h : slot_inode a ≠ idx) : slot_block (set_inode fs idx n) a = slot_block fs a := by
  cases a <;> simp only [slot_inode] at h <;> simp [slot_block, set_inode, h]

/-- Every entry of a zeroed index block is 0. -/
theorem ptr_at_zero_block (t : Nat) :
    ptr_at (fun x => if x < 512 then ptr_bytes (fun _ => 0) x else 0) t = 0 := by
  unfold ptr_at ptr_bytes
  simp

/-- The entries of an index block after entry `t` of its local copy was set to `c` and
the copy was written back. -/
theorem ptr_at_entry_write (d : Nat → Nat) (t c j : Nat) (hj : j < 256) (hc : c < 65536)
    (hd : ptr_at d j < 65536) :
    ptr_at (fun x => if x < 512 then
        ptr_bytes (fun k => if k = t then c else ptr_at d k) x else 0) j =
      if j = t then c else ptr_at d j := by
  rw [ptr_at_written (fun k => if k = t then c else ptr_at d k) j hj]
  show (if j = t then c else ptr_at d j) < 65536
  split
  · exact hc
  · exact hd

/-- An entry past the 512 bytes of a block is 0. -/
theorem ptr_at_past_block (d : Nat → Nat) (hc : ∀ x, 512 ≤ x → d x = 0) (j : Nat)
    (hj : 256 ≤ j) : ptr_at d j = 0 := by
  unfold ptr_at
  rw [hc (2 * j) (by omega), hc (2 * j + 1) (by omega)]

/-- Under the invariant every stored block id is below 65 536. -/
theorem slot_block_lt (fs : F16FS_t) (h : blocks_ok fs) (a : Slot) (ha : slot_valid a) :
    slot_block fs a < 65536 := by
  by_cases h0 : slot_block fs a = 0
  · omega
  · exact (h.used a ha h0).2.2

/-- The result of write-mode resolution that is a block which was free, when the index
blocks are the same as before. -/
theorem write_result_fresh (fs fs1 : F16FS_t) (h : blocks_ok fs) (h1 : blocks_ok fs1)
    (c : Nat) (h0 : c ≠ 0) (hf : fs.fs.used c = false)
    (hv : ∀ a, slot_valid a → slot_index a → slot_block fs1 a = slot_block fs a) :
    write_result_ok (fs1, (c : Int)) := by
  refine ⟨h1, fun _ => ⟨?_, ?_⟩⟩
  · show (c : Int) ≠ 0
    exact_mod_cast h0
  · show ¬ index_block fs1 ((c : Int)).toNat
    rw [Int.toNat_ofNat]
    rintro ⟨a, ha, hi, he⟩
    rw [hv a ha hi] at he
    have := (h.used a ha (by rw [he]; exact h0)).1
    rw [he, hf] at this
    exact absurd this (by simp)

/-- A block store keeps its bytes past 512 at zero when a block is written. -/
theorem canon_of_write (fs : F16FS_t) (h : blocks_ok fs) (data1 : Nat → Nat → Nat) (p : Nat)
    (buf : Nat → Nat)
    (hd1 : data1 = fun q => if q = p then (fun x => if x < 512 then buf x else 0)
      else fs.fs.data q) :
    ∀ q x, 512 ≤ x → data1 q x = 0 := by
  intro q x hx
  rw [hd1]
  show (if q = p then (fun x => if x < 512 then buf x else 0) else fs.fs.data q) x = 0
  by_cases e : q = p
  · rw [if_pos e]
    show (if x < 512 then buf x else 0) = 0
    rw [if_neg (by omega)]
  · rw [if_neg e]
    exact h.canon q x hx

/-- Storing a free block in an entry of the indirect index block of an inode keeps the
invariant. -/
theorem blocks_ok_ind_entry (fs fs1 : F16FS_t) (h : blocks_ok fs) (idx t b : Nat)
    (hp : (fs.inodes idx).indirect_block_ptr ≠ 0) (ht : t < 256)
    (hb0 : b ≠ 0) (hb1 : b < 65536) (hbu : fs.fs.used b = false)
    (hi : fs1.inodes = fs.inodes)
    (hu1 : fs1.fs.used = fun i => if i = b then true else fs.fs.used i)
    (hd1 : fs1.fs.data = fun q => if q = (fs.inodes idx).indirect_block_ptr then
      (fun x => if x < 512 then ptr_bytes (fun j => if j = t then b
        else ptr_at (fs.fs.data (fs.inodes idx).indirect_block_ptr) j) x else 0)
      else fs.fs.data q) :
    write_result_ok (fs1, (b : Int)) := by
  have hdata : ∀ q, q ≠ (fs.inodes idx).indirect_block_ptr → fs1.fs.data q = fs.fs.data q := by
    intro q hq
    rw [hd1]
    simp [hq]
  have hnew : ∀ j, j < 256 → ptr_at (fs1.fs.data (fs.inodes idx).indirect_block_ptr) j =
      if j = t then b else ptr_at (fs.fs.data (fs.inodes idx).indirect_block_ptr) j := by
    intro j hj
    have e : fs1.fs.data (fs.inodes idx).indirect_block_ptr =
        fun x => if x < 512 then ptr_bytes (fun k => if k = t then b
          else ptr_at (fs.fs.data (fs.inodes idx).indirect_block_ptr) k) x else 0 := by
      rw [hd1]
      simp
    rw [e]
    apply ptr_at_entry_write _ t b j hj hb1
    have := slot_block_lt fs h (Slot.ind_entry idx j) hj
    simp only [slot_block, if_neg hp] at this
    exact this
  have hv0 : slot_block fs1 (Slot.ind_entry idx t) = b := by
    simp only [slot_block, hi]
    rw [if_neg hp, hnew t ht, if_pos rfl]
  have hv : ∀ a, slot_valid a → a ≠ Slot.ind_entry idx t →
      slot_block fs1 a = slot_block fs a := by
    intro a ha hne
    by_cases hm : Slot.ind idx ∈ slot_reads a
    · cases a with
      | direct i j => simp [slot_reads] at hm
      | ind i => simp [slot_reads] at hm
      | dbl i => simp [slot_reads] at hm
      | dbl_entry i s => simp [slot_reads] at hm
      | sub_entry i s j => simp [slot_reads] at hm
      | ind_entry i j =>
        simp only [slot_reads, List.mem_singleton, Slot.ind.injEq] at hm
        subst hm
        have hj : j ≠ t := fun e => hne (by rw [e])
        simp only [slot_block, hi]
        rw [if_neg hp, if_neg hp, hnew j ha, if_neg hj]
    · apply slot_block_frame fs _ hi a
      intro r hr h0
      apply hdata
      intro e
      have hrv := slot_reads_valid a r ha hr
      have := h.inj r (Slot.ind idx) hrv.1 trivial h0 e
      rw [this] at hr
      exact hm hr
  apply write_result_leaf _ _ (Slot.ind_entry idx t) ht (fun e => e) b hv0 hb0
  apply blocks_ok_attach fs _ h (Slot.ind_entry idx t) b hb0 hb1 hbu hv0
  · intro a ha hne
    exact Or.inl (hv a ha hne)
  · rw [hu1]; simp
  · intro c hc
    rw [hu1]; simp [hc]
  · exact canon_of_write fs h _ _ _ hd1
  · intro x
    rw [hdata 0 (fun e => hp e.symm)]
    exact h.zero x
  · rw [hi]; exact h.dirs

/-- Lines 901-911 in write mode keep the invariant, when the indirect index block is
allocated. -/
theorem get_block_ptr_indirect_slot_write_ok (fs : F16FS_t) (idx L : Nat) (h6 : 6 ≤ L) (h262 : L < 262)
    (h : blocks_ok fs) (hp : (fs.inodes idx).indirect_block_ptr ≠ 0) :
    write_result_ok (get_block_ptr_indirect_slot fs idx L 0) := by
  unfold get_block_ptr_indirect_slot
  dsimp only [block_store_read]
  by_cases h0 : ptr_at (fs.fs.data (fs.inodes idx).indirect_block_ptr) (L - 6) = 0
  · rw [if_pos ⟨h0, rfl⟩]
    by_cases ha : (alloc_ptr fs).2 = 0
    · rw [if_pos ha]
      exact write_result_fail _ (blocks_ok_alloc_fail fs h ha)
    · rw [if_neg ha]
      obtain ⟨b, hb0, hb1, hbu, hal⟩ := alloc_ptr_spec fs ha
      rw [hal]
      dsimp only
      rw [if_pos rfl]
      exact blocks_ok_ind_entry fs _ h idx (L - 6) b hp (by omega) hb0 hb1 hbu rfl rfl rfl
  · rw [if_neg (fun c => h0 c.1)]
    refine write_result_leaf fs h (Slot.ind_entry idx (L - 6)) ?_ (fun e => e) _ ?_ h0
    · show L - 6 < 256
      omega
    · show (if (fs.inodes idx).indirect_block_ptr = 0 then 0 else _) = _
      rw [if_neg hp]

/-- Changing the contents of a free block leaves every stored block id as it was. -/
theorem slot_block_fresh_data (fs fs1 : F16FS_t) (h : blocks_ok fs) (hi : fs1.inodes = fs.inodes)
    (b : Nat) (hbu : fs.fs.used b = false)
    (hd : ∀ q, q ≠ b → fs1.fs.data q = fs.fs.data q) :
    ∀ a, slot_valid a → slot_block fs1 a = slot_block fs a := by
  apply slot_block_congr fs fs1 hi
  intro a ha _ h0
  apply hd
  intro e
  have := (h.used a ha h0).1
  rw [e, hbu] at this
  exact absurd this (by simp)

/-- Storing a free, zeroed block as the indirect index block of an inode that had none
keeps the invariant. -/
theorem blocks_ok_attach_ind (fs fs2 : F16FS_t) (h : blocks_ok fs) (idx b : Nat)
    (hb0 : b ≠ 0) (hb1 : b < 65536) (hbu : fs.fs.used b = false)
    (hi : fs2.inodes = fun j => if j = idx then
      { fs.inodes idx with indirect_block_ptr := b } else fs.inodes j)
    (hu : fs2.fs.used = fun i => if i = b then true else fs.fs.used i)
    (hd : fs2.fs.data = fun q => if q = b then
      (fun x => if x < 512 then ptr_bytes (fun _ => 0) x else 0) else fs.fs.data q) :
    blocks_ok fs2 := by
  have hf : ∀ a, slot_valid a →
      slot_block { fs2 with inodes := fs.inodes } a = slot_block fs a := by
    apply slot_block_fresh_data fs { fs2 with inodes := fs.inodes } h rfl b hbu
    intro q hq
    show fs2.fs.data q = fs.fs.data q
    rw [hd]
    simp [hq]
  apply blocks_ok_attach fs fs2 h (Slot.ind idx) b hb0 hb1 hbu
  · simp [slot_block, hi]
  · intro a ha hne
    cases a with
    | direct i j =>
      left
      rw [← hf _ ha]
      by_cases e : i = idx <;> simp [slot_block, hi, e]
    | ind i =>
      left
      have e : i ≠ idx := fun e => hne (by rw [e])
      simp [slot_block, hi, e]
    | dbl i =>
      left
      rw [← hf _ ha]
      by_cases e : i = idx <;> simp [slot_block, hi, e]
    | ind_entry i t =>
      by_cases e : i = idx
      · right
        subst e
        simp only [slot_block, hi, if_true]
        rw [if_neg hb0, hd]
        simp only [if_true]
        exact ptr_at_zero_block t
      · left
        rw [← hf _ ha]
        simp [slot_block, hi, e]
    | dbl_entry i s =>
      left
      rw [← hf _ ha]
      by_cases e : i = idx <;> simp [slot_block, hi, e]
    | sub_entry i s t =>
      left
      rw [← hf _ ha]
      by_cases e : i = idx <;> simp [slot_block, hi, e]
  · rw [hu]; simp
  · intro c hc
    rw [hu]; simp [hc]
  · exact canon_of_write fs h _ _ _ hd
  · intro x
    rw [hd]
    simp only [if_neg (fun e : 0 = b => hb0 e.symm)]
    exact h.zero x
  · intro i
    rw [hi]
    by_cases e : i = idx
    · subst e
      simp only [if_true]
      exact h.dirs i
    · simp only [e, if_false]
      exact h.dirs i

/-- Storing a free, zeroed block as the double-indirect index block of an inode that had
none keeps the invariant. -/
theorem blocks_ok_attach_dbl (fs fs2 : F16FS_t) (h : blocks_ok fs) (idx b : Nat)
    (hb0 : b ≠ 0) (hb1 : b < 65536) (hbu : fs.fs.used b = false)
    (hi : fs2.inodes = fun j => if j = idx then
      { fs.inodes idx with double_indirect_block_ptr := b } else fs.inodes j)
    (hu : fs2.fs.used = fun i => if i = b then true else fs.fs.used i)
    (hd : fs2.fs.data = fun q => if q = b then
      (fun x => if x < 512 then ptr_bytes (fun _ => 0) x else 0) else fs.fs.data q) :
    blocks_ok fs2 := by
  have hf : ∀ a, slot_valid a →
      slot_block { fs2 with inodes := fs.inodes } a = slot_block fs a := by
    apply slot_block_fresh_data fs { fs2 with inodes := fs.inodes } h rfl b hbu
    intro q hq
    show fs2.fs.data q = fs.fs.data q
    rw [hd]
    simp [hq]
  apply blocks_ok_attach fs fs2 h (Slot.dbl idx) b hb0 hb1 hbu
  · simp [slot_block, hi]
  · intro a ha hne
    cases a with
    | direct i j =>
      left
      rw [← hf _ ha]
      by_cases e : i = idx <;> simp [slot_block, hi, e]
    | ind i =>
      left
      rw [← hf _ ha]
      by_cases e : i = idx <;> simp [slot_block, hi, e]
    | dbl i =>
      left
      have e : i ≠ idx := fun e => hne (by rw [e])
      simp [slot_block, hi, e]
    | ind_entry i t =>
      left
      rw [← hf _ ha]
      by_cases e : i = idx <;> simp [slot_block, hi, e]
    | dbl_entry i s =>
      by_cases e : i = idx
      · right
        subst e
        simp only [slot_block, hi, if_true]
        rw [if_neg hb0, hd]
        simp only [if_true]
        exact ptr_at_zero_block s
      · left
        rw [← hf _ ha]
        simp [slot_block, hi, e]
    | sub_entry i s t =>
      by_cases e : i = idx
      · right
        subst e
        simp only [slot_block, hi, if_true]
        rw [if_neg hb0, hd]
        simp only [if_true]
        rw [if_pos (ptr_at_zero_block s)]
      · left
        rw [← hf _ ha]
        simp [slot_block, hi, e]
  · rw [hu]; simp
  · intro c hc
    rw [hu]; simp [hc]
  · exact canon_of_write fs h _ _ _ hd
  · intro x
    rw [hd]
    simp only [if_neg (fun e : 0 = b => hb0 e.symm)]
    exact h.zero x
  · intro i
    rw [hi]
    by_cases e : i = idx
    · subst e
      simp only [if_true]
      exact h.dirs i
    · simp only [e, if_false]
      exact h.dirs i

/-- Write-mode resolution in the single-indirect range keeps the invariant. -/
theorem get_block_ptr_indirect_write_ok (fs : F16FS_t) (idx L : Nat) (h6 : 6 ≤ L) (h262 : L < 262)
    (h : blocks_ok fs) : write_result_ok (get_block_ptr_indirect fs idx L 0) := by
  unfold get_block_ptr_indirect
  by_cases h0 : (fs.inodes idx).indirect_block_ptr = 0
  · rw [if_pos ⟨h0, rfl⟩]
    dsimp only
    by_cases ha : (alloc_ptr fs).2 = 0
    · rw [if_pos ha]
      exact write_result_fail _ (blocks_ok_alloc_fail fs h ha)
    · rw [if_neg ha]
      obtain ⟨b, hb0, hb1, hbu, hal⟩ := alloc_ptr_spec fs ha
      rw [hal]
      dsimp only
      apply get_block_ptr_indirect_slot_write_ok _ idx L h6 h262
      · exact blocks_ok_attach_ind fs _ h idx b hb0 hb1 hbu rfl rfl rfl
      · simp [set_inode, hb0]
  · rw [if_neg (fun c => h0 c.1)]
    exact get_block_ptr_indirect_slot_write_ok fs idx L h6 h262 h h0

/-- Writing a block that is not an index block leaves every stored block id as it was. -/
theorem slot_block_block_write (fs : F16FS_t) (c : Nat) (buf : Nat → Nat)
    (hn : ¬ index_block fs c) :
    ∀ a, slot_valid a → slot_block (fs_block_write fs c buf) a = slot_block fs a := by
  apply slot_block_congr fs (fs_block_write fs c buf) rfl
  intro a ha hi _
  have hq : slot_block fs a ≠ c := fun e => hn ⟨a, ha, hi, e⟩
  simp [fs_block_write, block_store_write, hq]

/-- Marking a block as allocated leaves every stored block id as it was. -/
theorem slot_block_mark (fs : F16FS_t) (b : Nat) (a : Slot) :
    slot_block (mark fs b) a = slot_block fs a := by
  cases a <;> rfl

/-- A non-zero block id in an entry of the double-indirect index block: the index block
is allocated and the entry holds the id. -/
theorem dbl_entry_parts (fs : F16FS_t) (idx I q : Nat)
    (hq : slot_block fs (Slot.dbl_entry idx I) = q) (hq0 : q ≠ 0) :
    (fs.inodes idx).double_indirect_block_ptr ≠ 0 ∧
    ptr_at (fs.fs.data (fs.inodes idx).double_indirect_block_ptr) I = q := by
  simp only [slot_block] at hq
  by_cases h0 : (fs.inodes idx).double_indirect_block_ptr = 0
  · rw [if_pos h0] at hq
    exact absurd hq.symm hq0
  · rw [if_neg h0] at hq
    exact ⟨h0, hq⟩

/-- Storing a free block in entry `T` of the index block named by entry `I` of the
double-indirect index block keeps the invariant; for `T` past the block nothing is
stored. -/
theorem blocks_ok_sub_entry (fs fs1 : F16FS_t) (h : blocks_ok fs) (idx I T c q : Nat)
    (hI : I < 256) (hq : slot_block fs (Slot.dbl_entry idx I) = q) (hq0 : q ≠ 0)
    (hc0 : c ≠ 0) (hc1 : c < 65536) (hcu : fs.fs.used c = false)
    (hi : fs1.inodes = fs.inodes)
    (hu1 : fs1.fs.used = fun i => if i = c then true else fs.fs.used i)
    (hd1 : fs1.fs.data = fun p => if p = q then
      (fun x => if x < 512 then ptr_bytes (fun j => if j = T then c
        else ptr_at (fs.fs.data q) j) x else 0)
      else fs.fs.data p) :
    write_result_ok (fs1, (c : Int)) := by
  obtain ⟨hp, hpq⟩ := dbl_entry_parts fs idx I q hq hq0
  have hdata : ∀ p, p ≠ q → fs1.fs.data p = fs.fs.data p := by
    intro p hp
    rw [hd1]
    simp [hp]
  have hne : (fs.inodes idx).double_indirect_block_ptr ≠ q := by
    intro e
    have := h.inj (Slot.dbl idx) (Slot.dbl_entry idx I) trivial hI hp (by rw [hq]; exact e)
    exact absurd this (by simp)
  have hnew : ∀ j, j < 256 → ptr_at (fs1.fs.data q) j =
      if j = T then c else ptr_at (fs.fs.data q) j := by
    intro j hj
    have e : fs1.fs.data q = fun x => if x < 512 then ptr_bytes (fun k => if k = T then c
          else ptr_at (fs.fs.data q) k) x else 0 := by
      rw [hd1]
      simp
    rw [e]
    apply ptr_at_entry_write _ T c j hj hc1
    have := slot_block_lt fs h (Slot.sub_entry idx I j) ⟨hI, hj⟩
    simp only [slot_block, if_neg hp, hpq, if_neg hq0] at this
    exact this
  have hsub : ∀ j, j < 256 → slot_block fs1 (Slot.sub_entry idx I j) =
      if j = T then c else slot_block fs (Slot.sub_entry idx I j) := by
    intro j hj
    simp only [slot_block, hi]
    rw [if_neg hp, if_neg hp, hdata _ hne, hpq, if_neg hq0, if_neg hq0, hnew j hj]
  have hv : ∀ a, slot_valid a → a ≠ Slot.sub_entry idx I T →
      slot_block fs1 a = slot_block fs a := by
    intro a ha hnea
    by_cases hm : Slot.dbl_entry idx I ∈ slot_reads a
    · cases a with
      | direct i j => simp [slot_reads] at hm
      | ind i => simp [slot_reads] at hm
      | dbl i => simp [slot_reads] at hm
      | dbl_entry i s => simp [slot_reads] at hm
      | ind_entry i j => simp [slot_reads] at hm
      | sub_entry i s j =>
        simp only [slot_reads, List.mem_cons, List.mem_singleton, List.mem_nil_iff, or_false,
          Slot.dbl_entry.injEq] at hm
        rcases hm with hm | hm
        · exact absurd hm (by simp)
        · obtain ⟨e1, e2⟩ := hm
          subst e1
          subst e2
          have hj : j ≠ T := fun e => hnea (by rw [e])
          rw [hsub j ha.2, if_neg hj]
    · apply slot_block_frame fs _ hi a
      intro r hr h0
      apply hdata
      intro e
      have hrv := slot_reads_valid a r ha hr
      have := h.inj r (Slot.dbl_entry idx I) hrv.1 hI h0 (by rw [hq]; exact e)
      rw [this] at hr
      exact hm hr
  have hcan := canon_of_write fs h _ _ _ hd1
  have hz : ∀ x, fs1.fs.data 0 x = 0 := by
    intro x
    rw [hdata 0 (fun e => hq0 e.symm)]
    exact h.zero x
  by_cases hT : T < 256
  · have hv0 : slot_block fs1 (Slot.sub_entry idx I T) = c := by
      rw [hsub T hT, if_pos rfl]
    apply write_result_leaf _ _ (Slot.sub_entry idx I T) ⟨hI, hT⟩ (fun e => e) c hv0 hc0
    apply blocks_ok_attach fs _ h (Slot.sub_entry idx I T) c hc0 hc1 hcu hv0
    · intro a ha hnea
      exact Or.inl (hv a ha hnea)
    · rw [hu1]; simp
    · intro p hp
      rw [hu1]; simp [hp]
    · exact hcan
    · exact hz
    · rw [hi]; exact h.dirs
  · have hall : ∀ a, slot_valid a → slot_block fs1 a = slot_block fs a := by
      intro a ha
      apply hv a ha
      intro e
      rw [e] at ha
      exact hT ha.2
    apply write_result_fresh fs fs1 h _ c hc0 hcu (fun a ha _ => hall a ha)
    apply blocks_ok_of_same fs fs1 h hall
    · intro a ha h0
      rw [hu1]
      simp [(h.used a ha h0).1]
    · intro p h1 h2
      rw [hu1]
      simp [h.low p h1 h2]
    · exact hcan
    · exact hz
    · rw [hi]; exact h.dirs

/-- Lines 876-889 in write mode keep the invariant, when the index block is the one
entry `i < 256` of the double-indirect index block names. -/
theorem get_block_ptr_double_slot_write_ok (fs : F16FS_t) (darr : Nat → Nat) (i L idx : Nat)
    (h : blocks_ok fs) (hi : i < 256)
    (hq : slot_block fs (Slot.dbl_entry idx i) = darr i) (hq0 : darr i ≠ 0) :
    write_result_ok (get_block_ptr_double_slot fs darr i L 0) := by
  obtain ⟨hp, hpq⟩ := dbl_entry_parts fs idx i (darr i) hq hq0
  unfold get_block_ptr_double_slot
  dsimp only [block_store_read]
  by_cases h0 : ptr_at (fs.fs.data (darr i)) ((L - 262 - 256 * i) % 65536) = 0
  · rw [if_pos ⟨h0, rfl⟩]
    by_cases ha : (alloc_ptr fs).2 = 0
    · rw [if_pos ha]
      exact write_result_fail _ (blocks_ok_alloc_fail fs h ha)
    · rw [if_neg ha]
      obtain ⟨c, hc0, hc1, hcu, hal⟩ := alloc_ptr_spec fs ha
      rw [hal]
      dsimp only
      rw [if_pos rfl]
      exact blocks_ok_sub_entry fs _ h idx i ((L - 262 - 256 * i) % 65536) c (darr i) hi hq hq0
        hc0 hc1 hcu rfl rfl rfl
  · rw [if_neg (fun c => h0 c.1)]
    have hT : (L - 262 - 256 * i) % 65536 < 256 := by
      by_contra hge
      exact h0 (ptr_at_past_block _ (h.canon (darr i)) _ (by omega))
    refine write_result_leaf fs h (Slot.sub_entry idx i ((L - 262 - 256 * i) % 65536))
      ⟨hi, hT⟩ (fun e => e) _ ?_ h0
    simp only [slot_block]
    rw [if_neg hp, hpq, if_neg hq0]

/-- Lines 876-889 in write mode keep the invariant, when the index block is a zeroed
block that no place names (the case of an entry index past the double-indirect block). -/
theorem get_block_ptr_double_slot_write_loose (fs : F16FS_t) (darr : Nat → Nat) (i L : Nat)
    (h : blocks_ok fs) (hq0 : darr i ≠ 0)
    (hun : ∀ a, slot_valid a → slot_block fs a ≠ darr i)
    (hz : ∀ j, ptr_at (fs.fs.data (darr i)) j = 0) :
    write_result_ok (get_block_ptr_double_slot fs darr i L 0) := by
  unfold get_block_ptr_double_slot
  dsimp only [block_store_read]
  rw [if_pos ⟨hz _, rfl⟩]
  by_cases ha : (alloc_ptr fs).2 = 0
  · rw [if_pos ha]
    exact write_result_fail _ (blocks_ok_alloc_fail fs h ha)
  · rw [if_neg ha]
    obtain ⟨c, hc0, hc1, hcu, hal⟩ := alloc_ptr_spec fs ha
    rw [hal]
    dsimp only
    rw [if_pos rfl]
    have hn : ¬ index_block (mark fs c) (darr i) := by
      rintro ⟨a, ha1, _, he⟩
      rw [slot_block_mark] at he
      exact hun a ha1 he
    apply write_result_fresh fs _ h _ c hc0 hcu
    · intro a ha1 _
      rw [slot_block_block_write (mark fs c) (darr i) _ hn a ha1, slot_block_mark]
    · exact blocks_ok_block_write (mark fs c) (blocks_ok_mark fs h c) (darr i) _ hq0 hn

/-- Storing a free, zeroed block in entry `I` of the double-indirect index block keeps
the invariant; for `I` past the block nothing is stored and no place names the new
block. -/
theorem blocks_ok_dbl_entry (fs fs2 : F16FS_t) (h : blocks_ok fs) (idx I b : Nat)
    (hp : (fs.inodes idx).double_indirect_block_ptr ≠ 0)
    (he : ptr_at (fs.fs.data (fs.inodes idx).double_indirect_block_ptr) I = 0)
    (hb0 : b ≠ 0) (hb1 : b < 65536) (hbu : fs.fs.used b = false)
    (hi : fs2.inodes = fs.inodes)
    (hu : fs2.fs.used = fun i => if i = b then true else fs.fs.used i)
    (hd : fs2.fs.data = fun q => if q = (fs.inodes idx).double_indirect_block_ptr then
        (fun x => if x < 512 then ptr_bytes (fun j => if j = I then b
          else ptr_at (fs.fs.data (fs.inodes idx).double_indirect_block_ptr) j) x else 0)
      else if q = b then (fun x => if x < 512 then ptr_bytes (fun _ => 0) x else 0)
      else fs.fs.data q) :
    blocks_ok fs2 ∧ (∀ j, ptr_at (fs2.fs.data b) j = 0) ∧
    (I < 256 → slot_block fs2 (Slot.dbl_entry idx I) = b) ∧
    (256 ≤ I → ∀ a, slot_valid a → slot_block fs2 a ≠ b) := by
  have hpu : fs.fs.used (fs.inodes idx).double_indirect_block_ptr = true :=
    (h.used (Slot.dbl idx) trivial hp).1
  have hbp : b ≠ (fs.inodes idx).double_indirect_block_ptr := by
    intro e
    rw [← e, hbu] at hpu
    exact absurd hpu (by simp)
  have hdata : ∀ q, q ≠ (fs.inodes idx).double_indirect_block_ptr → q ≠ b →
      fs2.fs.data q = fs.fs.data q := by
    intro q h1 h2
    rw [hd]
    simp [h1, h2]
  have hzb : ∀ j, ptr_at (fs2.fs.data b) j = 0 := by
    intro j
    have e : fs2.fs.data b = fun x => if x < 512 then ptr_bytes (fun _ => 0) x else 0 := by
      rw [hd]
      simp [hbp]
    rw [e]
    exact ptr_at_zero_block j
  have hnew : ∀ s, s < 256 → ptr_at (fs2.fs.data (fs.inodes idx).double_indirect_block_ptr) s =
      if s = I then b else ptr_at (fs.fs.data (fs.inodes idx).double_indirect_block_ptr) s := by
    intro s hs
    have e : fs2.fs.data (fs.inodes idx).double_indirect_block_ptr =
        fun x => if x < 512 then ptr_bytes (fun k => if k = I then b
          else ptr_at (fs.fs.data (fs.inodes idx).double_indirect_block_ptr) k) x else 0 := by
      rw [hd]
      simp
    rw [e]
    apply ptr_at_entry_write _ I b s hs hb1
    have := slot_block_lt fs h (Slot.dbl_entry idx s) hs
    simp only [slot_block, if_neg hp] at this
    exact this
  have hused_ne : ∀ a, slot_valid a → slot_block fs a ≠ 0 → slot_block fs a ≠ b := by
    intro a ha h0 e
    have := (h.used a ha h0).1
    rw [e, hbu] at this
    exact absurd this (by simp)
  have hv : ∀ a, slot_valid a → a ≠ Slot.dbl_entry idx I →
      slot_block fs2 a = slot_block fs a := by
    intro a ha hnea
    by_cases hm : Slot.dbl idx ∈ slot_reads a
    · cases a with
      | direct i j => simp [slot_reads] at hm
      | ind i => simp [slot_reads] at hm
      | dbl i => simp [slot_reads] at hm
      | ind_entry i j => simp [slot_reads] at hm
      | dbl_entry i s =>
        simp only [slot_reads, List.mem_singleton, Slot.dbl.injEq] at hm
        subst hm
        have hs : s ≠ I := fun e => hnea (by rw [e])
        simp only [slot_block, hi]
        rw [if_neg hp, if_neg hp, hnew s ha, if_neg hs]
      | sub_entry i s t =>
        simp only [slot_reads, List.mem_cons, List.mem_singleton, List.mem_nil_iff, or_false,
          Slot.dbl.injEq] at hm
        rcases hm with hm | hm
        · subst hm
          simp only [slot_block, hi]
          rw [if_neg hp, if_neg hp, hnew s ha.1]
          by_cases hs : s = I
          · subst hs
            rw [if_pos rfl, if_neg hb0, hzb t, if_pos he]
          · rw [if_neg hs]
            by_cases h0 : ptr_at (fs.fs.data (fs.inodes idx).double_indirect_block_ptr) s = 0
            · rw [if_pos h0, if_pos h0]
            · rw [if_neg h0, if_neg h0]
              have hval : slot_block fs (Slot.dbl_entry idx s) =
                  ptr_at (fs.fs.data (fs.inodes idx).double_indirect_block_ptr) s := by
                simp only [slot_block, if_neg hp]
              rw [hdata]
              · intro e
                have := h.inj (Slot.dbl_entry idx s) (Slot.dbl idx) ha.1 trivial
                  (by rw [hval]; exact h0) (by rw [hval]; exact e)
                exact absurd this (by simp)
              · rw [← hval]
                exact hused_ne _ ha.1 (by rw [hval]; exact h0)
        · exact absurd hm (by simp)
    · apply slot_block_frame fs _ hi a
      intro r hr h0
      have hrv := slot_reads_valid a r ha hr
      apply hdata
      · intro e
        have := h.inj r (Slot.dbl idx) hrv.1 trivial h0 e
        rw [this] at hr
        exact hm hr
      · exact hused_ne r hrv.1 h0
  have hcan : ∀ q x, 512 ≤ x → fs2.fs.data q x = 0 := by
    intro q x hx
    rw [hd]
    show (if q = (fs.inodes idx).double_indirect_block_ptr then
        (fun x => if x < 512 then _ else 0)
      else if q = b then (fun x => if x < 512 then _ else 0) else fs.fs.data q) x = 0
    by_cases e1 : q = (fs.inodes idx).double_indirect_block_ptr
    · rw [if_pos e1]
      show (if x < 512 then _ else 0) = 0
      rw [if_neg (by omega)]
    · rw [if_neg e1]
      by_cases e2 : q = b
      · rw [if_pos e2]
        show (if x < 512 then _ else 0) = 0
        rw [if_neg (by omega)]
      · rw [if_neg e2]
        exact h.canon q x hx
  have hz : ∀ x, fs2.fs.data 0 x = 0 := by
    intro x
    rw [hdata 0 (fun e => hp e.symm) (fun e => hb0 e.symm)]
    exact h.zero x
  by_cases hI : I < 256
  · have hv0 : slot_block fs2 (Slot.dbl_entry idx I) = b := by
      simp only [slot_block, hi]
      rw [if_neg hp, hnew I hI, if_pos rfl]
    refine ⟨?_, hzb, fun _ => hv0, fun h256 => absurd hI (by omega)⟩
    apply blocks_ok_attach fs _ h (Slot.dbl_entry idx I) b hb0 hb1 hbu hv0
    · intro a ha hnea
      exact Or.inl (hv a ha hnea)
    · rw [hu]; simp
    · intro p hp
      rw [hu]; simp [hp]
    · exact hcan
    · exact hz
    · rw [hi]; exact h.dirs
  · have hall : ∀ a, slot_valid a → slot_block fs2 a = slot_block fs a := by
      intro a ha
      apply hv a ha
      intro e
      rw [e] at ha
      exact hI ha
    refine ⟨?_, hzb, fun h256 => absurd h256 hI, ?_⟩
    · apply blocks_ok_of_same fs fs2 h hall
      · intro a ha h0
        rw [hu]
        simp [(h.used a ha h0).1]
      · intro p h1 h2
        rw [hu]
        simp [h.low p h1 h2]
      · exact hcan
      · exact hz
      · rw [hi]; exact h.dirs
    · intro _ a ha
      rw [hall a ha]
      by_cases h0 : slot_block fs a = 0
      · rw [h0]; exact fun e => hb0 e.symm
      · exact hused_ne a ha h0

/-- Lines 862-889 in write mode keep the invariant, when the double-indirect index block
is allocated. -/
theorem get_block_ptr_double_sub_write_ok (fs : F16FS_t) (idx L : Nat) (h : blocks_ok fs)
    (hp : (fs.inodes idx).double_indirect_block_ptr ≠ 0) :
    write_result_ok (get_block_ptr_double_sub fs idx L 0) := by
  unfold get_block_ptr_double_sub
  dsimp only [block_store_read]
  by_cases h0 : ptr_at (fs.fs.data (fs.inodes idx).double_indirect_block_ptr)
      ((L - 262) / 256 % 65536) = 0
  · rw [if_pos ⟨h0, rfl⟩]
    by_cases ha : (alloc_ptr fs).2 = 0
    · rw [if_pos ha]
      exact write_result_fail _ (blocks_ok_alloc_fail fs h ha)
    · rw [if_neg ha]
      obtain ⟨b, hb0, hb1, hbu, hal⟩ := alloc_ptr_spec fs ha
      rw [hal]
      dsimp only
      obtain ⟨h2, hzb, hR, hU⟩ := blocks_ok_dbl_entry fs
        (fs_block_write (fs_block_write (mark fs b) b (ptr_bytes (fun _ => 0)))
          (fs.inodes idx).double_indirect_block_ptr
          (ptr_bytes (fun j => if j = (L - 262) / 256 % 65536 then b
            else ptr_at (fs.fs.data (fs.inodes idx).double_indirect_block_ptr) j)))
        h idx ((L - 262) / 256 % 65536) b hp h0 hb0 hb1 hbu rfl rfl rfl
      by_cases hI : (L - 262) / 256 % 65536 < 256
      · apply get_block_ptr_double_slot_write_ok _ _ _ L idx h2 hI
        · rw [if_pos rfl]
          exact hR hI
        · rw [if_pos rfl]
          exact hb0
      · apply get_block_ptr_double_slot_write_loose _ _ _ L h2
        · rw [if_pos rfl]
          exact hb0
        · rw [if_pos rfl]
          exact hU (by omega)
        · rw [if_pos rfl]
          exact hzb
  · rw [if_neg (fun c => h0 c.1)]
    have hI : (L - 262) / 256 % 65536 < 256 := by
      by_contra hge
      exact h0 (ptr_at_past_block _ (h.canon _) _ (by omega))
    apply get_block_ptr_double_slot_write_ok fs _ _ L idx h hI
    · simp only [slot_block]
      rw [if_neg hp]
    · exact h0

/-- Write-mode resolution in the double-indirect range keeps the invariant. -/
theorem get_block_ptr_double_write_ok (fs : F16FS_t) (idx L : Nat) (h : blocks_ok fs) :
    write_result_ok (get_block_ptr_double fs idx L 0) := by
  unfold get_block_ptr_double
  by_cases h0 : (fs.inodes idx).double_indirect_block_ptr = 0
  · rw [if_pos ⟨h0, rfl⟩]
    dsimp only
    by_cases ha : (alloc_ptr fs).2 = 0
    · rw [if_pos ha]
      exact write_result_fail _ (blocks_ok_alloc_fail fs h ha)
    · rw [if_neg ha]
      obtain ⟨b, hb0, hb1, hbu, hal⟩ := alloc_ptr_spec fs ha
      rw [hal]
      dsimp only
      apply get_block_ptr_double_sub_write_ok _ idx L
      · exact blocks_ok_attach_dbl fs _ h idx b hb0 hb1 hbu rfl rfl rfl
      · simp [set_inode, hb0]
  · rw [if_neg (fun c => h0 c.1)]
    exact get_block_ptr_double_sub_write_ok fs idx L h h0

/-- Write-mode resolution keeps the invariant, for every inode and every block index, and
a block id it returns is non-zero and names no index block. -/
theorem get_block_ptr_write_ok (fs : F16FS_t) (idx L : Nat) (h : blocks_ok fs) :
    write_result_ok (get_block_ptr fs idx L 0) := by
  unfold get_block_ptr
  by_cases h1 : L ≥ 262
  · rw [if_pos h1]
    exact get_block_ptr_double_write_ok fs idx L h
  · rw [if_neg h1]
    by_cases h2 : L ≥ 6
    · rw [if_pos h2]
      exact get_block_ptr_indirect_write_ok fs idx L h2 (by omega) h
    · rw [if_neg h2]
      exact get_block_ptr_direct_write_ok fs idx L (by omega) h

/-- Changing `file_size` keeps the invariant. -/
theorem blocks_ok_add_file_size (fs : F16FS_t) (h : blocks_ok fs) (i : Nat) (k : Int) :
    blocks_ok (add_file_size fs i k) := by
  have hv : ∀ a, slot_block (add_file_size fs i k) a = slot_block fs a := by
    intro a
    cases a with
    | direct j _ => by_cases e : j = i <;> simp [slot_block, add_file_size, set_inode, e]
    | ind j => by_cases e : j = i <;> simp [slot_block, add_file_size, set_inode, e]
    | dbl j => by_cases e : j = i <;> simp [slot_block, add_file_size, set_inode, e]
    | ind_entry j _ => by_cases e : j = i <;> simp [slot_block, add_file_size, set_inode, e]
    | dbl_entry j _ => by_cases e : j = i <;> simp [slot_block, add_file_size, set_inode, e]
    | sub_entry j _ _ => by_cases e : j = i <;> simp [slot_block, add_file_size, set_inode, e]
  refine blocks_ok_of_same fs _ h (fun a _ => hv a) (fun a ha h0 => (h.used a ha h0).1)
    h.low h.canon h.zero ?_
  intro j
  by_cases e : j = i
  · subst e
    simp only [add_file_size, set_inode, if_true]
    exact h.dirs j
  · simp only [add_file_size, set_inode, e, if_false]
    exact h.dirs j

/-- One pass of the loop of `fs_write` keeps the invariant. -/
theorem write_step_blocks_ok (r : F16FS_t × Int) (hw : write_result_ok r) (hr : ¬ r.2 < 0)
    (buf : Nat → Nat) (idx : Nat) (k : Int) :
    blocks_ok (add_file_size (fs_block_write r.1 r.2.toNat buf) idx k) := by
  obtain ⟨h0, hn⟩ := hw.2 (by omega)
  apply blocks_ok_add_file_size
  apply blocks_ok_block_write r.1 hw.1 _ _ _ hn
  omega

/-- Lines 833-839 of `fs_write` keep the invariant. -/
theorem fs_write_finish_blocks_ok (fs : F16FS_t) (h : blocks_ok fs) (idx : Nat) (bw left : Int) :
    ∀ res, fs_write_finish fs idx bw left = res → blocks_ok res.1 := by
  intro res hres
  unfold fs_write_finish at hres
  by_cases hl : left < 0
  · rw [if_pos hl] at hres
    subst hres
    exact blocks_ok_add_file_size fs h idx left
  · rw [if_neg hl] at hres
    subst hres
    exact h

/-- The early return of the loop of `fs_write` keeps the invariant. -/
theorem fs_write_early_blocks_ok (r : F16FS_t × Int) (hw : write_result_ok r) (bw : Int) :
    blocks_ok (r.1, bw).1 := hw.1

/-- The loop of `fs_write` keeps the invariant, whatever its fuel. -/
theorem fs_write_loop_blocks_ok (idx fsz N : Nat) (src : Nat → Nat) :
    ∀ (fuel : Nat) (fs : F16FS_t) (sp : Nat) (bw left bo : Int), blocks_ok fs →
      ∀ res, fs_write_loop idx fsz N src fuel fs sp bw left bo = res → blocks_ok res.1 := by
  intro fuel
  induction fuel with
  | zero =>
    intro fs sp bw left bo h res hres
    exact fs_write_finish_blocks_ok fs h idx bw left res hres
  | succ fuel ih =>
    intro fs sp bw left bo h res hres
    rw [fs_write_loop] at hres
    by_cases hl : left > 0
    · rw [if_pos hl] at hres
      dsimp only at hres
      have hw := get_block_ptr_write_ok fs idx
        (toInt32 (↑(fs.inodes idx).file_size / 512)).toNat h
      generalize get_block_ptr fs idx (toInt32 (↑(fs.inodes idx).file_size / 512)).toNat 0 = r
        at hw hres
      by_cases hr : r.2 < 0
      · rw [if_pos hr] at hres
        subst hres
        exact fs_write_early_blocks_ok r hw bw
      · rw [if_neg hr] at hres
        by_cases hc : fsz < 512 ∧ N < 512
        · rw [if_pos hc] at hres
          exact ih _ _ _ _ _ (write_step_blocks_ok r hw hr _ idx _) res hres
        · rw [if_neg hc] at hres
          by_cases hne : bo ≠ 0
          · rw [if_pos hne] at hres
            exact ih _ _ _ _ _ (write_step_blocks_ok r hw hr _ idx _) res hres
          · rw [if_neg hne] at hres
            exact ih _ _ _ _ _ (write_step_blocks_ok r hw hr _ idx _) res hres
    · rw [if_neg hl] at hres
      exact fs_write_finish_blocks_ok fs h idx bw left res hres

/-- The function `fs_write` keeps the invariant. -/
theorem fs_write_blocks_ok (fs : F16FS_t) (h : blocks_ok fs) (fd : Int) (src : Nat → Nat)
    (nbyte : Nat) : ∀ res, fs_write fs fd src nbyte = res → blocks_ok res.1 := by
  intro res hres
  unfold fs_write at hres
  by_cases h1 : fd < 0 ∨ fd > 256 ∨ toInt32 nbyte < 0
  · rw [if_pos h1] at hres
    subst hres
    exact h
  · rw [if_neg h1] at hres
    by_cases h2 : nbyte = 0
    · rw [if_pos h2] at hres
      subst hres
      exact h
    · rw [if_neg h2] at hres
      by_cases h3 : (fs.file_descriptors fd.toNat).inode_index < 0
      · rw [if_pos h3] at hres
        subst hres
        exact h
      · rw [if_neg h3] at hres
        exact fs_write_loop_blocks_ok _ _ _ _ _ fs _ _ _ _ h res hres

/-- An inode the scan of one directory returns is a copy of an inode of the table. -/
theorem traversal_inner_inode (fs : F16FS_t) (t : List Nat) (e : Bool) (p : inode_t) :
    ∀ (n j : Nat) (wd : Nat → Nat),
      traversal_inner fs t e n j wd = scan_result.done (some p) → ∃ k, p = fs.inodes k := by
  intro n
  induction n with
  | zero =>
    intro j wd h
    rw [traversal_inner] at h
    exact absurd h (by simp)
  | succ n ih =>
    intro j wd h
    rw [traversal_inner] at h
    by_cases h1 : strcmp_eq t wd (72 * j) = true
    · rw [if_pos h1] at h
      by_cases h2 : rec_type wd j = 0 ∧ e = false
      · rw [if_pos h2] at h
        exact absurd h (by simp)
      · rw [if_neg h2] at h
        by_cases h3 : rec_type wd j = 0 ∧ e = true
        · rw [if_pos h3] at h
          exact ⟨_, (Option.some.inj (scan_result.done.inj h)).symm⟩
        · rw [if_neg h3] at h
          by_cases h4 : rec_type wd j = 1 ∧ e = true
          · rw [if_pos h4] at h
            exact ⟨_, (Option.some.inj (scan_result.done.inj h)).symm⟩
          · rw [if_neg h4] at h
            by_cases h5 : rec_type wd j = 1 ∧ e = false
            · rw [if_pos h5] at h
              exact ih _ _ h
            · rw [if_neg h5] at h
              exact ih _ _ h
    · rw [if_neg h1] at h
      exact ih _ _ h

/-- An inode the outer loop of `directory_traversal` returns is a copy of an inode of the
table. -/
theorem traversal_outer_inode (fs : F16FS_t) (p : inode_t) :
    ∀ (tokens : List (List Nat)) (wd : Nat → Nat),
      traversal_outer fs tokens wd = some p → ∃ k, p = fs.inodes k := by
  intro tokens
  induction tokens with
  | nil =>
    intro wd h
    rw [traversal_outer] at h
    exact absurd h (by simp)
  | cons t ts ih =>
    intro wd h
    rw [traversal_outer] at h
    cases hs : traversal_inner fs t ts.isEmpty (dir_num_entries wd) 0 wd with
    | done r =>
      rw [hs] at h
      dsimp only at h
      subst h
      exact traversal_inner_inode fs t _ p _ _ _ hs
    | next wd1 =>
      rw [hs] at h
      exact ih wd1 h

/-- An inode `directory_traversal` returns is a copy of an inode of the table. -/
theorem directory_traversal_inode (fs : F16FS_t) (tokens : List (List Nat)) (p : inode_t)
    (h : directory_traversal fs tokens = some p) : ∃ k, p = fs.inodes k := by
  unfold directory_traversal at h
  by_cases h0 : tokens.length = 0
  · rw [if_pos h0] at h
    exact ⟨0, (Option.some.inj h).symm⟩
  · rw [if_neg h0] at h
    exact traversal_outer_inode fs p tokens _ h

/-- An allocation fails, or marks and returns an id that was free. -/
theorem block_store_allocate_cases (bs : block_store_t) :
    block_store_allocate bs = (bs, 0) ∨
    ∃ id, bs.used id = false ∧ id < 65536 ∧
      block_store_allocate bs =
        ({ bs with used := fun i => if i = id then true else bs.used i }, id) := by
  unfold block_store_allocate
  cases hff : first_free bs.used 65536 0 with
  | none => left; rfl
  | some id =>
    right
    have hs := first_free_spec bs.used 65536 0 id hff
    exact ⟨id, hs.1, by omega, rfl⟩

/-- The invariant carries over when only the bitmap changes and every allocated id other
than 0 stays allocated. -/
theorem blocks_ok_used_change (fs fs1 : F16FS_t) (h : blocks_ok fs) (hi : fs1.inodes = fs.inodes)
    (hd : fs1.fs.data = fs.fs.data)
    (hu : ∀ c, fs.fs.used c = true → c ≠ 0 → fs1.fs.used c = true) : blocks_ok fs1 := by
  have hv : ∀ a, slot_block fs1 a = slot_block fs a := by
    intro a
    cases a <;> simp only [slot_block, hi, hd]
  refine blocks_ok_of_same fs _ h (fun a _ => hv a) ?_ ?_ ?_ ?_ ?_
  · intro a ha hne
    exact hu _ (h.used a ha hne).1 hne
  · intro c h1 h2
    exact hu c (h.low c h1 h2) (by omega)
  · rw [hd]; exact h.canon
  · rw [hd]; exact h.zero
  · rw [hi]; exact h.dirs

/-- Allocating a block and releasing it again (lines 374-417) keeps the invariant. -/
theorem blocks_ok_released (fs : F16FS_t) (h : blocks_ok fs) :
    blocks_ok (F16FS_t.mk
      (block_store_release (block_store_allocate fs.fs).1 (block_store_allocate fs.fs).2)
      fs.file_descriptors fs.inodes fs.total_files) := by
  refine blocks_ok_used_change fs _ h ?_ ?_ ?_
  · rfl
  · rcases block_store_allocate_cases fs.fs with e | ⟨id, _, _, e⟩
    · rw [e]; rfl
    · rw [e]; rfl
  · intro c hc h0
    rcases block_store_allocate_cases fs.fs with e | ⟨id, hid, _, e⟩
    · rw [e]
      show (if c = 0 then false else fs.fs.used c) = true
      rw [if_neg h0]
      exact hc
    · rw [e]
      show (if c = id then false else if c = id then true else fs.fs.used c) = true
      have hne : c ≠ id := by
        intro e2
        rw [e2, hid] at hc
        exact absurd hc (by simp)
      rw [if_neg hne, if_neg hne]
      exact hc

/-- Filling an inode slot with a new inode whose only block was free keeps the
invariant. -/
theorem blocks_ok_new_inode (fsP fsB : F16FS_t) (h : blocks_ok fsP) (f b type size : Nat)
    (hb0 : b ≠ 0) (hb1 : b < 65536) (hfree : fsP.fs.used b = false)
    (hi : fsB.inodes = fun j => if j = f then
      { inode_zero with
        file_type := type, use_flag := 1, file_size := size,
        direct_block_ptr_array := fun j => if j = 0 then b % 65536 else 0 }
      else fsP.inodes j)
    (hu : fsB.fs.used = fun i => if i = b then true else fsP.fs.used i)
    (hd : fsB.fs.data = fsP.fs.data) :
    blocks_ok fsB ∧ slot_block fsB (Slot.direct f 0) = b := by
  have hmod : b % 65536 = b := Nat.mod_eq_of_lt hb1
  have hv0 : slot_block fsB (Slot.direct f 0) = b := by
    simp [slot_block, hi, hmod]
  refine ⟨?_, hv0⟩
  apply blocks_ok_attach fsP fsB h (Slot.direct f 0) b hb0 hb1 hfree hv0
  · intro a ha hne
    by_cases hin : slot_inode a = f
    · right
      cases a with
      | direct i j =>
        simp only [slot_inode] at hin
        subst hin
        have hj : j ≠ 0 := fun e => hne (by rw [e])
        simp [slot_block, hi, hj]
      | ind i =>
        simp only [slot_inode] at hin
        subst hin
        simp [slot_block, hi, inode_zero]
      | dbl i =>
        simp only [slot_inode] at hin
        subst hin
        simp [slot_block, hi, inode_zero]
      | ind_entry i t =>
        simp only [slot_inode] at hin
        subst hin
        simp [slot_block, hi, inode_zero]
      | dbl_entry i s =>
        simp only [slot_inode] at hin
        subst hin
        simp [slot_block, hi, inode_zero]
      | sub_entry i s t =>
        simp only [slot_inode] at hin
        subst hin
        simp [slot_block, hi, inode_zero]
    · left
      cases a <;> simp only [slot_inode] at hin <;> simp [slot_block, hi, hd, hin]
  · rw [hu]; simp
  · intro c hc
    rw [hu]; simp [hc]
  · rw [hd]; exact h.canon
  · rw [hd]; exact h.zero
  · intro i
    rw [hi]
    by_cases e : i = f
    · subst e
      intro _
      simp [hmod, hb0]
    · simp only [e, if_false]
      exact h.dirs i

/-- Lines 419-452 of `fs_create` keep the invariant. -/
theorem fs_create_commit_blocks_ok (fs : F16FS_t) (h : blocks_ok fs) (filename : List Nat)
    (type k f id : Nat) (pd : Nat → Nat)
    (hk : (fs.inodes k).file_type ≠ 0) (hid0 : id ≠ 0) (hid1 : id < 65536)
    (hfree : fs.fs.used id = false) :
    blocks_ok (fs_create_commit
      { fs with fs := { fs.fs with used := fun i => if i = id then true else fs.fs.used i } }
      filename type ((fs.inodes k).direct_block_ptr_array 0) f id pd) := by
  have hp0 := h.dirs k hk
  have hpn : ¬ index_block fs ((fs.inodes k).direct_block_ptr_array 0) :=
    leaf_not_index fs h (Slot.direct k 0) (by show 0 < 6; omega) (fun e => e) _ rfl hp0
  unfold fs_create_commit
  dsimp only
  generalize (fun x => if x = 509 then
      ((if 72 * dir_num_entries pd ≤ 509 ∧ 509 < 72 * dir_num_entries pd + 72 then
        record_bytes filename type f (509 - 72 * dir_num_entries pd) else pd 509) + 1) % 256
      else if 72 * dir_num_entries pd ≤ x ∧ x < 72 * dir_num_entries pd + 72 then
        record_bytes filename type f (x - 72 * dir_num_entries pd) else pd x) = pd2
  have hP := blocks_ok_block_write fs h ((fs.inodes k).direct_block_ptr_array 0) pd2 hp0 hpn
  obtain ⟨hB, hB0⟩ := blocks_ok_new_inode
    (fs_block_write fs ((fs.inodes k).direct_block_ptr_array 0) pd2)
    (set_inode (fs_block_write
      { fs with fs := { fs.fs with used := fun i => if i = id then true else fs.fs.used i } }
      ((fs.inodes k).direct_block_ptr_array 0) pd2) f
      { inode_zero with
        file_type := type, use_flag := 1, file_size := if type = 0 then 0 else 512,
        direct_block_ptr_array := fun j => if j = 0 then id % 65536 else 0 })
    hP f id type (if type = 0 then 0 else 512) hid0 hid1 hfree rfl rfl rfl
  by_cases ht : type = 1
  · rw [if_pos ht]
    exact blocks_ok_block_write _ hB id _ hid0
      (leaf_not_index _ hB (Slot.direct f 0) (by show 0 < 6; omega) (fun e => e) id hB0 hid0)
  · rw [if_neg ht]
    exact hB

/-- Lines 323-452 of `fs_create` keep the invariant, for a type that is 0 or 1. -/
theorem fs_create_tokens_blocks_ok (fs : F16FS_t) (h : blocks_ok fs)
    (tokens : List (List Nat)) (type : Nat) (ht01 : type = 0 ∨ type = 1) :
    blocks_ok (fs_create_tokens fs tokens type).1 := by
  unfold fs_create_tokens
  dsimp only
  cases ht : directory_traversal fs tokens.dropLast with
  | none => exact h
  | some parent =>
    dsimp only
    by_cases h3 : parent.file_type = 0
    · rw [if_pos h3]; exact h
    rw [if_neg h3]
    cases hf : find_free_inode fs 257 0 with
    | none => exact h
    | some f =>
      dsimp only
      obtain ⟨k, hk⟩ := directory_traversal_inode fs _ parent ht
      by_cases h4 : (block_store_allocate fs.fs).2 = 0 ∧ type = 1
      · rw [if_pos h4]; exact blocks_ok_released fs h
      rw [if_neg h4]
      by_cases h5 : (block_store_allocate fs.fs).2 = 0 ∧ type = 0
      · rw [if_pos h5]; exact blocks_ok_released fs h
      rw [if_neg h5]
      by_cases h6 : name_exists (tokens.getLast?.getD [])
          (block_store_read fs.fs (parent.direct_block_ptr_array 0))
          (dir_num_entries (block_store_read fs.fs (parent.direct_block_ptr_array 0))) 0 = true
      · rw [if_pos h6]; exact blocks_ok_released fs h
      rw [if_neg h6]
      by_cases h7 : dir_num_entries (block_store_read fs.fs (parent.direct_block_ptr_array 0)) = 7
      · rw [if_pos h7]; exact blocks_ok_released fs h
      rw [if_neg h7]
      have hne : (block_store_allocate fs.fs).2 ≠ 0 := by
        intro e
        rcases ht01 with e0 | e1
        · exact h5 ⟨e, e0⟩
        · exact h4 ⟨e, e1⟩
      rcases block_store_allocate_cases fs.fs with e | ⟨id, hid, hid1, e⟩
      · rw [e] at hne
        exact absurd rfl hne
      · rw [e] at hne ⊢
        subst hk
        exact fs_create_commit_blocks_ok fs h _ type k f id _ h3 hne hid1 hid

/-- The function `fs_create` keeps the invariant. -/
theorem fs_create_blocks_ok (fs : F16FS_t) (h : blocks_ok fs) (path : List Nat) (type : Nat)
    (r : F16FS_t × Int) (hc : fs_create fs path type = some r) :
    blocks_ok r.1 := by
  by_cases h1 : path = [] ∨ path = [47] ∨ path.head? ≠ some 47 ∨ (type ≠ 0 ∧ type ≠ 1)
  · unfold fs_create at hc
    rw [if_pos h1] at hc
    rw [← Option.some.inj hc]
    exact h
  have ht01 : type = 0 ∨ type = 1 := by
    by_contra hn
    exact h1 (Or.inr (Or.inr (Or.inr ⟨fun e0 => hn (Or.inl e0), fun e1 => hn (Or.inr e1)⟩)))
  rcases fs_create_some fs path type r hc with e | ⟨tokens, _, e⟩
  · rw [e]
    exact h
  · rw [e]
    exact fs_create_tokens_blocks_ok fs h tokens type ht01

/-- The descriptor scan of `fs_open` changes neither the inode table nor the block store. -/
theorem open_scan_frame (fs : F16FS_t) (v : Int) :
    ∀ n i, (open_scan fs v n i).1.inodes = fs.inodes ∧ (open_scan fs v n i).1.fs = fs.fs := by
  intro n
  induction n with
  | zero => intro i; exact ⟨rfl, rfl⟩
  | succ n ih =>
    intro i
    rw [open_scan]
    split
    · exact ⟨rfl, rfl⟩
    · exact ih (i + 1)

/-- Lines 505-576 of `fs_open` keep the invariant. -/
theorem fs_open_tokens_blocks_ok (fs : F16FS_t) (h : blocks_ok fs)
    (tokens : List (List Nat)) (v : Int) :
    blocks_ok (fs_open_tokens fs tokens v).1 := by
  unfold fs_open_tokens
  dsimp only
  cases ht : directory_traversal fs tokens.dropLast with
  | none => exact h
  | some parent =>
    dsimp only
    have hs := open_scan_frame fs
      (lookup_last (tokens.getLast?.getD [])
        (block_store_read fs.fs (parent.direct_block_ptr_array 0))
        (dir_num_entries (block_store_read fs.fs (parent.direct_block_ptr_array 0))) 0 v) 256 0
    split
    · exact blocks_ok_congr fs _ h hs.1 hs.2
    · split
      · exact blocks_ok_congr fs _ h hs.1 hs.2
      · exact blocks_ok_congr fs _ h hs.1 hs.2

/-- The function `fs_open` keeps the invariant. -/
theorem fs_open_blocks_ok (fs : F16FS_t) (h : blocks_ok fs) (path : List Nat) (v : Int)
    (r : F16FS_t × Int) (hc : fs_open fs path v = some r) :
    blocks_ok r.1 := by
  rcases fs_open_some fs path v r hc with e | ⟨tokens, _, e⟩
  · rw [e]
    exact h
  · rw [e]
    exact fs_open_tokens_blocks_ok fs h tokens v

/-- The function `fs_seek` keeps the invariant. -/
theorem fs_seek_blocks_ok (fs : F16FS_t) (h : blocks_ok fs) (fd offset whence : Int) :
    blocks_ok (fs_seek fs fd offset whence).1 := by
  unfold fs_seek
  split
  · exact h
  · split
    · exact h
    · dsimp only
      split
      · exact h
      · exact blocks_ok_congr fs _ h rfl rfl

/-- The function `fs_close` keeps the invariant. -/
theorem fs_close_blocks_ok (fs : F16FS_t) (h : blocks_ok fs) (fd : Int) :
    blocks_ok (fs_close fs fd).1 := by
  unfold fs_close
  split
  · exact h
  · split
    · exact blocks_ok_congr fs _ h rfl rfl
    · exact h

/-- In a store whose allocated ids are those below `m`, the first free id is `m`. -/
theorem first_free_below (m : Nat) :
    ∀ (fuel i : Nat), i ≤ m → m < i + fuel →
      first_free (fun k => decide (k < m)) fuel i = some m := by
  intro fuel
  induction fuel with
  | zero => intro i h1 h2; omega
  | succ fuel ih =>
    intro i h1 h2
    rw [first_free]
    by_cases e : i < m
    · have : (decide (i < m)) = true := decide_eq_true e
      simp only [this, if_true]
      exact ih (i + 1) (by omega) (by omega)
    · have : (decide (i < m)) = false := decide_eq_false e
      simp only [this, Bool.false_eq_true, if_false]
      congr 1
      omega

/-- Allocation in a store whose allocated ids are those below `m` returns `m`. -/
theorem allocate_below (bs : block_store_t) (m : Nat)
    (hu : bs.used = fun k => decide (k < m)) (hm : m < 65536) :
    (block_store_allocate bs).2 = m ∧ (block_store_allocate bs).1.data = bs.data ∧
    (block_store_allocate bs).1.used = fun k => decide (k < m + 1) := by
  have hff := first_free_below m 65536 0 (by omega) (by omega)
  rw [← hu] at hff
  unfold block_store_allocate
  rw [hff]
  refine ⟨rfl, rfl, ?_⟩
  funext k
  show (if k = m then true else bs.used k) = decide (k < m + 1)
  rw [hu]
  by_cases e : k = m
  · subst e
    simp
  · rw [if_neg e]
    show decide (k < m) = decide (k < m + 1)
    by_cases e2 : k < m
    · rw [decide_eq_true e2, decide_eq_true (show k < m + 1 by omega)]
    · rw [decide_eq_false e2, decide_eq_false (show ¬ k < m + 1 by omega)]

/-- The allocate-and-write loop of `fs_format`, started with the ids below `m` allocated,
takes the ids `m .. m + n - 1`. -/
theorem format_inode_blocks_below (inodes : Nat → inode_t) :
    ∀ (n : Nat) (bs : block_store_t) (m : Nat), bs.used = (fun k => decide (k < m)) →
      m + n ≤ 65536 →
      (format_inode_blocks inodes n bs).used = (fun k => decide (k < m + n)) ∧
      ∀ b, (format_inode_blocks inodes n bs).data b =
        if m ≤ b ∧ b < m + n then (fun x => if x < 512 then inode_block_bytes inodes x else 0)
        else bs.data b := by
  intro n
  induction n with
  | zero =>
    intro bs m hu _
    refine ⟨hu, ?_⟩
    intro b
    rw [if_neg (by omega)]
    rfl
  | succ n ih =>
    intro bs m hu hm
    obtain ⟨a1, a2, a3⟩ := allocate_below bs m hu (by omega)
    rw [format_inode_blocks]
    obtain ⟨i1, i2⟩ := ih
      (block_store_write (block_store_allocate bs).1 (block_store_allocate bs).2
        (inode_block_bytes inodes)) (m + 1) a3 (by omega)
    refine ⟨?_, ?_⟩
    · rw [i1]
      funext k
      have : m + 1 + n = m + (n + 1) := by omega
      rw [this]
    · intro b
      rw [i2 b]
      by_cases e1 : m + 1 ≤ b ∧ b < m + 1 + n
      · rw [if_pos e1, if_pos (by omega)]
      · rw [if_neg e1]
        show (if b = (block_store_allocate bs).2 then _ else (block_store_allocate bs).1.data b) = _
        rw [a1, a2]
        by_cases e2 : b = m
        · rw [if_pos e2, if_pos (by omega)]
        · rw [if_neg e2, if_neg (by omega)]

/-- The bytes of a zeroed inode are zero. -/
theorem inode_bytes_zero (y : Nat) : inode_bytes inode_zero y = 0 := by
  unfold inode_bytes inode_zero
  simp

/-- The block store after `fs_format`: ids 0..48 allocated, the inode table in blocks
16..47, every other block zero. -/
theorem fs_format_state_store :
    fs_format_state.fs.used = (fun k => decide (k < 49)) ∧
    ∀ b, fs_format_state.fs.data b =
      if b = 48 then (fun x => if x < 512 then 0 else 0)
      else if 17 ≤ b ∧ b < 17 + 31 then
        (fun x => if x < 512 then inode_block_bytes (fun _ => inode_zero) x else 0)
      else if 16 ≤ b ∧ b < 16 + 1 then
        (fun x => if x < 512 then inode_block_bytes (fun k => if k = 0 then
          { inode_zero with
            file_type := 1, file_size := 512, use_flag := 1,
            direct_block_ptr_array := fun j => if j = 0 then 48 else 0 }
          else inode_zero) x else 0)
      else fun _ => 0 := by
  obtain ⟨u1, d1⟩ := format_inode_blocks_below (fun k => if k = 0 then
      ({ inode_zero with
        file_type := 1, file_size := 512, use_flag := 1,
        direct_block_ptr_array := fun j => if j = 0 then 48 else 0 } : inode_t)
      else inode_zero) 1 block_store_create 16 rfl (by omega)
  obtain ⟨u2, d2⟩ := format_inode_blocks_below (fun _ => inode_zero) 31 _ 17 u1 (by omega)
  obtain ⟨a1, a2, a3⟩ := allocate_below _ 48 u2 (by omega)
  refine ⟨?_, ?_⟩
  · show (block_store_write _ _ _).used = _
    exact a3
  · intro b
    show (if b = (block_store_allocate _).2 then _ else (block_store_allocate _).1.data b) = _
    rw [a1, a2]
    by_cases e : b = 48
    · rw [if_pos e, if_pos e]
    · rw [if_neg e, if_neg e, d2 b]
      by_cases e2 : 17 ≤ b ∧ b < 17 + 31
      · rw [if_pos e2, if_pos e2]
      · rw [if_neg e2, if_neg e2, d1 b]
        rfl

/-- After `fs_format` the bytes of every inode slot but the first are zero. -/
theorem fs_format_state_mem (j : Nat) (hj : j ≠ 0) (y : Nat) (hy : y < 64) :
    fs_format_state.fs.data (j / 8 + 16) (64 * (j % 8) + y) = 0 := by
  rw [fs_format_state_store.2]
  by_cases e : j / 8 + 16 = 48
  · rw [if_pos e]
    show (if 64 * (j % 8) + y < 512 then 0 else 0) = 0
    split <;> rfl
  · rw [if_neg e]
    by_cases e2 : 17 ≤ j / 8 + 16 ∧ j / 8 + 16 < 17 + 31
    · rw [if_pos e2]
      show (if 64 * (j % 8) + y < 512 then inode_block_bytes (fun _ => inode_zero) _ else 0) = 0
      rw [if_pos (by omega)]
      exact inode_bytes_zero _
    · rw [if_neg e2]
      by_cases e3 : 16 ≤ j / 8 + 16 ∧ j / 8 + 16 < 16 + 1
      · rw [if_pos e3]
        show (if 64 * (j % 8) + y < 512 then inode_block_bytes _ (64 * (j % 8) + y) else 0) = 0
        rw [if_pos (by omega)]
        unfold inode_block_bytes
        have h1 : (64 * (j % 8) + y) / 64 = j := by omega
        rw [h1]
        show inode_bytes (if j = 0 then _ else inode_zero) _ = 0
        rw [if_neg hj]
        exact inode_bytes_zero _
      · rw [if_neg e3]

/-- After `fs_format` every inode but the root has type 0 and no block. -/
theorem fs_format_state_inode (j : Nat) (hj : j ≠ 0) :
    (fs_format_state.inodes j).file_type = 0 ∧
    (fs_format_state.inodes j).indirect_block_ptr = 0 ∧
    (fs_format_state.inodes j).double_indirect_block_ptr = 0 ∧
    ∀ k, k < 6 → (fs_format_state.inodes j).direct_block_ptr_array k = 0 := by
  have hm := fs_format_state_mem j hj
  refine ⟨?_, ?_, ?_, ?_⟩
  · show fs_format_state.fs.data (j / 8 + 16) (64 * (j % 8)) = 0
    exact hm 0 (by omega)
  · show fs_format_state.fs.data (j / 8 + 16) (64 * (j % 8) + 54) +
      256 * fs_format_state.fs.data (j / 8 + 16) (64 * (j % 8) + 55) = 0
    rw [hm 54 (by omega), hm 55 (by omega)]
  · show fs_format_state.fs.data (j / 8 + 16) (64 * (j % 8) + 56) +
      256 * fs_format_state.fs.data (j / 8 + 16) (64 * (j % 8) + 57) = 0
    rw [hm 56 (by omega), hm 57 (by omega)]
  · intro k hk
    show fs_format_state.fs.data (j / 8 + 16) (64 * (j % 8) + 42 + 2 * k) +
      256 * fs_format_state.fs.data (j / 8 + 16) (64 * (j % 8) + 42 + 2 * k + 1) = 0
    rw [show 64 * (j % 8) + 42 + 2 * k = 64 * (j % 8) + (42 + 2 * k) by omega,
      show 64 * (j % 8) + (42 + 2 * k) + 1 = 64 * (j % 8) + (42 + 2 * k + 1) by omega,
      hm _ (by omega), hm _ (by omega)]

/-- After `fs_format` the only block id stored is 48, in `direct[0]` of the root inode. -/
theorem fs_format_state_slots (a : Slot) (ha : slot_valid a) :
    slot_block fs_format_state a = if a = Slot.direct 0 0 then 48 else 0 := by
  have h0i : (fs_format_state.inodes 0).indirect_block_ptr = 0 := by rfl
  have h0d : (fs_format_state.inodes 0).double_indirect_block_ptr = 0 := by rfl
  have hind : ∀ i, (fs_format_state.inodes i).indirect_block_ptr = 0 := by
    intro i
    by_cases e : i = 0
    · rw [e]; exact h0i
    · exact (fs_format_state_inode i e).2.1
  have hdbl : ∀ i, (fs_format_state.inodes i).double_indirect_block_ptr = 0 := by
    intro i
    by_cases e : i = 0
    · rw [e]; exact h0d
    · exact (fs_format_state_inode i e).2.2.1
  cases a with
  | direct i j =>
    simp only [slot_block]
    by_cases e : i = 0
    · subst e
      have hj : j < 6 := ha
      by_cases e2 : j = 0
      · subst e2
        rw [if_pos rfl]
        rfl
      · rw [if_neg (by simp [e2])]
        interval_cases j
        · exact absurd rfl e2
        all_goals rfl
    · rw [if_neg (by simp [e])]
      exact (fs_format_state_inode i e).2.2.2 j ha
  | ind i => simp only [slot_block, hind]; simp
  | dbl i => simp only [slot_block, hdbl]; simp
  | ind_entry i t => simp only [slot_block, hind]; simp
  | dbl_entry i s => simp only [slot_block, hdbl]; simp
  | sub_entry i s t => simp only [slot_block, hdbl]; simp

/-- The invariant holds after `fs_format`. -/
theorem fs_format_state_blocks_ok : blocks_ok fs_format_state := by
  have hs := fs_format_state_slots
  obtain ⟨hu, hd⟩ := fs_format_state_store
  have hone : ∀ a, slot_valid a → slot_block fs_format_state a ≠ 0 →
      a = Slot.direct 0 0 ∧ slot_block fs_format_state a = 48 := by
    intro a ha h0
    rw [hs a ha] at h0 ⊢
    by_cases e : a = Slot.direct 0 0
    · rw [if_pos e]; exact ⟨e, rfl⟩
    · rw [if_neg e] at h0; exact absurd rfl h0
  refine ⟨?_, ?_, ?_, ?_, ?_, ?_⟩
  · intro a b ha hb h0 he
    have h1 := hone a ha h0
    have h2 := hone b hb (by rw [← he]; exact h0)
    rw [h1.1, h2.1]
  · intro a ha h0
    have h1 := hone a ha h0
    rw [h1.2, hu]
    exact ⟨by decide, by omega, by omega⟩
  · intro b h1 h2
    rw [hu]
    exact decide_eq_true h2
  · intro b x hx
    rw [hd b]
    split
    · show (if x < 512 then 0 else 0) = 0
      split <;> rfl
    · split
      · show (if x < 512 then _ else 0) = 0
        rw [if_neg (by omega)]
      · split
        · show (if x < 512 then _ else 0) = 0
          rw [if_neg (by omega)]
        · rfl
  · intro x
    rw [hd 0]
    rfl
  · intro i hi
    by_cases e : i = 0
    · subst e
      show (fs_format_state.inodes 0).direct_block_ptr_array 0 ≠ 0
      have : (fs_format_state.inodes 0).direct_block_ptr_array 0 = 48 := by rfl
      rw [this]
      omega
    · exact absurd (fs_format_state_inode i e).1 hi

/-- Every entry of an all-zero block is 0. -/
theorem ptr_at_of_zero (d : Nat → Nat) (hz : ∀ x, d x = 0) (t : Nat) : ptr_at d t = 0 := by
  unfold ptr_at
  rw [hz, hz]

/-- The place of a logical index below 6 + 256 + 256 * 256 exists and is a place for data. -/
theorem leaf_slot_valid (i L : Nat) (hL : L < 65798) :
    slot_valid (leaf_slot i L) ∧ ¬ slot_index (leaf_slot i L) := by
  unfold leaf_slot
  by_cases h1 : L < 6
  · rw [if_pos h1]
    exact ⟨h1, fun e => e⟩
  · rw [if_neg h1]
    by_cases h2 : L < 262
    · rw [if_pos h2]
      exact ⟨by show L - 6 < 256; omega, fun e => e⟩
    · rw [if_neg h2]
      exact ⟨⟨by show (L - 262) / 256 < 256; omega, by show (L - 262) % 256 < 256; omega⟩,
        fun e => e⟩

/-- Different logical indices, or different inodes, have different places. -/
theorem leaf_slot_inj (i L i1 L1 : Nat) (h : leaf_slot i L = leaf_slot i1 L1) :
    i = i1 ∧ L = L1 := by
  unfold leaf_slot at h
  by_cases h1 : L < 6
  · rw [if_pos h1] at h
    by_cases g1 : L1 < 6
    · rw [if_pos g1] at h
      injection h with e1 e2
      exact ⟨e1, e2⟩
    · rw [if_neg g1] at h
      by_cases g2 : L1 < 262
      · rw [if_pos g2] at h
        exact absurd h (by simp)
      · rw [if_neg g2] at h
        exact absurd h (by simp)
  · rw [if_neg h1] at h
    by_cases h2 : L < 262
    · rw [if_pos h2] at h
      by_cases g1 : L1 < 6
      · rw [if_pos g1] at h
        exact absurd h (by simp)
      · rw [if_neg g1] at h
        by_cases g2 : L1 < 262
        · rw [if_pos g2] at h
          injection h with e1 e2
          exact ⟨e1, by omega⟩
        · rw [if_neg g2] at h
          exact absurd h (by simp)
    · rw [if_neg h2] at h
      by_cases g1 : L1 < 6
      · rw [if_pos g1] at h
        exact absurd h (by simp)
      · rw [if_neg g1] at h
        by_cases g2 : L1 < 262
        · rw [if_pos g2] at h
          exact absurd h (by simp)
        · rw [if_neg g2] at h
          injection h with e1 e2 e3
          exact ⟨e1, by omega⟩

/-- Under the invariant read-mode resolution of a logical index gives the block id stored
at its place. -/
theorem get_block_ptr_read_slot (fs : F16FS_t) (h : blocks_ok fs) (idx L : Nat)
    (hL : L < 65798) :
    (get_block_ptr fs idx L 1).2 = ((slot_block fs (leaf_slot idx L) : Nat) : Int) := by
  have h10 : ¬ ((1 : Nat) = 0) := by decide
  have hz0 : ∀ t, ptr_at (fs.fs.data 0) t = 0 := ptr_at_of_zero _ h.zero
  unfold leaf_slot
  by_cases h1 : L < 6
  · rw [if_pos h1]
    unfold get_block_ptr get_block_ptr_direct
    rw [if_neg (by omega), if_neg (by omega)]
    simp only [h10, and_false, if_false, slot_block]
  · rw [if_neg h1]
    by_cases h2 : L < 262
    · rw [if_pos h2]
      unfold get_block_ptr get_block_ptr_indirect get_block_ptr_indirect_slot
      rw [if_neg (by omega), if_pos (by omega)]
      simp only [h10, and_false, if_false, block_store_read, slot_block]
      by_cases e : (fs.inodes idx).indirect_block_ptr = 0
      · rw [if_pos e, e, hz0]
      · rw [if_neg e]
    · rw [if_neg h2]
      unfold get_block_ptr get_block_ptr_double get_block_ptr_double_sub
        get_block_ptr_double_slot
      rw [if_pos (by omega)]
      simp only [h10, and_false, if_false, block_store_read, slot_block]
      have e1 : (L - 262) / 256 % 65536 = (L - 262) / 256 := by omega
      rw [e1]
      have e2 : (L - 262 - 256 * ((L - 262) / 256)) % 65536 = (L - 262) % 256 := by omega
      rw [e2]
      by_cases e : (fs.inodes idx).double_indirect_block_ptr = 0
      · rw [if_pos e, e, hz0, hz0]
      · rw [if_neg e]
        by_cases e3 : ptr_at (fs.fs.data (fs.inodes idx).double_indirect_block_ptr)
            ((L - 262) / 256) = 0
        · rw [if_pos e3, e3, hz0]
        · rw [if_neg e3]

/-- The invariant holds in every reachable state. -/
theorem reachable_blocks_ok (fs : F16FS_t) (h : reachable fs) : blocks_ok fs := by
  induction h with
  | format => exact fs_format_state_blocks_ok
  | create fs path type r _ hc ih => exact fs_create_blocks_ok fs ih path type r hc
  | opened fs path v r _ hc ih => exact fs_open_blocks_ok fs ih path v r hc
  | write fs fd src nbyte _ ih => exact fs_write_blocks_ok fs ih fd src nbyte _ rfl
  | seek fs fd offset whence _ ih => exact fs_seek_blocks_ok fs ih fd offset whence
  | close fs fd _ ih => exact fs_close_blocks_ok fs ih fd

/-- C34: no block is shared.  In every state reached from `fs_format` by calls of
`fs_create`, `fs_open`, `fs_write`, `fs_seek` and `fs_close`: the non-zero block ids
stored in the direct pointers, the index pointers and the entries of the index blocks of
all inodes are pairwise distinct, at least 48, below 65 536 and allocated; read-mode
resolution of a logical index gives the id stored at its place; and two different
pairs of an inode and a logical index never resolve to the same non-zero block. -/
theorem C34_no_block_is_shared (fs : F16FS_t) (h : reachable fs) :
    (∀ a b, slot_valid a → slot_valid b → slot_block fs a ≠ 0 →
      slot_block fs a = slot_block fs b → a = b) ∧
    (∀ a, slot_valid a → slot_block fs a ≠ 0 →
      48 ≤ slot_block fs a ∧ slot_block fs a < 65536 ∧
        fs.fs.used (slot_block fs a) = true) ∧
    (∀ i L, L < 65798 →
      (get_block_ptr fs i L 1).2 = ((slot_block fs (leaf_slot i L) : Nat) : Int)) ∧
    (∀ i L i1 L1, L < 65798 → L1 < 65798 → (i, L) ≠ (i1, L1) →
      (get_block_ptr fs i L 1).2 ≠ 0 →
      (get_block_ptr fs i L 1).2 ≠ (get_block_ptr fs i1 L1 1).2) := by
  have hb := reachable_blocks_ok fs h
  refine ⟨hb.inj, fun a ha h0 => ⟨(hb.used a ha h0).2.1, (hb.used a ha h0).2.2,
    (hb.used a ha h0).1⟩, fun i L hL => get_block_ptr_read_slot fs hb i L hL, ?_⟩
  intro i L i1 L1 hL hL1 hne h0 he
  rw [get_block_ptr_read_slot fs hb i L hL] at h0 he
  rw [get_block_ptr_read_slot fs hb i1 L1 hL1] at he
  have h0n : slot_block fs (leaf_slot i L) ≠ 0 := by
    intro e
    rw [e] at h0
    exact h0 rfl
  have hen : slot_block fs (leaf_slot i L) = slot_block fs (leaf_slot i1 L1) := by
    exact_mod_cast he
  have := hb.inj _ _ (leaf_slot_valid i L hL).1 (leaf_slot_valid i1 L1 hL1).1 h0n hen
  obtain ⟨e1, e2⟩ := leaf_slot_inj i L i1 L1 this
  exact hne (by rw [e1, e2])

/-- C34, at a concrete input: in `st_two_blocks`, reached by `fs_create("/a")`,
`fs_open("/a")` and a write of 1024 bytes, the logical blocks 0 and 1 of inode 1 resolve
to different blocks. -/
theorem C34_no_block_is_shared_witness :
    reachable st_two_blocks ∧
    (get_block_ptr st_two_blocks 1 0 1).2 ≠ (get_block_ptr st_two_blocks 1 1 1).2 := by
  have hr : reachable st_two_blocks :=
    reachable.write st_opened 0 pattern 1024
      (reachable.opened st_created path_a 0 (fs_open_tokens st_created [[97]] 0)
        (reachable.create fs_format_state path_a 0 (fs_create_tokens fs_format_state [[97]] 0)
          reachable.format (by rfl)) (by rfl))
  exact ⟨hr, (C34_no_block_is_shared st_two_blocks hr).2.2.2 1 0 1 1 (by decide) (by decide)
    (by decide) (by decide)⟩

end F16FS
